import Mathlib

/-!
# GARS front end: the lexer, scope tables, type compatibility and the two parsers

A shallow embedding of the parser of `src/old/parser/parser.cpp` (namespace `Old`)
and of `src/src/parser/parser.cpp` (namespace `Cur`), with the scope tables of
`ast.cpp`, and of the lexer of `src/src/lexer/lexer.cpp` (namespace `lexer`).

* The static variables `CurrTok` and `CTable` and the `cerr` stream are fields of an
  explicit state `PState` that every parsing function takes and returns.
* `shared_ptr<Table>` is an address into a heap of tables (`PState.heap`); `none` is
  the null pointer.  Tables are never freed, a new table gets the next address.
* A parsing function returns a `Res`: a node and the state (`ok`), the null pointer
  and the state (`null`), `crash` when the C++ dereferences a null pointer, and
  `fuel` when the recursion budget of the model is used up.
* Loops and recursive calls each take one unit of the budget.
* The parsers run on the list of the tokens the lexer returns; `Cur.main` puts the
  lexer and the current parser together on a source text, which is tokenized as far
  as the parser reads.
-/

namespace GARS

/-! ## Tokens (lexer.hpp) -/

/-- The enumeration `TOKEN::lexeme` of `lexer.hpp`, in its order.  `ARRAYTYPE` is the
one kind that only the old parser names (its own lexer header is not part of the
repository); it is put after `ERROR`, so that every other kind keeps the number it
has in `lexer.hpp`. -/
inductive lexeme where
  | INTEGER | TRUE | FALSE | STRING | REAL
  | IDENTIFIER | IF | ALIVE | WAR | YOU | WANT
  | THIS | DO | NOTHING | BY | REDGAR | FIGHTCLUB
  | TREN | RETURN
  | STRINGTYPE | INTTYPE | BOOLTYPE | NONETYPE | REALTYPE
  | LBRA | RBRA | LBAR | RBAR | LBRACE | RBRACE
  | SEMICOL | COMMA | COL
  | PLUS | MINUS
  | DIV | MUL
  | ASSIGN
  | NOT | LS | GT | EQ | NOEQ | GTEQ | LSEQ
  | UNDEFINED | EOFILE | ERROR
  | ARRAYTYPE
  deriving DecidableEq, Repr

/-- The integer value of a token kind, `(int)CurrTok.tok`. -/
def lexeme.code : lexeme → Nat
  | .INTEGER => 0 | .TRUE => 1 | .FALSE => 2 | .STRING => 3 | .REAL => 4
  | .IDENTIFIER => 5 | .IF => 6 | .ALIVE => 7 | .WAR => 8 | .YOU => 9 | .WANT => 10
  | .THIS => 11 | .DO => 12 | .NOTHING => 13 | .BY => 14 | .REDGAR => 15
  | .FIGHTCLUB => 16 | .TREN => 17 | .RETURN => 18
  | .STRINGTYPE => 19 | .INTTYPE => 20 | .BOOLTYPE => 21 | .NONETYPE => 22
  | .REALTYPE => 23
  | .LBRA => 24 | .RBRA => 25 | .LBAR => 26 | .RBAR => 27 | .LBRACE => 28
  | .RBRACE => 29
  | .SEMICOL => 30 | .COMMA => 31 | .COL => 32
  | .PLUS => 33 | .MINUS => 34
  | .DIV => 35 | .MUL => 36
  | .ASSIGN => 37
  | .NOT => 38 | .LS => 39 | .GT => 40 | .EQ => 41 | .NOEQ => 42 | .GTEQ => 43
  | .LSEQ => 44
  | .UNDEFINED => 45 | .EOFILE => 46 | .ERROR => 47
  | .ARRAYTYPE => 48

/-- The struct `TOKEN` of `lexer.hpp`. -/
structure TOKEN where
  ival : Int := 0
  word : String := ""
  tok : lexeme
  line : Int
  deriving DecidableEq, Repr

/-! ## Scope tables (ast.cpp, both variants) -/

/-- The class `Table`: the map `symbols` and the pointer `Prev`.  The map is only
read with `count` and the index operator and only written with the index operator,
so it is a function from names to symbols; every `addSym` call of the repository
stores a pointer to a symbol object, so a stored pointer is never null.  `Prev` is the
address of the enclosing table in the heap, `none` for the null pointer. -/
structure Table (σ : Type) where
  symbols : String → Option σ
  Prev : Option Nat

/-- The constructor `Table::Table(prev)`: an empty map. -/
def Table.new {σ : Type} (prev : Option Nat) : Table σ :=
  { symbols := fun _ => none, Prev := prev }

/-- The method `Table::addSym`, on the table object: `symbols[name] = sym`. -/
def Table.addSym {σ : Type} (t : Table σ) (name : String) (sym : σ) : Table σ :=
  { t with symbols := fun m => if m = name then some sym else t.symbols m }

/-- The method `Table::getSym`, called on the table at address `a`.  `Prev` is fixed by
the constructor to a table that exists already, that is to a smaller address, so the
walk outward goes down the addresses: `Table.getSym heap name bound a` walks from
`a`, which is below `bound`.  The result `none` is the null pointer. -/
def Table.getSym {σ : Type} (heap : List (Table σ)) (name : String) : Nat → Nat → Option σ
  | 0, _ => none
  | bound + 1, a =>
    if a = bound then
      match heap[a]? with
      | none => none
      | some t =>
        match t.symbols name with
        | some sym => some sym
        | none =>
          match t.Prev with
          | some p => Table.getSym heap name bound p
          | none => none
    else Table.getSym heap name bound a

/-- The call `tab->getSym(name)` through a pointer `tab`: `none` when `tab` is null
(a null dereference), else the returned pointer. -/
def getSym {σ : Type} (heap : List (Table σ)) (tab : Option Nat) (name : String) :
    Option (Option σ) :=
  match tab with
  | none => none
  | some a => some (Table.getSym heap name (a + 1) a)

/-- The call `tab->addSym(name, sym)` through a pointer `tab`, on the heap: `none` when
`tab` is null. -/
def addSymAt {σ : Type} (heap : List (Table σ)) (tab : Option Nat) (name : String)
    (sym : σ) : Option (List (Table σ)) :=
  match tab with
  | none => none
  | some a =>
    match heap[a]? with
    | none => none
    | some t => some (heap.set a (t.addSym name sym))

/-- The tables `ts` are the scope chain that starts at the pointer `tab`: the table
at `tab`, then the table at its `Prev`, and so on to a table whose `Prev` is null. -/
inductive IsChain {σ : Type} (heap : List (Table σ)) : Option Nat → List (Table σ) → Prop
  | nil : IsChain heap none []
  | cons (a : Nat) (t : Table σ) (ts : List (Table σ)) :
      heap[a]? = some t → (∀ p, t.Prev = some p → p < a) → IsChain heap t.Prev ts →
      IsChain heap (some a) (t :: ts)

/-- The table at address `b` is the table at `a` or one of its ancestors. -/
inductive Reach {σ : Type} (heap : List (Table σ)) : Nat → Nat → Prop
  | here (a : Nat) : Reach heap a a
  | step (a p b : Nat) (t : Table σ) :
      heap[a]? = some t → t.Prev = some p → p < a → Reach heap p b → Reach heap a b

/-! ## Parser state -/

/-- The state of a parser run: the tokens the lexer will still return (`toks`, then
`EOFILE` at line `eofLine` for ever), the statics `CurrTok` and `CTable`, the heap
of tables, and the diagnostics written to `cerr` (message and line), oldest first. -/
structure PState (σ : Type) where
  toks : List TOKEN
  eofLine : Int
  CurrTok : TOKEN
  heap : List (Table σ)
  CTable : Option Nat
  log : List (String × Int)

/-- The result of a parsing function. -/
inductive Res (σ : Type) (α : Type) where
  | ok (val : α) (s : PState σ)
  | null (s : PState σ)
  | crash
  | fuel

/-- A node was returned. -/
def Res.isOk {σ α : Type} : Res σ α → Bool
  | .ok _ _ => true
  | _ => false

/-- The null pointer was returned. -/
def Res.isNull {σ α : Type} : Res σ α → Bool
  | .null _ => true
  | _ => false

/-- The state after the call, when it returned. -/
def Res.state? {σ α : Type} : Res σ α → Option (PState σ)
  | .ok _ s => some s
  | .null s => some s
  | _ => none

/-- The returned node. -/
def Res.val? {σ α : Type} : Res σ α → Option α
  | .ok v _ => some v
  | _ => none

/-- The diagnostics after the call, when it returned. -/
def Res.log {σ α : Type} : Res σ α → List (String × Int)
  | .ok _ s => s.log
  | .null s => s.log
  | _ => []

/-- The function `nextToken`: `CurrTok = getNextToken()`. -/
def nextToken {σ : Type} (s : PState σ) : PState σ :=
  match s.toks with
  | [] => { s with CurrTok := { tok := .EOFILE, line := s.eofLine } }
  | t :: ts => { s with CurrTok := t, toks := ts }

/-- The function `nextTable`: `CTable = make_shared<Table>(CTable)`. -/
def nextTable {σ : Type} (s : PState σ) : PState σ :=
  { s with heap := s.heap ++ [Table.new s.CTable], CTable := some s.heap.length }

/-- The function `prevTable`: `CTable = CTable->getPrev()`; `none` when `CTable` is
null. -/
def prevTable {σ : Type} (s : PState σ) : Option (PState σ) :=
  match s.CTable with
  | none => none
  | some a =>
    match s.heap[a]? with
    | none => none
    | some t => some { s with CTable := t.Prev }

/-- The call `CTable->addSym(name, sym)`; `none` when `CTable` is null. -/
def addSym {σ : Type} (s : PState σ) (name : String) (sym : σ) : Option (PState σ) :=
  match addSymAt s.heap s.CTable name sym with
  | none => none
  | some h => some { s with heap := h }

/-- The function `LogError`: one line on `cerr`, the message and `CurrTok.line`. -/
def LogError {σ : Type} (msg : String) (s : PState σ) : PState σ :=
  { s with log := s.log ++ [(msg, s.CurrTok.line)] }

/-- The functions `LogInputError`, `LogStmtError`, `LogExprError` and `LogTypeError`:
log and return the null pointer. -/
def LogNull {σ α : Type} (msg : String) (s : PState σ) : Res σ α :=
  .null (LogError msg s)

/-- The state in which `ParseInput` is entered: the lexer is at the start of `toks`,
no table exists and nothing is logged. -/
def PState.init {σ : Type} (toks : List TOKEN) (eofLine : Int) : PState σ :=
  { toks := toks, eofLine := eofLine, CurrTok := { tok := .INTEGER, line := 0 },
    heap := [], CTable := none, log := [] }

/-! ## The old variant: types, symbols and nodes (src/old/ast) -/

namespace Old

/-- The enumeration `Type::TypeWord`. -/
inductive TypeWord where
  | Array | Int | Null
  deriving DecidableEq, Repr

/-- A `shared_ptr<Type>`: the null pointer, or a pointer to an `IntType` or to an
`ArrayType` object with its field `elem_type`. -/
inductive TypeP where
  | null
  | IntType
  | ArrayType (elem_type : TypeP)
  deriving DecidableEq, Repr

/-- The test `!p` on a `shared_ptr<Type>`. -/
def TypeP.isNull : TypeP → Bool
  | .null => true
  | _ => false

/-- The call `p->getElementType()`; `none` when `p` is null. -/
def TypeP.getElementType : TypeP → Option TypeP
  | .null => none
  | .IntType => some .null
  | .ArrayType e => some e

/-- The call `p->get()`; `none` when `p` is null. -/
def TypeP.get : TypeP → Option TypeWord
  | .null => none
  | .IntType => some .Int
  | .ArrayType _ => some .Array

/-- The while loop of `checkTypes`: while both have an element type, step to it
(the third conjunct `E2->get() == E2->get()` is always true). -/
def checkTypesLoop : TypeP → TypeP → TypeP × TypeP
  | .ArrayType e1, .ArrayType e2 =>
    if !e1.isNull && !e2.isNull then checkTypesLoop e1 e2
    else (.ArrayType e1, .ArrayType e2)
  | E1, E2 => (E1, E2)

/-- The function `checkTypes` of the old parser; `none` when it dereferences a null
pointer. -/
def checkTypes (E1 E2 : TypeP) : Option Bool :=
  match E1.getElementType with
  | none => none
  | some e1 =>
    if e1.isNull then
      match E1.get, E2.get with
      | some w1, some w2 => some (decide (w1 = w2))
      | _, _ => none
    else
      match E2.getElementType with
      | none => none
      | some e2 =>
        if e2.isNull then
          match E1.get, E2.get with
          | some w1, some w2 => some (decide (w1 = w2))
          | _, _ => none
        else
          match checkTypesLoop E1 E2 with
          | (F1, F2) =>
            match F1.get, F2.get with
            | some w1, some w2 => some (decide (w1 = w2))
            | _, _ => some false

/-- The function `getDType` of the old `ast.cpp`. -/
def getDType : lexeme → TypeWord
  | .ARRAYTYPE => .Array
  | .INTTYPE => .Int
  | _ => .Null

/-- A well-formed type: `Int`, or `Array` of a well-formed element type. -/
def TypeP.WellFormed : TypeP → Prop
  | .null => False
  | .IntType => True
  | .ArrayType e => e.WellFormed

/-- The enumeration `Symbol::SymType`. -/
inductive SymType where
  | WAR | FUNCTION
  deriving DecidableEq, Repr

/-- The class `Symbol` (without the code generator's handles `alloc` and `func`). -/
structure Symbol where
  arg_types : List TypeP
  Vtype : TypeP
  sym_type : SymType
  name : String
  deriving DecidableEq, Repr

/-- The constructor `Symbol::Symbol(name, type, sym_type)`. -/
def Symbol.new (name : String) (type : TypeP) (sym_type : SymType) : Symbol :=
  { arg_types := [], Vtype := type, sym_type := sym_type, name := name }

/-- The method `Symbol::setArgs`. -/
def Symbol.setArgs (sym : Symbol) (args : List TypeP) : Symbol :=
  { sym with arg_types := args }

/-- The expression classes of `old_ast.hpp`, with their fields.  A `shared_ptr<Table>`
field is the address of the table. -/
inductive Expr where
  | AssignExpr (LHS : Expr) (RHS : Expr) (Vtype : TypeP)
  | BoolExpr (LHS RHS : Expr) (Vtype : TypeP) (Op : String)
  | AddExpr (LHS RHS : Expr) (Vtype : TypeP) (Op : String)
  | TermExpr (LHS RHS : Expr) (Vtype : TypeP) (Op : String)
  | IntExpr (Vtype : TypeP) (value : Int)
  | ArrayExpr (value : List Expr) (Vtype : TypeP)
  | IDExpr (CurrTable : Option Nat) (name : String) (Vtype : TypeP)
  | CallExpr (args : List Expr) (CurrTable : Option Nat) (name : String) (Vtype : TypeP)
  | ParenExpr (expr : Expr)

/-- The virtual method `getType`. -/
def Expr.getType : Expr → TypeP
  | .AssignExpr _ _ t => t
  | .BoolExpr _ _ t _ => t
  | .AddExpr _ _ t _ => t
  | .TermExpr _ _ t _ => t
  | .IntExpr t _ => t
  | .ArrayExpr _ t => t
  | .IDExpr _ _ t => t
  | .CallExpr _ _ _ t => t
  | .ParenExpr e => e.getType

/-- The virtual method `lvalue`: true for the subclass `Lvalue`, that is `IDExpr`. -/
def Expr.lvalue : Expr → Bool
  | .IDExpr _ _ _ => true
  | _ => false

/-- The constructor `IntExpr::IntExpr(val)`: the type is a new `IntType`. -/
def Expr.mkInt (val : Int) : Expr := .IntExpr .IntType val

/-- The statement classes of `old_ast.hpp`, with their fields. -/
inductive Stmt where
  | HighExpr (expr : Expr)
  | TrenStmt (CurrTable : Option Nat) (Vtype : TypeP) (body : Stmt) (args : List String)
      (name : String)
  | WarStmt (wars : List (String × Expr)) (CurrTable : Option Nat)
  | RetStmt (expr : Expr)
  | ParenStmts (stmts : List Stmt) (RetType : TypeP)
  | IfStmt (Cond : Expr) (Body : Stmt)
  | AliveStmt (Cond : Expr) (Body : Stmt)

/-- The virtual method `hasRet`. -/
def Stmt.hasRet : Stmt → TypeP
  | .ParenStmts _ t => t
  | .RetStmt e => e.getType
  | _ => .null

/-- The constructor `TrenStmt::TrenStmt(name, bod, args, tab, type)`: its initializer
list does not name `CurrTable`, which stays null. -/
def Stmt.mkTren (name : String) (bod : Stmt) (args : List String) (_tab : Option Nat)
    (type : TypeP) : Stmt :=
  .TrenStmt none type bod args name

/-- The class `Input`. -/
structure Input where
  stmts : List Stmt

/-- The parser state of the old variant. -/
abbrev St := PState Symbol

/-! ## The old parser (src/old/parser/parser.cpp) -/

mutual

/-- The function `ParseType`. -/
def ParseType : Nat → St → Res Symbol TypeP
  | 0, _ => .fuel
  | n + 1, s =>
    let type := getDType s.CurrTok.tok
    let s := nextToken s
    match type with
    | .Array =>
      if s.CurrTok.tok ≠ .LS then LogNull "excepted '<' for array subtype" s
      else
        match ParseType n (nextToken s) with
        | .fuel => .fuel
        | .crash => .crash
        | .null s1 =>
          if s1.CurrTok.tok ≠ .GT then LogNull "excepted '>' for array subtype" s1
          else .ok (.ArrayType .null) (nextToken s1)
        | .ok sub s1 =>
          if s1.CurrTok.tok ≠ .GT then LogNull "excepted '>' for array subtype" s1
          else .ok (.ArrayType sub) (nextToken s1)
    | .Int => .ok .IntType s
    | .Null => .null s

/-- The function `ParseStatement`. -/
def ParseStatement : Nat → St → Res Symbol Stmt
  | 0, _ => .fuel
  | n + 1, s =>
    match s.CurrTok.tok with
    | .IF => ParseIfStmt n s
    | .WAR => ParseWarStmt n s
    | .TREN => ParseTrenStmt n s
    | .ALIVE => ParseAliveStmt n s
    | .RETURN => ParseRetStmt n s
    | .LBRA => ParseParenStmts n s
    | .EOFILE => LogNull "missing statement" s
    | _ => ParseHighExpr n s

/-- The function `ParseIfStmt`. -/
def ParseIfStmt : Nat → St → Res Symbol Stmt
  | 0, _ => .fuel
  | n + 1, s =>
    let s := nextToken s
    if s.CurrTok.tok ≠ .LBAR then LogNull "excepted '('" s
    else
      match ParseExpression n (nextToken s) with
      | .fuel => .fuel
      | .crash => .crash
      | .null s1 => .null s1
      | .ok cond s1 =>
        match cond.getType.get with
        | none => .crash
        | some w =>
          if w ≠ .Int then LogNull "invalid type for cond" s1
          else if s1.CurrTok.tok ≠ .RBAR then LogNull "excepted ')'" s1
          else
            let s2 := nextToken s1
            if s2.CurrTok.tok ≠ .DO then LogNull "excepted do-token" s2
            else
              match ParseStatement n (nextToken s2) with
              | .fuel => .fuel
              | .crash => .crash
              | .null s3 => .null s3
              | .ok body s3 => .ok (.IfStmt cond body) s3

/-- The function `ParseAliveStmt`. -/
def ParseAliveStmt : Nat → St → Res Symbol Stmt
  | 0, _ => .fuel
  | n + 1, s =>
    let s := nextToken s
    if s.CurrTok.tok ≠ .BY then LogNull "excepted by-token" s
    else
      let s := nextToken s
      if s.CurrTok.tok ≠ .LBRACE then LogNull "excepted '['" s
      else
        match ParseExpression n (nextToken s) with
        | .fuel => .fuel
        | .crash => .crash
        | .null s1 => .null s1
        | .ok cond s1 =>
          match cond.getType.get with
          | none => .crash
          | some w =>
            if w ≠ .Int then LogNull "invalid type for cond" s1
            else if s1.CurrTok.tok ≠ .RBRACE then LogNull "excepted ']'" s1
            else
              match ParseStatement n (nextToken s1) with
              | .fuel => .fuel
              | .crash => .crash
              | .null s3 => .null s3
              | .ok body s3 => .ok (.AliveStmt cond body) s3

/-- The function `ParseWarStmt`: the token `war` is eaten, then the loop runs. -/
def ParseWarStmt : Nat → St → Res Symbol Stmt
  | 0, _ => .fuel
  | n + 1, s => ParseWarLoop n [] (nextToken s)

/-- The while loop of `ParseWarStmt`, from its test on, and the rest of the function;
`wars` is the vector built so far. -/
def ParseWarLoop : Nat → List (String × Expr) → St → Res Symbol Stmt
  | 0, _, _ => .fuel
  | n + 1, wars, s =>
    if s.CurrTok.tok = .SEMICOL then
      let s := nextToken s
      .ok (.WarStmt wars s.CTable) s
    else if s.CurrTok.tok ≠ .IDENTIFIER then LogNull "invalid identifier for war" s
    else
      let warName := s.CurrTok.word
      let s := nextToken s
      if s.CurrTok.tok ≠ .COL then LogNull "excepted ':'" s
      else
        match ParseType n (nextToken s) with
        | .fuel => .fuel
        | .crash => .crash
        | .null s1 => LogNull "undefined type" s1
        | .ok type s1 =>
          if s1.CurrTok.tok ≠ .ASSIGN then LogNull "excepted '='" s1
          else
            match ParseExpression n (nextToken s1) with
            | .fuel => .fuel
            | .crash => .crash
            | .null s2 => .null s2
            | .ok valu s2 =>
              match checkTypes valu.getType type with
              | none => .crash
              | some false => LogNull "invalid expr type for war" s2
              | some true =>
                match addSym s2 warName (Symbol.new warName type .WAR) with
                | none => .crash
                | some s3 =>
                  if s3.CurrTok.tok ≠ .SEMICOL ∧ s3.CurrTok.tok ≠ .COMMA then
                    LogNull "excepted ';'" s3
                  else if s3.CurrTok.tok = .COMMA then
                    let s4 := nextToken s3
                    if s4.CurrTok.tok = .SEMICOL then LogNull "excepted assign expr" s4
                    else ParseWarLoop n (wars ++ [(warName, valu)]) s4
                  else ParseWarLoop n (wars ++ [(warName, valu)]) s3

/-- The function `ParseTrenStmt`, up to the loop over the parameters. -/
def ParseTrenStmt : Nat → St → Res Symbol Stmt
  | 0, _ => .fuel
  | n + 1, s =>
    match ParseType n (nextToken s) with
    | .fuel => .fuel
    | .crash => .crash
    | .null s1 => LogNull "invalid func type" s1
    | .ok func_type s1 =>
      if s1.CurrTok.tok ≠ .IDENTIFIER then LogNull "excepted identifier" s1
      else
        let func_name := s1.CurrTok.word
        let s2 := nextToken s1
        if s2.CurrTok.tok ≠ .LBRACE then LogNull "excepted '['" s2
        else
          let s3 := nextToken s2
          let s4 := nextTable s3
          ParseTrenLoop n func_name func_type s4.CTable [] [] s4

/-- The while loop of `ParseTrenStmt` over the parameters, from its test on, and the
rest of the function; `args` and `args_types` are the vectors built so far. -/
def ParseTrenLoop : Nat → String → TypeP → Option Nat → List String → List TypeP → St →
    Res Symbol Stmt
  | 0, _, _, _, _, _, _ => .fuel
  | n + 1, func_name, func_type, func_tab, args, args_types, s =>
    if s.CurrTok.tok = .RBRACE then
      let func_sym := (Symbol.new func_name func_type .FUNCTION).setArgs args_types
      match addSym s func_name func_sym with
      | none => .crash
      | some s1 =>
        match ParseStatement n (nextToken s1) with
        | .fuel => .fuel
        | .crash => .crash
        | .null s2 => .null s2
        | .ok body s2 =>
          match checkTypes body.hasRet func_type with
          | none => .crash
          | some false => LogNull "invalid return type in function" s2
          | some true =>
            match prevTable s2 with
            | none => .crash
            | some s3 => .ok (Stmt.mkTren func_name body args func_tab func_type) s3
    else
      match ParseType n s with
      | .fuel => .fuel
      | .crash => .crash
      | .null s1 => LogNull "invalid type" s1
      | .ok type s1 =>
        if s1.CurrTok.tok ≠ .IDENTIFIER then LogNull "excepted arg identifier" s1
        else
          let name := s1.CurrTok.word
          match addSym s1 name (Symbol.new name type .WAR) with
          | none => .crash
          | some s2 =>
            let s3 := nextToken s2
            if s3.CurrTok.tok ≠ .RBRACE ∧ s3.CurrTok.tok ≠ .COMMA then
              LogNull "excepted ']'" s3
            else if s3.CurrTok.tok = .COMMA then
              let s4 := nextToken s3
              if s4.CurrTok.tok = .RBRACE then LogNull "excepted argument" s4
              else ParseTrenLoop n func_name func_type func_tab (args ++ [name])
                (args_types ++ [type]) s4
            else ParseTrenLoop n func_name func_type func_tab (args ++ [name])
              (args_types ++ [type]) s3

/-- The function `ParseHighExpr`. -/
def ParseHighExpr : Nat → St → Res Symbol Stmt
  | 0, _ => .fuel
  | n + 1, s =>
    match ParseExpression n s with
    | .fuel => .fuel
    | .crash => .crash
    | .null s1 => .null s1
    | .ok expr s1 =>
      if s1.CurrTok.tok ≠ .SEMICOL then LogNull "excepted ';'" s1
      else .ok (.HighExpr expr) (nextToken s1)

/-- The function `ParseParenStmts`: a new table, the token `{` is eaten, then the loop
runs. -/
def ParseParenStmts : Nat → St → Res Symbol Stmt
  | 0, _ => .fuel
  | n + 1, s => ParseParenLoop n [] .null (nextToken (nextTable s))

/-- The while loop of `ParseParenStmts`, from its test on, and the rest of the
function; `stmts` and `retType` are the locals. -/
def ParseParenLoop : Nat → List Stmt → TypeP → St → Res Symbol Stmt
  | 0, _, _, _ => .fuel
  | n + 1, stmts, retType, s =>
    if s.CurrTok.tok = .RBRA then
      match prevTable s with
      | none => .crash
      | some s1 => .ok (.ParenStmts stmts retType) (nextToken s1)
    else
      match ParseStatement n s with
      | .fuel => .fuel
      | .crash => .crash
      | .null s1 => .null s1
      | .ok stmt s1 =>
        let stmtRetType := stmt.hasRet
        if !stmtRetType.isNull && retType.isNull then
          ParseParenLoop n (stmts ++ [stmt]) stmtRetType s1
        else if !retType.isNull && !stmtRetType.isNull then
          match checkTypes retType stmtRetType with
          | none => .crash
          | some false => LogNull "invalid returns types" s1
          | some true => ParseParenLoop n (stmts ++ [stmt]) retType s1
        else ParseParenLoop n (stmts ++ [stmt]) retType s1

/-- The function `ParseRetStmt`. -/
def ParseRetStmt : Nat → St → Res Symbol Stmt
  | 0, _ => .fuel
  | n + 1, s =>
    match ParseExpression n (nextToken s) with
    | .fuel => .fuel
    | .crash => .crash
    | .null s1 => .null s1
    | .ok expr s1 =>
      if s1.CurrTok.tok ≠ .SEMICOL then LogNull "excepted ';'" s1
      else .ok (.RetStmt expr) (nextToken s1)

/-- The function `ParseExpression`.  After `lhs.release()` the pointer `lhs` is null,
so the last line, which reads `lhs->getType()`, dereferences a null pointer. -/
def ParseExpression : Nat → St → Res Symbol Expr
  | 0, _ => .fuel
  | n + 1, s =>
    match ParseBoolExpr n s with
    | .fuel => .fuel
    | .crash => .crash
    | .null s1 => .null s1
    | .ok lhs s1 =>
      if s1.CurrTok.tok ≠ .ASSIGN then .ok lhs s1
      else if !lhs.lvalue then LogNull "excepted lvalue on left-side" s1
      else
        match lhs with
        | .IDExpr tab name type =>
          match getSym s1.heap tab name with
          | none => .crash
          | some _ =>
            match ParseExpression n (nextToken s1) with
            | .fuel => .fuel
            | .crash => .crash
            | .null s2 => .null s2
            | .ok rhs s2 =>
              match checkTypes type rhs.getType with
              | none => .crash
              | some false => LogNull "invalid types" s2
              | some true => .crash
        | _ => .crash

/-- The function `ParseBoolExpr`, up to its loop. -/
def ParseBoolExpr : Nat → St → Res Symbol Expr
  | 0, _ => .fuel
  | n + 1, s =>
    match ParseAddExpr n s with
    | .fuel => .fuel
    | .crash => .crash
    | .null s1 => .null s1
    | .ok lhs s1 => ParseBoolLoop n lhs s1

/-- The loop `while(true)` of `ParseBoolExpr`. -/
def ParseBoolLoop : Nat → Expr → St → Res Symbol Expr
  | 0, _, _ => .fuel
  | n + 1, lhs, s =>
    if s.CurrTok.tok.code < 39 ∨ s.CurrTok.tok.code > 44 then .ok lhs s
    else
      let Op := s.CurrTok.word
      match ParseAddExpr n (nextToken s) with
      | .fuel => .fuel
      | .crash => .crash
      | .null s1 => .null s1
      | .ok rhs s1 =>
        match checkTypes lhs.getType rhs.getType with
        | none => .crash
        | some false => LogNull "invalid types" s1
        | some true =>
          match lhs.getType.get with
          | none => .crash
          | some w =>
            if w = .Array then LogNull "invalid types" s1
            else ParseBoolLoop n (.BoolExpr lhs rhs lhs.getType Op) s1

/-- The function `ParseAddExpr`, up to its loop. -/
def ParseAddExpr : Nat → St → Res Symbol Expr
  | 0, _ => .fuel
  | n + 1, s =>
    match ParseTermExpr n s with
    | .fuel => .fuel
    | .crash => .crash
    | .null s1 => .null s1
    | .ok lhs s1 => ParseAddLoop n lhs s1

/-- The loop `while(true)` of `ParseAddExpr`.  The right operand is not tested against
null before `rhs->getType()` is read. -/
def ParseAddLoop : Nat → Expr → St → Res Symbol Expr
  | 0, _, _ => .fuel
  | n + 1, lhs, s =>
    if s.CurrTok.tok.code < 33 ∨ s.CurrTok.tok.code > 34 then .ok lhs s
    else
      let Op := s.CurrTok.word
      match ParseTermExpr n (nextToken s) with
      | .fuel => .fuel
      | .crash => .crash
      | .null _ => .crash
      | .ok rhs s1 =>
        match checkTypes lhs.getType rhs.getType with
        | none => .crash
        | some false => LogNull "invalid types" s1
        | some true =>
          match lhs.getType.get with
          | none => .crash
          | some w =>
            if w = .Array then LogNull "invalid types" s1
            else ParseAddLoop n (.AddExpr lhs rhs lhs.getType Op) s1

/-- The function `ParseTermExpr`, up to its loop. -/
def ParseTermExpr : Nat → St → Res Symbol Expr
  | 0, _ => .fuel
  | n + 1, s =>
    match ParseFactor n s with
    | .fuel => .fuel
    | .crash => .crash
    | .null s1 => .null s1
    | .ok lhs s1 => ParseTermLoop n lhs s1

/-- The loop `while(true)` of `ParseTermExpr`. -/
def ParseTermLoop : Nat → Expr → St → Res Symbol Expr
  | 0, _, _ => .fuel
  | n + 1, lhs, s =>
    if s.CurrTok.tok.code < 35 ∨ s.CurrTok.tok.code > 36 then .ok lhs s
    else
      let Op := s.CurrTok.word
      match ParseFactor n (nextToken s) with
      | .fuel => .fuel
      | .crash => .crash
      | .null s1 => .null s1
      | .ok rhs s1 =>
        match checkTypes lhs.getType rhs.getType with
        | none => .crash
        | some false => LogNull "invalid types" s1
        | some true =>
          match lhs.getType.get with
          | none => .crash
          | some w =>
            if w = .Array then LogNull "invalid types" s1
            else ParseTermLoop n (.TermExpr lhs rhs lhs.getType Op) s1

/-- The function `ParseFactor`.  (The two `debug_tok` lines of the default case write to
`cout`, not to the diagnostics.) -/
def ParseFactor : Nat → St → Res Symbol Expr
  | 0, _ => .fuel
  | n + 1, s0 =>
    let PrevTok := s0.CurrTok
    let s := nextToken s0
    match PrevTok.tok with
    | .INTEGER => .ok (Expr.mkInt PrevTok.ival) s
    | .TRUE => .ok (Expr.mkInt 1) s
    | .FALSE => .ok (Expr.mkInt 0) s
    | .LBRACE => ParseArrayLoop n .null [] s
    | .IDENTIFIER =>
      match getSym s.heap s.CTable PrevTok.word with
      | none => .crash
      | some none => LogNull "unknown identifier" s
      | some (some sym) =>
        if s.CurrTok.tok = .LBRACE then
          if sym.sym_type ≠ .FUNCTION then LogNull "invalid try call war" s
          else ParseCallLoop n PrevTok.word sym 0 [] (nextToken s)
        else
          if sym.sym_type ≠ .WAR then LogNull "invalid func call" s
          else .ok (.IDExpr s.CTable PrevTok.word sym.Vtype) s
    | .LBAR =>
      match ParseExpression n s with
      | .fuel => .fuel
      | .crash => .crash
      | .null s1 => .null s1
      | .ok expr s1 =>
        if s1.CurrTok.tok ≠ .RBAR then LogNull "excepted ')' in expr" s1
        else .ok (.ParenExpr expr) (nextToken s1)
    | _ => LogNull "unknown factor" s

/-- The while loop of the array-literal case of `ParseFactor`, from its test on, and
the rest of the case; `elemType` and `arr_elems` are the locals. -/
def ParseArrayLoop : Nat → TypeP → List Expr → St → Res Symbol Expr
  | 0, _, _, _ => .fuel
  | n + 1, elemType, arr_elems, s =>
    if s.CurrTok.tok = .RBRACE then
      .ok (.ArrayExpr arr_elems (.ArrayType elemType)) (nextToken s)
    else
      match ParseExpression n s with
      | .fuel => .fuel
      | .crash => .crash
      | .null s1 => .null s1
      | .ok elem s1 =>
        if elemType.isNull then
          ParseArrayTail n elem.getType (arr_elems ++ [elem]) s1
        else
          match checkTypes elemType elem.getType with
          | none => .crash
          | some false => LogNull "invalid elements in array" s1
          | some true => ParseArrayTail n elemType (arr_elems ++ [elem]) s1

/-- The end of the body of the array-literal loop: the separator after an element,
then the loop again. -/
def ParseArrayTail : Nat → TypeP → List Expr → St → Res Symbol Expr
  | 0, _, _, _ => .fuel
  | n + 1, elemType, arr_elems, s =>
    if s.CurrTok.tok ≠ .COMMA ∧ s.CurrTok.tok ≠ .RBRACE then LogNull "excepted ']'" s
    else if s.CurrTok.tok = .COMMA then
      let s1 := nextToken s
      if s1.CurrTok.tok = .RBRACE then LogNull "excepted array element" s1
      else ParseArrayLoop n elemType arr_elems s1
    else ParseArrayLoop n elemType arr_elems s

/-- The while loop of the call case of `ParseFactor`, from its test on, and the rest of
the case; `Idx` and `args` are the locals, `sym` the called symbol. -/
def ParseCallLoop : Nat → String → Symbol → Nat → List Expr → St → Res Symbol Expr
  | 0, _, _, _, _, _ => .fuel
  | n + 1, name, sym, Idx, args, s =>
    if s.CurrTok.tok = .RBRACE then
      let s1 := nextToken s
      if Idx ≠ sym.arg_types.length then LogNull "invalid number of args" s1
      else .ok (.CallExpr args s1.CTable name sym.Vtype) s1
    else if Idx = sym.arg_types.length then LogNull "invalid number of args" s
    else
      match ParseExpression n s with
      | .fuel => .fuel
      | .crash => .crash
      | .null s1 => .null s1
      | .ok arg s1 =>
        match sym.arg_types[Idx]? with
        | none => .crash
        | some argType =>
          match checkTypes arg.getType argType with
          | none => .crash
          | some false => LogNull "invalid args types for call func" s1
          | some true =>
            if s1.CurrTok.tok ≠ .RBRACE ∧ s1.CurrTok.tok ≠ .COMMA then
              LogNull "in call excepted ']'" s1
            else if s1.CurrTok.tok = .COMMA then
              let s2 := nextToken s1
              if s2.CurrTok.tok = .RBRACE then LogNull "excepted arg expr after comma" s2
              else ParseCallLoop n name sym (Idx + 1) (args ++ [arg]) s2
            else ParseCallLoop n name sym (Idx + 1) (args ++ [arg]) s1

end

/-- The while loop of `ParseInput`, from its test on. -/
def ParseInputLoop : Nat → List Stmt → St → Res Symbol Input
  | 0, _, _ => .fuel
  | n + 1, stmts, s =>
    if s.CurrTok.tok = .EOFILE then .ok { stmts := stmts } s
    else
      match ParseStatement n s with
      | .fuel => .fuel
      | .crash => .crash
      | .null s1 => .null s1
      | .ok stmt s1 => ParseInputLoop n (stmts ++ [stmt]) s1

/-- The function `ParseInput`.  The global `print_sym` is defined in a file that is
not part of the repository; it is a parameter. -/
def ParseInput (print_sym : Symbol) (n : Nat) (s : St) : Res Symbol Input :=
  let s1 := nextTable (nextToken s)
  match addSym s1 "print" (print_sym.setArgs [.IntType]) with
  | none => .crash
  | some s2 => ParseInputLoop n [] s2

end Old

/-! ## The current variant: types, symbols and nodes (src/src/ast) -/

namespace Cur

/-- The enumeration `Type` of the current `ast.hpp`. -/
inductive TypeK where
  | String | Bool | Int | Null
  deriving DecidableEq, Repr

/-- The function `getDType` of the current `ast.cpp`. -/
def getDType : lexeme → TypeK
  | .STRINGTYPE => .String
  | .BOOLTYPE => .Int
  | .INTTYPE => .Int
  | _ => .Null

/-- The enumeration `Symbol::SymType`. -/
inductive SymType where
  | WAR | FUNCTION
  deriving DecidableEq, Repr

/-- The class `Symbol`. -/
structure Symbol where
  name : String
  Vtype : TypeK
  sym_type : SymType
  deriving DecidableEq, Repr

/-- The constructor `Symbol::Symbol(name, type, sym_type)`. -/
def Symbol.new (name : String) (type : TypeK) (sym_type : SymType) : Symbol :=
  { name := name, Vtype := type, sym_type := sym_type }

/-- Modelled from the spec: the two-argument constructor `Symbol(name, type)` that
`ParseTrenStmt` calls for a parameter is declared nowhere in the repository; by the
spec a symbol is a Variable or a Function, and a parameter is a Variable. -/
def Symbol.newParam (name : String) (type : TypeK) : Symbol :=
  Symbol.new name type .WAR

/-- The expression classes of the current `ast.hpp`, with their fields. -/
inductive Expr where
  | AssignExpr (LHS : Expr) (RHS : Expr) (Vtype : TypeK)
  | BoolExpr (LHS RHS : Expr) (Vtype : TypeK) (Op : String)
  | AddExpr (LHS RHS : Expr) (Vtype : TypeK) (Op : String)
  | TermExpr (LHS RHS : Expr) (Vtype : TypeK) (Op : String)
  | IntExpr (value : Int)
  | TrueExpr (value : Int)
  | StrExpr (value : String)
  | IDExpr (CurrTable : Option Nat) (name : String) (Vtype : TypeK)
  | CallExpr (args : List Expr) (CurrTable : Option Nat) (name : String) (Vtype : TypeK)
  | ParenExpr (expr : Expr)

/-- The virtual method `getType`. -/
def Expr.getType : Expr → TypeK
  | .AssignExpr _ _ t => t
  | .BoolExpr _ _ t _ => t
  | .AddExpr _ _ t _ => t
  | .TermExpr _ _ t _ => t
  | .IntExpr _ => .Int
  | .TrueExpr _ => .Int
  | .StrExpr _ => .String
  | .IDExpr _ _ t => t
  | .CallExpr _ _ _ t => t
  | .ParenExpr e => e.getType

/-- The virtual method `lvalue`: true for the subclass `Lvalue`, that is `IDExpr`. -/
def Expr.lvalue : Expr → Bool
  | .IDExpr _ _ _ => true
  | _ => false

/-- The statement classes of the current `ast.hpp`, with their fields; the elements of
`wars` are `AssignExpr` nodes. -/
inductive Stmt where
  | HighExpr (expr : Expr)
  | TrenStmt (CurrTable : Option Nat) (body : Stmt) (args : List String) (name : String)
      (Vtype : TypeK)
  | WarStmt (wars : List Expr) (CurrTable : Option Nat)
  | RetStmt (expr : Expr)
  | ParenStmts (stmts : List Stmt) (hRet : Bool)
  | IfStmt (Cond : Expr) (Body : Stmt)
  | AliveStmt (Cond : Expr) (Body : Stmt)

/-- The virtual method `hasRet`. -/
def Stmt.hasRet : Stmt → Bool
  | .ParenStmts _ h => h
  | .RetStmt _ => true
  | _ => false

/-- The constructor `TrenStmt::TrenStmt(name, bod, args, tab, type)`: its initializer
list does not name `CurrTable`, which stays null. -/
def Stmt.mkTren (name : String) (bod : Stmt) (args : List String) (_tab : Option Nat)
    (type : TypeK) : Stmt :=
  .TrenStmt none bod args name type

/-- The class `Input`. -/
structure Input where
  stmts : List Stmt

/-- The parser state of the current variant. -/
abbrev St := PState Symbol

/-! ## The current parser (src/src/parser/parser.cpp) -/

mutual

/-- The function `ParseStatement`. -/
def ParseStatement : Nat → St → Res Symbol Stmt
  | 0, _ => .fuel
  | n + 1, s =>
    match s.CurrTok.tok with
    | .IF => ParseIfStmt n s
    | .WAR => ParseWarStmt n s
    | .TREN => ParseTrenStmt n s
    | .ALIVE => ParseAliveStmt n s
    | .RETURN => ParseRetStmt n s
    | .LBRA => ParseParenStmts n s
    | _ => ParseHighExpr n s

/-- The function `ParseIfStmt`. -/
def ParseIfStmt : Nat → St → Res Symbol Stmt
  | 0, _ => .fuel
  | n + 1, s =>
    let s := nextToken s
    if s.CurrTok.tok ≠ .LBAR then LogNull "excepted '('" s
    else
      match ParseExpression n (nextToken s) with
      | .fuel => .fuel
      | .crash => .crash
      | .null s1 => .null s1
      | .ok cond s1 =>
        if cond.getType ≠ .Int then LogNull "invalid type for cond" s1
        else if s1.CurrTok.tok ≠ .RBAR then LogNull "excepted ')'" s1
        else
          let s2 := nextToken s1
          if s2.CurrTok.tok ≠ .DO then LogNull "excepted do-token" s2
          else
            match ParseStatement n (nextToken s2) with
            | .fuel => .fuel
            | .crash => .crash
            | .null s3 => .null s3
            | .ok body s3 => .ok (.IfStmt cond body) s3

/-- The function `ParseAliveStmt`. -/
def ParseAliveStmt : Nat → St → Res Symbol Stmt
  | 0, _ => .fuel
  | n + 1, s =>
    let s := nextToken s
    if s.CurrTok.tok ≠ .BY then LogNull "excepted by-token" s
    else
      let s := nextToken s
      if s.CurrTok.tok ≠ .LBRACE then LogNull "excepted '['" s
      else
        match ParseExpression n (nextToken s) with
        | .fuel => .fuel
        | .crash => .crash
        | .null s1 => .null s1
        | .ok cond s1 =>
          if cond.getType ≠ .Int then LogNull "invalid type for cond" s1
          else if s1.CurrTok.tok ≠ .RBRACE then LogNull "excepted ']'" s1
          else
            match ParseStatement n (nextToken s1) with
            | .fuel => .fuel
            | .crash => .crash
            | .null s3 => .null s3
            | .ok body s3 => .ok (.AliveStmt cond body) s3

/-- The function `ParseWarStmt`: the token `war` is eaten, then the loop runs. -/
def ParseWarStmt : Nat → St → Res Symbol Stmt
  | 0, _ => .fuel
  | n + 1, s => ParseWarLoop n [] (nextToken s)

/-- The while loop of `ParseWarStmt`, from its test on, and the rest of the function;
`wars` is the vector built so far. -/
def ParseWarLoop : Nat → List Expr → St → Res Symbol Stmt
  | 0, _, _ => .fuel
  | n + 1, wars, s =>
    if s.CurrTok.tok = .SEMICOL then .ok (.WarStmt wars s.CTable) s
    else if s.CurrTok.tok ≠ .IDENTIFIER then LogNull "invalid identifier for war" s
    else
      let warName := s.CurrTok.word
      let s := nextToken s
      if s.CurrTok.tok ≠ .COL then LogNull "excepted ':'" s
      else
        let s := nextToken s
        let type := getDType s.CurrTok.tok
        if type = .Null then LogNull "undefined type" s
        else
          let s := nextToken s
          if s.CurrTok.tok ≠ .ASSIGN then LogNull "excepted '='" s
          else
            match ParseExpression n (nextToken s) with
            | .fuel => .fuel
            | .crash => .crash
            | .null s2 => .null s2
            | .ok valu s2 =>
              if valu.getType ≠ type then LogNull "invalid war type" s2
              else
                let war := Expr.AssignExpr (.IDExpr s2.CTable warName type) valu type
                match addSym s2 warName (Symbol.new warName type .WAR) with
                | none => .crash
                | some s3 =>
                  if s3.CurrTok.tok ≠ .SEMICOL ∧ s3.CurrTok.tok ≠ .COMMA then
                    LogNull "excepted ';'" s3
                  else if s3.CurrTok.tok = .COMMA then
                    ParseWarLoop n (wars ++ [war]) (nextToken s3)
                  else ParseWarLoop n (wars ++ [war]) s3

/-- The function `ParseTrenStmt`, up to the loop over the parameters. -/
def ParseTrenStmt : Nat → St → Res Symbol Stmt
  | 0, _ => .fuel
  | n + 1, s =>
    let s := nextToken s
    let func_type := getDType s.CurrTok.tok
    if func_type = .Null then LogNull "invalid func type" s
    else
      let s := nextToken s
      if s.CurrTok.tok ≠ .IDENTIFIER then LogNull "excepted identifier" s
      else
        let func_name := s.CurrTok.word
        let s := nextToken s
        if s.CurrTok.tok ≠ .LBRACE then LogNull "excepted '['" s
        else
          match addSym s func_name (Symbol.new func_name func_type .FUNCTION) with
          | none => .crash
          | some s1 =>
            let s2 := nextTable s1
            ParseTrenLoop n func_name func_type s2.CTable [] (nextToken s2)

/-- The while loop of `ParseTrenStmt` over the parameters, from its test on, and the
rest of the function; `args` is the vector built so far. -/
def ParseTrenLoop : Nat → String → TypeK → Option Nat → List String → St →
    Res Symbol Stmt
  | 0, _, _, _, _, _ => .fuel
  | n + 1, func_name, func_type, func_tab, args, s =>
    if s.CurrTok.tok = .RBRACE then
      match ParseStatement n (nextToken s) with
      | .fuel => .fuel
      | .crash => .crash
      | .null s2 => .null s2
      | .ok body s2 =>
        if !body.hasRet then LogNull "excepted return statement in function body" s2
        else
          match prevTable s2 with
          | none => .crash
          | some s3 => .ok (Stmt.mkTren func_name body args func_tab func_type) s3
    else
      let type := getDType s.CurrTok.tok
      if type = .Null then LogNull "invalid type" s
      else
        let s1 := nextToken s
        if s1.CurrTok.tok ≠ .IDENTIFIER then LogNull "excepted arg identifier" s1
        else
          let name := s1.CurrTok.word
          match addSym s1 name (Symbol.newParam name type) with
          | none => .crash
          | some s2 =>
            let s3 := nextToken s2
            if s3.CurrTok.tok ≠ .RBRACE ∧ s3.CurrTok.tok ≠ .COMMA then
              LogNull "excepted ']'" s3
            else if s3.CurrTok.tok = .COMMA then
              ParseTrenLoop n func_name func_type func_tab (args ++ [name]) (nextToken s3)
            else ParseTrenLoop n func_name func_type func_tab (args ++ [name]) s3

/-- The function `ParseHighExpr`. -/
def ParseHighExpr : Nat → St → Res Symbol Stmt
  | 0, _ => .fuel
  | n + 1, s =>
    match ParseExpression n s with
    | .fuel => .fuel
    | .crash => .crash
    | .null s1 => .null s1
    | .ok expr s1 => .ok (.HighExpr expr) s1

/-- The function `ParseParenStmts`: the token `{` is eaten, then the loop runs. -/
def ParseParenStmts : Nat → St → Res Symbol Stmt
  | 0, _ => .fuel
  | n + 1, s => ParseParenLoop n [] false (nextToken s)

/-- The while loop of `ParseParenStmts`, from its test on, and the rest of the
function; `stmts` and `HasRetVal` are the locals. -/
def ParseParenLoop : Nat → List Stmt → Bool → St → Res Symbol Stmt
  | 0, _, _, _ => .fuel
  | n + 1, stmts, HasRetVal, s =>
    if s.CurrTok.tok = .RBRA then .ok (.ParenStmts stmts HasRetVal) s
    else
      match ParseStatement n s with
      | .fuel => .fuel
      | .crash => .crash
      | .null s1 => .null s1
      | .ok stmt s1 =>
        ParseParenLoop n (stmts ++ [stmt]) (HasRetVal || stmt.hasRet) (nextToken s1)

/-- The function `ParseRetStmt`. -/
def ParseRetStmt : Nat → St → Res Symbol Stmt
  | 0, _ => .fuel
  | n + 1, s =>
    match ParseExpression n (nextToken s) with
    | .fuel => .fuel
    | .crash => .crash
    | .null s1 => .null s1
    | .ok expr s1 => .ok (.RetStmt expr) s1

/-- The function `ParseExpression`. -/
def ParseExpression : Nat → St → Res Symbol Expr
  | 0, _ => .fuel
  | n + 1, s =>
    match ParseBoolExpr n s with
    | .fuel => .fuel
    | .crash => .crash
    | .null s1 => .null s1
    | .ok lhs s1 =>
      if s1.CurrTok.tok ≠ .ASSIGN then .ok lhs s1
      else if !lhs.lvalue then LogNull "excepted lvalue on left-side" s1
      else
        match lhs with
        | .IDExpr tab name warType =>
          match getSym s1.heap tab name with
          | none => .crash
          | some _ =>
            match ParseExpression n (nextToken s1) with
            | .fuel => .fuel
            | .crash => .crash
            | .null s2 => .null s2
            | .ok rhs s2 =>
              if rhs.getType ≠ warType then LogNull "invalid types" s2
              else .ok (.AssignExpr lhs rhs warType) s2
        | _ => .crash

/-- The function `ParseBoolExpr`, up to its loop. -/
def ParseBoolExpr : Nat → St → Res Symbol Expr
  | 0, _ => .fuel
  | n + 1, s =>
    match ParseAddExpr n s with
    | .fuel => .fuel
    | .crash => .crash
    | .null s1 => .null s1
    | .ok lhs s1 => ParseBoolLoop n lhs s1

/-- The loop `while(true)` of `ParseBoolExpr`. -/
def ParseBoolLoop : Nat → Expr → St → Res Symbol Expr
  | 0, _, _ => .fuel
  | n + 1, lhs, s =>
    if s.CurrTok.tok.code < 39 ∨ s.CurrTok.tok.code > 44 then .ok lhs s
    else
      let Op := s.CurrTok.word
      match ParseAddExpr n (nextToken s) with
      | .fuel => .fuel
      | .crash => .crash
      | .null s1 => .null s1
      | .ok rhs s1 =>
        if lhs.getType ≠ rhs.getType then LogNull "invalid types" s1
        else ParseBoolLoop n (.BoolExpr lhs rhs lhs.getType Op) s1

/-- The function `ParseAddExpr`, up to its loop. -/
def ParseAddExpr : Nat → St → Res Symbol Expr
  | 0, _ => .fuel
  | n + 1, s =>
    match ParseTermExpr n s with
    | .fuel => .fuel
    | .crash => .crash
    | .null s1 => .null s1
    | .ok lhs s1 => ParseAddLoop n lhs s1

/-- The loop `while(true)` of `ParseAddExpr`.  The right operand is not tested against
null before `rhs->getType()` is read. -/
def ParseAddLoop : Nat → Expr → St → Res Symbol Expr
  | 0, _, _ => .fuel
  | n + 1, lhs, s =>
    if s.CurrTok.tok.code < 33 ∨ s.CurrTok.tok.code > 34 then .ok lhs s
    else
      let Op := s.CurrTok.word
      match ParseTermExpr n (nextToken s) with
      | .fuel => .fuel
      | .crash => .crash
      | .null _ => .crash
      | .ok rhs s1 =>
        if lhs.getType ≠ rhs.getType then LogNull "invalid types" s1
        else ParseAddLoop n (.AddExpr lhs rhs lhs.getType Op) s1

/-- The function `ParseTermExpr`, up to its loop. -/
def ParseTermExpr : Nat → St → Res Symbol Expr
  | 0, _ => .fuel
  | n + 1, s =>
    match ParseFactor n s with
    | .fuel => .fuel
    | .crash => .crash
    | .null s1 => .null s1
    | .ok lhs s1 => ParseTermLoop n lhs s1

/-- The loop `while(true)` of `ParseTermExpr`. -/
def ParseTermLoop : Nat → Expr → St → Res Symbol Expr
  | 0, _, _ => .fuel
  | n + 1, lhs, s =>
    if s.CurrTok.tok.code < 35 ∨ s.CurrTok.tok.code > 36 then .ok lhs s
    else
      let Op := s.CurrTok.word
      match ParseFactor n (nextToken s) with
      | .fuel => .fuel
      | .crash => .crash
      | .null s1 => .null s1
      | .ok rhs s1 =>
        if lhs.getType ≠ rhs.getType then LogNull "invalid types" s1
        else ParseTermLoop n (.TermExpr lhs rhs lhs.getType Op) s1

/-- The function `ParseFactor`.  (The two `debug_tok` lines of the default case write to
`cout`, not to the diagnostics.) -/
def ParseFactor : Nat → St → Res Symbol Expr
  | 0, _ => .fuel
  | n + 1, s0 =>
    let PrevTok := s0.CurrTok
    let s := nextToken s0
    match PrevTok.tok with
    | .INTEGER => .ok (.IntExpr PrevTok.ival) s
    | .TRUE => .ok (.TrueExpr 1) s
    | .FALSE => .ok (.TrueExpr 0) s
    | .STRING => .ok (.StrExpr PrevTok.word) s
    | .IDENTIFIER =>
      match getSym s.heap s.CTable PrevTok.word with
      | none => .crash
      | some none => LogNull "unknown identifier" s
      | some (some sym) =>
        if s.CurrTok.tok = .LBRACE then
          if sym.sym_type ≠ .FUNCTION then LogNull "invalid try call war" s
          else ParseCallLoop n PrevTok.word sym [] (nextToken s)
        else
          if sym.sym_type ≠ .WAR then LogNull "invalid func call" s
          else .ok (.IDExpr s.CTable PrevTok.word sym.Vtype) s
    | .LBAR =>
      match ParseExpression n s with
      | .fuel => .fuel
      | .crash => .crash
      | .null s1 => .null s1
      | .ok expr s1 =>
        if s1.CurrTok.tok ≠ .RBAR then LogNull "excepted ')' in expr" s1
        else .ok (.ParenExpr expr) (nextToken s1)
    | _ => LogNull "unknown factor" s

/-- The while loop of the call case of `ParseFactor`, from its test on, and the rest of
the case; `args` is the vector built so far, `sym` the called symbol. -/
def ParseCallLoop : Nat → String → Symbol → List Expr → St → Res Symbol Expr
  | 0, _, _, _, _ => .fuel
  | n + 1, name, sym, args, s =>
    if s.CurrTok.tok = .RBRACE then
      let s1 := nextToken s
      .ok (.CallExpr args s1.CTable name sym.Vtype) s1
    else
      match ParseExpression n s with
      | .fuel => .fuel
      | .crash => .crash
      | .null s1 => .null s1
      | .ok arg s1 =>
        if s1.CurrTok.tok ≠ .RBRACE ∧ s1.CurrTok.tok ≠ .COMMA then
          LogNull "in call excepted ']'" s1
        else if s1.CurrTok.tok = .COMMA then
          ParseCallLoop n name sym (args ++ [arg]) (nextToken s1)
        else ParseCallLoop n name sym (args ++ [arg]) s1

end

/-- The while loop of `ParseInput`, from its test on. -/
def ParseInputLoop : Nat → List Stmt → St → Res Symbol Input
  | 0, _, _ => .fuel
  | n + 1, stmts, s =>
    if s.CurrTok.tok = .EOFILE then .ok { stmts := stmts } s
    else
      match ParseStatement n s with
      | .fuel => .fuel
      | .crash => .crash
      | .null s1 => .null s1
      | .ok stmt s1 =>
        if s1.CurrTok.tok ≠ .SEMICOL ∧ s1.CurrTok.tok ≠ .RBRA then
          LogNull "missing semicol ';'" s1
        else ParseInputLoop n (stmts ++ [stmt]) (nextToken s1)

/-- The function `ParseInput`. -/
def ParseInput (n : Nat) (s : St) : Res Symbol Input :=
  ParseInputLoop n [] (nextTable (nextToken s))

end Cur

/-! ## Auxiliary definitions used in the statements and proofs -/

namespace Old

/-- The comparison that `checkTypes` makes after its loop. -/
def afterLoop (p : TypeP × TypeP) : Option Bool :=
  match p.1.get, p.2.get with
  | some w1, some w2 => some (decide (w1 = w2))
  | _, _ => some false

end Old

/-- Two nested scopes for the examples: the outer table, at address 0, binds `x` to 1
and `y` to 2; the inner table, at address 1, binds `x` to 3. -/
def demoHeap : List (Table Nat) :=
  [((Table.new none).addSym "x" 1).addSym "y" 2, (Table.new (some 0)).addSym "x" 3]

/-- A keyword or punctuation token on line 1. -/
def kw (t : lexeme) : TOKEN := { tok := t, line := 1 }

/-- An identifier token on line 1. -/
def ident (w : String) : TOKEN := { tok := .IDENTIFIER, word := w, line := 1 }

/-- An integer literal token on line 1. -/
def intLit (v : Int) : TOKEN := { tok := .INTEGER, ival := v, line := 1 }

/-- The tokens of `tren int add [int a, int b] { return a + b; }`. -/
def trenAddToks : List TOKEN :=
  [kw .TREN, kw .INTTYPE, ident "add", kw .LBRACE, kw .INTTYPE, ident "a", kw .COMMA,
   kw .INTTYPE, ident "b", kw .RBRACE,
   kw .LBRA, kw .RETURN, ident "a", kw .PLUS, ident "b", kw .SEMICOL, kw .RBRA]

/-- The tokens of `war z : int = add[2,3];`. -/
def warCallToks : List TOKEN :=
  [kw .WAR, ident "z", kw .COL, kw .INTTYPE, kw .ASSIGN, ident "add", kw .LBRACE,
   intLit 2, kw .COMMA, intLit 3, kw .RBRACE, kw .SEMICOL]

/-- A `print` symbol for the examples (the global `print_sym` of the old parser). -/
def Old.printSym : Old.Symbol := Old.Symbol.new "print" .IntType .FUNCTION

/-- The state of the old parser when `ParseInput` reaches its loop on the tokens
`toks`: the first token is read and the global table, with `print`, is current. -/
def Old.start (toks : List TOKEN) : Old.St :=
  match addSym (nextTable (nextToken (PState.init toks 1))) "print"
      (Old.printSym.setArgs [.IntType]) with
  | some s => s
  | none => PState.init toks 1

/-- The lookup `CTable->getSym(name)` in the state after a call. -/
def Res.lookup {σ α : Type} (r : Res σ α) (name : String) : Option (Option σ) :=
  match r.state? with
  | some s => getSym s.heap s.CTable name
  | none => none

/-- The call left the tables alone: when it returned, the heap and `CTable` are those
of the state `s` it was entered in. -/
structure Res.Same {σ α : Type} (s : PState σ) (r : Res σ α) : Prop where
  keep : ∀ s', r.state? = some s' → s'.heap = s.heap ∧ s'.CTable = s.CTable

/-- The tokens of `if (1) do war x : int = 5;`. -/
def ifWarToks : List TOKEN :=
  [kw .IF, kw .LBAR, intLit 1, kw .RBAR, kw .DO, kw .WAR, ident "x", kw .COL, kw .INTTYPE,
   kw .ASSIGN, intLit 5, kw .SEMICOL]

/-- The tokens of `alive by [1] war x : int = 5;`. -/
def aliveWarToks : List TOKEN :=
  [kw .ALIVE, kw .BY, kw .LBRACE, intLit 1, kw .RBRACE, kw .WAR, ident "x", kw .COL,
   kw .INTTYPE, kw .ASSIGN, intLit 5, kw .SEMICOL]

/-- The tokens of `if ([1]) do war x : int = 5;`, whose condition is an array. -/
def ifArrayToks : List TOKEN :=
  [kw .IF, kw .LBAR, kw .LBRACE, intLit 1, kw .RBRACE, kw .RBAR, kw .DO, kw .WAR, ident "x",
   kw .COL, kw .INTTYPE, kw .ASSIGN, intLit 5, kw .SEMICOL]

/-- The tokens of `if ("a") do war x : int = 5;`, whose condition is a string. -/
def ifStringToks : List TOKEN :=
  [kw .IF, kw .LBAR, { tok := .STRING, word := "a", line := 1 }, kw .RBAR, kw .DO, kw .WAR,
   ident "x", kw .COL, kw .INTTYPE, kw .ASSIGN, intLit 5, kw .SEMICOL]

/-- The tokens of `war x : int = x;`. -/
def warSelfToks : List TOKEN :=
  [kw .WAR, ident "x", kw .COL, kw .INTTYPE, kw .ASSIGN, ident "x", kw .SEMICOL]

/-- The tokens of `war x : int = 1, y : int = x;`. -/
def warPairToks : List TOKEN :=
  [kw .WAR, ident "x", kw .COL, kw .INTTYPE, kw .ASSIGN, intLit 1, kw .COMMA,
   ident "y", kw .COL, kw .INTTYPE, kw .ASSIGN, ident "x", kw .SEMICOL]

/-- The tokens of `war z : int = x;`. -/
def warUseToks : List TOKEN :=
  [kw .WAR, ident "z", kw .COL, kw .INTTYPE, kw .ASSIGN, ident "x", kw .SEMICOL]

/-- The tokens of `war x : array<int> = 1;`. -/
def warArrayIntToks : List TOKEN :=
  [kw .WAR, ident "x", kw .COL, kw .ARRAYTYPE, kw .LS, kw .INTTYPE, kw .GT, kw .ASSIGN,
   intLit 1, kw .SEMICOL]

/-- The tokens of `war x : str = 1;`. -/
def warStrIntToks : List TOKEN :=
  [kw .WAR, ident "x", kw .COL, kw .STRINGTYPE, kw .ASSIGN, intLit 1, kw .SEMICOL]

/-- The state of the current parser when `ParseInput` reaches its loop on the tokens
`toks`: the first token is read and the global table is current. -/
def Cur.start (toks : List TOKEN) : Cur.St :=
  nextTable (nextToken (PState.init toks 1))

/-- The table, name and type of an identifier node (old variant). -/
def Old.Expr.asID? : Old.Expr → Option (Option Nat × String × Old.TypeP)
  | .IDExpr tab name type => some (tab, name, type)
  | _ => none

/-- The initializer of the `i`-th declaration of a War node (old variant). -/
def Old.Stmt.warInit? : Old.Stmt → Nat → Option Old.Expr
  | .WarStmt wars _, i => (wars[i]?).map Prod.snd
  | _, _ => none

/-- The table, name and type of an identifier node (current variant). -/
def Cur.Expr.asID? : Cur.Expr → Option (Option Nat × String × Cur.TypeK)
  | .IDExpr tab name type => some (tab, name, type)
  | _ => none

/-- The initializer of the `i`-th declaration of a War node (current variant): the
right side of its `AssignExpr`. -/
def Cur.Stmt.warInit? : Cur.Stmt → Nat → Option Cur.Expr
  | .WarStmt wars _, i =>
    match wars[i]? with
    | some (.AssignExpr _ rhs _) => some rhs
    | _ => none
  | _, _ => none

namespace Old

mutual

/-- Every Relational, Additive and Multiplicative node of the tree has both operands of
type Int and has type Int itself. -/
def Expr.IntOps : Expr → Prop
  | .AssignExpr l r _ => l.IntOps ∧ r.IntOps
  | .BoolExpr l r t _ =>
    l.IntOps ∧ r.IntOps ∧ l.getType = .IntType ∧ r.getType = .IntType ∧ t = .IntType
  | .AddExpr l r t _ =>
    l.IntOps ∧ r.IntOps ∧ l.getType = .IntType ∧ r.getType = .IntType ∧ t = .IntType
  | .TermExpr l r t _ =>
    l.IntOps ∧ r.IntOps ∧ l.getType = .IntType ∧ r.getType = .IntType ∧ t = .IntType
  | .IntExpr _ _ => True
  | .ArrayExpr vs _ => Expr.IntOpsList vs
  | .IDExpr _ _ _ => True
  | .CallExpr args _ _ _ => Expr.IntOpsList args
  | .ParenExpr e => e.IntOps

/-- Every tree of the list satisfies `Expr.IntOps`. -/
def Expr.IntOpsList : List Expr → Prop
  | [] => True
  | e :: es => e.IntOps ∧ Expr.IntOpsList es

end

end Old

/-- Every node the call returns satisfies `P`. -/
structure Res.All {σ α : Type} (P : α → Prop) (r : Res σ α) : Prop where
  holds : ∀ v s', r = Res.ok v s' → P v

/-- The tokens of `1 + [1];`. -/
def intPlusArrayToks : List TOKEN :=
  [intLit 1, kw .PLUS, kw .LBRACE, intLit 1, kw .RBRACE,
   kw .SEMICOL]

/-- The tokens of `[1] * 2;`. -/
def arrayTimesIntToks : List TOKEN :=
  [kw .LBRACE, intLit 1, kw .RBRACE, kw .MUL, intLit 2,
   kw .SEMICOL]

/-- The tokens of `[1] < [1];`. -/
def arrayLessArrayToks : List TOKEN :=
  [kw .LBRACE, intLit 1, kw .RBRACE, kw .LS, kw .LBRACE,
   intLit 1, kw .RBRACE, kw .SEMICOL]

/-- The tokens of `1 + 2 * 3 < 4;`. -/
def intOpsToks : List TOKEN :=
  [intLit 1, kw .PLUS, intLit 2,
   kw .MUL, intLit 3, kw .LS,
   intLit 4, kw .SEMICOL]

/-- The function `f` on the returned node. -/
def Res.map {σ α β : Type} (f : α → β) : Res σ α → Res σ β
  | .ok v s => .ok (f v) s
  | .null s => .null s
  | .crash => .crash
  | .fuel => .fuel

/-- The arguments of a call as the specification words acceptance (every argument
expression parses), to be compared with the loop of `ParseFactor`: the expressions up
to `]`, separated by commas, each parsed by `ParseExpression`; neither their number
nor their types are looked at. -/
def Old.ParseArgsSpec : Nat → Old.St → Res Old.Symbol (List Old.Expr)
  | 0, _ => .fuel
  | n + 1, s =>
    if s.CurrTok.tok = .RBRACE then .ok [] (nextToken s)
    else
      match Old.ParseExpression n s with
      | .fuel => .fuel
      | .crash => .crash
      | .null s1 => .null s1
      | .ok arg s1 =>
        if s1.CurrTok.tok ≠ .RBRACE ∧ s1.CurrTok.tok ≠ .COMMA then
          LogNull "in call excepted ']'" s1
        else if s1.CurrTok.tok = .COMMA then
          if (nextToken s1).CurrTok.tok = .RBRACE then
            LogNull "excepted arg expr after comma" (nextToken s1)
          else (Old.ParseArgsSpec n (nextToken s1)).map (fun rest => arg :: rest)
        else (Old.ParseArgsSpec n s1).map (fun rest => arg :: rest)

/-- The tokens of `print[1];`. -/
def callOneToks : List TOKEN :=
  [ident "print", kw .LBRACE, intLit 1, kw .RBRACE, kw .SEMICOL]

/-- The tokens of `print[];`. -/
def callNoneToks : List TOKEN :=
  [ident "print", kw .LBRACE, kw .RBRACE, kw .SEMICOL]

/-- The tokens of `print[1, 2];`. -/
def callTwoToks : List TOKEN :=
  [ident "print", kw .LBRACE, intLit 1, kw .COMMA, intLit 2, kw .RBRACE, kw .SEMICOL]

/-- The tokens of `print[[1]];`. -/
def callArrayToks : List TOKEN :=
  [ident "print", kw .LBRACE, kw .LBRACE, intLit 1, kw .RBRACE, kw .RBRACE, kw .SEMICOL]

/-- The state `s'` has the current table of `s`, every table of `s` other than the
current one is unchanged in `s'`, and the current one has kept its `Prev`. -/
structure Kept {σ : Type} (s s' : PState σ) : Prop where
  ctable : s'.CTable = s.CTable
  len : s.heap.length ≤ s'.heap.length
  others : ∀ i, i < s.heap.length → s.CTable ≠ some i → s'.heap[i]? = s.heap[i]?
  prev : ∀ a, s.CTable = some a → a < s.heap.length →
    (s'.heap[a]?).map (fun t => t.Prev) = (s.heap[a]?).map (fun t => t.Prev)

/-- The state `s'` is `s` after its current table was left: the current table of `s'`
is the `Prev` of the current table of `s`, and every table of `s` other than the
current one is unchanged in `s'`. -/
structure Popped {σ : Type} (s s' : PState σ) : Prop where
  left : ∃ a t, s.CTable = some a ∧ s.heap[a]? = some t ∧ s'.CTable = t.Prev
  len : s.heap.length ≤ s'.heap.length
  others : ∀ i, i < s.heap.length → s.CTable ≠ some i → s'.heap[i]? = s.heap[i]?

/-- When the call returns a node, the states before and after are related by `R`. -/
structure Res.OkRel {σ α : Type} (R : PState σ → PState σ → Prop) (s : PState σ)
    (r : Res σ α) : Prop where
  rel : ∀ v s', r = Res.ok v s' → R s s'

/-- The pointer `CTable` is null or the address of a table of the heap. -/
def PState.Valid {σ : Type} (s : PState σ) : Prop :=
  ∀ a, s.CTable = some a → a < s.heap.length

/-- The tokens of `{ war x : int = 1; }`. -/
def blockWarToks : List TOKEN :=
  [kw .LBRA, kw .WAR, ident "x", kw .COL, kw .INTTYPE, kw .ASSIGN, intLit 1, kw .SEMICOL,
   kw .RBRA]

/-- The tokens of `{ war print : int = 1; print; }`, a block that shadows the global
`print`. -/
def blockShadowToks : List TOKEN :=
  [kw .LBRA, kw .WAR, ident "print", kw .COL, kw .INTTYPE, kw .ASSIGN, intLit 1,
   kw .SEMICOL, ident "print", kw .SEMICOL, kw .RBRA]

/-- What the loop of the array-literal case does to its local `elemType` over the
elements `xs` it parses: `T` is the value before the first of them, the last argument
the value after the last one.  An element met while `elemType` is null sets it; any
other element has to be compatible with it. -/
def Old.ArrayElems : Old.TypeP → List Old.Expr → Old.TypeP → Prop
  | T, [], T' => T' = T
  | T, x :: xs, T' =>
    if T.isNull then Old.ArrayElems x.getType xs T'
    else Old.checkTypes T x.getType = some true ∧ Old.ArrayElems T xs T'

/-- The tokens of `[1, 2];`. -/
def arrayIntsToks : List TOKEN :=
  [kw .LBRACE, intLit 1, kw .COMMA, intLit 2, kw .RBRACE, kw .SEMICOL]

/-- The tokens of `[1, [2]];`. -/
def arrayIntArrayToks : List TOKEN :=
  [kw .LBRACE, intLit 1, kw .COMMA, kw .LBRACE, intLit 2, kw .RBRACE, kw .RBRACE,
   kw .SEMICOL]

/-- The tokens of `[[1], 2];`. -/
def arrayArrayIntToks : List TOKEN :=
  [kw .LBRACE, kw .LBRACE, intLit 1, kw .RBRACE, kw .COMMA, intLit 2, kw .RBRACE,
   kw .SEMICOL]

/-- The type of the node a call returned. -/
def Old.typeOf? {σ : Type} (r : Res σ Old.Expr) : Option Old.TypeP :=
  r.val?.map Old.Expr.getType

/-- The tokens of `[1, true];`. -/
def arrayIntTrueToks : List TOKEN :=
  [kw .LBRACE, intLit 1, kw .COMMA, kw .TRUE, kw .RBRACE, kw .SEMICOL]

/-- The elements of an array node. -/
def Old.Expr.elems? : Old.Expr → Option (List Old.Expr)
  | .ArrayExpr vs _ => some vs
  | _ => none

/-- The value of an integer node. -/
def Old.Expr.intValue? : Old.Expr → Option Int
  | .IntExpr _ v => some v
  | _ => none

/-- The outline of an expression tree: the class of each node with its operands, the
value of an integer literal and the name of an identifier. -/
inductive Shape where
  | int (v : Int)
  | id (name : String)
  | Relational (l r : Shape)
  | Additive (l r : Shape)
  | Multiplicative (l r : Shape)
  | Paren (e : Shape)
  | other
  deriving DecidableEq, Repr

/-- The outline of a tree of the old variant. -/
def Old.Expr.shape : Old.Expr → Shape
  | .BoolExpr l r _ _ => .Relational l.shape r.shape
  | .AddExpr l r _ _ => .Additive l.shape r.shape
  | .TermExpr l r _ _ => .Multiplicative l.shape r.shape
  | .IntExpr _ v => .int v
  | .IDExpr _ n _ => .id n
  | .ParenExpr e => .Paren e.shape
  | _ => .other

/-- The outline of a tree of the current variant. -/
def Cur.Expr.shape : Cur.Expr → Shape
  | .BoolExpr l r _ _ => .Relational l.shape r.shape
  | .AddExpr l r _ _ => .Additive l.shape r.shape
  | .TermExpr l r _ _ => .Multiplicative l.shape r.shape
  | .IntExpr v => .int v
  | .IDExpr _ n _ => .id n
  | .ParenExpr e => .Paren e.shape
  | _ => .other

/-- The outline of the tree a call returned. -/
def Old.shapeOf? {σ : Type} (r : Res σ Old.Expr) : Option Shape :=
  r.val?.map Old.Expr.shape

/-- The outline of the tree a call returned. -/
def Cur.shapeOf? {σ : Type} (r : Res σ Cur.Expr) : Option Shape :=
  r.val?.map Cur.Expr.shape

/-- The tokens of `1 + 2 * 3;`. -/
def addMulToks : List TOKEN :=
  [intLit 1, kw .PLUS, intLit 2, kw .MUL, intLit 3, kw .SEMICOL]

/-- The tokens of `1 * 2 + 3;`. -/
def mulAddToks : List TOKEN :=
  [intLit 1, kw .MUL, intLit 2, kw .PLUS, intLit 3, kw .SEMICOL]

/-- The tokens of `1 - 2 - 3;`. -/
def subSubToks : List TOKEN :=
  [intLit 1, kw .MINUS, intLit 2, kw .MINUS, intLit 3, kw .SEMICOL]

/-- The tokens of `1 / 2 / 3;`. -/
def divDivToks : List TOKEN :=
  [intLit 1, kw .DIV, intLit 2, kw .DIV, intLit 3, kw .SEMICOL]

/-- The tokens of `1 < 2 < 3;`. -/
def lessLessToks : List TOKEN :=
  [intLit 1, kw .LS, intLit 2, kw .LS, intLit 3, kw .SEMICOL]

namespace Old

mutual

/-- The types of the expressions of the return statements of a statement, in source
order: its own when it is a return statement, and those in the statements of a block
and in the body of an `if` or `alive`; the return statements of a nested function
definition belong to that function. -/
def Stmt.retTypes : Stmt → List TypeP
  | .RetStmt e => [e.getType]
  | .ParenStmts stmts _ => Stmt.retTypesList stmts
  | .IfStmt _ b => b.retTypes
  | .AliveStmt _ b => b.retTypes
  | .HighExpr _ => []
  | .WarStmt _ _ => []
  | .TrenStmt _ _ _ _ _ => []

/-- The types of the return statements of the statements of a list. -/
def Stmt.retTypesList : List Stmt → List TypeP
  | [] => []
  | st :: rest => st.retTypes ++ Stmt.retTypesList rest

end

/-- The declared return type and the body of a function node. -/
def Stmt.tren? : Stmt → Option (TypeP × Stmt)
  | .TrenStmt _ t b _ _ => some (t, b)
  | _ => none

end Old

/-- The tokens of `tren int f [] { if (1) do return [1]; return 1; }`. -/
def trenIfRetArrayToks : List TOKEN :=
  [kw .TREN, kw .INTTYPE, ident "f", kw .LBRACE, kw .RBRACE, kw .LBRA,
   kw .IF, kw .LBAR, intLit 1, kw .RBAR, kw .DO, kw .RETURN, kw .LBRACE, intLit 1, kw .RBRACE,
   kw .SEMICOL,
   kw .RETURN, intLit 1, kw .SEMICOL, kw .RBRA]

/-- The tokens of `tren int f [] { alive by [1] return [1]; return 1; }`. -/
def trenAliveRetArrayToks : List TOKEN :=
  [kw .TREN, kw .INTTYPE, ident "f", kw .LBRACE, kw .RBRACE, kw .LBRA,
   kw .ALIVE, kw .BY, kw .LBRACE, intLit 1, kw .RBRACE, kw .RETURN, kw .LBRACE, intLit 1,
   kw .RBRACE, kw .SEMICOL,
   kw .RETURN, intLit 1, kw .SEMICOL, kw .RBRA]

/-- The tokens of `tren int f [] { { return [1]; } return 1; }`. -/
def trenBlockRetArrayToks : List TOKEN :=
  [kw .TREN, kw .INTTYPE, ident "f", kw .LBRACE, kw .RBRACE, kw .LBRA,
   kw .LBRA, kw .RETURN, kw .LBRACE, intLit 1, kw .RBRACE, kw .SEMICOL, kw .RBRA,
   kw .RETURN, intLit 1, kw .SEMICOL, kw .RBRA]

/-- The tokens of `tren int f [int n] { alive by [n] { n = n - 1; } }`. -/
def trenAliveNoRetToks : List TOKEN :=
  [kw .TREN, kw .INTTYPE, ident "f", kw .LBRACE, kw .INTTYPE, ident "n", kw .RBRACE, kw .LBRA,
   kw .ALIVE, kw .BY, kw .LBRACE, ident "n", kw .RBRACE, kw .LBRA,
   ident "n", kw .ASSIGN, ident "n", kw .MINUS, intLit 1, kw .SEMICOL, kw .RBRA,
   kw .RBRA]

/-- The tokens of `tren int f [int n] { alive by [n] { n = n - 1; } return n; }`. -/
def trenAliveRetToks : List TOKEN :=
  [kw .TREN, kw .INTTYPE, ident "f", kw .LBRACE, kw .INTTYPE, ident "n", kw .RBRACE, kw .LBRA,
   kw .ALIVE, kw .BY, kw .LBRACE, ident "n", kw .RBRACE, kw .LBRA,
   ident "n", kw .ASSIGN, ident "n", kw .MINUS, intLit 1, kw .SEMICOL, kw .RBRA,
   kw .RETURN, ident "n", kw .SEMICOL, kw .RBRA]

/-- The tokens of `tren int f [int n] { alive by [n] { return n; } }`: the only return
statement is in the body of the `alive`. -/
def trenAliveInnerRetToks : List TOKEN :=
  [kw .TREN, kw .INTTYPE, ident "f", kw .LBRACE, kw .INTTYPE, ident "n", kw .RBRACE, kw .LBRA,
   kw .ALIVE, kw .BY, kw .LBRACE, ident "n", kw .RBRACE, kw .LBRA,
   kw .RETURN, ident "n", kw .SEMICOL, kw .RBRA,
   kw .RBRA]

namespace Old

mutual

/-- Every identifier node of the tree names a Variable symbol: `getSym` finds, from the
table of the node in the heap `heap`, a symbol of kind `WAR` whose type is the type of
the node; and the left side of every assignment node is an identifier node, whose type
is the type of the assignment. -/
def Expr.Resolved (heap : List (Table Symbol)) : Expr → Prop
  | .AssignExpr l r t =>
    l.lvalue = true ∧ l.getType = t ∧ l.Resolved heap ∧ r.Resolved heap
  | .BoolExpr l r _ _ => l.Resolved heap ∧ r.Resolved heap
  | .AddExpr l r _ _ => l.Resolved heap ∧ r.Resolved heap
  | .TermExpr l r _ _ => l.Resolved heap ∧ r.Resolved heap
  | .IntExpr _ _ => True
  | .ArrayExpr vs _ => Expr.ResolvedList heap vs
  | .IDExpr tab name t =>
    ∃ sym, getSym heap tab name = some (some sym) ∧ sym.sym_type = .WAR ∧ sym.Vtype = t
  | .CallExpr args _ _ _ => Expr.ResolvedList heap args
  | .ParenExpr e => e.Resolved heap

/-- Every tree of the list satisfies `Expr.Resolved`. -/
def Expr.ResolvedList (heap : List (Table Symbol)) : List Expr → Prop
  | [] => True
  | e :: es => e.Resolved heap ∧ Expr.ResolvedList heap es

end

end Old

namespace Cur

mutual

/-- Every identifier node of the tree names a Variable symbol: `getSym` finds, from the
table of the node in the heap `heap`, a symbol of kind `WAR` whose type is the type of
the node; and the left side of every assignment node is an identifier node, whose type
is the type of the assignment. -/
def Expr.Resolved (heap : List (Table Symbol)) : Expr → Prop
  | .AssignExpr l r t =>
    l.lvalue = true ∧ l.getType = t ∧ l.Resolved heap ∧ r.Resolved heap
  | .BoolExpr l r _ _ => l.Resolved heap ∧ r.Resolved heap
  | .AddExpr l r _ _ => l.Resolved heap ∧ r.Resolved heap
  | .TermExpr l r _ _ => l.Resolved heap ∧ r.Resolved heap
  | .IntExpr _ => True
  | .TrueExpr _ => True
  | .StrExpr _ => True
  | .IDExpr tab name t =>
    ∃ sym, getSym heap tab name = some (some sym) ∧ sym.sym_type = .WAR ∧ sym.Vtype = t
  | .CallExpr args _ _ _ => Expr.ResolvedList heap args
  | .ParenExpr e => e.Resolved heap

/-- Every tree of the list satisfies `Expr.Resolved`. -/
def Expr.ResolvedList (heap : List (Table Symbol)) : List Expr → Prop
  | [] => True
  | e :: es => e.Resolved heap ∧ Expr.ResolvedList heap es

end

end Cur

/-- The tokens of `1 = 2;`. -/
def assignLitToks : List TOKEN :=
  [intLit 1, kw .ASSIGN, intLit 2, kw .SEMICOL]

/-- The tokens of `war x : int = 1; (x) = 2;`. -/
def assignParenToks : List TOKEN :=
  [kw .WAR, ident "x", kw .COL, kw .INTTYPE, kw .ASSIGN, intLit 1, kw .SEMICOL,
   kw .LBAR, ident "x", kw .RBAR, kw .ASSIGN, intLit 2, kw .SEMICOL]

/-- The tokens of `war x : int = 1; x + 1 = 2;`. -/
def assignSumToks : List TOKEN :=
  [kw .WAR, ident "x", kw .COL, kw .INTTYPE, kw .ASSIGN, intLit 1, kw .SEMICOL,
   ident "x", kw .PLUS, intLit 1, kw .ASSIGN, intLit 2, kw .SEMICOL]

/-- The tokens of `war x : int = 1; x = 2;`. -/
def assignVarToks : List TOKEN :=
  [kw .WAR, ident "x", kw .COL, kw .INTTYPE, kw .ASSIGN, intLit 1, kw .SEMICOL,
   ident "x", kw .ASSIGN, intLit 2, kw .SEMICOL]

/-! ## The lexer (src/src/lexer/lexer.cpp) -/

namespace lexer

/-- The map `tokTable`: the token kind of a keyword or operator, `none` for a string
that is no key of the map. -/
def tokTable (w : String) : Option lexeme :=
  match w with
  | "if" => some .IF | "alive" => some .ALIVE | "by" => some .BY
  | "war" => some .WAR | "you" => some .YOU | "tren" => some .TREN
  | "REDGAR" => some .REDGAR | "fightclub" => some .FIGHTCLUB
  | "want" => some .WANT | "this" => some .THIS | "do" => some .DO
  | "return" => some .RETURN
  | "true" => some .TRUE | "false" => some .FALSE
  | "str" => some .STRINGTYPE | "bool" => some .BOOLTYPE | "int" => some .INTTYPE
  | "\x7b" => some .LBRA | "\x7d" => some .RBRA
  | "(" => some .LBAR | ")" => some .RBAR
  | "[" => some .LBRACE | "]" => some .RBRACE
  | ":" => some .COL | ";" => some .SEMICOL | "," => some .COMMA
  | "+" => some .PLUS | "-" => some .MINUS | "/" => some .DIV | "*" => some .MUL
  | "!" => some .NOT | "=" => some .ASSIGN | "<" => some .LS | ">" => some .GT
  | "!=" => some .NOEQ | "==" => some .EQ | "<=" => some .LSEQ | ">=" => some .GTEQ
  | _ => none

/-- The function `getToken`. -/
def getToken (str_tok : String) : lexeme :=
  match tokTable str_tok with
  | some t => t
  | none => .UNDEFINED

/-- The statics of `lexer.cpp`, `text`, `tsize`, `i` and `line`, and the lines that
`LexError` has written to `cerr` (message and line), oldest first.  The text is the
list of its characters; only the codes 0 to 127 are looked at. -/
structure LexState where
  text : List Char
  tsize : Nat
  i : Nat
  line : Int
  cerr : List (String × Int)
  deriving DecidableEq, Repr

/-- The statics as the program starts: `i = 0`, `line = 1`, an empty `text` and a
zero `tsize`. -/
def LexState.initial : LexState :=
  { text := [], tsize := 0, i := 0, line := 1, cerr := [] }

/-- The function `setCode`: it sets `text` and `tsize` and nothing else. -/
def setCode (code : String) (s : Nat) (st : LexState) : LexState :=
  { st with text := code.toList, tsize := s }

/-- The character `text[j]`.  At `j = text.size()` it is the null character; beyond
that the C++ read is undefined, and the model reads the null character too. -/
def LexState.charAt (st : LexState) (j : Nat) : Char :=
  st.text.getD j (Char.ofNat 0)

/-- The function `isdigit` of `<cctype>` (C locale). -/
def isdigit (c : Char) : Bool := decide (48 ≤ c.toNat ∧ c.toNat ≤ 57)

/-- The function `isalpha` of `<cctype>` (C locale). -/
def isalpha (c : Char) : Bool :=
  decide ((65 ≤ c.toNat ∧ c.toNat ≤ 90) ∨ (97 ≤ c.toNat ∧ c.toNat ≤ 122))

/-- The function `isalnum` of `<cctype>` (C locale). -/
def isalnum (c : Char) : Bool := isalpha c || isdigit c

/-- The function `isspace` of `<cctype>` (C locale): the space and the codes 9 to 13
(tab, line feed, vertical tab, form feed, carriage return). -/
def isspace (c : Char) : Bool := decide (c.toNat = 32 ∨ (9 ≤ c.toNat ∧ c.toNat ≤ 13))

/-- The function `ispunct` of `<cctype>` (C locale): the printable characters that are
neither alphanumeric nor the space. -/
def ispunct (c : Char) : Bool :=
  decide ((33 ≤ c.toNat ∧ c.toNat ≤ 47) ∨ (58 ≤ c.toNat ∧ c.toNat ≤ 64) ∨
    (91 ≤ c.toNat ∧ c.toNat ≤ 96) ∨ (123 ≤ c.toNat ∧ c.toNat ≤ 126))

/-- The value of a run of decimal digits. -/
def digitsValue (word : List Char) : Nat :=
  word.foldl (fun acc c => 10 * acc + (c.toNat - 48)) 0

/-- The call `stoll(word)` of the standard library on a run of digits: the value, or
`none` when the value does not fit in a `long long` and the call throws
`std::out_of_range`. -/
def stoll (word : List Char) : Option Int :=
  if digitsValue word ≤ 9223372036854775807 then some (digitsValue word) else none

/-- What a call of `getNextToken` ends in: it returns the token `t`, or an exception
leaves it, or the model runs out of fuel; `st` are the statics afterwards. -/
inductive LexRes where
  | tok (t : TOKEN) (st : LexState)
  | thrown (st : LexState)
  | fuel
  deriving DecidableEq, Repr

/-- The function `LexError`: one line on `cerr`, the message and `line`, and the
token `ERROR`. -/
def LexError (msg : String) (st : LexState) : LexRes :=
  .tok { tok := .ERROR, line := st.line } { st with cerr := st.cerr ++ [(msg, st.line)] }

/-- The loop `for(; isalnum(text[i]) && i < tsize; ++i) word += text[i];` from the
index `i` and the word `word` on: the index and the word at its end.  The first
argument bounds the rounds; after `tsize - i` rounds the test `i < tsize` fails. -/
def alnumLoop (st : LexState) : Nat → Nat → List Char → Nat × List Char
  | 0, i, word => (i, word)
  | k + 1, i, word =>
    if isalnum (st.charAt i) ∧ i < st.tsize then
      alnumLoop st k (i + 1) (word ++ [st.charAt i])
    else (i, word)

/-- The loop `for(; isdigit(text[i]); ++i) word += text[i];`.  The first argument
bounds the rounds; after `text.size() - i` rounds `text[i]` is the null character. -/
def digitLoop (st : LexState) : Nat → Nat → List Char → Nat × List Char
  | 0, i, word => (i, word)
  | k + 1, i, word =>
    if isdigit (st.charAt i) then digitLoop st k (i + 1) (word ++ [st.charAt i])
    else (i, word)

/-- The loop `for(++i; text[i] != '"' && i < tsize; ++i) word += text[i];` after its
`++i`.  The first argument bounds the rounds; after `tsize - i` rounds the test
`i < tsize` fails. -/
def stringLoop (st : LexState) : Nat → Nat → List Char → Nat × List Char
  | 0, i, word => (i, word)
  | k + 1, i, word =>
    if st.charAt i ≠ Char.ofNat 34 ∧ i < st.tsize then
      stringLoop st k (i + 1) (word ++ [st.charAt i])
    else (i, word)

/-- The body of `getNextToken`; `again` is its call of itself after a white-space
character. -/
def getNextTokenBody (again : LexState → LexRes) (st : LexState) : LexRes :=
  let c := st.charAt st.i
  if st.i = st.tsize then .tok { tok := .EOFILE, line := st.line } st
  else if isalpha c then
    let r := alnumLoop st (st.tsize - st.i) st.i []
    let st1 := { st with i := r.1 }
    match tokTable (String.mk r.2) with
    | some t => .tok { tok := t, line := st.line } st1
    | none => .tok { tok := .IDENTIFIER, word := String.mk r.2, line := st.line } st1
  else if isdigit c then
    let r := digitLoop st (st.text.length - st.i) st.i []
    let st1 := { st with i := r.1 }
    match stoll r.2 with
    | none => .thrown st1
    | some v => .tok { tok := .INTEGER, ival := v, line := st.line } st1
  else if c = Char.ofNat 34 then
    let r := stringLoop st (st.tsize - (st.i + 1)) (st.i + 1) []
    let st1 := { st with i := r.1 }
    if r.1 = st.tsize ∧ st.charAt r.1 ≠ Char.ofNat 34 then
      LexError ("excepted '" ++ String.mk [Char.ofNat 34] ++ "'") st1
    else
      let st2 := if r.1 ≠ st.tsize then { st1 with i := r.1 + 1 } else st1
      .tok { tok := .STRING, word := String.mk r.2, line := st.line } st2
  else if isspace c then
    again { st with i := st.i + 1, line := if c = Char.ofNat 10 then st.line + 1 else st.line }
  else if ispunct c then
    let st1 := { st with i := st.i + 1 }
    match tokTable (String.mk [c]) with
    | none => LexError "unknown punct" st1
    | some t =>
      if t.code < lexeme.ASSIGN.code ∨ t.code > lexeme.LSEQ.code then
        .tok { tok := t, line := st.line } st1
      else if st1.i < st.tsize ∧ st.charAt st1.i = Char.ofNat 61 then
        match tokTable (String.mk [c, st.charAt st1.i]) with
        | some t2 => .tok { tok := t2, line := st.line } { st1 with i := st1.i + 1 }
        | none => .tok { tok := .INTEGER, line := st.line } { st1 with i := st1.i + 1 }
      else .tok { tok := t, line := st.line } st1
  else LexError "unknown char" st

/-- The function `getNextToken` with a bound on its calls of itself. -/
def getNextTokenFuel : Nat → LexState → LexRes
  | 0, st => getNextTokenBody (fun _ => .fuel) st
  | k + 1, st => getNextTokenBody (getNextTokenFuel k) st

/-- The function `getNextToken`.  It calls itself once for each white-space character
it skips, and a white-space character is at an index below `text.size()`. -/
def getNextToken (st : LexState) : LexRes :=
  getNextTokenFuel (st.text.length - st.i) st

/-- A token `getNextToken` returned, with the lines the call wrote to `cerr`. -/
structure Lexed where
  tok : TOKEN
  cerr : List (String × Int)
  deriving DecidableEq, Repr

/-- The tokens that `getNextToken` returns, call after call, before its first
`EOFILE`, and the line of that `EOFILE`; `none` when an exception leaves a call or
`EOFILE` does not come within the given number of calls. -/
def lexAll : Nat → LexState → Option (List Lexed × Int)
  | 0, _ => none
  | k + 1, st =>
    match getNextToken st with
    | .tok t st1 =>
      if t.tok = .EOFILE then some ([], t.line)
      else
        match lexAll k st1 with
        | none => none
        | some p => some ({ tok := t, cerr := st1.cerr.drop st.cerr.length } :: p.1, p.2)
    | _ => none

/-- How the sequence of the tokens that `getNextToken` returns, call after call, goes
on behind some of them: with `EOFILE` (and its line), with a call that an exception
leaves, or with further tokens. -/
inductive Ending where
  | eof (line : Int)
  | thrown
  | more
  deriving DecidableEq, Repr

/-- The first `k` tokens that `getNextToken` returns, call after call, or those before
its first `EOFILE` or before the call that an exception leaves, when that comes
earlier; and how the sequence goes on behind them.  The text behind these tokens is
not looked at. -/
def lexPrefix : Nat → LexState → List Lexed × Ending
  | 0, _ => ([], .more)
  | k + 1, st =>
    match getNextToken st with
    | .tok t st1 =>
      if t.tok = .EOFILE then ([], .eof t.line)
      else
        let p := lexPrefix k st1
        ({ tok := t, cerr := st1.cerr.drop st.cerr.length } :: p.1, p.2)
    | _ => ([], .thrown)

/-- The statics after `main` has read the source `text` and called `setCode`. -/
def start (text : String) : LexState :=
  setCode text text.length LexState.initial

end lexer

/-- The call wrote no line to the diagnostics when it returned a node, and exactly one
line, with the line number of the current token, when it returned the null pointer. -/
structure Res.OneLine {σ α : Type} (s : PState σ) (r : Res σ α) : Prop where
  ok_log : ∀ v s', r = Res.ok v s' → s'.log = s.log
  null_log : ∀ s', r = Res.null s' → ∃ msg, s'.log = s.log ++ [(msg, s'.CurrTok.line)]

/-- What a run of `main` leaves behind: the result of `ParseInput`, the value `main`
returns, the tokens the parser has read, each with the lines the lexer wrote for it,
and the lines written to `cerr`, those of the lexer and those of the parser. -/
structure Cur.Run where
  result : Res Cur.Symbol Cur.Input
  ret : Int
  read : List lexer.Lexed
  cerr : List (String × Int)

/-- The function `main` of `compiler.cpp` on the source `text`: `setCode(text,
text.size())`, then `ParseInput()`.  The parser reads the tokens through `nextToken`,
one call of `getNextToken` each, so the text is tokenized only as far as the parser
reads, and the lines of the lexer on `cerr` are those of the tokens the parser has
read.  The parser runs on the first `text.size() + 3` tokens, or on those before
`EOFILE` when it comes earlier, after which `nextToken` gives `EOFILE` again and
again.  When they do not end with `EOFILE`, a mark is put behind them, in the place of
the token that is not computed (the next token, or the call that an exception
leaves), and the run is that of `main` as long as the parser has not read the mark.
`none` when the parser does not return, or when it has read the mark: it has asked for
the token whose call an exception leaves, and the exception leaves `main`, or for more
tokens than were computed. -/
def Cur.main (n : Nat) (text : String) : Option Cur.Run :=
  let p := lexer.lexPrefix (text.length + 3) (lexer.start text)
  let toks := p.1.map (fun l => l.tok)
  let given : (List TOKEN × Int) × Bool :=
    match p.2 with
    | .eof line => ((toks, line), true)
    | _ => ((toks ++ [{ tok := .ERROR, line := 0 }], 0), false)
  let r := Cur.ParseInput n (PState.init given.1.1 given.1.2)
  match r.state? with
  | none => none
  | some s' =>
    if given.2 = false ∧ s'.toks = [] then none
    else
      let read := p.1.take (given.1.1.length - s'.toks.length)
      some { result := r, ret := if r.isNull then 1 else 0, read := read,
             cerr := (read.map (fun l => l.cerr)).flatten ++ s'.log }

/-- The tokens `getNextToken` returns for the source `text` before `EOFILE`. -/
def lexer.tokens (text : String) : List TOKEN :=
  match lexer.lexAll (text.length + 1) (lexer.start text) with
  | none => []
  | some p => p.1.map (fun l => l.tok)

/-- Every symbol stored in a table of the heap has a type: its `Vtype` is not the null
pointer. -/
def Old.TypedHeap (heap : List (Table Old.Symbol)) : Prop :=
  ∀ t ∈ heap, ∀ (name : String) (sym : Old.Symbol),
    t.symbols name = some sym → sym.Vtype.isNull = false

namespace lexer

/-- The call of `getNextToken` in the statics `st` returns a token of the kind `t`, with
no text, on the line `st.line`, and moves the cursor by `k` characters. -/
def Lexes (st : LexState) (t : lexeme) (k : Nat) : Prop :=
  getNextToken st = .tok { tok := t, line := st.line } { st with i := st.i + k }

end lexer

namespace lexer

/-- The entries of `tokTable` under its comments `keywords`, `liters` and `types`: the
reserved words, each with its token. -/
def reserved : List (String × lexeme) :=
  [("if", .IF), ("alive", .ALIVE), ("by", .BY), ("war", .WAR), ("you", .YOU),
   ("tren", .TREN), ("REDGAR", .REDGAR), ("fightclub", .FIGHTCLUB), ("want", .WANT),
   ("this", .THIS), ("do", .DO), ("return", .RETURN), ("true", .TRUE), ("false", .FALSE),
   ("str", .STRINGTYPE), ("bool", .BOOLTYPE), ("int", .INTTYPE)]

end lexer

namespace lexer

/-- The line number the specification gives a token whose first character is at the
index `j` of the text: 1 plus the number of newline characters before `j`. -/
def sourceLine (text : List Char) (j : Nat) : Int :=
  1 + ((text.take j).count '\n' : Nat)

end lexer

namespace Cur

mutual
/-- The operator tags `Op` of the Relational, Additive and Multiplicative nodes of an
expression, those of the left operand first, then the tag of the node, then those of
the right operand. -/
def Expr.tags : Expr → List String
  | .AssignExpr l r _ => l.tags ++ r.tags
  | .BoolExpr l r _ op => l.tags ++ op :: r.tags
  | .AddExpr l r _ op => l.tags ++ op :: r.tags
  | .TermExpr l r _ op => l.tags ++ op :: r.tags
  | .IntExpr _ => []
  | .TrueExpr _ => []
  | .StrExpr _ => []
  | .IDExpr _ _ _ => []
  | .CallExpr args _ _ _ => Expr.tagsList args
  | .ParenExpr e => e.tags
/-- The operator tags of the expressions of a list. -/
def Expr.tagsList : List Expr → List String
  | [] => []
  | e :: es => e.tags ++ Expr.tagsList es
end

mutual
/-- The operator tags of the expressions of a statement. -/
def Stmt.tags : Stmt → List String
  | .HighExpr e => e.tags
  | .TrenStmt _ body _ _ _ => body.tags
  | .WarStmt wars _ => Expr.tagsList wars
  | .RetStmt e => e.tags
  | .ParenStmts stmts _ => Stmt.tagsList stmts
  | .IfStmt c b => c.tags ++ b.tags
  | .AliveStmt c b => c.tags ++ b.tags
/-- The operator tags of the statements of a list. -/
def Stmt.tagsList : List Stmt → List String
  | [] => []
  | s :: ss => s.tags ++ Stmt.tagsList ss
end

/-- The operator tags of the tree that `main` builds from the source `text`; `none`
when no tree is built. -/
def tagsOf (n : Nat) (text : String) : Option (List String) :=
  match Cur.main n text with
  | none => none
  | some r =>
    match r.result with
    | .ok inp _ => some (Stmt.tagsList inp.stmts)
    | _ => none

end Cur

namespace Old

mutual
/-- Every identifier node and every call node of the tree is bound in the heap `heap`
as the parser found it: `getSym`, from the table of the node, finds a symbol of the
kind `ParseFactor` tests for, `WAR` for an identifier and `FUNCTION` for a call, and
the type of the symbol is the type of the node. -/
def Expr.Bound (heap : List (Table Symbol)) : Expr → Prop
  | .AssignExpr l r _ => l.Bound heap ∧ r.Bound heap
  | .BoolExpr l r _ _ => l.Bound heap ∧ r.Bound heap
  | .AddExpr l r _ _ => l.Bound heap ∧ r.Bound heap
  | .TermExpr l r _ _ => l.Bound heap ∧ r.Bound heap
  | .IntExpr _ _ => True
  | .ArrayExpr vs _ => Expr.BoundList heap vs
  | .IDExpr tab name t =>
    ∃ sym, getSym heap tab name = some (some sym) ∧ sym.sym_type = .WAR ∧ sym.Vtype = t
  | .CallExpr args tab name t =>
    (∃ sym, getSym heap tab name = some (some sym) ∧ sym.sym_type = .FUNCTION ∧
      sym.Vtype = t) ∧ Expr.BoundList heap args
  | .ParenExpr e => e.Bound heap
/-- Every tree of the list satisfies `Expr.Bound`. -/
def Expr.BoundList (heap : List (Table Symbol)) : List Expr → Prop
  | [] => True
  | e :: es => e.Bound heap ∧ Expr.BoundList heap es
end

mutual
/-- The names of the identifier nodes and of the call nodes of a tree. -/
def Expr.names : Expr → List String
  | .AssignExpr l r _ => l.names ++ r.names
  | .BoolExpr l r _ _ => l.names ++ r.names
  | .AddExpr l r _ _ => l.names ++ r.names
  | .TermExpr l r _ _ => l.names ++ r.names
  | .IntExpr _ _ => []
  | .ArrayExpr vs _ => Expr.namesList vs
  | .IDExpr _ name _ => [name]
  | .CallExpr args _ name _ => name :: Expr.namesList args
  | .ParenExpr e => e.names
/-- The names of the identifier nodes and of the call nodes of the trees of a list. -/
def Expr.namesList : List Expr → List String
  | [] => []
  | e :: es => e.names ++ Expr.namesList es
end

/-- The expression of a `HighExpr` node. -/
def Stmt.expr? : Stmt → Option Expr
  | .HighExpr e => some e
  | _ => none

end Old

/-- The tokens of `war x : int = 1; x; war x : array<int> = [2];`: the name `x` is
declared again, with another type, after it was used. -/
def warUseWarToks : List TOKEN :=
  [kw .WAR, ident "x", kw .COL, kw .INTTYPE, kw .ASSIGN, intLit 1, kw .SEMICOL,
   ident "x", kw .SEMICOL,
   kw .WAR, ident "x", kw .COL, kw .ARRAYTYPE, kw .LS, kw .INTTYPE, kw .GT, kw .ASSIGN,
   kw .LBRACE, intLit 2, kw .RBRACE, kw .SEMICOL]

/-- The tokens of `war x : array<int> = [1]; { x; war x : int = 2; }`: the block uses
the outer `x` and then declares its own. -/
def blockUseWarToks : List TOKEN :=
  [kw .WAR, ident "x", kw .COL, kw .ARRAYTYPE, kw .LS, kw .INTTYPE, kw .GT, kw .ASSIGN,
   kw .LBRACE, intLit 1, kw .RBRACE, kw .SEMICOL,
   kw .LBRA, ident "x", kw .SEMICOL,
   kw .WAR, ident "x", kw .COL, kw .INTTYPE, kw .ASSIGN, intLit 2, kw .SEMICOL, kw .RBRA]

namespace Old

/-- The statement at index `k` of a block. -/
def Stmt.inner? : Stmt → Nat → Option Stmt
  | .ParenStmts stmts _, k => stmts[k]?
  | _, _ => none

/-- The type of the symbol that `getSym` finds in the heap `heap` for the name of an
identifier node or call node, from the table of the node: the lookup of
`IDExpr::codegen` and `CallExpr::codegen`. -/
def Expr.lookupType? (heap : List (Table Symbol)) : Expr → Option TypeP
  | .IDExpr tab name _ => ((getSym heap tab name).join).map (fun sym => sym.Vtype)
  | .CallExpr _ tab name _ => ((getSym heap tab name).join).map (fun sym => sym.Vtype)
  | _ => none

/-- The program `toks` is parsed by `ParseInput`; of the node that `pick` takes from
the statements, the type stored in the node and the type of the symbol that the lookup
finds in the heap as `ParseInput` leaves it. -/
def typeAndLookup (toks : List TOKEN) (pick : List Stmt → Option Expr) :
    Option (TypeP × Option TypeP) :=
  match ParseInput printSym 40 (PState.init toks 1) with
  | .ok inp s' => (pick inp.stmts).map (fun e => (e.getType, e.lookupType? s'.heap))
  | _ => none

end Old

/-! ## The old code generator (src/old/ast/code.cpp) -/

/-- The address of the table in which the walk of `Table::getSym` finds the name: the
symbol object the walk returns is the one this table holds under the name.  The
arguments are those of `Table.getSym`. -/
def Table.getSymAddr {σ : Type} (heap : List (Table σ)) (name : String) :
    Nat → Nat → Option Nat
  | 0, _ => none
  | bound + 1, a =>
    if a = bound then
      match heap[a]? with
      | none => none
      | some t =>
        match t.symbols name with
        | some _ => some a
        | none =>
          match t.Prev with
          | some p => Table.getSymAddr heap name bound p
          | none => none
    else Table.getSymAddr heap name bound a

/-- The symbol object that `tab->getSym(name)` returns, named by the table that holds
it and by its name: `none` when `tab` is null, `some none` when the call returns the
null pointer.  The code generator reaches a symbol object only through the tables, and
a table holds one object under a name. -/
def symRef {σ : Type} (heap : List (Table σ)) (tab : Option Nat) (name : String) :
    Option (Option (Nat × String)) :=
  match tab with
  | none => none
  | some a => some ((Table.getSymAddr heap name (a + 1) a).map (fun b => (b, name)))

namespace Old

/-- The LLVM types the generator asks for: `i8`, `i64` and pointers. -/
inductive LType where
  | i8
  | i64
  | ptr (pointee : LType)
  deriving DecidableEq, Repr

/-- The function `getLType`: `i64` for `Int`, a pointer to the type of the elements for
`Array`; `none` when it dereferences a null type pointer. -/
def getLType : TypeP → Option LType
  | .null => none
  | .IntType => some .i64
  | .ArrayType e => (getLType e).map .ptr

/-- A `Value *` that is not null: a constant `ConstantInt::get(*TheContext, APInt(bits,
val))`, the result of the builder call number `id`, the argument `idx` of the function
`fn`, or the function `fn`. -/
inductive Value where
  | const (bits : Nat) (val : Int)
  | inst (id : Nat)
  | arg (fn : Nat) (idx : Nat)
  | func (fn : Nat)
  deriving DecidableEq, Repr

/-- The predicates of the `CreateICmp...` methods. -/
inductive Pred where
  | SLT | SLE | SGT | SGE | EQ | NE
  deriving DecidableEq, Repr

/-- A call of a `Create...` method of the builder, with its arguments; a block is `Nat`,
its index in the module, and so is a function.  The builder of LLVM makes an
instruction of the call and inserts it at the insertion point (it may fold a call on
constants to a constant instead; the model records the call). -/
inductive Instr where
  | CreateAlloca (ty : LType) (arraySize : Option Value) (name : String)
  | CreateStore (val : Value) (ptr : Value)
  | CreateLoad (ty : LType) (ptr : Value) (name : String)
  | CreateICmp (p : Pred) (lhs rhs : Value) (name : String)
  | CreateIntCast (v : Value) (destTy : LType) (isSigned : Bool) (name : String)
  | CreateAdd (lhs rhs : Value) (name : String)
  | CreateSub (lhs rhs : Value) (name : String)
  | CreateMul (lhs rhs : Value) (name : String)
  | CreateSDiv (lhs rhs : Value) (name : String)
  | CreateGEP (ty : LType) (ptr : Value) (idxList : List Value) (name : String)
  | CreateCall (callee : Nat) (args : List Value) (name : String)
  | CreateRet (v : Value)
  | CreateBr (dest : Nat)
  | CreateCondBr (cond : Value) (ifTrue ifFalse : Nat)
  | CreateGlobalStringPtr (str : String) (name : String)
  deriving DecidableEq, Repr

/-- A basic block: the name it was created with, its function, and the builder calls
made while it was the insertion point, each with its number, oldest first. -/
structure BasicBlock where
  name : String
  parent : Nat
  instrs : List (Nat × Instr)
  deriving DecidableEq, Repr

/-- A function of the module: its name, its type and the names of its arguments. -/
structure Func where
  name : String
  result : LType
  params : List LType
  isVarArg : Bool
  argNames : List String
  deriving DecidableEq, Repr

/-- The state of the code generator: the functions and the blocks of `TheModule`, the
insertion block of `Builder`, the number of builder calls made, the handles `alloc`
and `func` that `setAlloc` and `setFunction` have stored in symbol objects, and the
messages of `LogCompError`. -/
structure CG where
  functions : List Func
  blocks : List BasicBlock
  insert : Nat
  count : Nat
  alloc : List ((Nat × String) × Value)
  func : List ((Nat × String) × Nat)
  cerr : List String
  deriving DecidableEq, Repr

/-- What a `codegen` method ends in: it returns the pointer `v`, `none` for the null
pointer, or it does not return: it dereferences a null pointer or hands the builder a
null operand, which LLVM does not define. -/
inductive CRes (α : Type) where
  | ret (v : Option α) (g : CG)
  | crash
  deriving DecidableEq

/-- The state in which the method returned. -/
def CRes.state? {α : Type} : CRes α → Option CG
  | .ret _ g => some g
  | .crash => none

/-- A builder call `Builder->Create...(...)`: the call is recorded at the end of the
insertion block and its result is returned. -/
def CG.emit (g : CG) (i : Instr) : Value × CG :=
  (.inst g.count,
   { g with blocks := g.blocks.modify (fun b => { b with instrs := b.instrs ++ [(g.count, i)] })
              g.insert,
            count := g.count + 1 })

/-- The call `BasicBlock::Create(*TheContext, name, parent)`: a new, empty block at the
end of the blocks. -/
def CG.newBlock (g : CG) (name : String) (parent : Nat) : Nat × CG :=
  (g.blocks.length,
   { g with blocks := g.blocks ++ [{ name := name, parent := parent, instrs := [] }] })

/-- The call `Function::Create(FunctionType::get(result, params, false),
Function::ExternalLinkage, name, TheModule.get())`: a new function at the end of the
functions, its arguments without names. -/
def CG.newFunction (g : CG) (result : LType) (params : List LType) (name : String) :
    Nat × CG :=
  (g.functions.length,
   { g with functions := g.functions ++
       [{ name := name, result := result, params := params, isVarArg := false,
          argNames := [] }] })

/-- The call `Arg.setName(name)` on the next argument of the function `F`. -/
def CG.setName (g : CG) (F : Nat) (name : String) : CG :=
  { g with functions :=
      g.functions.modify (fun f => { f with argNames := f.argNames ++ [name] }) F }

/-- The call `Builder->SetInsertPoint(b)`. -/
def CG.SetInsertPoint (g : CG) (b : Nat) : CG := { g with insert := b }

/-- The call `Builder->GetInsertBlock()->getParent()`. -/
def CG.getParent (g : CG) : Option Nat := (g.blocks[g.insert]?).map (fun b => b.parent)

/-- The method `Symbol::getAlloc` on a symbol object: `none` is the null pointer. -/
def CG.getAlloc (g : CG) (r : Nat × String) : Option Value := g.alloc.lookup r

/-- The method `Symbol::setAlloc`. -/
def CG.setAlloc (g : CG) (r : Nat × String) (v : Value) : CG :=
  { g with alloc := (r, v) :: g.alloc }

/-- The method `Symbol::getFunction`. -/
def CG.getFunction (g : CG) (r : Nat × String) : Option Nat := g.func.lookup r

/-- The method `Symbol::setFunction`. -/
def CG.setFunction (g : CG) (r : Nat × String) (f : Nat) : CG :=
  { g with func := (r, f) :: g.func }

/-- The function `LogCompError`: one line on `cerr`; it returns the null pointer. -/
def LogCompError {α : Type} (message : String) (g : CG) : CRes α :=
  .ret none { g with cerr := g.cerr ++ [message] }

/-- The virtual method `size`: the number of elements of an array literal, 0 for every
other expression. -/
def Expr.size : Expr → Nat
  | .ArrayExpr value _ => value.length
  | _ => 0

/-- The predicate of the `CreateICmp...` method that `BoolExpr::codegen` calls for the
operator tag `Op`. -/
def predOf (Op : String) : Option Pred :=
  if Op = "<" then some .SLT
  else if Op = "<=" then some .SLE
  else if Op = ">" then some .SGT
  else if Op = ">=" then some .SGE
  else if Op = "==" then some .EQ
  else if Op = "!=" then some .NE
  else none

end Old

namespace Old

mutual

/-- The `codegen` methods of the expression classes.  `heap` holds the tables as the
parser left them. -/
def Expr.codegen (heap : List (Table Symbol)) : Expr → CG → CRes Value
  | .AssignExpr LHS RHS _, g =>
    match LHS.codegen heap g with
    | .crash => .crash
    | .ret lhs g1 =>
      match RHS.codegen heap g1 with
      | .crash => .crash
      | .ret rhs g2 =>
        match lhs, rhs with
        | some _, some rhs =>
          -- `LHS` is a `unique_ptr<Lvalue>`, an `IDExpr`
          match LHS with
          | .IDExpr tab name _ =>
            match symRef heap tab name with
            | some (some war_sym) =>
              match g2.getAlloc war_sym with
              | some alloc => .ret (some rhs) (g2.emit (.CreateStore rhs alloc)).2
              | none => .crash
            | _ => .crash
          | _ => .crash
        | _, _ => .ret none g2
  | .BoolExpr LHS RHS _ Op, g =>
    match LHS.codegen heap g with
    | .crash => .crash
    | .ret lhs g1 =>
      match RHS.codegen heap g1 with
      | .crash => .crash
      | .ret rhs g2 =>
        match lhs, rhs with
        | some lhs, some rhs =>
          match predOf Op with
          | some p =>
            let val := g2.emit (.CreateICmp p lhs rhs "booltmp")
            let val := val.2.emit (.CreateIntCast val.1 .i64 false "restmp")
            .ret (some val.1) val.2
          | none => LogCompError ("invalid binary (bool) operator " ++ Op) g2
        | _, _ => .ret none g2
  | .AddExpr LHS RHS _ Op, g =>
    match LHS.codegen heap g with
    | .crash => .crash
    | .ret lhs g1 =>
      match RHS.codegen heap g1 with
      | .crash => .crash
      | .ret rhs g2 =>
        match lhs, rhs with
        | some lhs, some rhs =>
          if Op = "+" then
            let val := g2.emit (.CreateAdd lhs rhs "inttmp")
            .ret (some val.1) val.2
          else if Op = "-" then
            let val := g2.emit (.CreateSub lhs rhs "inttmp")
            .ret (some val.1) val.2
          else LogCompError ("invalid binary (int) operator " ++ Op) g2
        | _, _ => .ret none g2
  | .TermExpr LHS RHS _ Op, g =>
    match LHS.codegen heap g with
    | .crash => .crash
    | .ret lhs g1 =>
      match RHS.codegen heap g1 with
      | .crash => .crash
      | .ret rhs g2 =>
        match lhs, rhs with
        | some lhs, some rhs =>
          if Op = "*" then
            let val := g2.emit (.CreateMul lhs rhs "termtmp")
            .ret (some val.1) val.2
          else if Op = "/" then
            let val := g2.emit (.CreateSDiv lhs rhs "termtmp")
            .ret (some val.1) val.2
          else LogCompError ("invalid binary (term) operator " ++ Op) g2
        | _, _ => .ret none g2
  | .IntExpr _ value, g => .ret (some (.const 64 value)) g
  | .ArrayExpr value Vtype, g =>
    match Vtype.getElementType with
    | none => .crash
    | some elem =>
      match getLType elem with
      | none => .crash
      | some ty =>
        let alloc := g.emit (.CreateAlloca ty (some (.const 64 value.length)) "array")
        Expr.codegenElems heap ty alloc.1 value 0 alloc.2
  | .IDExpr CurrTable name Vtype, g =>
    match symRef heap CurrTable name with
    | some (some war_sym) =>
      match getLType Vtype, g.getAlloc war_sym with
      | some ty, some alloc =>
        let V := g.emit (.CreateLoad ty alloc "idexpr")
        .ret (some V.1) V.2
      | _, _ => .crash
    | _ => .crash
  | .CallExpr args CurrTable name _, g =>
    match symRef heap CurrTable name with
    | none => .crash
    | some func_sym =>
      match Expr.codegenArgs heap args [] g with
      | .crash => .crash
      | .ret none g1 => .ret none g1
      | .ret (some ArgsV) g1 =>
        match func_sym with
        | none => .crash
        | some func_sym =>
          match g1.getFunction func_sym with
          | none => .crash
          | some F =>
            let V := g1.emit (.CreateCall F ArgsV "calltmp")
            .ret (some V.1) V.2
  | .ParenExpr expr, g => expr.codegen heap g

/-- The loop of `ArrayExpr::codegen` over the elements, from the element number `i`
on; `alloc` is the result of the `CreateAlloca` before the loop. -/
def Expr.codegenElems (heap : List (Table Symbol)) (ty : LType) (alloc : Value) :
    List Expr → Nat → CG → CRes Value
  | [], _, g => .ret (some alloc) g
  | e :: es, i, g =>
    match e.codegen heap g with
    | .crash => .crash
    | .ret none g1 => .ret none g1
    | .ret (some elemV) g1 =>
      let point := g1.emit (.CreateGEP ty alloc [.const 64 i] "index_query")
      let g3 := (point.2.emit (.CreateStore elemV point.1)).2
      Expr.codegenElems heap ty alloc es (i + 1) g3

/-- The loop of `CallExpr::codegen` over the arguments; `ArgsV` is the vector built so
far. -/
def Expr.codegenArgs (heap : List (Table Symbol)) :
    List Expr → List Value → CG → CRes (List Value)
  | [], ArgsV, g => .ret (some ArgsV) g
  | e :: es, ArgsV, g =>
    match e.codegen heap g with
    | .crash => .crash
    | .ret none g1 => .ret none g1
    | .ret (some ArgV) g1 => Expr.codegenArgs heap es (ArgsV ++ [ArgV]) g1

end

/-- The loop of `WarStmt::codegen` over the declarations. -/
def codegenWars (heap : List (Table Symbol)) (CurrTable : Option Nat) :
    List (String × Expr) → CG → CRes Value
  | [], g => .ret (some (.const 64 0)) g
  | (warName, rhs) :: wars, g =>
    match symRef heap CurrTable warName with
    | none => .crash
    | some sym =>
      match getLType rhs.getType with
      | none => .crash
      | some LexprType =>
        let number_of_elems : Option Value :=
          if rhs.size ≠ 0 then some (.const 64 rhs.size) else none
        let alloc := g.emit (.CreateAlloca LexprType number_of_elems warName)
        match rhs.codegen heap alloc.2 with
        | .crash => .crash
        | .ret none g1 => .ret none g1
        | .ret (some Vrhs) g1 =>
          let g2 := (g1.emit (.CreateStore Vrhs alloc.1)).2
          match sym with
          | none => .crash
          | some sym => codegenWars heap CurrTable wars (g2.setAlloc sym alloc.1)

/-- The loop of `TrenStmt::codegen` that fills `VArgsTypes`; `none` when `getLType`
dereferences a null pointer. -/
def argLTypes : List TypeP → Option (List LType)
  | [] => some []
  | t :: ts =>
    match getLType t, argLTypes ts with
    | some l, some ls => some (l :: ls)
    | _, _ => none

/-- The loop of `TrenStmt::codegen` over the arguments of the function `F`, from the
argument number `Idx` on; `tys` are the types that are left of `VArgsTypes`.  `none`
when `args[Idx]` does not exist or `arg_sym` is null. -/
def codegenParams (heap : List (Table Symbol)) (CurrTable : Option Nat) (F : Nat)
    (args : List String) : List LType → Nat → CG → Option CG
  | [], _, g => some g
  | ty :: tys, Idx, g =>
    match args[Idx]? with
    | none => none
    | some argName =>
      let g := g.setName F argName
      let alloc := g.emit (.CreateAlloca ty none argName)
      let g1 := (alloc.2.emit (.CreateStore (.arg F Idx) alloc.1)).2
      match symRef heap CurrTable argName with
      | some (some arg_sym) =>
        codegenParams heap CurrTable F args tys (Idx + 1) (g1.setAlloc arg_sym alloc.1)
      | _ => none

mutual

/-- The `codegen` methods of the statement classes. -/
def Stmt.codegen (heap : List (Table Symbol)) : Stmt → CG → CRes Value
  | .HighExpr expr, g => expr.codegen heap g
  | .TrenStmt CurrTable Vtype body args name, g =>
    match symRef heap CurrTable name with
    | some (some func_sym) =>
      match (getSym heap CurrTable name).join with
      | none => .crash
      | some sym =>
        match argLTypes sym.arg_types, getLType Vtype with
        | some VArgsTypes, some result =>
          let F := g.newFunction result VArgsTypes name
          let g := F.2.setFunction func_sym F.1
          let F := F.1
          let BB := g.newBlock "entry" F
          let g := BB.2.SetInsertPoint BB.1
          match codegenParams heap CurrTable F args VArgsTypes 0 g with
          | none => .crash
          | some g1 =>
            match body.codegen heap g1 with
            | .crash => .crash
            | .ret none g2 => .ret none g2
            | .ret (some _) g2 => .ret (some (.func F)) g2
        | _, _ => .crash
    | _ => .crash
  | .WarStmt wars CurrTable, g => codegenWars heap CurrTable wars g
  | .RetStmt expr, g =>
    match expr.codegen heap g with
    | .crash => .crash
    | .ret none g1 => .ret none g1
    | .ret (some retExpr) g1 => .ret (some (.const 64 0)) (g1.emit (.CreateRet retExpr)).2
  | .ParenStmts stmts _, g => Stmt.codegenList heap stmts g
  | .IfStmt Cond Body, g =>
    match g.getParent with
    | none => .crash
    | some TheFunction =>
      match Cond.codegen heap g with
      | .crash => .crash
      | .ret none g1 => .ret none g1
      | .ret (some CondV) g1 =>
        let CondV := g1.emit (.CreateICmp .NE CondV (.const 64 0) "ifcond")
        let BodyBB := CondV.2.newBlock "ifbody" TheFunction
        let nextBB := BodyBB.2.newBlock "next" TheFunction
        let g2 := (nextBB.2.emit (.CreateCondBr CondV.1 BodyBB.1 nextBB.1)).2
        match Body.codegen heap (g2.SetInsertPoint BodyBB.1) with
        | .crash => .crash
        | .ret none g3 => .ret none g3
        | .ret (some _) g3 =>
          .ret (some (.const 64 0)) ((g3.emit (.CreateBr nextBB.1)).2.SetInsertPoint nextBB.1)
  | .AliveStmt Cond Body, g =>
    match g.getParent with
    | none => .crash
    | some TheFunction =>
      match Cond.codegen heap g with
      | .crash => .crash
      | .ret none g1 => .ret none g1
      | .ret (some CondV) g1 =>
        let CondBB := g1.newBlock "alivecondblock" TheFunction
        let BodyBB := CondBB.2.newBlock "alivebody" TheFunction
        let NextBB := BodyBB.2.newBlock "next" TheFunction
        let g2 := NextBB.2.SetInsertPoint CondBB.1
        let CondV := g2.emit (.CreateICmp .NE CondV (.const 64 0) "alivecond")
        let g3 := (CondV.2.emit (.CreateCondBr CondV.1 BodyBB.1 NextBB.1)).2
        match Body.codegen heap (g3.SetInsertPoint BodyBB.1) with
        | .crash => .crash
        | .ret none g4 => .ret none g4
        | .ret (some _) g4 =>
          .ret (some (.const 64 0)) ((g4.emit (.CreateBr CondBB.1)).2.SetInsertPoint NextBB.1)

/-- The loop of `ParenStmts::codegen` and of `Input::codegen` over the statements. -/
def Stmt.codegenList (heap : List (Table Symbol)) : List Stmt → CG → CRes Value
  | [], g => .ret (some (.const 64 0)) g
  | s :: ss, g =>
    match s.codegen heap g with
    | .crash => .crash
    | .ret none g1 => .ret none g1
    | .ret (some _) g1 => Stmt.codegenList heap ss g1

end

/-- The method `Input::codegen`. -/
def Input.codegen (heap : List (Table Symbol)) (inp : Input) (g : CG) : CRes Value :=
  Stmt.codegenList heap inp.stmts g

/-- The function `MainPool`: the declaration of `printf`, the function `printer` with
its block `mainblock`, and the function `main` with its block `entry`, which is the
insertion block at the end.  The global `print_sym` is the symbol object that the
global table holds under `print`, unless a declaration has put a Variable there. -/
def MainPool (heap : List (Table Symbol)) : CG :=
  { functions :=
      [{ name := "printf", result := .i64, params := [.i8], isVarArg := true, argNames := [] },
       { name := "printer", result := .i64, params := [.i64], isVarArg := false,
         argNames := ["input"] },
       { name := "main", result := .i64, params := [], isVarArg := false, argNames := [] }],
    blocks :=
      [{ name := "mainblock", parent := 1,
         instrs := [(0, .CreateGlobalStringPtr "out: %i\n" "pernosik"),
                    (1, .CreateCall 0 [.inst 0, .arg 1 0] "calltmp"),
                    (2, .CreateRet (.const 64 0))] },
       { name := "entry", parent := 2, instrs := [] }],
    insert := 1,
    count := 3,
    alloc := [],
    func :=
      match (getSym heap (some 0) "print").join with
      | some sym => if sym.sym_type = .FUNCTION then [((0, "print"), 1)] else []
      | none => [],
    cerr := [] }

/-- The function `main` of the old `compiler.cpp` from `ParseInput` to the call
`inp->codegen()`: `none` when the parser does not return a tree. -/
def generate (n : Nat) (toks : List TOKEN) : Option (CRes Value) :=
  match ParseInput printSym n (PState.init toks 1) with
  | .ok inp s => some (inp.codegen s.heap (MainPool s.heap))
  | _ => none

end Old

namespace Old

/-- What the `codegen` of an expression may change in the blocks: the insertion block
stays the insertion block and gets builder calls at its end, no block is made, and
every block but the insertion block is as it was. -/
structure CG.Local (g g' : CG) : Prop where
  insert_eq : g'.insert = g.insert
  length_eq : g'.blocks.length = g.blocks.length
  others : ∀ j, j ≠ g.insert → g'.blocks[j]? = g.blocks[j]?
  grows : ∃ l, g'.blocks[g.insert]? =
    (g.blocks[g.insert]?).map (fun b => { b with instrs := b.instrs ++ l })

/-- What the `codegen` of a statement may change in the blocks: blocks are made, the
insertion block is the old one or a new one, and every old block but the old insertion
block is as it was. -/
structure CG.Frame (g g' : CG) : Prop where
  length_le : g.blocks.length ≤ g'.blocks.length
  others : ∀ j, j < g.blocks.length → j ≠ g.insert → g'.blocks[j]? = g.blocks[j]?
  insert_new : g'.insert = g.insert ∨ g.blocks.length ≤ g'.insert

/-- The state in which a `codegen` method returns, whatever it returns, has the
property `P`. -/
structure CRes.All {α : Type} (P : CG → Prop) (r : CRes α) : Prop where
  ret : ∀ v g', r = .ret v g' → P g'

end Old

namespace Old

/-- The names of the `CreateAlloca` calls made in a block. -/
def BasicBlock.allocas (b : BasicBlock) : List String :=
  b.instrs.filterMap (fun p =>
    match p.2 with
    | .CreateAlloca _ _ name => some name
    | _ => none)

/-- The blocks that `generate` leaves for the program `toks`, by name, each with the
names of the `CreateAlloca` calls made in it; `none` when no tree is built or the
generator does not return. -/
def allocasOf (n : Nat) (toks : List TOKEN) : Option (List (String × List String)) :=
  match generate n toks with
  | some (.ret _ g) => some (g.blocks.map (fun b => (b.name, b.allocas)))
  | _ => none

/-- The blocks that `generate` leaves for the program `toks`; `none` when no tree is
built or the generator does not return. -/
def blocksOf (n : Nat) (toks : List TOKEN) : Option (List BasicBlock) :=
  match generate n toks with
  | some (.ret _ g) => some g.blocks
  | _ => none

end Old

/-- The tokens of `if (1) do war x : int = 5; war y : int = 6;`: a declaration in the
body of an `if` and one after it. -/
def ifWarWarToks : List TOKEN :=
  [kw .IF, kw .LBAR, intLit 1, kw .RBAR, kw .DO,
   kw .WAR, ident "x", kw .COL, kw .INTTYPE, kw .ASSIGN, intLit 5, kw .SEMICOL,
   kw .WAR, ident "y", kw .COL, kw .INTTYPE, kw .ASSIGN, intLit 6, kw .SEMICOL]

/-- The tokens of `alive by [0] war x : int = 5;`: a declaration in the body of a
loop. -/
def aliveWarDeclToks : List TOKEN :=
  [kw .ALIVE, kw .BY, kw .LBRACE, intLit 0, kw .RBRACE,
   kw .WAR, ident "x", kw .COL, kw .INTTYPE, kw .ASSIGN, intLit 5, kw .SEMICOL]

/-- The tokens of `war n : int = 1; alive by [n] n;`: a loop whose condition reads a
variable. -/
def aliveLoadToks : List TOKEN :=
  [kw .WAR, ident "n", kw .COL, kw .INTTYPE, kw .ASSIGN, intLit 1, kw .SEMICOL,
   kw .ALIVE, kw .BY, kw .LBRACE, ident "n", kw .RBRACE, ident "n", kw .SEMICOL]

/-- The tokens of `tren int f [int a] { return f[a]; }`: a function that calls
itself. -/
def trenSelfToks : List TOKEN :=
  [kw .TREN, kw .INTTYPE, ident "f", kw .LBRACE, kw .INTTYPE, ident "a", kw .RBRACE,
   kw .LBRA, kw .RETURN, ident "f", kw .LBRACE, ident "a", kw .RBRACE, kw .SEMICOL,
   kw .RBRA]

namespace Old

/-- The statements of the tree that `ParseInput` builds for the program `toks`. -/
def stmtsOf (n : Nat) (toks : List TOKEN) : Option (List Stmt) :=
  match ParseInput printSym n (PState.init toks 1) with
  | .ok inp _ => some inp.stmts
  | _ => none

/-- The member `CurrTable` of a function node; `none` for every other statement. -/
def Stmt.trenTable? : Stmt → Option (Option Nat)
  | .TrenStmt CurrTable _ _ _ _ => some CurrTable
  | _ => none

/-- The body of a function node. -/
def Stmt.trenBody? : Stmt → Option Stmt
  | .TrenStmt _ _ body _ _ => some body
  | _ => none

end Old

/-- The tokens of `war x : int = 1; 1 + 2 + x;`; the operator tokens carry no word, as
the lexer leaves them. -/
def warSumLoadToks : List TOKEN :=
  [kw .WAR, ident "x", kw .COL, kw .INTTYPE, kw .ASSIGN, intLit 1, kw .SEMICOL,
   intLit 1, kw .PLUS, intLit 2, kw .PLUS, ident "x", kw .SEMICOL]

/-- The tokens of `1 + 2 + (3 + 4);`; the operator tokens carry no word. -/
def sumSumToks : List TOKEN :=
  [intLit 1, kw .PLUS, intLit 2, kw .PLUS, kw .LBAR, intLit 3, kw .PLUS, intLit 4,
   kw .RBAR, kw .SEMICOL]

/-- The tokens of `1 + 2; war x : int = 1;`; the operator token carries no word. -/
def sumThenWarToks : List TOKEN :=
  [intLit 1, kw .PLUS, intLit 2, kw .SEMICOL,
   kw .WAR, ident "x", kw .COL, kw .INTTYPE, kw .ASSIGN, intLit 1, kw .SEMICOL]

namespace Old

/-- What `generate` leaves for the program `toks` when the generator returns: whether
the returned pointer is null, the lines written by `LogCompError`, and the builder
calls recorded in the insertion block. -/
def outcomeOf (n : Nat) (toks : List TOKEN) : Option (Bool × List String × List Instr) :=
  match generate n toks with
  | some (.ret v g) =>
    some (v.isNone, g.cerr, ((g.blocks[g.insert]?).map (fun b => b.instrs.map (·.2))).getD [])
  | _ => none

end Old

/-- The tokens of `{ war x : int = 1; } x;`: a declaration in a block and a reference
to the variable after the block. -/
def blockThenUseToks : List TOKEN :=
  [kw .LBRA, kw .WAR, ident "x", kw .COL, kw .INTTYPE, kw .ASSIGN, intLit 1, kw .SEMICOL,
   kw .RBRA, ident "x", kw .SEMICOL]

namespace Cur

/-- The table, name and type of the identifier that an expression statement consists
of; `none` for every other statement. -/
def Stmt.asID? : Stmt → Option (Option Nat × String × TypeK)
  | .HighExpr e => e.asID?
  | _ => none

/-- For each statement of the tree that `ParseInput` builds for `toks`, the
identifier it consists of. -/
def idStmtsOf (n : Nat) (toks : List TOKEN) : Option (List (Option (Option Nat × String × TypeK))) :=
  (ParseInput n (PState.init toks 1)).val?.map (fun inp => inp.stmts.map Stmt.asID?)

/-- The last statement of a block node. -/
def Stmt.lastOfBlock? : Stmt → Option Stmt
  | .ParenStmts stmts _ => stmts.getLast?
  | _ => none

end Cur

/-- The call did not return: it dereferenced a null pointer. -/
def Res.isCrash {σ α : Type} : Res σ α → Bool
  | .crash => true
  | _ => false

namespace Old

mutual

/-- The tree has no Assign node, at the root or below. -/
def Expr.NoAssign : Expr → Prop
  | .AssignExpr _ _ _ => False
  | .BoolExpr l r _ _ => l.NoAssign ∧ r.NoAssign
  | .AddExpr l r _ _ => l.NoAssign ∧ r.NoAssign
  | .TermExpr l r _ _ => l.NoAssign ∧ r.NoAssign
  | .IntExpr _ _ => True
  | .ArrayExpr vs _ => Expr.NoAssignList vs
  | .IDExpr _ _ _ => True
  | .CallExpr args _ _ _ => Expr.NoAssignList args
  | .ParenExpr e => e.NoAssign

/-- No tree of the list has an Assign node. -/
def Expr.NoAssignList : List Expr → Prop
  | [] => True
  | e :: es => e.NoAssign ∧ Expr.NoAssignList es

end

end Old

/-- The tokens of `tren int f [] { 1; }`: a function whose body has no return
statement. -/
def trenNoRetToks : List TOKEN :=
  [kw .TREN, kw .INTTYPE, ident "f", kw .LBRACE, kw .RBRACE,
   kw .LBRA, intLit 1, kw .SEMICOL, kw .RBRA]

/-- The tokens of `tren int f [] 1;`: a function whose body is an expression
statement. -/
def trenExprBodyToks : List TOKEN :=
  [kw .TREN, kw .INTTYPE, ident "f", kw .LBRACE, kw .RBRACE, intLit 1, kw .SEMICOL]

/-- The tokens of `1 + ;`. -/
def plusNothingToks : List TOKEN := [intLit 1, kw .PLUS, kw .SEMICOL]

/-- The tokens of `1 - ;`. -/
def minusNothingToks : List TOKEN := [intLit 1, kw .MINUS, kw .SEMICOL]

/-- The tokens of `1 < ;`. -/
def lessNothingToks : List TOKEN := [intLit 1, kw .LS, kw .SEMICOL]

/-- The tokens of `1 * ;`. -/
def timesNothingToks : List TOKEN := [intLit 1, kw .MUL, kw .SEMICOL]

/-- The tokens of `war ;`. -/
def warNothingToks : List TOKEN := [kw .WAR, kw .SEMICOL]

/-- The number of declarations of a War node (old variant); `none` for every other
statement. -/
def Old.Stmt.warCount? : Old.Stmt → Option Nat
  | .WarStmt wars _ => some wars.length
  | _ => none

/-- The number of declarations of a War node (current variant); `none` for every
other statement. -/
def Cur.Stmt.warCount? : Cur.Stmt → Option Nat
  | .WarStmt wars _ => some wars.length
  | _ => none

namespace Old

/-- A type the old parser can give to a node: Int, an array of such a type, or the
array type without an element type that the literal `[]` gets. -/
def TypeP.Producible : TypeP → Prop
  | .null => False
  | .IntType => True
  | .ArrayType e => e.isNull = true ∨ e.Producible

end Old

/-- The number of tokens the parser has still to consume in the state `s`: those the
lexer will still return, and the current one unless it is `EOFILE`. -/
def PState.left {σ : Type} (s : PState σ) : Nat :=
  s.toks.length + (if s.CurrTok.tok = .EOFILE then 0 else 1)

/-- By how much a call of `nextToken` lowers `left`. -/
def PState.step {σ : Type} (s : PState σ) : Nat :=
  s.left - (nextToken s).left

/-- The run of a parsing function came to its end: it returned a node or the null
pointer, or it stopped in a null dereference. -/
def Res.ended {σ α : Type} : Res σ α → Bool
  | .fuel => false
  | _ => true

/-- The tokens of `war x : int = 1 + ;`. -/
def warPlusNothingToks : List TOKEN :=
  [kw .WAR, ident "x", kw .COL, kw .INTTYPE, kw .ASSIGN, intLit 1, kw .PLUS, kw .SEMICOL]

/-- The tokens of `war x : int = 1, y : int = 2;`. -/
def warTwoToks : List TOKEN :=
  [kw .WAR, ident "x", kw .COL, kw .INTTYPE, kw .ASSIGN, intLit 1, kw .COMMA,
   ident "y", kw .COL, kw .INTTYPE, kw .ASSIGN, intLit 2, kw .SEMICOL]

namespace Old

/-- The rounds of the while loop of the old `ParseWarStmt`: `WarRounds s decls s'` when
the loop, entered in the state `s`, parses the declarations `decls`, one in each round,
and comes to its test with `;` in the state `s'`.  A round parses one declaration: the
name (the word of the identifier the round starts on), `:`, the type (`ParseType`),
`=` and the initializer (`ParseExpression`, of a type that `checkTypes` accepts); it
adds the symbol of the name to the table, and it ends on `;` or behind a `,` that no
`;` follows.  The entry of the round in `decls` is the name with the initializer; the
type is in the symbol. -/
inductive WarRounds : St → List (String × Expr) → St → Prop where
  | done (s : St) (hsemi : s.CurrTok.tok = .SEMICOL) : WarRounds s [] s
  | round (n : Nat) (s s1 s2 s3 s4 s' : St) (type : TypeP) (valu : Expr)
      (rest : List (String × Expr))
      (hname : s.CurrTok.tok = .IDENTIFIER)
      (hcol : (nextToken s).CurrTok.tok = .COL)
      (htype : ParseType n (nextToken (nextToken s)) = .ok type s1)
      (hassign : s1.CurrTok.tok = .ASSIGN)
      (hvalu : ParseExpression n (nextToken s1) = .ok valu s2)
      (hcheck : checkTypes valu.getType type = some true)
      (hadd : addSym s2 s.CurrTok.word (Symbol.new s.CurrTok.word type .WAR) = some s3)
      (hsep : (s3.CurrTok.tok = .SEMICOL ∧ s4 = s3) ∨
        (s3.CurrTok.tok = .COMMA ∧ s4 = nextToken s3 ∧ s4.CurrTok.tok ≠ .SEMICOL))
      (hrest : WarRounds s4 rest s') :
      WarRounds s ((s.CurrTok.word, valu) :: rest) s'

end Old

namespace Cur

/-- The rounds of the while loop of the current `ParseWarStmt`: `WarRounds s decls s'`
when the loop, entered in the state `s`, parses the declarations `decls`, one in each
round, and comes to its test with `;` in the state `s'`.  A round parses one
declaration: the name (the word of the identifier the round starts on), `:`, the type
(`getDType` of the next token, not `Null`), `=` and the initializer (`ParseExpression`,
of that type); it adds the symbol of the name to the table, and it ends on `;` or
behind a `,`.  The entry of the round in `decls` is the `AssignExpr` of the name, the
initializer and the type. -/
inductive WarRounds : St → List Expr → St → Prop where
  | done (s : St) (hsemi : s.CurrTok.tok = .SEMICOL) : WarRounds s [] s
  | round (n : Nat) (s s2 s3 s4 s' : St) (valu : Expr) (rest : List Expr)
      (hname : s.CurrTok.tok = .IDENTIFIER)
      (hcol : (nextToken s).CurrTok.tok = .COL)
      (htype : getDType (nextToken (nextToken s)).CurrTok.tok ≠ .Null)
      (hassign : (nextToken (nextToken (nextToken s))).CurrTok.tok = .ASSIGN)
      (hvalu : ParseExpression n (nextToken (nextToken (nextToken (nextToken s)))) =
        .ok valu s2)
      (hcheck : valu.getType = getDType (nextToken (nextToken s)).CurrTok.tok)
      (hadd : addSym s2 s.CurrTok.word
        (Symbol.new s.CurrTok.word (getDType (nextToken (nextToken s)).CurrTok.tok) .WAR) =
          some s3)
      (hsep : (s3.CurrTok.tok = .SEMICOL ∧ s4 = s3) ∨
        (s3.CurrTok.tok = .COMMA ∧ s4 = nextToken s3))
      (hrest : WarRounds s4 rest s') :
      WarRounds s
        (Expr.AssignExpr (.IDExpr s2.CTable s.CurrTok.word
          (getDType (nextToken (nextToken s)).CurrTok.tok)) valu
          (getDType (nextToken (nextToken s)).CurrTok.tok) :: rest) s'

end Cur

/-- The declarations of a War node (old variant), each as its name and the value of
its initializer when that is an integer literal; `none` for every other statement. -/
def Old.Stmt.warDecls? : Old.Stmt → Option (List (String × Option Int))
  | .WarStmt wars _ =>
    some (wars.map (fun w =>
      (w.1, match w.2 with
            | .IntExpr _ v => some v
            | _ => none)))
  | _ => none

/-- The declarations of a War node (current variant), each as the name its
`AssignExpr` assigns to and the value of its initializer when that is an integer
literal; `none` for every other statement. -/
def Cur.Stmt.warDecls? : Cur.Stmt → Option (List (Option String × Option Int))
  | .WarStmt wars _ =>
    some (wars.map (fun w =>
      match w with
      | .AssignExpr (.IDExpr _ name _) (.IntExpr v) _ => (some name, some v)
      | .AssignExpr (.IDExpr _ name _) _ _ => (some name, none)
      | _ => (none, none)))
  | _ => none

/-! # Theorems -/

/-! ## Type compatibility (old parser) -/

namespace Old

theorem TypeP.WellFormed.isNull_false {T : TypeP} (h : T.WellFormed) : T.isNull = false := by
  cases T <;> simp_all [TypeP.WellFormed, TypeP.isNull]

theorem checkTypesLoop_wellFormed (T1 : TypeP) :
    ∀ T2 : TypeP, T1.WellFormed → T2.WellFormed →
      afterLoop (checkTypesLoop T1 T2) = some (decide (T1 = T2)) := by
  induction T1 with
  | null => intro T2 h1; exact absurd h1 (by simp [TypeP.WellFormed])
  | IntType =>
    intro T2 _ h2
    cases T2 with
    | null => exact absurd h2 (by simp [TypeP.WellFormed])
    | IntType => simp [checkTypesLoop, afterLoop, TypeP.get]
    | ArrayType e => simp [checkTypesLoop, afterLoop, TypeP.get]
  | ArrayType e1 ih =>
    intro T2 h1 h2
    cases T2 with
    | null => exact absurd h2 (by simp [TypeP.WellFormed])
    | IntType => simp [checkTypesLoop, afterLoop, TypeP.get]
    | ArrayType e2 =>
      have w1 : e1.WellFormed := h1
      have w2 : e2.WellFormed := h2
      simp [checkTypesLoop, w1.isNull_false, w2.isNull_false, ih e2 w1 w2]

/-- C1. For well-formed types (Int, or Array of a well-formed element type) the old
parser's `checkTypes` returns, without dereferencing a null pointer, true exactly when
the two types are structurally equal; so Array of Array of Int is compatible with
itself and incompatible with Array of Int and with Int. -/
theorem checkTypes_wellFormed (T1 T2 : TypeP) (h1 : T1.WellFormed) (h2 : T2.WellFormed) :
    checkTypes T1 T2 = some (decide (T1 = T2)) ∧
    (checkTypes T1 T2 = some true ↔ T1 = T2) := by
  have key : checkTypes T1 T2 = some (decide (T1 = T2)) := by
    cases T1 with
    | null => exact absurd h1 (by simp [TypeP.WellFormed])
    | IntType =>
      cases T2 with
      | null => exact absurd h2 (by simp [TypeP.WellFormed])
      | IntType => simp [checkTypes, TypeP.getElementType, TypeP.isNull, TypeP.get]
      | ArrayType e => simp [checkTypes, TypeP.getElementType, TypeP.isNull, TypeP.get]
    | ArrayType e1 =>
      have w1 : e1.WellFormed := h1
      cases T2 with
      | null => exact absurd h2 (by simp [TypeP.WellFormed])
      | IntType =>
        simp [checkTypes, TypeP.getElementType, TypeP.isNull, TypeP.get, w1.isNull_false]
      | ArrayType e2 =>
        have w2 : e2.WellFormed := h2
        have hl := checkTypesLoop_wellFormed (.ArrayType e1) (.ArrayType e2) h1 h2
        simp only [afterLoop] at hl
        simp only [checkTypes, TypeP.getElementType, w1.isNull_false, w2.isNull_false]
        simpa using hl
  refine ⟨key, ?_⟩
  rw [key]
  simp

/-- An instance of C1: Array of Array of Int against itself, against Array of Int and
against Int. -/
theorem checkTypes_wellFormed_witness :
    (checkTypes (.ArrayType (.ArrayType .IntType)) (.ArrayType (.ArrayType .IntType)) = some true) ∧
    (checkTypes (.ArrayType (.ArrayType .IntType)) (.ArrayType .IntType) = some false) ∧
    (checkTypes (.ArrayType (.ArrayType .IntType)) .IntType = some false) :=
  ⟨(checkTypes_wellFormed (.ArrayType (.ArrayType .IntType)) (.ArrayType (.ArrayType .IntType))
      trivial trivial).1,
   by decide, by decide⟩

end Old

/-! ## Scope tables -/

/-- A walk from a table below the bound does not depend on the bound. -/
theorem Table.getSym_bound {σ : Type} (heap : List (Table σ)) (name : String) (a : Nat) :
    ∀ bound, a < bound → Table.getSym heap name bound a = Table.getSym heap name (a + 1) a := by
  intro bound
  induction bound with
  | zero => intro h; omega
  | succ b ih =>
    intro h
    by_cases hab : a = b
    · subst hab; rfl
    · have hlt : a < b := by omega
      rw [← ih hlt]
      simp [Table.getSym, hab]

/-- A walk below the bound reads only the tables below the bound. -/
theorem Table.getSym_congr {σ : Type} (heap heap' : List (Table σ)) (name : String) :
    ∀ bound, (∀ i, i < bound → heap'[i]? = heap[i]?) →
      ∀ a, Table.getSym heap' name bound a = Table.getSym heap name bound a := by
  intro bound
  induction bound with
  | zero => intro _ a; rfl
  | succ b ih =>
    intro h a
    have ihb := ih (fun i hi => h i (by omega))
    by_cases hab : a = b
    · subst hab
      simp only [Table.getSym, if_true, h a (by omega)]
      cases heap[a]? with
      | none => rfl
      | some t =>
        simp only
        cases t.symbols name with
        | some sym => rfl
        | none =>
          simp only
          cases t.Prev with
          | none => rfl
          | some p => exact ihb p
    · simp only [Table.getSym, hab, if_false]
      exact ihb a

/-- One step of the walk, at the table the call is made on. -/
theorem Table.getSym_self {σ : Type} (heap : List (Table σ)) (name : String) (a : Nat) :
    Table.getSym heap name (a + 1) a =
      match heap[a]? with
      | none => none
      | some t =>
        match t.symbols name with
        | some sym => some sym
        | none =>
          match t.Prev with
          | some p => Table.getSym heap name a p
          | none => none := by
  simp [Table.getSym]

/-- An ancestor has a smaller address. -/
theorem Reach.le {σ : Type} {heap : List (Table σ)} {a b : Nat} (h : Reach heap a b) :
    b ≤ a := by
  induction h with
  | here a => exact Nat.le_refl a
  | step a p b t _ _ hlt _ ih => omega

/-- The first binding of a name in a list of tables. -/
theorem findSome_symbols_none {σ : Type} (name : String) (ts : List (Table σ)) :
    ts.findSome? (fun t => t.symbols name) = none ↔ ∀ t ∈ ts, t.symbols name = none := by
  induction ts with
  | nil => simp
  | cons t ts ih =>
    cases h : t.symbols name with
    | none => simp [List.findSome?, h, ih]
    | some v => simp [List.findSome?, h]

/-- C2. On a scope chain `ts` (the table the call is made on first, then its `Prev`,
and so on outward), `getSym` returns the binding of the name in the nearest table
that binds it, and returns the null pointer exactly when no table of the chain binds
the name. -/
theorem getSym_nearest_binding {σ : Type} (heap : List (Table σ)) (a : Nat)
    (ts : List (Table σ)) (name : String) (h : IsChain heap (some a) ts) :
    getSym heap (some a) name = some (ts.findSome? (fun t => t.symbols name)) ∧
    (getSym heap (some a) name = some none ↔ ∀ t ∈ ts, t.symbols name = none) := by
  have key : ∀ (tab : Option Nat) (ts : List (Table σ)), IsChain heap tab ts →
      ∀ a, tab = some a →
        Table.getSym heap name (a + 1) a = ts.findSome? (fun t => t.symbols name) := by
    intro tab ts hc
    induction hc with
    | nil => intro a ha; cases ha
    | cons a0 t ts0 hget hprev hrest ih =>
      intro a ha
      cases ha
      simp only [Table.getSym, if_true, hget, List.findSome?]
      cases hs : t.symbols name with
      | some sym => rfl
      | none =>
        simp only
        cases hp : t.Prev with
        | none =>
          rw [hp] at hrest
          cases hrest
          rfl
        | some p =>
          simp only
          rw [Table.getSym_bound heap name p a0 (hprev p hp)]
          exact ih p hp
  have k := key (some a) ts h a rfl
  refine ⟨by simp [getSym, k], ?_⟩
  simp only [getSym, k, Option.some.injEq]
  exact findSome_symbols_none name ts

/-- The lookups after `addSym(n, s)` on the table at address `a`: `n` is found in that
table, every other name and every lookup from an ancestor is as before. -/
theorem addSymAt_lookups {σ : Type} (heap heap' : List (Table σ)) (a : Nat) (n : String)
    (s : σ) (hadd : addSymAt heap (some a) n s = some heap') :
    getSym heap' (some a) n = some (some s) ∧
    (∀ m, m ≠ n → getSym heap' (some a) m = getSym heap (some a) m) ∧
    (∀ b, Reach heap a b → b ≠ a → ∀ m, getSym heap' (some b) m = getSym heap (some b) m) := by
  simp only [addSymAt] at hadd
  cases hget : heap[a]? with
  | none => simp [hget] at hadd
  | some t =>
    simp only [hget, Option.some.injEq] at hadd
    subst hadd
    have hlen : a < heap.length := by
      rcases Nat.lt_or_ge a heap.length with h | h
      · exact h
      · rw [List.getElem?_eq_none h] at hget; cases hget
    have hnew : (heap.set a (t.addSym n s))[a]? = some (t.addSym n s) := by
      simp [List.getElem?_set, hlen]
    have hold : ∀ i, i < a → (heap.set a (t.addSym n s))[i]? = heap[i]? := by
      intro i hi
      rw [List.getElem?_set_ne (by omega)]
    refine ⟨?_, ?_, ?_⟩
    · simp only [getSym]
      rw [Table.getSym_self, hnew]
      simp [Table.addSym]
    · intro m hm
      simp only [getSym]
      rw [Table.getSym_self, Table.getSym_self, hnew, hget]
      have hfr := Table.getSym_congr heap (heap.set a (t.addSym n s)) m a hold
      rcases t with ⟨syms, prev⟩
      simp only [Table.addSym, if_neg hm] at hfr ⊢
      congr 1
      cases syms m with
      | some sym => rfl
      | none =>
        cases prev with
        | none => rfl
        | some p => exact hfr p
    · intro b hb hne m
      have hle := hb.le
      have hlt : b < a := by omega
      simp only [getSym]
      congr 1
      exact Table.getSym_congr heap _ m (b + 1) (fun i hi => hold i (by omega)) b

/-- C3. After `addSym(n, s)` on the table at address `a`, a lookup of `n` from that
table returns `s`, whether or not `n` was bound before; a lookup of any other name from
it returns what it returned before; and every lookup from the parent or a further
ancestor of the table returns what it returned before. -/
theorem addSym_getSym_frame {σ : Type} (heap heap' : List (Table σ)) (a : Nat) (n : String)
    (s : σ) (hadd : addSymAt heap (some a) n s = some heap') :
    getSym heap' (some a) n = some (some s) ∧
    (∀ m, m ≠ n → getSym heap' (some a) m = getSym heap (some a) m) ∧
    (∀ b, Reach heap a b → b ≠ a → ∀ m, getSym heap' (some b) m = getSym heap (some b) m) :=
  addSymAt_lookups heap heap' a n s hadd

/-- An instance of C2 on two nested scopes: the inner binding of `x` wins, `y` is found
in the outer table, `z` is not found. -/
theorem getSym_nearest_binding_witness :
    getSym demoHeap (some 1) "x" = some (some 3) ∧
    getSym demoHeap (some 1) "y" = some (some 2) ∧
    (getSym demoHeap (some 1) "z" = some none ↔
      ∀ t ∈ [(Table.new (some 0)).addSym "x" 3, ((Table.new none).addSym "x" 1).addSym "y" 2],
        t.symbols "z" = none) :=
  have chain : IsChain demoHeap (some 1)
      [(Table.new (some 0)).addSym "x" 3, ((Table.new none).addSym "x" 1).addSym "y" 2] :=
    IsChain.cons 1 _ _ rfl (fun p hp => by cases hp; decide)
      (IsChain.cons 0 _ _ rfl (fun p hp => by cases hp) IsChain.nil)
  ⟨(getSym_nearest_binding demoHeap 1 _ "x" chain).1,
   (getSym_nearest_binding demoHeap 1 _ "y" chain).1,
   (getSym_nearest_binding demoHeap 1 _ "z" chain).2⟩

/-- An instance of C3: `y` is added to the inner of two nested scopes. -/
theorem addSym_getSym_frame_witness :
    getSym (demoHeap.set 1 (((Table.new (some 0)).addSym "x" 3).addSym "y" 7)) (some 1) "y"
      = some (some 7) ∧
    getSym (demoHeap.set 1 (((Table.new (some 0)).addSym "x" 3).addSym "y" 7)) (some 1) "x"
      = getSym demoHeap (some 1) "x" ∧
    getSym (demoHeap.set 1 (((Table.new (some 0)).addSym "x" 3).addSym "y" 7)) (some 0) "y"
      = getSym demoHeap (some 0) "y" :=
  have h := addSym_getSym_frame demoHeap _ 1 "y" 7 (rfl : addSymAt demoHeap (some 1) "y" 7 = some _)
  ⟨h.1, h.2.1 "x" (by decide),
   h.2.2 0 (Reach.step 1 0 0 _ rfl rfl (by decide) (Reach.here 0)) (by decide) "y"⟩

/-! ## Expressions leave the tables alone -/

@[simp] theorem nextToken_heap {σ : Type} (s : PState σ) : (nextToken s).heap = s.heap := by
  unfold nextToken; split <;> rfl

@[simp] theorem nextToken_CTable {σ : Type} (s : PState σ) :
    (nextToken s).CTable = s.CTable := by
  unfold nextToken; split <;> rfl

@[simp] theorem LogError_heap {σ : Type} (msg : String) (s : PState σ) :
    (LogError msg s).heap = s.heap := rfl

@[simp] theorem LogError_CTable {σ : Type} (msg : String) (s : PState σ) :
    (LogError msg s).CTable = s.CTable := rfl

theorem Res.Same.ok {σ α : Type} {s s' : PState σ} (v : α) (h1 : s'.heap = s.heap)
    (h2 : s'.CTable = s.CTable) : Res.Same s (Res.ok v s') :=
  ⟨by intro t ht; cases ht; exact ⟨h1, h2⟩⟩

theorem Res.Same.null {σ α : Type} {s s' : PState σ} (h1 : s'.heap = s.heap)
    (h2 : s'.CTable = s.CTable) : Res.Same s (Res.null s' : Res σ α) :=
  ⟨by intro t ht; cases ht; exact ⟨h1, h2⟩⟩

theorem Res.Same.logNull {σ α : Type} {s s' : PState σ} (msg : String) (h1 : s'.heap = s.heap)
    (h2 : s'.CTable = s.CTable) : Res.Same s (LogNull msg s' : Res σ α) :=
  ⟨by intro t ht; cases ht; exact ⟨h1, h2⟩⟩

theorem Res.Same.crash {σ α : Type} {s : PState σ} : Res.Same s (Res.crash : Res σ α) :=
  ⟨by intro t ht; cases ht⟩

theorem Res.Same.fuel {σ α : Type} {s : PState σ} : Res.Same s (Res.fuel : Res σ α) :=
  ⟨by intro t ht; cases ht⟩

/-- A call made in a state with the same tables. -/
theorem Res.Same.of {σ α : Type} {s s1 : PState σ} {r : Res σ α} (h : Res.Same s1 r)
    (h1 : s1.heap = s.heap) (h2 : s1.CTable = s.CTable) : Res.Same s r :=
  ⟨by
    intro t ht
    have := h.keep t ht
    exact ⟨this.1.trans h1, this.2.trans h2⟩⟩

theorem Res.Same.of_ok {σ α : Type} {s s' : PState σ} {r : Res σ α} {v : α}
    (h : Res.Same s r) (e : r = Res.ok v s') : s'.heap = s.heap ∧ s'.CTable = s.CTable :=
  h.keep s' (by rw [e]; rfl)

theorem Res.Same.of_null {σ α : Type} {s s' : PState σ} {r : Res σ α}
    (h : Res.Same s r) (e : r = Res.null s') : s'.heap = s.heap ∧ s'.CTable = s.CTable :=
  h.keep s' (by rw [e]; rfl)

namespace Old

theorem ParseType_same : ∀ (n : Nat) (s : St), Res.Same s (ParseType n s) := by
  intro n
  induction n with
  | zero => intro s; simp only [ParseType]; exact Res.Same.fuel
  | succ n ih =>
    intro s
    simp only [ParseType]
    repeat' split
    all_goals
      (try have hT := (ih _).of_ok ‹ParseType n _ = Res.ok _ _›)
      (try have hT := (ih _).of_null ‹ParseType n _ = Res.null _›)
      first
      | exact Res.Same.fuel
      | exact Res.Same.crash
      | (apply Res.Same.logNull <;> simp_all)
      | (apply Res.Same.ok <;> simp_all)
      | (apply Res.Same.null <;> simp_all)

end Old

namespace Old

set_option maxHeartbeats 8000000 in
/-- The expression functions of the old parser leave the heap and `CTable` as they
found them. -/
theorem expr_same_all : ∀ n : Nat,
    (∀ s, Res.Same s (ParseExpression n s)) ∧
    (∀ s, Res.Same s (ParseBoolExpr n s)) ∧
    (∀ lhs s, Res.Same s (ParseBoolLoop n lhs s)) ∧
    (∀ s, Res.Same s (ParseAddExpr n s)) ∧
    (∀ lhs s, Res.Same s (ParseAddLoop n lhs s)) ∧
    (∀ s, Res.Same s (ParseTermExpr n s)) ∧
    (∀ lhs s, Res.Same s (ParseTermLoop n lhs s)) ∧
    (∀ s, Res.Same s (ParseFactor n s)) ∧
    (∀ elemType arr_elems s, Res.Same s (ParseArrayLoop n elemType arr_elems s)) ∧
    (∀ elemType arr_elems s, Res.Same s (ParseArrayTail n elemType arr_elems s)) ∧
    (∀ name sym Idx args s, Res.Same s (ParseCallLoop n name sym Idx args s)) := by
  intro n
  induction n with
  | zero =>
    refine ⟨?_, ?_, ?_, ?_, ?_, ?_, ?_, ?_, ?_, ?_, ?_⟩ <;> intros <;>
      simp only [ParseExpression, ParseBoolExpr, ParseBoolLoop, ParseAddExpr, ParseAddLoop,
        ParseTermExpr, ParseTermLoop, ParseFactor, ParseArrayLoop, ParseArrayTail,
        ParseCallLoop] <;> exact Res.Same.fuel
  | succ n ih =>
    obtain ⟨ihE, ihB, ihBL, ihA, ihAL, ihT, ihTL, ihF, ihArr, ihArrT, ihC⟩ := ih
    refine ⟨?_, ?_, ?_, ?_, ?_, ?_, ?_, ?_, ?_, ?_, ?_⟩ <;> intros <;>
      simp only [ParseExpression, ParseBoolExpr, ParseBoolLoop, ParseAddExpr, ParseAddLoop,
        ParseTermExpr, ParseTermLoop, ParseFactor, ParseArrayLoop, ParseArrayTail,
        ParseCallLoop] <;> repeat' split
    all_goals
      (try have hE := (ihE _).of_ok ‹ParseExpression n _ = Res.ok _ _›)
      (try have hE := (ihE _).of_null ‹ParseExpression n _ = Res.null _›)
      (try have hB := (ihB _).of_ok ‹ParseBoolExpr n _ = Res.ok _ _›)
      (try have hB := (ihB _).of_null ‹ParseBoolExpr n _ = Res.null _›)
      (try have hA := (ihA _).of_ok ‹ParseAddExpr n _ = Res.ok _ _›)
      (try have hA := (ihA _).of_null ‹ParseAddExpr n _ = Res.null _›)
      (try have hT := (ihT _).of_ok ‹ParseTermExpr n _ = Res.ok _ _›)
      (try have hT := (ihT _).of_null ‹ParseTermExpr n _ = Res.null _›)
      (try have hF := (ihF _).of_ok ‹ParseFactor n _ = Res.ok _ _›)
      (try have hF := (ihF _).of_null ‹ParseFactor n _ = Res.null _›)
      first
      | exact Res.Same.fuel
      | exact Res.Same.crash
      | (apply Res.Same.logNull <;> simp only [nextToken_heap, nextToken_CTable, LogError_heap, LogError_CTable, *])
      | (apply Res.Same.ok <;> simp only [nextToken_heap, nextToken_CTable, LogError_heap, LogError_CTable, *])
      | (apply Res.Same.null <;> simp only [nextToken_heap, nextToken_CTable, LogError_heap, LogError_CTable, *])
      | exact (ihBL _ _).of (by simp only [nextToken_heap, nextToken_CTable, LogError_heap, LogError_CTable, *]) (by simp only [nextToken_heap, nextToken_CTable, LogError_heap, LogError_CTable, *])
      | exact (ihAL _ _).of (by simp only [nextToken_heap, nextToken_CTable, LogError_heap, LogError_CTable, *]) (by simp only [nextToken_heap, nextToken_CTable, LogError_heap, LogError_CTable, *])
      | exact (ihTL _ _).of (by simp only [nextToken_heap, nextToken_CTable, LogError_heap, LogError_CTable, *]) (by simp only [nextToken_heap, nextToken_CTable, LogError_heap, LogError_CTable, *])
      | exact (ihArr _ _ _).of (by simp only [nextToken_heap, nextToken_CTable, LogError_heap, LogError_CTable, *]) (by simp only [nextToken_heap, nextToken_CTable, LogError_heap, LogError_CTable, *])
      | exact (ihArrT _ _ _).of (by simp only [nextToken_heap, nextToken_CTable, LogError_heap, LogError_CTable, *]) (by simp only [nextToken_heap, nextToken_CTable, LogError_heap, LogError_CTable, *])
      | exact (ihC _ _ _ _ _).of (by simp only [nextToken_heap, nextToken_CTable, LogError_heap, LogError_CTable, *]) (by simp only [nextToken_heap, nextToken_CTable, LogError_heap, LogError_CTable, *])

end Old

namespace Cur

set_option maxHeartbeats 8000000 in
/-- The expression functions of the current parser leave the heap and `CTable` as they
found them. -/
theorem cur_expr_same_all : ∀ n : Nat,
    (∀ s, Res.Same s (ParseExpression n s)) ∧
    (∀ s, Res.Same s (ParseBoolExpr n s)) ∧
    (∀ lhs s, Res.Same s (ParseBoolLoop n lhs s)) ∧
    (∀ s, Res.Same s (ParseAddExpr n s)) ∧
    (∀ lhs s, Res.Same s (ParseAddLoop n lhs s)) ∧
    (∀ s, Res.Same s (ParseTermExpr n s)) ∧
    (∀ lhs s, Res.Same s (ParseTermLoop n lhs s)) ∧
    (∀ s, Res.Same s (ParseFactor n s)) ∧
    (∀ name sym args s, Res.Same s (ParseCallLoop n name sym args s)) := by
  intro n
  induction n with
  | zero =>
    refine ⟨?_, ?_, ?_, ?_, ?_, ?_, ?_, ?_, ?_⟩ <;> intros <;>
      simp only [ParseExpression, ParseBoolExpr, ParseBoolLoop, ParseAddExpr, ParseAddLoop,
        ParseTermExpr, ParseTermLoop, ParseFactor, ParseCallLoop] <;> exact Res.Same.fuel
  | succ n ih =>
    obtain ⟨ihE, ihB, ihBL, ihA, ihAL, ihT, ihTL, ihF, ihC⟩ := ih
    refine ⟨?_, ?_, ?_, ?_, ?_, ?_, ?_, ?_, ?_⟩ <;> intros <;>
      simp only [ParseExpression, ParseBoolExpr, ParseBoolLoop, ParseAddExpr, ParseAddLoop,
        ParseTermExpr, ParseTermLoop, ParseFactor, ParseCallLoop] <;> repeat' split
    all_goals
      (try have hE := (ihE _).of_ok ‹ParseExpression n _ = Res.ok _ _›)
      (try have hE := (ihE _).of_null ‹ParseExpression n _ = Res.null _›)
      (try have hB := (ihB _).of_ok ‹ParseBoolExpr n _ = Res.ok _ _›)
      (try have hB := (ihB _).of_null ‹ParseBoolExpr n _ = Res.null _›)
      (try have hA := (ihA _).of_ok ‹ParseAddExpr n _ = Res.ok _ _›)
      (try have hA := (ihA _).of_null ‹ParseAddExpr n _ = Res.null _›)
      (try have hT := (ihT _).of_ok ‹ParseTermExpr n _ = Res.ok _ _›)
      (try have hT := (ihT _).of_null ‹ParseTermExpr n _ = Res.null _›)
      (try have hF := (ihF _).of_ok ‹ParseFactor n _ = Res.ok _ _›)
      (try have hF := (ihF _).of_null ‹ParseFactor n _ = Res.null _›)
      first
      | exact Res.Same.fuel
      | exact Res.Same.crash
      | (apply Res.Same.logNull <;>
          simp only [nextToken_heap, nextToken_CTable, LogError_heap, LogError_CTable, *])
      | (apply Res.Same.ok <;>
          simp only [nextToken_heap, nextToken_CTable, LogError_heap, LogError_CTable, *])
      | (apply Res.Same.null <;>
          simp only [nextToken_heap, nextToken_CTable, LogError_heap, LogError_CTable, *])
      | exact (ihBL _ _).of
          (by simp only [nextToken_heap, nextToken_CTable, LogError_heap, LogError_CTable, *])
          (by simp only [nextToken_heap, nextToken_CTable, LogError_heap, LogError_CTable, *])
      | exact (ihAL _ _).of
          (by simp only [nextToken_heap, nextToken_CTable, LogError_heap, LogError_CTable, *])
          (by simp only [nextToken_heap, nextToken_CTable, LogError_heap, LogError_CTable, *])
      | exact (ihTL _ _).of
          (by simp only [nextToken_heap, nextToken_CTable, LogError_heap, LogError_CTable, *])
          (by simp only [nextToken_heap, nextToken_CTable, LogError_heap, LogError_CTable, *])
      | exact (ihC _ _ _ _).of
          (by simp only [nextToken_heap, nextToken_CTable, LogError_heap, LogError_CTable, *])
          (by simp only [nextToken_heap, nextToken_CTable, LogError_heap, LogError_CTable, *])

end Cur

/-! ## Conditions of `if` and `alive` -/

/-- C7. In both parsers `ParseIfStmt` and `ParseAliveStmt`, once the condition is
parsed, return no node when its type is not Int (with the diagnostic
`invalid type for cond`), and when its type is Int they go on and return the node as
soon as the rest of the statement parses; `if (1) do war x : int = 5;` is parsed by
both parsers. -/
theorem cond_type_must_be_int :
    (∀ (n : Nat) (s : Old.St) (cond : Old.Expr) (s1 : Old.St),
      (nextToken s).CurrTok.tok = .LBAR →
      Old.ParseExpression n (nextToken (nextToken s)) = .ok cond s1 →
      (cond.getType ≠ .IntType → (Old.ParseIfStmt (n + 1) s).isOk = false) ∧
      (∀ e, cond.getType = .ArrayType e →
        Old.ParseIfStmt (n + 1) s = LogNull "invalid type for cond" s1) ∧
      (cond.getType = .IntType → s1.CurrTok.tok = .RBAR → (nextToken s1).CurrTok.tok = .DO →
        ∀ body s3, Old.ParseStatement n (nextToken (nextToken s1)) = .ok body s3 →
          Old.ParseIfStmt (n + 1) s = .ok (.IfStmt cond body) s3)) ∧
    (∀ (n : Nat) (s : Old.St) (cond : Old.Expr) (s1 : Old.St),
      (nextToken s).CurrTok.tok = .BY → (nextToken (nextToken s)).CurrTok.tok = .LBRACE →
      Old.ParseExpression n (nextToken (nextToken (nextToken s))) = .ok cond s1 →
      (cond.getType ≠ .IntType → (Old.ParseAliveStmt (n + 1) s).isOk = false) ∧
      (∀ e, cond.getType = .ArrayType e →
        Old.ParseAliveStmt (n + 1) s = LogNull "invalid type for cond" s1) ∧
      (cond.getType = .IntType → s1.CurrTok.tok = .RBRACE →
        ∀ body s3, Old.ParseStatement n (nextToken s1) = .ok body s3 →
          Old.ParseAliveStmt (n + 1) s = .ok (.AliveStmt cond body) s3)) ∧
    (∀ (n : Nat) (s : Cur.St) (cond : Cur.Expr) (s1 : Cur.St),
      (nextToken s).CurrTok.tok = .LBAR →
      Cur.ParseExpression n (nextToken (nextToken s)) = .ok cond s1 →
      (cond.getType ≠ .Int →
        Cur.ParseIfStmt (n + 1) s = LogNull "invalid type for cond" s1) ∧
      (cond.getType = .Int → s1.CurrTok.tok = .RBAR → (nextToken s1).CurrTok.tok = .DO →
        ∀ body s3, Cur.ParseStatement n (nextToken (nextToken s1)) = .ok body s3 →
          Cur.ParseIfStmt (n + 1) s = .ok (.IfStmt cond body) s3)) ∧
    (∀ (n : Nat) (s : Cur.St) (cond : Cur.Expr) (s1 : Cur.St),
      (nextToken s).CurrTok.tok = .BY → (nextToken (nextToken s)).CurrTok.tok = .LBRACE →
      Cur.ParseExpression n (nextToken (nextToken (nextToken s))) = .ok cond s1 →
      (cond.getType ≠ .Int →
        Cur.ParseAliveStmt (n + 1) s = LogNull "invalid type for cond" s1) ∧
      (cond.getType = .Int → s1.CurrTok.tok = .RBRACE →
        ∀ body s3, Cur.ParseStatement n (nextToken s1) = .ok body s3 →
          Cur.ParseAliveStmt (n + 1) s = .ok (.AliveStmt cond body) s3)) ∧
    (Old.ParseInput Old.printSym 20 (PState.init ifWarToks 1)).isOk = true ∧
    (Cur.ParseInput 20 (PState.init ifWarToks 1)).isOk = true ∧
    (Old.ParseInput Old.printSym 20 (PState.init aliveWarToks 1)).isOk = true ∧
    (Cur.ParseInput 20 (PState.init aliveWarToks 1)).isOk = true ∧
    (Old.ParseInput Old.printSym 20 (PState.init ifArrayToks 1)).log
      = [("invalid type for cond", 1)] ∧
    (Cur.ParseInput 20 (PState.init ifStringToks 1)).log = [("invalid type for cond", 1)] := by
  refine ⟨?_, ?_, ?_, ?_, ?_, ?_, ?_, ?_, ?_, ?_⟩
  · intro n s cond s1 h1 h2
    refine ⟨?_, ?_, ?_⟩
    · intro hne
      simp only [Old.ParseIfStmt, h1, h2]
      cases hc : cond.getType with
      | null => simp [Old.TypeP.get, Res.isOk]
      | IntType => exact absurd hc hne
      | ArrayType e => simp [Old.TypeP.get, Res.isOk, LogNull]
    · intro e hc
      simp [Old.ParseIfStmt, h1, h2, hc, Old.TypeP.get]
    · intro hc h3 h4 body s3 h5
      simp [Old.ParseIfStmt, h1, h2, hc, Old.TypeP.get, h3, h4, h5]
  · intro n s cond s1 h0 h1 h2
    refine ⟨?_, ?_, ?_⟩
    · intro hne
      simp only [Old.ParseAliveStmt, h0, h1, h2]
      cases hc : cond.getType with
      | null => simp [Old.TypeP.get, Res.isOk]
      | IntType => exact absurd hc hne
      | ArrayType e => simp [Old.TypeP.get, Res.isOk, LogNull]
    · intro e hc
      simp [Old.ParseAliveStmt, h0, h1, h2, hc, Old.TypeP.get]
    · intro hc h3 body s3 h5
      simp [Old.ParseAliveStmt, h0, h1, h2, hc, Old.TypeP.get, h3, h5]
  · intro n s cond s1 h1 h2
    refine ⟨?_, ?_⟩
    · intro hne
      simp [Cur.ParseIfStmt, h1, h2, hne]
    · intro hc h3 h4 body s3 h5
      simp [Cur.ParseIfStmt, h1, h2, hc, h3, h4, h5]
  · intro n s cond s1 h0 h1 h2
    refine ⟨?_, ?_⟩
    · intro hne
      simp [Cur.ParseAliveStmt, h0, h1, h2, hne]
    · intro hc h3 body s3 h5
      simp [Cur.ParseAliveStmt, h0, h1, h2, hc, h3, h5]
  all_goals decide!

/-! ## War declarations -/

/-- C9. In the loop of `ParseWarStmt`, for a declaration `name : T = e` whose
initializer `e` is parsed and whose type is not compatible with `T` (old parser:
`checkTypes` is not true; current parser: the types differ), no node is returned, the
diagnostic is logged, and the tables are those the declaration started with: the name
is not added.  So `war x : array<int> = 1;` (old) and `war x : str = 1;` (current)
are rejected and leave `x` unbound. -/
theorem war_rejects_incompatible_initializer :
    (∀ (n : Nat) (wars : List (String × Old.Expr)) (s s1 s2 : Old.St) (type : Old.TypeP)
        (valu : Old.Expr),
      s.CurrTok.tok = .IDENTIFIER → (nextToken s).CurrTok.tok = .COL →
      Old.ParseType n (nextToken (nextToken s)) = .ok type s1 →
      s1.CurrTok.tok = .ASSIGN →
      Old.ParseExpression n (nextToken s1) = .ok valu s2 →
      Old.checkTypes valu.getType type ≠ some true →
      (Old.ParseWarLoop (n + 1) wars s).isOk = false ∧
      (Old.checkTypes valu.getType type = some false →
        Old.ParseWarLoop (n + 1) wars s = LogNull "invalid expr type for war" s2) ∧
      s2.heap = s.heap ∧ s2.CTable = s.CTable) ∧
    (∀ (n : Nat) (wars : List Cur.Expr) (s s2 : Cur.St) (valu : Cur.Expr),
      s.CurrTok.tok = .IDENTIFIER → (nextToken s).CurrTok.tok = .COL →
      Cur.getDType (nextToken (nextToken s)).CurrTok.tok ≠ .Null →
      (nextToken (nextToken (nextToken s))).CurrTok.tok = .ASSIGN →
      Cur.ParseExpression n (nextToken (nextToken (nextToken (nextToken s)))) = .ok valu s2 →
      valu.getType ≠ Cur.getDType (nextToken (nextToken s)).CurrTok.tok →
      Cur.ParseWarLoop (n + 1) wars s = LogNull "invalid war type" s2 ∧
      s2.heap = s.heap ∧ s2.CTable = s.CTable) ∧
    (Old.ParseStatement 20 (Old.start warArrayIntToks)).isNull = true ∧
    (Old.ParseStatement 20 (Old.start warArrayIntToks)).log
      = [("invalid expr type for war", 1)] ∧
    (Old.ParseStatement 20 (Old.start warArrayIntToks)).lookup "x" = some none ∧
    (Cur.ParseStatement 20 (Cur.start warStrIntToks)).isNull = true ∧
    (Cur.ParseStatement 20 (Cur.start warStrIntToks)).log = [("invalid war type", 1)] ∧
    (Cur.ParseStatement 20 (Cur.start warStrIntToks)).lookup "x" = some none := by
  refine ⟨?_, ?_, ?_, ?_, ?_, ?_, ?_, ?_⟩
  · intro n wars s s1 s2 type valu h1 h2 h3 h4 h5 h6
    have hT := (Old.ParseType_same n _).of_ok h3
    have hE := ((Old.expr_same_all n).1 _).of_ok h5
    simp only [nextToken_heap, nextToken_CTable] at hT hE
    refine ⟨?_, ?_, hE.1.trans hT.1, hE.2.trans hT.2⟩
    · simp only [Old.ParseWarLoop, h1, h2, h3, h4, h5]
      cases hc : Old.checkTypes valu.getType type with
      | none => simp [Res.isOk]
      | some b =>
        cases b with
        | true => exact absurd hc h6
        | false => simp [Res.isOk, LogNull]
    · intro hc
      simp [Old.ParseWarLoop, h1, h2, h3, h4, h5, hc]
  · intro n wars s s2 valu h1 h2 h3 h4 h5 h6
    have hE := ((Cur.cur_expr_same_all n).1 _).of_ok h5
    simp only [nextToken_heap, nextToken_CTable] at hE
    refine ⟨?_, hE.1, hE.2⟩
    simp [Cur.ParseWarLoop, h1, h2, h3, h4, h5, h6]
  all_goals decide!

/-- The lookup after `CTable->addSym(name, sym)` finds `sym`. -/
theorem addSym_lookup {σ : Type} (s s3 : PState σ) (name : String) (sym : σ)
    (h : addSym s name sym = some s3) :
    s3.CTable = s.CTable ∧ getSym s3.heap s3.CTable name = some (some sym) ∧
    ∀ m, m ≠ name → getSym s3.heap s3.CTable m = getSym s.heap s.CTable m := by
  simp only [addSym] at h
  cases ha : addSymAt s.heap s.CTable name sym with
  | none => simp [ha] at h
  | some heap' =>
    simp only [ha, Option.some.injEq] at h
    subst h
    cases hc : s.CTable with
    | none => simp [addSymAt, hc] at ha
    | some a =>
      rw [hc] at ha
      have := addSymAt_lookups s.heap heap' a name sym ha
      exact ⟨rfl, this.1, this.2.1⟩

namespace Old

/-- An identifier that no table of the chain binds: `ParseFactor` logs
`unknown identifier`. -/
theorem ParseFactor_unknown (k : Nat) (s : St) (h1 : s.CurrTok.tok = .IDENTIFIER)
    (h2 : getSym s.heap s.CTable s.CurrTok.word = some none) :
    ParseFactor (k + 1) s = LogNull "unknown identifier" (nextToken s) := by
  simp [ParseFactor, h1, h2]

/-- A null factor is a null expression. -/
theorem ParseExpression_null_of_factor (k : Nat) (s x : St)
    (h : ParseFactor k s = .null x) : ParseExpression (k + 4) s = .null x := by
  have h1 : ParseTermExpr (k + 1) s = .null x := by simp [ParseTermExpr, h]
  have h2 : ParseAddExpr (k + 2) s = .null x := by simp [ParseAddExpr, h1]
  have h3 : ParseBoolExpr (k + 3) s = .null x := by simp [ParseBoolExpr, h2]
  simp [ParseExpression, h3]

end Old

namespace Cur

/-- An identifier that no table of the chain binds: `ParseFactor` logs
`unknown identifier`. -/
theorem cur_ParseFactor_unknown (k : Nat) (s : St) (h1 : s.CurrTok.tok = .IDENTIFIER)
    (h2 : getSym s.heap s.CTable s.CurrTok.word = some none) :
    ParseFactor (k + 1) s = LogNull "unknown identifier" (nextToken s) := by
  simp [ParseFactor, h1, h2]

/-- A null factor is a null expression. -/
theorem cur_ParseExpression_null_of_factor (k : Nat) (s x : St)
    (h : ParseFactor k s = .null x) : ParseExpression (k + 4) s = .null x := by
  have h1 : ParseTermExpr (k + 1) s = .null x := by simp [ParseTermExpr, h]
  have h2 : ParseAddExpr (k + 2) s = .null x := by simp [ParseAddExpr, h1]
  have h3 : ParseBoolExpr (k + 3) s = .null x := by simp [ParseBoolExpr, h2]
  simp [ParseExpression, h3]

end Cur

set_option maxHeartbeats 8000000 in
/-- C10. In both parsers the name of a war declaration is added to the current scope
only after its initializer is parsed.  A declaration `x : T = x` in a scope chain that
does not bind `x` fails with `unknown identifier`; after a declaration whose
initializer is accepted, the loop goes on in a state where the name resolves to the
new Variable symbol; `war x : int = x;` fails, `war x : int = 1, y : int = x;` is
parsed with the second initializer resolved to `x`, and `x` resolves in the
statement that follows. -/
theorem war_symbol_added_after_initializer :
    (∀ (m : Nat) (wars : List (String × Old.Expr)) (s s1 : Old.St) (type : Old.TypeP),
      s.CurrTok.tok = .IDENTIFIER → (nextToken s).CurrTok.tok = .COL →
      Old.ParseType (m + 5) (nextToken (nextToken s)) = .ok type s1 →
      s1.CurrTok.tok = .ASSIGN →
      (nextToken s1).CurrTok.tok = .IDENTIFIER →
      (nextToken s1).CurrTok.word = s.CurrTok.word →
      getSym s.heap s.CTable s.CurrTok.word = some none →
      Old.ParseWarLoop (m + 6) wars s
        = LogNull "unknown identifier" (nextToken (nextToken s1))) ∧
    (∀ (m : Nat) (wars : List Cur.Expr) (s : Cur.St),
      s.CurrTok.tok = .IDENTIFIER → (nextToken s).CurrTok.tok = .COL →
      Cur.getDType (nextToken (nextToken s)).CurrTok.tok ≠ .Null →
      (nextToken (nextToken (nextToken s))).CurrTok.tok = .ASSIGN →
      (nextToken (nextToken (nextToken (nextToken s)))).CurrTok.tok = .IDENTIFIER →
      (nextToken (nextToken (nextToken (nextToken s)))).CurrTok.word = s.CurrTok.word →
      getSym s.heap s.CTable s.CurrTok.word = some none →
      Cur.ParseWarLoop (m + 6) wars s
        = LogNull "unknown identifier"
            (nextToken (nextToken (nextToken (nextToken (nextToken s)))))) ∧
    (∀ (n : Nat) (wars : List (String × Old.Expr)) (s s1 s2 : Old.St) (type : Old.TypeP)
        (valu : Old.Expr) (a : Nat) (t : Table Old.Symbol),
      s.CurrTok.tok = .IDENTIFIER → (nextToken s).CurrTok.tok = .COL →
      Old.ParseType n (nextToken (nextToken s)) = .ok type s1 →
      s1.CurrTok.tok = .ASSIGN →
      Old.ParseExpression n (nextToken s1) = .ok valu s2 →
      Old.checkTypes valu.getType type = some true →
      s.CTable = some a → s.heap[a]? = some t →
      ∃ s3, addSym s2 s.CurrTok.word (Old.Symbol.new s.CurrTok.word type .WAR) = some s3 ∧
        s3.heap = s.heap.set a (t.addSym s.CurrTok.word
          (Old.Symbol.new s.CurrTok.word type .WAR)) ∧
        getSym s3.heap s3.CTable s.CurrTok.word
          = some (some (Old.Symbol.new s.CurrTok.word type .WAR)) ∧
        Old.ParseWarLoop (n + 1) wars s =
          if s3.CurrTok.tok ≠ .SEMICOL ∧ s3.CurrTok.tok ≠ .COMMA then
            LogNull "excepted ';'" s3
          else if s3.CurrTok.tok = .COMMA then
            if (nextToken s3).CurrTok.tok = .SEMICOL then
              LogNull "excepted assign expr" (nextToken s3)
            else Old.ParseWarLoop n (wars ++ [(s.CurrTok.word, valu)]) (nextToken s3)
          else Old.ParseWarLoop n (wars ++ [(s.CurrTok.word, valu)]) s3) ∧
    (∀ (n : Nat) (wars : List Cur.Expr) (s s2 : Cur.St) (valu : Cur.Expr) (a : Nat)
        (t : Table Cur.Symbol),
      s.CurrTok.tok = .IDENTIFIER → (nextToken s).CurrTok.tok = .COL →
      Cur.getDType (nextToken (nextToken s)).CurrTok.tok ≠ .Null →
      (nextToken (nextToken (nextToken s))).CurrTok.tok = .ASSIGN →
      Cur.ParseExpression n (nextToken (nextToken (nextToken (nextToken s)))) = .ok valu s2 →
      valu.getType = Cur.getDType (nextToken (nextToken s)).CurrTok.tok →
      s.CTable = some a → s.heap[a]? = some t →
      ∃ s3, addSym s2 s.CurrTok.word
            (Cur.Symbol.new s.CurrTok.word valu.getType .WAR) = some s3 ∧
        s3.heap = s.heap.set a (t.addSym s.CurrTok.word
          (Cur.Symbol.new s.CurrTok.word valu.getType .WAR)) ∧
        getSym s3.heap s3.CTable s.CurrTok.word
          = some (some (Cur.Symbol.new s.CurrTok.word valu.getType .WAR)) ∧
        Cur.ParseWarLoop (n + 1) wars s =
          if s3.CurrTok.tok ≠ .SEMICOL ∧ s3.CurrTok.tok ≠ .COMMA then
            LogNull "excepted ';'" s3
          else if s3.CurrTok.tok = .COMMA then
            Cur.ParseWarLoop n
              (wars ++ [.AssignExpr (.IDExpr s.CTable s.CurrTok.word valu.getType) valu
                valu.getType]) (nextToken s3)
          else
            Cur.ParseWarLoop n
              (wars ++ [.AssignExpr (.IDExpr s.CTable s.CurrTok.word valu.getType) valu
                valu.getType]) s3) ∧
    (Old.ParseStatement 20 (Old.start warSelfToks)).log = [("unknown identifier", 1)] ∧
    (Cur.ParseStatement 20 (Cur.start warSelfToks)).log = [("unknown identifier", 1)] ∧
    (Old.ParseStatement 20 (Old.start warPairToks)).isOk = true ∧
    (((Old.ParseStatement 20 (Old.start warPairToks)).val?.bind
        (fun w => w.warInit? 1)).bind Old.Expr.asID?) = some (some 0, "x", .IntType) ∧
    (Old.ParseStatement 20 (Old.start warPairToks)).lookup "x"
      = some (some (Old.Symbol.new "x" .IntType .WAR)) ∧
    (Old.ParseInput Old.printSym 30 (PState.init (warPairToks ++ warUseToks) 1)).isOk
      = true ∧
    (Cur.ParseStatement 20 (Cur.start warPairToks)).isOk = true ∧
    (((Cur.ParseStatement 20 (Cur.start warPairToks)).val?.bind
        (fun w => w.warInit? 1)).bind Cur.Expr.asID?) = some (some 0, "x", .Int) ∧
    (Cur.ParseStatement 20 (Cur.start warPairToks)).lookup "x"
      = some (some (Cur.Symbol.new "x" .Int .WAR)) ∧
    (Cur.ParseInput 30 (PState.init (warPairToks ++ warUseToks) 1)).isOk = true := by
  refine ⟨?_, ?_, ?_, ?_, ?_, ?_, ?_, ?_, ?_, ?_, ?_, ?_, ?_, ?_⟩
  · intro m wars s s1 type h1 h2 h3 h4 h5 h6 h7
    have hT := (Old.ParseType_same (m + 5) _).of_ok h3
    simp only [nextToken_heap, nextToken_CTable] at hT
    have hF := Old.ParseFactor_unknown m (nextToken s1) h5
      (by simp only [nextToken_heap, nextToken_CTable, hT.1, hT.2, h6, h7])
    have hE := Old.ParseExpression_null_of_factor (m + 1) (nextToken s1) _ hF
    simp only [Old.ParseWarLoop, h1, h2, h3, h4, hE]
    simp [LogNull]
  · intro m wars s h1 h2 h3 h4 h5 h6 h7
    have hF := Cur.cur_ParseFactor_unknown m (nextToken (nextToken (nextToken (nextToken s)))) h5
      (by simp only [nextToken_heap, nextToken_CTable, h6, h7])
    have hE := Cur.cur_ParseExpression_null_of_factor (m + 1) _ _ hF
    simp only [Cur.ParseWarLoop, h1, h2, h4, hE]
    simp [LogNull, h3]
  · intro n wars s s1 s2 type valu a t h1 h2 h3 h4 h5 h6 h7 h8
    have hT := (Old.ParseType_same n _).of_ok h3
    have hE := ((Old.expr_same_all n).1 _).of_ok h5
    simp only [nextToken_heap, nextToken_CTable] at hT hE
    have hh : s2.heap = s.heap := hE.1.trans hT.1
    have hc : s2.CTable = s.CTable := hE.2.trans hT.2
    have hadd : addSym s2 s.CurrTok.word (Old.Symbol.new s.CurrTok.word type .WAR)
        = some { s2 with heap := s.heap.set a (t.addSym s.CurrTok.word
            (Old.Symbol.new s.CurrTok.word type .WAR)) } := by
      simp [addSym, addSymAt, hh, hc, h7, h8]
    refine ⟨_, hadd, rfl, (addSym_lookup _ _ _ _ hadd).2.1, ?_⟩
    simp only [Old.ParseWarLoop, h1, h2, h3, h4, h5, h6, hadd]
    simp
  · intro n wars s s2 valu a t h1 h2 h3 h4 h5 h6 h7 h8
    have hE := ((Cur.cur_expr_same_all n).1 _).of_ok h5
    simp only [nextToken_heap, nextToken_CTable] at hE
    have hadd : addSym s2 s.CurrTok.word (Cur.Symbol.new s.CurrTok.word valu.getType .WAR)
        = some { s2 with heap := s.heap.set a (t.addSym s.CurrTok.word
            (Cur.Symbol.new s.CurrTok.word valu.getType .WAR)) } := by
      simp [addSym, addSymAt, hE.1, hE.2, h7, h8]
    refine ⟨_, hadd, rfl, (addSym_lookup _ _ _ _ hadd).2.1, ?_⟩
    simp only [Cur.ParseWarLoop, h1, h2, h4, h5, ← h6, hadd]
    simp [hE.2, h6, h3]
  all_goals decide!

/-! ## Operands of binary operators (old parser) -/

theorem Res.All.of_val {σ α : Type} {P : α → Prop} {v : α} {s : PState σ} (h : P v) :
    Res.All P (Res.ok v s) :=
  ⟨by intro w t e; cases e; exact h⟩

theorem Res.All.at_null {σ α : Type} {P : α → Prop} {s : PState σ} :
    Res.All P (Res.null s : Res σ α) :=
  ⟨by intro w t e; cases e⟩

theorem Res.All.at_logNull {σ α : Type} {P : α → Prop} {s : PState σ} (msg : String) :
    Res.All P (LogNull msg s : Res σ α) :=
  ⟨by intro w t e; cases e⟩

theorem Res.All.at_crash {σ α : Type} {P : α → Prop} : Res.All P (Res.crash : Res σ α) :=
  ⟨by intro w t e; cases e⟩

theorem Res.All.at_fuel {σ α : Type} {P : α → Prop} : Res.All P (Res.fuel : Res σ α) :=
  ⟨by intro w t e; cases e⟩

theorem Res.All.val_of_ok {σ α : Type} {P : α → Prop} {r : Res σ α} {v : α} {s : PState σ}
    (h : Res.All P r) (e : r = Res.ok v s) : P v :=
  h.holds v s e

namespace Old

/-- Compatible types of which the left one is not an array are both Int. -/
theorem checkTypes_true_not_array {a b : TypeP} {w : TypeWord}
    (h : checkTypes a b = some true) (hw : a.get = some w) (hna : ¬w = .Array) :
    a = .IntType ∧ b = .IntType := by
  cases a with
  | null => simp [TypeP.get] at hw
  | IntType =>
    cases b with
    | null => simp [checkTypes, TypeP.getElementType, TypeP.isNull, TypeP.get] at h
    | IntType => exact ⟨rfl, rfl⟩
    | ArrayType e => simp [checkTypes, TypeP.getElementType, TypeP.isNull, TypeP.get] at h
  | ArrayType e =>
    simp only [TypeP.get, Option.some.injEq] at hw
    exact absurd hw.symm hna

/-- An array is not compatible with Int, on either side. -/
theorem checkTypes_array_int (a b : TypeP) (e : TypeP)
    (h : a = .ArrayType e ∧ b = .IntType ∨ a = .IntType ∧ b = .ArrayType e) :
    checkTypes a b ≠ some true := by
  rcases h with ⟨rfl, rfl⟩ | ⟨rfl, rfl⟩
  · cases e <;> simp [checkTypes, TypeP.getElementType, TypeP.isNull, TypeP.get]
  · simp [checkTypes, TypeP.getElementType, TypeP.isNull, TypeP.get]

theorem IntOpsList_append (xs : List Expr) (e : Expr) (h1 : Expr.IntOpsList xs)
    (h2 : e.IntOps) : Expr.IntOpsList (xs ++ [e]) := by
  induction xs with
  | nil => simp [Expr.IntOpsList, h2]
  | cons x xs ih =>
    simp only [Expr.IntOpsList, List.cons_append] at h1 ⊢
    exact ⟨h1.1, ih h1.2⟩

set_option maxHeartbeats 8000000 in
/-- Every tree the expression functions of the old parser return has only Int
operands under its binary operators. -/
theorem expr_intOps_all : ∀ n : Nat,
    (∀ s, Res.All Expr.IntOps (ParseExpression n s)) ∧
    (∀ s, Res.All Expr.IntOps (ParseBoolExpr n s)) ∧
    (∀ lhs s, lhs.IntOps → Res.All Expr.IntOps (ParseBoolLoop n lhs s)) ∧
    (∀ s, Res.All Expr.IntOps (ParseAddExpr n s)) ∧
    (∀ lhs s, lhs.IntOps → Res.All Expr.IntOps (ParseAddLoop n lhs s)) ∧
    (∀ s, Res.All Expr.IntOps (ParseTermExpr n s)) ∧
    (∀ lhs s, lhs.IntOps → Res.All Expr.IntOps (ParseTermLoop n lhs s)) ∧
    (∀ s, Res.All Expr.IntOps (ParseFactor n s)) ∧
    (∀ elemType arr_elems s, Expr.IntOpsList arr_elems →
      Res.All Expr.IntOps (ParseArrayLoop n elemType arr_elems s)) ∧
    (∀ elemType arr_elems s, Expr.IntOpsList arr_elems →
      Res.All Expr.IntOps (ParseArrayTail n elemType arr_elems s)) ∧
    (∀ name sym Idx args s, Expr.IntOpsList args →
      Res.All Expr.IntOps (ParseCallLoop n name sym Idx args s)) := by
  intro n
  induction n with
  | zero =>
    refine ⟨?_, ?_, ?_, ?_, ?_, ?_, ?_, ?_, ?_, ?_, ?_⟩ <;> intros <;>
      simp only [ParseExpression, ParseBoolExpr, ParseBoolLoop, ParseAddExpr, ParseAddLoop,
        ParseTermExpr, ParseTermLoop, ParseFactor, ParseArrayLoop, ParseArrayTail,
        ParseCallLoop] <;> exact Res.All.at_fuel
  | succ n ih =>
    obtain ⟨ihE, ihB, ihBL, ihA, ihAL, ihT, ihTL, ihF, ihArr, ihArrT, ihC⟩ := ih
    refine ⟨?_, ?_, ?_, ?_, ?_, ?_, ?_, ?_, ?_, ?_, ?_⟩ <;> intros <;>
      simp only [ParseExpression, ParseBoolExpr, ParseBoolLoop, ParseAddExpr, ParseAddLoop,
        ParseTermExpr, ParseTermLoop, ParseFactor, ParseArrayLoop, ParseArrayTail,
        ParseCallLoop] <;> repeat' split
    all_goals
      (try have hE := (ihE _).val_of_ok ‹ParseExpression n _ = Res.ok _ _›)
      (try have hB := (ihB _).val_of_ok ‹ParseBoolExpr n _ = Res.ok _ _›)
      (try have hA := (ihA _).val_of_ok ‹ParseAddExpr n _ = Res.ok _ _›)
      (try have hT := (ihT _).val_of_ok ‹ParseTermExpr n _ = Res.ok _ _›)
      (try have hF := (ihF _).val_of_ok ‹ParseFactor n _ = Res.ok _ _›)
      (try have hI := checkTypes_true_not_array ‹checkTypes _ _ = some true›
                  ‹TypeP.get _ = some _› ‹¬ (_ = TypeWord.Array)›)
      first
      | exact Res.All.at_fuel
      | exact Res.All.at_crash
      | exact Res.All.at_logNull _
      | exact Res.All.at_null
      | (apply Res.All.of_val; simp only [Expr.IntOps, Expr.mkInt, and_self, *])
      | exact ihBL _ _ hB
      | exact ihAL _ _ hA
      | exact ihTL _ _ hT
      | exact ihTL _ _ hF
      | exact ihBL _ _ (by simp only [Expr.IntOps, and_self, *])
      | exact ihAL _ _ (by simp only [Expr.IntOps, and_self, *])
      | exact ihTL _ _ (by simp only [Expr.IntOps, and_self, *])
      | exact ihArr _ _ _ ‹_›
      | exact ihArr _ _ _ (by simp only [Expr.IntOpsList])
      | exact ihArrT _ _ _ (IntOpsList_append _ _ ‹_› hE)
      | exact ihC _ _ _ _ _ (IntOpsList_append _ _ ‹_› hE)
      | exact ihC _ _ _ _ _ (by simp only [Expr.IntOpsList])

/-- In a loop of a binary operator, a right operand whose type is not compatible with
the left one, or an array on either side, gives no node. -/
theorem binary_reject {lt rt : TypeP}
    (h : checkTypes lt rt ≠ some true ∨ (∃ e, lt = .ArrayType e) ∨ (∃ e, rt = .ArrayType e)) :
    checkTypes lt rt ≠ some true ∨ lt.get = some .Array := by
  by_cases hc : checkTypes lt rt = some true
  · right
    rcases h with h | ⟨e, rfl⟩ | ⟨e, rfl⟩
    · exact absurd hc h
    · rfl
    · cases lt with
      | null => simp [checkTypes, TypeP.getElementType] at hc
      | IntType => simp [checkTypes, TypeP.getElementType, TypeP.isNull, TypeP.get] at hc
      | ArrayType e1 => rfl
  · exact Or.inl hc

/-- C8. In the old parser every tree returned by `ParseBoolExpr`, `ParseAddExpr` or
`ParseTermExpr` has, at its root and below, only Relational, Additive and
Multiplicative nodes whose two operands have type Int and whose own type is Int; in
the loop of each of the three functions, a right operand that is not compatible with
the left one, or an array on either side, ends the parse with the diagnostic
`invalid types` (or, on a null type, in a null dereference).  So `1 + [1]`, `[1] * 2` and
`[1] < [1]` are rejected with `invalid types`, and `1 + 2 * 3 < 4` is accepted. -/
theorem binary_operands_are_int :
    (∀ (n : Nat) (s s' : St) (e : Expr),
      (ParseBoolExpr n s = .ok e s' ∨ ParseAddExpr n s = .ok e s' ∨
        ParseTermExpr n s = .ok e s') →
      e.IntOps ∧
      ∀ l r t op, (e = .BoolExpr l r t op ∨ e = .AddExpr l r t op ∨ e = .TermExpr l r t op) →
        l.getType = .IntType ∧ r.getType = .IntType ∧ e.getType = .IntType) ∧
    (∀ (n : Nat) (lhs rhs : Expr) (s s1 : St),
      ¬(s.CurrTok.tok.code < 39 ∨ s.CurrTok.tok.code > 44) →
      ParseAddExpr n (nextToken s) = .ok rhs s1 →
      (checkTypes lhs.getType rhs.getType ≠ some true ∨ (∃ e, lhs.getType = .ArrayType e) ∨
        (∃ e, rhs.getType = .ArrayType e)) →
      (ParseBoolLoop (n + 1) lhs s = LogNull "invalid types" s1 ∨
        (checkTypes lhs.getType rhs.getType = none ∧
          ParseBoolLoop (n + 1) lhs s = .crash))) ∧
    (∀ (n : Nat) (lhs rhs : Expr) (s s1 : St),
      ¬(s.CurrTok.tok.code < 33 ∨ s.CurrTok.tok.code > 34) →
      ParseTermExpr n (nextToken s) = .ok rhs s1 →
      (checkTypes lhs.getType rhs.getType ≠ some true ∨ (∃ e, lhs.getType = .ArrayType e) ∨
        (∃ e, rhs.getType = .ArrayType e)) →
      (ParseAddLoop (n + 1) lhs s = LogNull "invalid types" s1 ∨
        (checkTypes lhs.getType rhs.getType = none ∧
          ParseAddLoop (n + 1) lhs s = .crash))) ∧
    (∀ (n : Nat) (lhs rhs : Expr) (s s1 : St),
      ¬(s.CurrTok.tok.code < 35 ∨ s.CurrTok.tok.code > 36) →
      ParseFactor n (nextToken s) = .ok rhs s1 →
      (checkTypes lhs.getType rhs.getType ≠ some true ∨ (∃ e, lhs.getType = .ArrayType e) ∨
        (∃ e, rhs.getType = .ArrayType e)) →
      (ParseTermLoop (n + 1) lhs s = LogNull "invalid types" s1 ∨
        (checkTypes lhs.getType rhs.getType = none ∧
          ParseTermLoop (n + 1) lhs s = .crash))) ∧
    (ParseStatement 20 (start intPlusArrayToks)).log = [("invalid types", 1)] ∧
    (ParseStatement 20 (start arrayTimesIntToks)).log = [("invalid types", 1)] ∧
    (ParseStatement 20 (start arrayLessArrayToks)).log = [("invalid types", 1)] ∧
    (ParseStatement 20 (start intOpsToks)).isOk = true := by
  refine ⟨?_, ?_, ?_, ?_, ?_, ?_, ?_, ?_⟩
  · intro n s s' e h
    have he : e.IntOps := by
      rcases h with h | h | h
      · exact ((expr_intOps_all n).2.1 s).val_of_ok h
      · exact ((expr_intOps_all n).2.2.2.1 s).val_of_ok h
      · exact ((expr_intOps_all n).2.2.2.2.2.1 s).val_of_ok h
    refine ⟨he, ?_⟩
    intro l r t op hshape
    rcases hshape with rfl | rfl | rfl <;>
      · simp only [Expr.IntOps] at he
        exact ⟨he.2.2.1, he.2.2.2.1, he.2.2.2.2⟩
  · intro n lhs rhs s s1 h1 h2 h3
    simp only [ParseBoolLoop, if_neg h1, h2]
    rcases binary_reject h3 with h | h
    · cases hc : checkTypes lhs.getType rhs.getType with
      | none => exact Or.inr ⟨rfl, rfl⟩
      | some b =>
        cases b with
        | false => exact Or.inl rfl
        | true => exact absurd hc h
    · cases hc : checkTypes lhs.getType rhs.getType with
      | none => exact Or.inr ⟨rfl, rfl⟩
      | some b =>
        cases b with
        | false => exact Or.inl rfl
        | true => simp [h]
  · intro n lhs rhs s s1 h1 h2 h3
    simp only [ParseAddLoop, if_neg h1, h2]
    rcases binary_reject h3 with h | h
    · cases hc : checkTypes lhs.getType rhs.getType with
      | none => exact Or.inr ⟨rfl, rfl⟩
      | some b =>
        cases b with
        | false => exact Or.inl rfl
        | true => exact absurd hc h
    · cases hc : checkTypes lhs.getType rhs.getType with
      | none => exact Or.inr ⟨rfl, rfl⟩
      | some b =>
        cases b with
        | false => exact Or.inl rfl
        | true => simp [h]
  · intro n lhs rhs s s1 h1 h2 h3
    simp only [ParseTermLoop, if_neg h1, h2]
    rcases binary_reject h3 with h | h
    · cases hc : checkTypes lhs.getType rhs.getType with
      | none => exact Or.inr ⟨rfl, rfl⟩
      | some b =>
        cases b with
        | false => exact Or.inl rfl
        | true => exact absurd hc h
    · cases hc : checkTypes lhs.getType rhs.getType with
      | none => exact Or.inr ⟨rfl, rfl⟩
      | some b =>
        cases b with
        | false => exact Or.inl rfl
        | true => simp [h]
  all_goals decide!

end Old

theorem Res.map_eq_ok {σ α β : Type} (f : α → β) (r : Res σ α) (w : β) (s' : PState σ) :
    r.map f = Res.ok w s' ↔ ∃ v, r = Res.ok v s' ∧ w = f v := by
  cases r with
  | ok v s =>
    simp only [Res.map, Res.ok.injEq]
    constructor
    · rintro ⟨rfl, rfl⟩; exact ⟨v, ⟨rfl, rfl⟩, rfl⟩
    · rintro ⟨v', ⟨rfl, rfl⟩, rfl⟩; exact ⟨rfl, rfl⟩
  | null s => simp [Res.map]
  | crash => simp [Res.map]
  | fuel => simp [Res.map]

namespace Old

/-! ## Calls (old parser) -/

/-- One round of the call loop after an argument is parsed, given the property for the
rest of the loop. -/
theorem ParseCallLoop_step (name : String) (sym : Symbol) (n Idx : Nat) (args0 : List Expr)
    (arg : Expr) (argType : TypeP) (s2 s' : St) (e : Expr)
    (hdrop : sym.arg_types.drop Idx = argType :: sym.arg_types.drop (Idx + 1))
    (hlt : Idx < sym.arg_types.length)
    (ih : ParseCallLoop n name sym (Idx + 1) (args0 ++ [arg]) s2 = .ok e s' ↔
      ∃ new, ParseArgsSpec n s2 = .ok new s' ∧ Idx + 1 ≤ sym.arg_types.length ∧
        List.Forall₂ (fun a t => checkTypes a.getType t = some true) new
          (sym.arg_types.drop (Idx + 1)) ∧
        e = .CallExpr ((args0 ++ [arg]) ++ new) s'.CTable name sym.Vtype) :
    (checkTypes arg.getType argType = some true ∧
        ParseCallLoop n name sym (Idx + 1) (args0 ++ [arg]) s2 = .ok e s') ↔
      ∃ new, (ParseArgsSpec n s2).map (fun rest => arg :: rest) = .ok new s' ∧
        Idx ≤ sym.arg_types.length ∧
        List.Forall₂ (fun a t => checkTypes a.getType t = some true) new
          (sym.arg_types.drop Idx) ∧
        e = .CallExpr (args0 ++ new) s'.CTable name sym.Vtype := by
  rw [ih, hdrop]
  constructor
  · rintro ⟨hc, new, h1, _, h3, h4⟩
    refine ⟨arg :: new, ?_, Nat.le_of_lt hlt, List.Forall₂.cons hc h3, ?_⟩
    · rw [h1]; rfl
    · rw [h4]; simp
  · rintro ⟨new, h1, _, h3, h4⟩
    obtain ⟨rest, hr, rfl⟩ := (Res.map_eq_ok _ _ _ _).mp h1
    cases h3 with
    | cons hc h3 =>
      refine ⟨hc, rest, hr, hlt, h3, ?_⟩
      rw [h4]; simp

/-- The loop of the call case against the argument list of `ParseArgsSpec`: the loop
returns a node exactly when the arguments parse, there are as many as parameter types
remain from `Idx` on, and each is compatible with its parameter type. -/
theorem ParseCallLoop_iff (name : String) (sym : Symbol) : ∀ (n Idx : Nat) (args0 : List Expr)
    (s s' : St) (e : Expr),
    ParseCallLoop n name sym Idx args0 s = .ok e s' ↔
      ∃ new, ParseArgsSpec n s = .ok new s' ∧ Idx ≤ sym.arg_types.length ∧
        List.Forall₂ (fun a t => checkTypes a.getType t = some true) new
          (sym.arg_types.drop Idx) ∧
        e = .CallExpr (args0 ++ new) s'.CTable name sym.Vtype := by
  intro n
  induction n with
  | zero =>
    intro Idx args0 s s' e
    simp [ParseCallLoop, ParseArgsSpec]
  | succ n ih =>
    intro Idx args0 s s' e
    simp only [ParseCallLoop, ParseArgsSpec]
    by_cases hr : s.CurrTok.tok = .RBRACE
    · simp only [hr, if_true]
      by_cases hi : Idx = sym.arg_types.length
      · subst hi
        simp only [ne_eq, not_true_eq_false, if_false, Res.ok.injEq]
        constructor
        · rintro ⟨rfl, rfl⟩
          exact ⟨[], ⟨rfl, rfl⟩, Nat.le_refl _, by simp, by simp⟩
        · rintro ⟨new, ⟨rfl, rfl⟩, _, _, rfl⟩
          simp
      · simp only [ne_eq, hi, not_false_eq_true, if_true, LogNull]
        constructor
        · intro h; cases h
        · rintro ⟨new, hnew, hle, hf, _⟩
          simp only [Res.ok.injEq] at hnew
          obtain ⟨rfl, _⟩ := hnew
          have hd : sym.arg_types.drop Idx = [] := List.forall₂_nil_left_iff.mp hf
          have := List.drop_eq_nil_iff.mp hd
          omega
    · simp only [hr, if_false]
      by_cases hi : Idx = sym.arg_types.length
      · simp only [hi, if_true, LogNull]
        constructor
        · intro h; cases h
        · rintro ⟨new, h1, _, hf, _⟩
          have hd : sym.arg_types.drop sym.arg_types.length = [] := List.drop_length _
          rw [hd] at hf
          have hnil : new = [] := List.forall₂_nil_right_iff.mp hf
          subst hnil
          revert h1
          cases ParseExpression n s with
          | fuel => simp
          | crash => simp
          | null s1 => simp
          | ok arg s1 =>
            simp only
            split
            · simp
            · split
              · split
                · simp
                · intro h1
                  obtain ⟨rest, _, hcons⟩ := (Res.map_eq_ok _ _ _ _).mp h1
                  cases hcons
              · intro h1
                obtain ⟨rest, _, hcons⟩ := (Res.map_eq_ok _ _ _ _).mp h1
                cases hcons
      · simp only [hi, if_false]
        cases hE : ParseExpression n s with
        | fuel => simp
        | crash => simp
        | null s1 => simp
        | ok arg s1 =>
          simp only
          cases hg : sym.arg_types[Idx]? with
          | none =>
            simp only
            constructor
            · intro h; cases h
            · rintro ⟨new, h1, hle, hf, _⟩
              have hge := List.getElem?_eq_none_iff.mp hg
              omega
          | some argType =>
            have hlt : Idx < sym.arg_types.length := by
              rcases Nat.lt_or_ge Idx sym.arg_types.length with h | h
              · exact h
              · rw [List.getElem?_eq_none h] at hg; cases hg
            have hdrop : sym.arg_types.drop Idx = argType :: sym.arg_types.drop (Idx + 1) := by
              rw [List.drop_eq_getElem_cons hlt]
              congr 1
              rw [List.getElem?_eq_getElem hlt] at hg
              exact Option.some.inj hg
            have step := fun s2 => ParseCallLoop_step name sym n Idx args0 arg argType s2 s' e
              hdrop hlt (ih (Idx + 1) (args0 ++ [arg]) s2 s' e)
            simp only
            have hRC : (∃ new,
                (if s1.CurrTok.tok ≠ .RBRACE ∧ s1.CurrTok.tok ≠ .COMMA then
                  (LogNull "in call excepted ']'" s1 : Res Symbol (List Expr))
                else if s1.CurrTok.tok = .COMMA then
                  if (nextToken s1).CurrTok.tok = .RBRACE then
                    LogNull "excepted arg expr after comma" (nextToken s1)
                  else (ParseArgsSpec n (nextToken s1)).map (fun rest => arg :: rest)
                else (ParseArgsSpec n s1).map (fun rest => arg :: rest)) = .ok new s' ∧
                Idx ≤ sym.arg_types.length ∧
                List.Forall₂ (fun a t => checkTypes a.getType t = some true) new
                  (sym.arg_types.drop Idx) ∧
                e = .CallExpr (args0 ++ new) s'.CTable name sym.Vtype) ↔
              (checkTypes arg.getType argType = some true ∧
                (if s1.CurrTok.tok ≠ .RBRACE ∧ s1.CurrTok.tok ≠ .COMMA then
                  (LogNull "in call excepted ']'" s1 : Res Symbol Expr)
                else if s1.CurrTok.tok = .COMMA then
                  if (nextToken s1).CurrTok.tok = .RBRACE then
                    LogNull "excepted arg expr after comma" (nextToken s1)
                  else ParseCallLoop n name sym (Idx + 1) (args0 ++ [arg]) (nextToken s1)
                else ParseCallLoop n name sym (Idx + 1) (args0 ++ [arg]) s1) = .ok e s') := by
              by_cases h1 : s1.CurrTok.tok ≠ .RBRACE ∧ s1.CurrTok.tok ≠ .COMMA
              · rw [if_pos h1, if_pos h1]; simp [LogNull]
              · rw [if_neg h1, if_neg h1]
                by_cases h2 : s1.CurrTok.tok = .COMMA
                · rw [if_pos h2, if_pos h2]
                  by_cases h3 : (nextToken s1).CurrTok.tok = .RBRACE
                  · rw [if_pos h3, if_pos h3]; simp [LogNull]
                  · rw [if_neg h3, if_neg h3]; exact (step _).symm
                · rw [if_neg h2, if_neg h2]; exact (step _).symm
            rw [hRC]
            cases hc : checkTypes arg.getType argType with
            | none => simp
            | some b => cases b <;> simp [LogNull]

/-- C5. In the old parser a call `name[args]` on a Function symbol gives a Call node
exactly when every argument expression parses (the argument list of `ParseArgsSpec`),
there are as many arguments as declared parameter types, and each argument's type is
compatible (`checkTypes`) with the parameter type at its position.  So `print[1]` is
accepted, `print[]` and `print[1, 2]` fail on the number of arguments and `print[[1]]`
fails on the type. -/
theorem call_accepted_iff :
    (∀ (n : Nat) (s s' : St) (sym : Symbol) (e : Expr),
      s.CurrTok.tok = .IDENTIFIER →
      getSym s.heap s.CTable s.CurrTok.word = some (some sym) →
      (nextToken s).CurrTok.tok = .LBRACE → sym.sym_type = .FUNCTION →
      (ParseFactor (n + 1) s = .ok e s' ↔
        ∃ args, ParseArgsSpec n (nextToken (nextToken s)) = .ok args s' ∧
          args.length = sym.arg_types.length ∧
          List.Forall₂ (fun a t => checkTypes a.getType t = some true) args sym.arg_types ∧
          e = .CallExpr args s'.CTable s.CurrTok.word sym.Vtype)) ∧
    (ParseStatement 20 (start callOneToks)).isOk = true ∧
    (ParseStatement 20 (start callNoneToks)).log = [("invalid number of args", 1)] ∧
    (ParseStatement 20 (start callTwoToks)).log = [("invalid number of args", 1)] ∧
    (ParseStatement 20 (start callArrayToks)).log
      = [("invalid args types for call func", 1)] := by
  refine ⟨?_, ?_, ?_, ?_, ?_⟩
  · intro n s s' sym e h1 h2 h3 h4
    have hF : ParseFactor (n + 1) s
        = ParseCallLoop n s.CurrTok.word sym 0 [] (nextToken (nextToken s)) := by
      simp [ParseFactor, h1, h2, h3, h4]
    rw [hF, ParseCallLoop_iff]
    constructor
    · rintro ⟨new, hnew, _, hf, he⟩
      simp only [List.drop_zero, List.nil_append] at hf he
      exact ⟨new, hnew, hf.length_eq, hf, he⟩
    · rintro ⟨args, hargs, _, hf, he⟩
      exact ⟨args, hargs, Nat.zero_le _, by simpa using hf, by simpa using he⟩
  all_goals decide!

end Old

/-! ## Blocks restore the scope (old parser) -/

theorem Kept.of_same {σ : Type} {s s' : PState σ} (h1 : s'.heap = s.heap)
    (h2 : s'.CTable = s.CTable) : Kept s s' :=
  ⟨h2, by rw [h1], fun i _ _ => by rw [h1], fun a _ _ => by rw [h1]⟩

theorem Kept.trans {σ : Type} {s s1 s2 : PState σ} (h1 : Kept s s1) (h2 : Kept s1 s2) :
    Kept s s2 :=
  ⟨h2.ctable.trans h1.ctable, Nat.le_trans h1.len h2.len,
   fun i hi hne => by
     rw [h2.others i (Nat.lt_of_lt_of_le hi h1.len) (by rw [h1.ctable]; exact hne),
       h1.others i hi hne],
   fun a ha hlt => by
     rw [h2.prev a (by rw [h1.ctable]; exact ha) (Nat.lt_of_lt_of_le hlt h1.len),
       h1.prev a ha hlt]⟩

theorem Kept.of_same_left {σ : Type} {s x s' : PState σ} (h1 : x.heap = s.heap)
    (h2 : x.CTable = s.CTable) (h : Kept x s') : Kept s s' :=
  (Kept.of_same h1 h2).trans h

theorem Kept.of_same_right {σ : Type} {s x s' : PState σ} (h : Kept s x)
    (h1 : s'.heap = x.heap) (h2 : s'.CTable = x.CTable) : Kept s s' :=
  h.trans (Kept.of_same h1 h2)

theorem Kept.of_addSym {σ : Type} {s s' : PState σ} {name : String} {sym : σ}
    (h : addSym s name sym = some s') : Kept s s' := by
  simp only [addSym, addSymAt] at h
  cases hc : s.CTable with
  | none => simp [hc] at h
  | some a =>
    cases hg : s.heap[a]? with
    | none => simp [hc, hg] at h
    | some t =>
      simp only [hc, hg, Option.some.injEq] at h
      subst h
      refine ⟨hc.symm ▸ rfl, by simp, ?_, ?_⟩
      · intro i _ hne
        have hia : a ≠ i := fun e => hne (by rw [hc, e])
        simp only
        rw [List.getElem?_set_ne hia]
      · intro b hb hlt
        rw [hc] at hb
        cases hb
        simp [List.getElem?_set, hlt, hg, Table.addSym]

theorem Popped.of_prevTable {σ : Type} {s s' : PState σ} (h : prevTable s = some s') :
    Popped s s' := by
  simp only [prevTable] at h
  cases hc : s.CTable with
  | none => simp [hc] at h
  | some a =>
    cases hg : s.heap[a]? with
    | none => simp [hc, hg] at h
    | some t =>
      simp only [hc, hg, Option.some.injEq] at h
      subst h
      exact ⟨⟨a, t, hc, hg, rfl⟩, Nat.le_refl _, fun i _ _ => rfl⟩

theorem Kept.valid {σ : Type} {s s' : PState σ} (hv : s.Valid) (h : Kept s s') :
    s'.Valid := by
  intro a ha
  rw [h.ctable] at ha
  exact Nat.lt_of_lt_of_le (hv a ha) h.len

theorem Popped.of_kept {σ : Type} {s s1 s' : PState σ} (hv : s.Valid) (h1 : Kept s s1)
    (h2 : Popped s1 s') : Popped s s' := by
  obtain ⟨a, t1, hc, hg, hp⟩ := h2.left
  have hcs : s.CTable = some a := by rw [← h1.ctable, hc]
  have hprev := h1.prev a hcs (hv a hcs)
  rw [hg] at hprev
  cases hgs : s.heap[a]? with
  | none => rw [hgs] at hprev; cases hprev
  | some t =>
    rw [hgs] at hprev
    simp only [Option.map_some', Option.some.injEq] at hprev
    refine ⟨⟨a, t, hcs, hgs, by rw [hp, hprev]⟩, Nat.le_trans h1.len h2.len, ?_⟩
    intro i hi hne
    rw [h2.others i (Nat.lt_of_lt_of_le hi h1.len) (by rw [h1.ctable]; exact hne),
      h1.others i hi hne]

theorem Popped.same_after {σ : Type} {s x s' : PState σ} (h : Popped s x)
    (h1 : s'.heap = x.heap) (h2 : s'.CTable = x.CTable) : Popped s s' := by
  obtain ⟨a, t, hc, hg, hp⟩ := h.left
  exact ⟨⟨a, t, hc, hg, by rw [h2, hp]⟩, by rw [h1]; exact h.len,
    fun i hi hne => by rw [h1]; exact h.others i hi hne⟩

/-- A new table is entered and left again: the current table is the one of before and
no table of before is changed. -/
theorem Kept.of_popped_new {σ : Type} {s x s' : PState σ}
    (hh : x.heap = s.heap ++ [Table.new s.CTable]) (hc : x.CTable = some s.heap.length)
    (hp : Popped x s') :
    s'.CTable = s.CTable ∧ s.heap.length ≤ s'.heap.length ∧
      ∀ i, i < s.heap.length → s'.heap[i]? = s.heap[i]? := by
  obtain ⟨a, t, hca, hg, hpt⟩ := hp.left
  rw [hc] at hca
  cases hca
  rw [hh] at hg
  simp at hg
  subst hg
  refine ⟨hpt, ?_, ?_⟩
  · have := hp.len
    rw [hh] at this
    simp at this
    omega
  · intro i hi
    have h1 := hp.others i (by rw [hh]; simp; omega) (by rw [hc]; intro e; cases e; omega)
    rw [h1, hh, List.getElem?_append_left hi]

theorem Kept.of_untouched {σ : Type} {s s' : PState σ}
    (h : s'.CTable = s.CTable ∧ s.heap.length ≤ s'.heap.length ∧
      ∀ i, i < s.heap.length → s'.heap[i]? = s.heap[i]?) : Kept s s' :=
  ⟨h.1, h.2.1, fun i hi _ => h.2.2 i hi, fun a _ hlt => by rw [h.2.2 a hlt]⟩

theorem Res.OkRel.rel_fuel {σ α : Type} {R : PState σ → PState σ → Prop} {s : PState σ} :
    Res.OkRel R s (Res.fuel : Res σ α) :=
  ⟨by intro v s' e; cases e⟩

theorem Res.OkRel.rel_crash {σ α : Type} {R : PState σ → PState σ → Prop} {s : PState σ} :
    Res.OkRel R s (Res.crash : Res σ α) :=
  ⟨by intro v s' e; cases e⟩

theorem Res.OkRel.rel_null {σ α : Type} {R : PState σ → PState σ → Prop} {s x : PState σ} :
    Res.OkRel R s (Res.null x : Res σ α) :=
  ⟨by intro v s' e; cases e⟩

theorem Res.OkRel.rel_logNull {σ α : Type} {R : PState σ → PState σ → Prop} {s x : PState σ}
    (msg : String) : Res.OkRel R s (LogNull msg x : Res σ α) :=
  ⟨by intro v s' e; cases e⟩

theorem Res.OkRel.of_rel {σ α : Type} {R : PState σ → PState σ → Prop} {s x : PState σ}
    {v : α} (h : R s x) : Res.OkRel R s (Res.ok v x) :=
  ⟨by intro w s' e; cases e; exact h⟩

theorem Res.OkRel.rel_of_ok {σ α : Type} {R : PState σ → PState σ → Prop} {s x : PState σ}
    {r : Res σ α} {v : α} (h : Res.OkRel R s r) (e : r = Res.ok v x) : R s x :=
  h.rel v x e

theorem Res.OkRel.kept_left {σ α : Type} {s x : PState σ} {r : Res σ α} (h1 : Kept s x)
    (h : Res.OkRel Kept x r) : Res.OkRel Kept s r :=
  ⟨fun v s' e => h1.trans (h.rel v s' e)⟩

theorem Res.OkRel.popped_left {σ α : Type} {s x : PState σ} {r : Res σ α} (hv : s.Valid)
    (h1 : Kept s x) (h : Res.OkRel Popped x r) : Res.OkRel Popped s r :=
  ⟨fun v s' e => Popped.of_kept hv h1 (h.rel v s' e)⟩

theorem Res.OkRel.kept_of_block {σ α : Type} {s x : PState σ} {r : Res σ α}
    (hh : x.heap = s.heap ++ [Table.new s.CTable]) (hc : x.CTable = some s.heap.length)
    (h : Res.OkRel Popped x r) : Res.OkRel Kept s r :=
  ⟨fun v s' e => Kept.of_untouched (Kept.of_popped_new hh hc (h.rel v s' e))⟩

theorem Res.Same.kept_of_ok {σ α : Type} {s s' : PState σ} {r : Res σ α} {v : α}
    (h : Res.Same s r) (e : r = Res.ok v s') : Kept s s' :=
  Kept.of_same (h.of_ok e).1 (h.of_ok e).2

theorem Kept.nextToken {σ : Type} {s x : PState σ} (h : Kept s x) : Kept s (nextToken x) :=
  h.of_same_right (nextToken_heap x) (nextToken_CTable x)

theorem Kept.refl {σ : Type} (s : PState σ) : Kept s s := Kept.of_same rfl rfl

theorem Kept.from_nextToken {σ : Type} {s x : PState σ} (h : Kept (GARS.nextToken s) x) :
    Kept s x :=
  Kept.of_same_left (nextToken_heap s) (nextToken_CTable s) h

theorem nextTable_valid {σ : Type} (s : PState σ) : (nextTable s).Valid := by
  intro a ha
  simp only [nextTable, Option.some.injEq] at ha
  subst ha
  simp [nextTable]

theorem nextToken_valid {σ : Type} {s : PState σ} (h : s.Valid) : (nextToken s).Valid := by
  intro a ha
  rw [nextToken_CTable] at ha
  rw [nextToken_heap]
  exact h a ha

namespace Old

theorem ParseIfStmt_kept (n : Nat) (ihS : ∀ s, Res.OkRel Kept s (ParseStatement n s)) :
    ∀ s, Res.OkRel Kept s (ParseIfStmt (n + 1) s) := by
  intro s
  simp only [ParseIfStmt]
  repeat' split
  all_goals
    (try have hE := ((expr_same_all n).1 _).kept_of_ok ‹ParseExpression n _ = Res.ok _ _›)
    (try have hS := (ihS _).rel_of_ok ‹ParseStatement n _ = Res.ok _ _›)
    first
    | exact Res.OkRel.rel_fuel
    | exact Res.OkRel.rel_crash
    | exact Res.OkRel.rel_null
    | exact Res.OkRel.rel_logNull _
    | exact Res.OkRel.of_rel (hE.from_nextToken.from_nextToken.nextToken.nextToken.trans hS)

theorem ParseAliveStmt_kept (n : Nat) (ihS : ∀ s, Res.OkRel Kept s (ParseStatement n s)) :
    ∀ s, Res.OkRel Kept s (ParseAliveStmt (n + 1) s) := by
  intro s
  simp only [ParseAliveStmt]
  repeat' split
  all_goals
    (try have hE := ((expr_same_all n).1 _).kept_of_ok ‹ParseExpression n _ = Res.ok _ _›)
    (try have hS := (ihS _).rel_of_ok ‹ParseStatement n _ = Res.ok _ _›)
    first
    | exact Res.OkRel.rel_fuel
    | exact Res.OkRel.rel_crash
    | exact Res.OkRel.rel_null
    | exact Res.OkRel.rel_logNull _
    | exact Res.OkRel.of_rel
        (hE.from_nextToken.from_nextToken.from_nextToken.nextToken.trans hS)

theorem ParseWarLoop_kept (n : Nat)
    (ihWL : ∀ wars s, Res.OkRel Kept s (ParseWarLoop n wars s)) :
    ∀ wars s, Res.OkRel Kept s (ParseWarLoop (n + 1) wars s) := by
  intro wars s
  simp only [ParseWarLoop]
  repeat' split
  all_goals
    (try have hT := (ParseType_same n _).kept_of_ok ‹ParseType n _ = Res.ok _ _›)
    (try have hE := ((expr_same_all n).1 _).kept_of_ok ‹ParseExpression n _ = Res.ok _ _›)
    (try have hAdd := Kept.of_addSym ‹addSym _ _ _ = some _›)
    first
    | exact Res.OkRel.rel_fuel
    | exact Res.OkRel.rel_crash
    | exact Res.OkRel.rel_null
    | exact Res.OkRel.rel_logNull _
    | exact Res.OkRel.of_rel (Kept.refl s).nextToken
    | exact Res.OkRel.kept_left
        (((hT.from_nextToken.from_nextToken.nextToken.trans hE).trans hAdd).nextToken)
        (ihWL _ _)
    | exact Res.OkRel.kept_left
        ((hT.from_nextToken.from_nextToken.nextToken.trans hE).trans hAdd) (ihWL _ _)

theorem ParseTrenStmt_kept (n : Nat)
    (ihTL : ∀ fn ft tab args ats s, s.Valid →
      Res.OkRel Popped s (ParseTrenLoop n fn ft tab args ats s)) :
    ∀ s, Res.OkRel Kept s (ParseTrenStmt (n + 1) s) := by
  intro s
  simp only [ParseTrenStmt]
  repeat' split
  all_goals
    (try have hT := (ParseType_same n _).kept_of_ok ‹ParseType n _ = Res.ok _ _›)
    first
    | exact Res.OkRel.rel_fuel
    | exact Res.OkRel.rel_crash
    | exact Res.OkRel.rel_null
    | exact Res.OkRel.rel_logNull _
    | exact Res.OkRel.kept_left hT.from_nextToken.nextToken.nextToken
        (Res.OkRel.kept_of_block rfl rfl (ihTL _ _ _ _ _ _ (nextTable_valid _)))

theorem ParseTrenLoop_popped (n : Nat) (ihS : ∀ s, Res.OkRel Kept s (ParseStatement n s))
    (ihTL : ∀ fn ft tab args ats s, s.Valid →
      Res.OkRel Popped s (ParseTrenLoop n fn ft tab args ats s)) :
    ∀ fn ft tab args ats s, s.Valid →
      Res.OkRel Popped s (ParseTrenLoop (n + 1) fn ft tab args ats s) := by
  intro fn ft tab args ats s hv
  simp only [ParseTrenLoop]
  repeat' split
  all_goals
    (try have hT := (ParseType_same n _).kept_of_ok ‹ParseType n _ = Res.ok _ _›)
    (try have hS := (ihS _).rel_of_ok ‹ParseStatement n _ = Res.ok _ _›)
    (try have hAdd := Kept.of_addSym ‹addSym _ _ _ = some _›)
    (try have hPop := Popped.of_prevTable ‹prevTable _ = some _›)
    first
    | exact Res.OkRel.rel_fuel
    | exact Res.OkRel.rel_crash
    | exact Res.OkRel.rel_null
    | exact Res.OkRel.rel_logNull _
    | exact Res.OkRel.of_rel (Popped.of_kept hv (hAdd.nextToken.trans hS) hPop)
    | exact Res.OkRel.popped_left hv (hT.trans hAdd).nextToken.nextToken
        (ihTL _ _ _ _ _ _ ((hT.trans hAdd).nextToken.nextToken.valid hv))
    | exact Res.OkRel.popped_left hv (hT.trans hAdd).nextToken
        (ihTL _ _ _ _ _ _ ((hT.trans hAdd).nextToken.valid hv))

theorem ParseParenLoop_popped (n : Nat) (ihS : ∀ s, Res.OkRel Kept s (ParseStatement n s))
    (ihPL : ∀ stmts rt s, s.Valid → Res.OkRel Popped s (ParseParenLoop n stmts rt s)) :
    ∀ stmts rt s, s.Valid → Res.OkRel Popped s (ParseParenLoop (n + 1) stmts rt s) := by
  intro stmts rt s hv
  simp only [ParseParenLoop]
  repeat' split
  all_goals
    (try have hS := (ihS _).rel_of_ok ‹ParseStatement n _ = Res.ok _ _›)
    (try have hPop := Popped.of_prevTable ‹prevTable _ = some _›)
    first
    | exact Res.OkRel.rel_fuel
    | exact Res.OkRel.rel_crash
    | exact Res.OkRel.rel_null
    | exact Res.OkRel.rel_logNull _
    | exact Res.OkRel.of_rel (hPop.same_after (nextToken_heap _) (nextToken_CTable _))
    | exact Res.OkRel.popped_left hv hS (ihPL _ _ _ (hS.valid hv))

theorem ParseHighExpr_kept (n : Nat) : ∀ s, Res.OkRel Kept s (ParseHighExpr (n + 1) s) := by
  intro s
  simp only [ParseHighExpr]
  repeat' split
  all_goals
    (try have hE := ((expr_same_all n).1 _).kept_of_ok ‹ParseExpression n _ = Res.ok _ _›)
    first
    | exact Res.OkRel.rel_fuel
    | exact Res.OkRel.rel_crash
    | exact Res.OkRel.rel_null
    | exact Res.OkRel.rel_logNull _
    | exact Res.OkRel.of_rel hE.nextToken

theorem ParseRetStmt_kept (n : Nat) : ∀ s, Res.OkRel Kept s (ParseRetStmt (n + 1) s) := by
  intro s
  simp only [ParseRetStmt]
  repeat' split
  all_goals
    (try have hE := ((expr_same_all n).1 _).kept_of_ok ‹ParseExpression n _ = Res.ok _ _›)
    first
    | exact Res.OkRel.rel_fuel
    | exact Res.OkRel.rel_crash
    | exact Res.OkRel.rel_null
    | exact Res.OkRel.rel_logNull _
    | exact Res.OkRel.of_rel hE.from_nextToken.nextToken

/-- What a statement of the old parser does to the tables when it is accepted: the
current table stays current and no other table of before is changed; the two loops
that run inside a new table leave that table at their end. -/
theorem stmt_kept_all : ∀ n : Nat,
    (∀ s, Res.OkRel Kept s (ParseStatement n s)) ∧
    (∀ s, Res.OkRel Kept s (ParseIfStmt n s)) ∧
    (∀ s, Res.OkRel Kept s (ParseAliveStmt n s)) ∧
    (∀ s, Res.OkRel Kept s (ParseWarStmt n s)) ∧
    (∀ wars s, Res.OkRel Kept s (ParseWarLoop n wars s)) ∧
    (∀ s, Res.OkRel Kept s (ParseTrenStmt n s)) ∧
    (∀ fn ft tab args ats s, s.Valid →
      Res.OkRel Popped s (ParseTrenLoop n fn ft tab args ats s)) ∧
    (∀ s, Res.OkRel Kept s (ParseHighExpr n s)) ∧
    (∀ s, Res.OkRel Kept s (ParseParenStmts n s)) ∧
    (∀ stmts rt s, s.Valid → Res.OkRel Popped s (ParseParenLoop n stmts rt s)) ∧
    (∀ s, Res.OkRel Kept s (ParseRetStmt n s)) := by
  intro n
  induction n with
  | zero =>
    refine ⟨?_, ?_, ?_, ?_, ?_, ?_, ?_, ?_, ?_, ?_, ?_⟩ <;> intros <;>
      simp only [ParseStatement, ParseIfStmt, ParseAliveStmt, ParseWarStmt, ParseWarLoop,
        ParseTrenStmt, ParseTrenLoop, ParseHighExpr, ParseParenStmts, ParseParenLoop,
        ParseRetStmt] <;> exact Res.OkRel.rel_fuel
  | succ n ih =>
    obtain ⟨ihS, ihIf, ihAl, ihW, ihWL, ihT, ihTL, ihH, ihP, ihPL, ihR⟩ := ih
    refine ⟨?_, ParseIfStmt_kept n ihS, ParseAliveStmt_kept n ihS, ?_,
      ParseWarLoop_kept n ihWL, ParseTrenStmt_kept n ihTL, ParseTrenLoop_popped n ihS ihTL,
      ParseHighExpr_kept n, ?_, ParseParenLoop_popped n ihS ihPL, ParseRetStmt_kept n⟩
    · intro s
      simp only [ParseStatement]
      split
      · exact ihIf s
      · exact ihW s
      · exact ihT s
      · exact ihAl s
      · exact ihR s
      · exact ihP s
      · exact Res.OkRel.rel_logNull _
      · exact ihH s
    · intro s
      simp only [ParseWarStmt]
      exact Res.OkRel.kept_left (Kept.refl s).nextToken (ihWL _ _)
    · intro s
      simp only [ParseParenStmts]
      exact Res.OkRel.kept_of_block (by simp [nextTable]) (by simp [nextTable])
        (ihPL _ _ _ (nextToken_valid (nextTable_valid s)))

/-- C6. In the old parser, when `ParseParenStmts` returns a node for a block, the
current table afterwards is the table that was current before the block, every table
that existed before the block (the current one among them) is unchanged, and every name
resolves after the block exactly as it did before it. -/
theorem block_restores_scope (n : Nat) (s s' : St) (node : Stmt) (hv : s.Valid)
    (h : ParseParenStmts n s = .ok node s') :
    s'.CTable = s.CTable ∧ (∀ i, i < s.heap.length → s'.heap[i]? = s.heap[i]?) ∧
    ∀ name, getSym s'.heap s'.CTable name = getSym s.heap s.CTable name := by
  cases n with
  | zero => simp [ParseParenStmts] at h
  | succ n =>
    simp only [ParseParenStmts] at h
    have hp : Popped (nextToken (nextTable s)) s' :=
      ((stmt_kept_all n).2.2.2.2.2.2.2.2.2.1 [] .null _
        (nextToken_valid (nextTable_valid s))).rel_of_ok h
    have hu := Kept.of_popped_new (s := s) (by simp [nextTable]) (by simp [nextTable]) hp
    refine ⟨hu.1, hu.2.2, ?_⟩
    intro name
    rw [hu.1]
    cases hc : s.CTable with
    | none => rfl
    | some a =>
      simp only [getSym]
      congr 1
      have ha := hv a hc
      exact Table.getSym_congr s.heap s'.heap name (a + 1)
        (fun i hi => hu.2.2 i (by omega)) a

theorem Res.exists_of_isOk {σ α : Type} {r : Res σ α} (h : r.isOk = true) :
    ∃ v s', r = Res.ok v s' := by
  cases r with
  | ok v s => exact ⟨v, s, rfl⟩
  | null s => cases h
  | crash => cases h
  | fuel => cases h

/-- An instance of C6: after the block `{ war x : int = 1; }` the name `x` resolves as
before the block, that is, it is not found; and after a block that declares its own
`print`, `print` is the global symbol again. -/
theorem block_restores_scope_witness :
    ((ParseParenStmts 20 (start blockWarToks)).isOk = true ∧
      (ParseParenStmts 20 (start blockWarToks)).lookup "x"
        = getSym (start blockWarToks).heap (start blockWarToks).CTable "x" ∧
      getSym (start blockWarToks).heap (start blockWarToks).CTable "x" = some none) ∧
    ((ParseParenStmts 20 (start blockShadowToks)).isOk = true ∧
      (ParseParenStmts 20 (start blockShadowToks)).lookup "print"
        = getSym (start blockShadowToks).heap (start blockShadowToks).CTable "print" ∧
      getSym (start blockShadowToks).heap (start blockShadowToks).CTable "print"
        = some (some (printSym.setArgs [.IntType]))) := by
  have valid1 : (start blockWarToks).Valid := by
    intro a ha
    have h1 : (start blockWarToks).CTable = some 0 := by decide!
    have h2 : (start blockWarToks).heap.length = 1 := by decide!
    rw [h1] at ha
    cases ha
    rw [h2]
    exact Nat.zero_lt_one
  have valid2 : (start blockShadowToks).Valid := by
    intro a ha
    have h1 : (start blockShadowToks).CTable = some 0 := by decide!
    have h2 : (start blockShadowToks).heap.length = 1 := by decide!
    rw [h1] at ha
    cases ha
    rw [h2]
    exact Nat.zero_lt_one
  have ok1 : (ParseParenStmts 20 (start blockWarToks)).isOk = true := by decide!
  have ok2 : (ParseParenStmts 20 (start blockShadowToks)).isOk = true := by decide!
  refine ⟨⟨ok1, ?_, by decide!⟩, ⟨ok2, ?_, by decide!⟩⟩
  · obtain ⟨node, s', h⟩ := Res.exists_of_isOk ok1
    have := (block_restores_scope 20 _ s' node valid1 h).2.2 "x"
    rw [h]
    exact this
  · obtain ⟨node, s', h⟩ := Res.exists_of_isOk ok2
    have := (block_restores_scope 20 _ s' node valid2 h).2.2 "print"
    rw [h]
    exact this

end Old

namespace Old

/-- An accepted `tren` statement of the old parser changes no table that existed before
it and leaves the current table current: every name, the function's own name too,
resolves afterwards as it did before the statement. -/
theorem ParseTrenStmt_lookup_unchanged (n : Nat) (s s' : St) (node : Stmt) (hv : s.Valid)
    (h : ParseTrenStmt n s = .ok node s') :
    ∀ name, getSym s'.heap s'.CTable name = getSym s.heap s.CTable name := by
  cases n with
  | zero => simp [ParseTrenStmt] at h
  | succ n =>
    simp only [ParseTrenStmt] at h
    split at h
    · cases h
    · cases h
    · cases h
    · rename_i func_type s1 hT
      have hTe := (ParseType_same n _).of_ok hT
      simp only [nextToken_heap, nextToken_CTable] at hTe
      split at h
      · cases h
      · split at h
        · cases h
        · have hp : Popped (nextTable (nextToken (nextToken s1))) s' :=
            ((stmt_kept_all n).2.2.2.2.2.2.1 _ _ _ _ _ _ (nextTable_valid _)).rel_of_ok h
          have hu := Kept.of_popped_new (s := s)
            (by simp [nextTable, hTe.1, hTe.2]) (by simp [nextTable, hTe.1]) hp
          intro name
          rw [hu.1]
          cases hc : s.CTable with
          | none => rfl
          | some a =>
            simp only [getSym]
            congr 1
            have ha := hv a hc
            exact Table.getSym_congr s.heap s'.heap name (a + 1)
              (fun i hi => hu.2.2 i (by omega)) a

/-- C4 (what the code does). In the old parser an accepted `tren` statement leaves
every lookup in the enclosing scope as it was, because the function symbol is added to
the table that `nextTable` has just opened for the parameters and that `prevTable`
leaves at the end.  So after `tren int add [int a, int b] { return a + b; }` is
accepted, `add` is not found in the scope that was current before the statement, and
the following `war z : int = add[2,3];` makes `ParseInput` fail with
`unknown identifier`. -/
theorem tren_symbol_not_in_enclosing_scope :
    (∀ (n : Nat) (s s' : St) (node : Stmt), s.Valid → ParseTrenStmt n s = .ok node s' →
      ∀ name, getSym s'.heap s'.CTable name = getSym s.heap s.CTable name) ∧
    (ParseStatement 30 (start trenAddToks)).isOk = true ∧
    (ParseStatement 30 (start trenAddToks)).lookup "add" = some none ∧
    (ParseInput printSym 40 (PState.init (trenAddToks ++ warCallToks) 1)).isNull = true ∧
    (ParseInput printSym 40 (PState.init (trenAddToks ++ warCallToks) 1)).log
      = [("unknown identifier", 1)] := by
  refine ⟨?_, ?_, ?_, ?_, ?_⟩
  · intro n s s' node hv h
    exact ParseTrenStmt_lookup_unchanged n s s' node hv h
  all_goals decide!

end Old

namespace Old

theorem ArrayElems_of_type {T : TypeP} (hT : T.isNull = false) :
    ∀ (xs : List Expr) (T' : TypeP), ArrayElems T xs T' →
      T' = T ∧ ∀ x ∈ xs, checkTypes T x.getType = some true := by
  intro xs
  induction xs with
  | nil => intro T' h; simpa [ArrayElems] using h
  | cons x xs ih =>
    intro T' h
    simp only [ArrayElems, hT, Bool.false_eq_true, if_false] at h
    obtain ⟨h1, h2⟩ := ih T' h.2
    refine ⟨h1, ?_⟩
    intro y hy
    rcases List.mem_cons.1 hy with rfl | hy
    · exact h.1
    · exact h2 y hy

theorem ParseArray_elems : ∀ n : Nat,
    (∀ T arr s e s', ParseArrayLoop n T arr s = .ok e s' →
      ∃ new T', e = .ArrayExpr (arr ++ new) (.ArrayType T') ∧ ArrayElems T new T') ∧
    (∀ T arr s e s', ParseArrayTail n T arr s = .ok e s' →
      ∃ new T', e = .ArrayExpr (arr ++ new) (.ArrayType T') ∧ ArrayElems T new T') := by
  intro n
  induction n with
  | zero => constructor <;> intro T arr s e s' h <;> simp [ParseArrayLoop, ParseArrayTail] at h
  | succ n ih =>
    obtain ⟨ihL, ihT⟩ := ih
    constructor
    · intro T arr s e s' h
      simp only [ParseArrayLoop] at h
      split at h
      · simp only [Res.ok.injEq] at h
        exact ⟨[], T, by simp [h.1.symm], by simp [ArrayElems]⟩
      · split at h
        · cases h
        · cases h
        · cases h
        · rename_i elem s1 he
          split at h
          · rename_i hnull
            obtain ⟨new, T', h1, h2⟩ := ihT _ _ _ _ _ h
            exact ⟨elem :: new, T', by simp [h1], by simp [ArrayElems, hnull, h2]⟩
          · rename_i hnull
            split at h
            · cases h
            · cases h
            · rename_i hc
              obtain ⟨new, T', h1, h2⟩ := ihT _ _ _ _ _ h
              exact ⟨elem :: new, T', by simp [h1], by simp [ArrayElems, hnull, h2, hc]⟩
    · intro T arr s e s' h
      simp only [ParseArrayTail] at h
      split at h
      · cases h
      · split at h
        · split at h
          · cases h
          · exact ihL _ _ _ _ _ h
        · exact ihL _ _ _ _ _ h

end Old

/-! ## Boolean literals in array literals -/

/-- C12, counterexample. The old parser accepts the statement `[1, true];` and writes
no diagnostic. -/
theorem array_int_true_accepted :
    (Old.ParseStatement 40 (Old.start arrayIntTrueToks)).isOk = true ∧
    (Old.ParseStatement 40 (Old.start arrayIntTrueToks)).log = [] := by
  constructor <;> decide!

set_option maxHeartbeats 4000000 in
/-- C12, amended. In the old parser `ParseFactor` makes of the literals `true` and
`false` the integer nodes 1 and 0, of type Int, so the array literal `[1, true]` is
accepted: its elements are the integers 1 and 1 and its type is `Array<Int>`.  The
current parser has no array literal and rejects `[1, true]` with `unknown factor`. -/
theorem bool_literal_is_int_in_array :
    (∀ (n : Nat) (s : Old.St), s.CurrTok.tok = .TRUE →
      Old.ParseFactor (n + 1) s = .ok (Old.Expr.mkInt 1) (nextToken s) ∧
      (Old.Expr.mkInt 1).getType = .IntType) ∧
    (∀ (n : Nat) (s : Old.St), s.CurrTok.tok = .FALSE →
      Old.ParseFactor (n + 1) s = .ok (Old.Expr.mkInt 0) (nextToken s) ∧
      (Old.Expr.mkInt 0).getType = .IntType) ∧
    Old.typeOf? (Old.ParseFactor 40 (Old.start arrayIntTrueToks)) =
      some (.ArrayType .IntType) ∧
    ((Old.ParseFactor 40 (Old.start arrayIntTrueToks)).val?.bind Old.Expr.elems?).map
      (fun vs => vs.map Old.Expr.intValue?) = some [some 1, some 1] ∧
    (Cur.ParseStatement 40 (Cur.start arrayIntTrueToks)).log = [("unknown factor", 1)] ∧
    (Cur.ParseStatement 40 (Cur.start arrayIntTrueToks)).isNull = true := by
  refine ⟨?_, ?_, ?_, ?_, ?_, ?_⟩
  · intro n s h
    simp only [Old.ParseFactor, h]
    exact ⟨trivial, rfl⟩
  · intro n s h
    simp only [Old.ParseFactor, h]
    exact ⟨trivial, rfl⟩
  all_goals decide!

/-! ## Precedence and associativity -/

namespace Old

theorem ParseTermLoop_exit (n : Nat) (lhs : Expr) (s : St)
    (h : s.CurrTok.tok.code < 35 ∨ s.CurrTok.tok.code > 36) :
    ParseTermLoop (n + 1) lhs s = .ok lhs s := by
  simp only [ParseTermLoop, if_pos h]

theorem ParseTermLoop_step (n : Nat) (lhs rhs : Expr) (s s1 : St)
    (h : ¬(s.CurrTok.tok.code < 35 ∨ s.CurrTok.tok.code > 36))
    (hr : ParseFactor n (nextToken s) = .ok rhs s1)
    (hl : lhs.getType = .IntType) (hrt : rhs.getType = .IntType) :
    ParseTermLoop (n + 1) lhs s =
      ParseTermLoop n (.TermExpr lhs rhs .IntType s.CurrTok.word) s1 := by
  simp only [ParseTermLoop, if_neg h, hr, hl, hrt]
  rfl

theorem ParseAddLoop_exit (n : Nat) (lhs : Expr) (s : St)
    (h : s.CurrTok.tok.code < 33 ∨ s.CurrTok.tok.code > 34) :
    ParseAddLoop (n + 1) lhs s = .ok lhs s := by
  simp only [ParseAddLoop, if_pos h]

theorem ParseAddLoop_step (n : Nat) (lhs rhs : Expr) (s s1 : St)
    (h : ¬(s.CurrTok.tok.code < 33 ∨ s.CurrTok.tok.code > 34))
    (hr : ParseTermExpr n (nextToken s) = .ok rhs s1)
    (hl : lhs.getType = .IntType) (hrt : rhs.getType = .IntType) :
    ParseAddLoop (n + 1) lhs s =
      ParseAddLoop n (.AddExpr lhs rhs .IntType s.CurrTok.word) s1 := by
  simp only [ParseAddLoop, if_neg h, hr, hl, hrt]
  rfl

theorem ParseBoolLoop_exit (n : Nat) (lhs : Expr) (s : St)
    (h : s.CurrTok.tok.code < 39 ∨ s.CurrTok.tok.code > 44) :
    ParseBoolLoop (n + 1) lhs s = .ok lhs s := by
  simp only [ParseBoolLoop, if_pos h]

theorem ParseBoolLoop_step (n : Nat) (lhs rhs : Expr) (s s1 : St)
    (h : ¬(s.CurrTok.tok.code < 39 ∨ s.CurrTok.tok.code > 44))
    (hr : ParseAddExpr n (nextToken s) = .ok rhs s1)
    (hl : lhs.getType = .IntType) (hrt : rhs.getType = .IntType) :
    ParseBoolLoop (n + 1) lhs s =
      ParseBoolLoop n (.BoolExpr lhs rhs .IntType s.CurrTok.word) s1 := by
  simp only [ParseBoolLoop, if_neg h, hr, hl, hrt]
  rfl

theorem ParseTermExpr_eq (n : Nat) (s s1 : St) (lhs : Expr)
    (h : ParseFactor n s = .ok lhs s1) : ParseTermExpr (n + 1) s = ParseTermLoop n lhs s1 := by
  simp only [ParseTermExpr, h]

theorem ParseAddExpr_eq (n : Nat) (s s1 : St) (lhs : Expr)
    (h : ParseTermExpr n s = .ok lhs s1) : ParseAddExpr (n + 1) s = ParseAddLoop n lhs s1 := by
  simp only [ParseAddExpr, h]

theorem ParseBoolExpr_eq (n : Nat) (s s1 : St) (lhs : Expr)
    (h : ParseAddExpr n s = .ok lhs s1) : ParseBoolExpr (n + 1) s = ParseBoolLoop n lhs s1 := by
  simp only [ParseBoolExpr, h]

end Old

namespace Cur

theorem cur_ParseTermLoop_exit (n : Nat) (lhs : Expr) (s : St)
    (h : s.CurrTok.tok.code < 35 ∨ s.CurrTok.tok.code > 36) :
    ParseTermLoop (n + 1) lhs s = .ok lhs s := by
  simp only [ParseTermLoop, if_pos h]

theorem cur_ParseTermLoop_step (n : Nat) (lhs rhs : Expr) (s s1 : St)
    (h : ¬(s.CurrTok.tok.code < 35 ∨ s.CurrTok.tok.code > 36))
    (hr : ParseFactor n (nextToken s) = .ok rhs s1)
    (hl : lhs.getType = .Int) (hrt : rhs.getType = .Int) :
    ParseTermLoop (n + 1) lhs s =
      ParseTermLoop n (.TermExpr lhs rhs .Int s.CurrTok.word) s1 := by
  simp only [ParseTermLoop, if_neg h, hr, hl, hrt]
  rfl

theorem cur_ParseAddLoop_exit (n : Nat) (lhs : Expr) (s : St)
    (h : s.CurrTok.tok.code < 33 ∨ s.CurrTok.tok.code > 34) :
    ParseAddLoop (n + 1) lhs s = .ok lhs s := by
  simp only [ParseAddLoop, if_pos h]

theorem cur_ParseAddLoop_step (n : Nat) (lhs rhs : Expr) (s s1 : St)
    (h : ¬(s.CurrTok.tok.code < 33 ∨ s.CurrTok.tok.code > 34))
    (hr : ParseTermExpr n (nextToken s) = .ok rhs s1)
    (hl : lhs.getType = .Int) (hrt : rhs.getType = .Int) :
    ParseAddLoop (n + 1) lhs s =
      ParseAddLoop n (.AddExpr lhs rhs .Int s.CurrTok.word) s1 := by
  simp only [ParseAddLoop, if_neg h, hr, hl, hrt]
  rfl

theorem cur_ParseBoolLoop_exit (n : Nat) (lhs : Expr) (s : St)
    (h : s.CurrTok.tok.code < 39 ∨ s.CurrTok.tok.code > 44) :
    ParseBoolLoop (n + 1) lhs s = .ok lhs s := by
  simp only [ParseBoolLoop, if_pos h]

theorem cur_ParseBoolLoop_step (n : Nat) (lhs rhs : Expr) (s s1 : St)
    (h : ¬(s.CurrTok.tok.code < 39 ∨ s.CurrTok.tok.code > 44))
    (hr : ParseAddExpr n (nextToken s) = .ok rhs s1)
    (hl : lhs.getType = .Int) (hrt : rhs.getType = .Int) :
    ParseBoolLoop (n + 1) lhs s =
      ParseBoolLoop n (.BoolExpr lhs rhs .Int s.CurrTok.word) s1 := by
  simp only [ParseBoolLoop, if_neg h, hr, hl, hrt]
  rfl

theorem cur_ParseTermExpr_eq (n : Nat) (s s1 : St) (lhs : Expr)
    (h : ParseFactor n s = .ok lhs s1) : ParseTermExpr (n + 1) s = ParseTermLoop n lhs s1 := by
  simp only [ParseTermExpr, h]

theorem cur_ParseAddExpr_eq (n : Nat) (s s1 : St) (lhs : Expr)
    (h : ParseTermExpr n s = .ok lhs s1) : ParseAddExpr (n + 1) s = ParseAddLoop n lhs s1 := by
  simp only [ParseAddExpr, h]

theorem cur_ParseBoolExpr_eq (n : Nat) (s s1 : St) (lhs : Expr)
    (h : ParseAddExpr n s = .ok lhs s1) : ParseBoolExpr (n + 1) s = ParseBoolLoop n lhs s1 := by
  simp only [ParseBoolExpr, h]

end Cur

namespace Old

/-- The tree of `a + b * c`. -/
theorem add_mul_tree (n : Nat) (s s1 s2 s3 : St) (a b c : Expr)
    (hA : ParseFactor (n + 3) s = .ok a s1) (h1 : s1.CurrTok.tok = .PLUS)
    (hB : ParseFactor (n + 2) (nextToken s1) = .ok b s2) (h2 : s2.CurrTok.tok = .MUL)
    (hC : ParseFactor (n + 1) (nextToken s2) = .ok c s3)
    (h3 : s3.CurrTok.tok.code < 33 ∨ s3.CurrTok.tok.code > 36)
    (ha : a.getType = .IntType) (hb : b.getType = .IntType) (hc : c.getType = .IntType) :
    ParseAddExpr (n + 5) s =
      .ok (.AddExpr a (.TermExpr b c .IntType s2.CurrTok.word) .IntType s1.CurrTok.word) s3 := by
  have ea : ParseTermExpr (n + 4) s = .ok a s1 := by
    rw [ParseTermExpr_eq _ _ _ _ hA, ParseTermLoop_exit _ _ _ (by rw [h1]; decide)]
  have ebc : ParseTermExpr (n + 3) (nextToken s1) =
      .ok (.TermExpr b c .IntType s2.CurrTok.word) s3 := by
    rw [ParseTermExpr_eq _ _ _ _ hB,
      ParseTermLoop_step _ _ _ _ _ (by rw [h2]; decide) hC hb hc,
      ParseTermLoop_exit _ _ _ (by omega)]
  rw [ParseAddExpr_eq _ _ _ _ ea,
    ParseAddLoop_step _ _ _ _ _ (by rw [h1]; decide) ebc ha rfl,
    ParseAddLoop_exit _ _ _ (by omega)]

/-- The tree of `a * b + c`. -/
theorem mul_add_tree (n : Nat) (s s1 s2 s3 : St) (a b c : Expr)
    (hA : ParseFactor (n + 3) s = .ok a s1) (h1 : s1.CurrTok.tok = .MUL)
    (hB : ParseFactor (n + 2) (nextToken s1) = .ok b s2) (h2 : s2.CurrTok.tok = .PLUS)
    (hC : ParseFactor (n + 2) (nextToken s2) = .ok c s3)
    (h3 : s3.CurrTok.tok.code < 33 ∨ s3.CurrTok.tok.code > 36)
    (ha : a.getType = .IntType) (hb : b.getType = .IntType) (hc : c.getType = .IntType) :
    ParseAddExpr (n + 5) s =
      .ok (.AddExpr (.TermExpr a b .IntType s1.CurrTok.word) c .IntType s2.CurrTok.word) s3 := by
  have eab : ParseTermExpr (n + 4) s = .ok (.TermExpr a b .IntType s1.CurrTok.word) s2 := by
    rw [ParseTermExpr_eq _ _ _ _ hA,
      ParseTermLoop_step _ _ _ _ _ (by rw [h1]; decide) hB ha hb,
      ParseTermLoop_exit _ _ _ (by rw [h2]; decide)]
  have ec : ParseTermExpr (n + 3) (nextToken s2) = .ok c s3 := by
    rw [ParseTermExpr_eq _ _ _ _ hC, ParseTermLoop_exit _ _ _ (by omega)]
  rw [ParseAddExpr_eq _ _ _ _ eab,
    ParseAddLoop_step _ _ _ _ _ (by rw [h2]; decide) ec (by rfl) hc,
    ParseAddLoop_exit _ _ _ (by omega)]

/-- The tree of `a - b - c`. -/
theorem sub_sub_tree (n : Nat) (s s1 s2 s3 : St) (a b c : Expr)
    (hA : ParseFactor (n + 3) s = .ok a s1) (h1 : s1.CurrTok.tok = .MINUS)
    (hB : ParseFactor (n + 2) (nextToken s1) = .ok b s2) (h2 : s2.CurrTok.tok = .MINUS)
    (hC : ParseFactor (n + 1) (nextToken s2) = .ok c s3)
    (h3 : s3.CurrTok.tok.code < 33 ∨ s3.CurrTok.tok.code > 36)
    (ha : a.getType = .IntType) (hb : b.getType = .IntType) (hc : c.getType = .IntType) :
    ParseAddExpr (n + 5) s =
      .ok (.AddExpr (.AddExpr a b .IntType s1.CurrTok.word) c .IntType s2.CurrTok.word) s3 := by
  have ea : ParseTermExpr (n + 4) s = .ok a s1 := by
    rw [ParseTermExpr_eq _ _ _ _ hA, ParseTermLoop_exit _ _ _ (by rw [h1]; decide)]
  have eb : ParseTermExpr (n + 3) (nextToken s1) = .ok b s2 := by
    rw [ParseTermExpr_eq _ _ _ _ hB, ParseTermLoop_exit _ _ _ (by rw [h2]; decide)]
  have ec : ParseTermExpr (n + 2) (nextToken s2) = .ok c s3 := by
    rw [ParseTermExpr_eq _ _ _ _ hC, ParseTermLoop_exit _ _ _ (by omega)]
  rw [ParseAddExpr_eq _ _ _ _ ea,
    ParseAddLoop_step _ _ _ _ _ (by rw [h1]; decide) eb ha hb,
    ParseAddLoop_step _ _ _ _ _ (by rw [h2]; decide) ec (by rfl) hc,
    ParseAddLoop_exit _ _ _ (by omega)]

/-- The tree of `a / b / c`. -/
theorem div_div_tree (n : Nat) (s s1 s2 s3 : St) (a b c : Expr)
    (hA : ParseFactor (n + 3) s = .ok a s1) (h1 : s1.CurrTok.tok = .DIV)
    (hB : ParseFactor (n + 2) (nextToken s1) = .ok b s2) (h2 : s2.CurrTok.tok = .DIV)
    (hC : ParseFactor (n + 1) (nextToken s2) = .ok c s3)
    (h3 : s3.CurrTok.tok.code < 33 ∨ s3.CurrTok.tok.code > 36)
    (ha : a.getType = .IntType) (hb : b.getType = .IntType) (hc : c.getType = .IntType) :
    ParseAddExpr (n + 5) s =
      .ok (.TermExpr (.TermExpr a b .IntType s1.CurrTok.word) c .IntType s2.CurrTok.word) s3 := by
  have e : ParseTermExpr (n + 4) s =
      .ok (.TermExpr (.TermExpr a b .IntType s1.CurrTok.word) c .IntType s2.CurrTok.word) s3 := by
    rw [ParseTermExpr_eq _ _ _ _ hA,
      ParseTermLoop_step _ _ _ _ _ (by rw [h1]; decide) hB ha hb,
      ParseTermLoop_step _ _ _ _ _ (by rw [h2]; decide) hC (by rfl) hc,
      ParseTermLoop_exit _ _ _ (by omega)]
  rw [ParseAddExpr_eq _ _ _ _ e, ParseAddLoop_exit _ _ _ (by omega)]

end Old

namespace Cur

/-- The tree of `a + b * c`. -/
theorem cur_add_mul_tree (n : Nat) (s s1 s2 s3 : St) (a b c : Expr)
    (hA : ParseFactor (n + 3) s = .ok a s1) (h1 : s1.CurrTok.tok = .PLUS)
    (hB : ParseFactor (n + 2) (nextToken s1) = .ok b s2) (h2 : s2.CurrTok.tok = .MUL)
    (hC : ParseFactor (n + 1) (nextToken s2) = .ok c s3)
    (h3 : s3.CurrTok.tok.code < 33 ∨ s3.CurrTok.tok.code > 36)
    (ha : a.getType = .Int) (hb : b.getType = .Int) (hc : c.getType = .Int) :
    ParseAddExpr (n + 5) s =
      .ok (.AddExpr a (.TermExpr b c .Int s2.CurrTok.word) .Int s1.CurrTok.word) s3 := by
  have ea : ParseTermExpr (n + 4) s = .ok a s1 := by
    rw [cur_ParseTermExpr_eq _ _ _ _ hA, cur_ParseTermLoop_exit _ _ _ (by rw [h1]; decide)]
  have ebc : ParseTermExpr (n + 3) (nextToken s1) =
      .ok (.TermExpr b c .Int s2.CurrTok.word) s3 := by
    rw [cur_ParseTermExpr_eq _ _ _ _ hB,
      cur_ParseTermLoop_step _ _ _ _ _ (by rw [h2]; decide) hC hb hc,
      cur_ParseTermLoop_exit _ _ _ (by omega)]
  rw [cur_ParseAddExpr_eq _ _ _ _ ea,
    cur_ParseAddLoop_step _ _ _ _ _ (by rw [h1]; decide) ebc ha rfl,
    cur_ParseAddLoop_exit _ _ _ (by omega)]

/-- The tree of `a * b + c`. -/
theorem cur_mul_add_tree (n : Nat) (s s1 s2 s3 : St) (a b c : Expr)
    (hA : ParseFactor (n + 3) s = .ok a s1) (h1 : s1.CurrTok.tok = .MUL)
    (hB : ParseFactor (n + 2) (nextToken s1) = .ok b s2) (h2 : s2.CurrTok.tok = .PLUS)
    (hC : ParseFactor (n + 2) (nextToken s2) = .ok c s3)
    (h3 : s3.CurrTok.tok.code < 33 ∨ s3.CurrTok.tok.code > 36)
    (ha : a.getType = .Int) (hb : b.getType = .Int) (hc : c.getType = .Int) :
    ParseAddExpr (n + 5) s =
      .ok (.AddExpr (.TermExpr a b .Int s1.CurrTok.word) c .Int s2.CurrTok.word) s3 := by
  have eab : ParseTermExpr (n + 4) s = .ok (.TermExpr a b .Int s1.CurrTok.word) s2 := by
    rw [cur_ParseTermExpr_eq _ _ _ _ hA,
      cur_ParseTermLoop_step _ _ _ _ _ (by rw [h1]; decide) hB ha hb,
      cur_ParseTermLoop_exit _ _ _ (by rw [h2]; decide)]
  have ec : ParseTermExpr (n + 3) (nextToken s2) = .ok c s3 := by
    rw [cur_ParseTermExpr_eq _ _ _ _ hC, cur_ParseTermLoop_exit _ _ _ (by omega)]
  rw [cur_ParseAddExpr_eq _ _ _ _ eab,
    cur_ParseAddLoop_step _ _ _ _ _ (by rw [h2]; decide) ec (by rfl) hc,
    cur_ParseAddLoop_exit _ _ _ (by omega)]

/-- The tree of `a - b - c`. -/
theorem cur_sub_sub_tree (n : Nat) (s s1 s2 s3 : St) (a b c : Expr)
    (hA : ParseFactor (n + 3) s = .ok a s1) (h1 : s1.CurrTok.tok = .MINUS)
    (hB : ParseFactor (n + 2) (nextToken s1) = .ok b s2) (h2 : s2.CurrTok.tok = .MINUS)
    (hC : ParseFactor (n + 1) (nextToken s2) = .ok c s3)
    (h3 : s3.CurrTok.tok.code < 33 ∨ s3.CurrTok.tok.code > 36)
    (ha : a.getType = .Int) (hb : b.getType = .Int) (hc : c.getType = .Int) :
    ParseAddExpr (n + 5) s =
      .ok (.AddExpr (.AddExpr a b .Int s1.CurrTok.word) c .Int s2.CurrTok.word) s3 := by
  have ea : ParseTermExpr (n + 4) s = .ok a s1 := by
    rw [cur_ParseTermExpr_eq _ _ _ _ hA, cur_ParseTermLoop_exit _ _ _ (by rw [h1]; decide)]
  have eb : ParseTermExpr (n + 3) (nextToken s1) = .ok b s2 := by
    rw [cur_ParseTermExpr_eq _ _ _ _ hB, cur_ParseTermLoop_exit _ _ _ (by rw [h2]; decide)]
  have ec : ParseTermExpr (n + 2) (nextToken s2) = .ok c s3 := by
    rw [cur_ParseTermExpr_eq _ _ _ _ hC, cur_ParseTermLoop_exit _ _ _ (by omega)]
  rw [cur_ParseAddExpr_eq _ _ _ _ ea,
    cur_ParseAddLoop_step _ _ _ _ _ (by rw [h1]; decide) eb ha hb,
    cur_ParseAddLoop_step _ _ _ _ _ (by rw [h2]; decide) ec (by rfl) hc,
    cur_ParseAddLoop_exit _ _ _ (by omega)]

/-- The tree of `a / b / c`. -/
theorem cur_div_div_tree (n : Nat) (s s1 s2 s3 : St) (a b c : Expr)
    (hA : ParseFactor (n + 3) s = .ok a s1) (h1 : s1.CurrTok.tok = .DIV)
    (hB : ParseFactor (n + 2) (nextToken s1) = .ok b s2) (h2 : s2.CurrTok.tok = .DIV)
    (hC : ParseFactor (n + 1) (nextToken s2) = .ok c s3)
    (h3 : s3.CurrTok.tok.code < 33 ∨ s3.CurrTok.tok.code > 36)
    (ha : a.getType = .Int) (hb : b.getType = .Int) (hc : c.getType = .Int) :
    ParseAddExpr (n + 5) s =
      .ok (.TermExpr (.TermExpr a b .Int s1.CurrTok.word) c .Int s2.CurrTok.word) s3 := by
  have e : ParseTermExpr (n + 4) s =
      .ok (.TermExpr (.TermExpr a b .Int s1.CurrTok.word) c .Int s2.CurrTok.word) s3 := by
    rw [cur_ParseTermExpr_eq _ _ _ _ hA,
      cur_ParseTermLoop_step _ _ _ _ _ (by rw [h1]; decide) hB ha hb,
      cur_ParseTermLoop_step _ _ _ _ _ (by rw [h2]; decide) hC (by rfl) hc,
      cur_ParseTermLoop_exit _ _ _ (by omega)]
  rw [cur_ParseAddExpr_eq _ _ _ _ e, cur_ParseAddLoop_exit _ _ _ (by omega)]

end Cur

set_option maxHeartbeats 4000000 in
/-- C16. In both parsers, for factors `a`, `b`, `c` of type Int that `ParseFactor`
parses one after the other, followed by a token that is no additive or multiplicative
operator: `a + b * c` gives the Additive node of `a` and the Multiplicative node of `b`
and `c`; `a * b + c` gives the Additive node of the Multiplicative node of `a` and `b`,
and `c`; `a - b - c` gives the Additive node of the Additive node of `a` and `b`, and
`c`; `a / b / c` gives the Multiplicative node of the Multiplicative node of `a` and
`b`, and `c`.  The four trees are those of `1 + 2 * 3`, `1 * 2 + 3`, `1 - 2 - 3` and
`1 / 2 / 3`. -/
theorem precedence_and_left_associativity :
    (∀ (n : Nat) (s s1 s2 s3 : Old.St) (a b c : Old.Expr),
      Old.ParseFactor (n + 3) s = .ok a s1 → s1.CurrTok.tok = .PLUS →
      Old.ParseFactor (n + 2) (nextToken s1) = .ok b s2 → s2.CurrTok.tok = .MUL →
      Old.ParseFactor (n + 1) (nextToken s2) = .ok c s3 →
      s3.CurrTok.tok.code < 33 ∨ s3.CurrTok.tok.code > 36 →
      a.getType = .IntType → b.getType = .IntType → c.getType = .IntType →
      Old.ParseAddExpr (n + 5) s =
        .ok (.AddExpr a (.TermExpr b c .IntType s2.CurrTok.word) .IntType s1.CurrTok.word) s3) ∧
    (∀ (n : Nat) (s s1 s2 s3 : Old.St) (a b c : Old.Expr),
      Old.ParseFactor (n + 3) s = .ok a s1 → s1.CurrTok.tok = .MUL →
      Old.ParseFactor (n + 2) (nextToken s1) = .ok b s2 → s2.CurrTok.tok = .PLUS →
      Old.ParseFactor (n + 2) (nextToken s2) = .ok c s3 →
      s3.CurrTok.tok.code < 33 ∨ s3.CurrTok.tok.code > 36 →
      a.getType = .IntType → b.getType = .IntType → c.getType = .IntType →
      Old.ParseAddExpr (n + 5) s =
        .ok (.AddExpr (.TermExpr a b .IntType s1.CurrTok.word) c .IntType s2.CurrTok.word) s3) ∧
    (∀ (n : Nat) (s s1 s2 s3 : Old.St) (a b c : Old.Expr),
      Old.ParseFactor (n + 3) s = .ok a s1 → s1.CurrTok.tok = .MINUS →
      Old.ParseFactor (n + 2) (nextToken s1) = .ok b s2 → s2.CurrTok.tok = .MINUS →
      Old.ParseFactor (n + 1) (nextToken s2) = .ok c s3 →
      s3.CurrTok.tok.code < 33 ∨ s3.CurrTok.tok.code > 36 →
      a.getType = .IntType → b.getType = .IntType → c.getType = .IntType →
      Old.ParseAddExpr (n + 5) s =
        .ok (.AddExpr (.AddExpr a b .IntType s1.CurrTok.word) c .IntType s2.CurrTok.word) s3) ∧
    (∀ (n : Nat) (s s1 s2 s3 : Old.St) (a b c : Old.Expr),
      Old.ParseFactor (n + 3) s = .ok a s1 → s1.CurrTok.tok = .DIV →
      Old.ParseFactor (n + 2) (nextToken s1) = .ok b s2 → s2.CurrTok.tok = .DIV →
      Old.ParseFactor (n + 1) (nextToken s2) = .ok c s3 →
      s3.CurrTok.tok.code < 33 ∨ s3.CurrTok.tok.code > 36 →
      a.getType = .IntType → b.getType = .IntType → c.getType = .IntType →
      Old.ParseAddExpr (n + 5) s =
        .ok (.TermExpr (.TermExpr a b .IntType s1.CurrTok.word) c .IntType s2.CurrTok.word) s3) ∧
    (∀ (n : Nat) (s s1 s2 s3 : Cur.St) (a b c : Cur.Expr),
      Cur.ParseFactor (n + 3) s = .ok a s1 → s1.CurrTok.tok = .PLUS →
      Cur.ParseFactor (n + 2) (nextToken s1) = .ok b s2 → s2.CurrTok.tok = .MUL →
      Cur.ParseFactor (n + 1) (nextToken s2) = .ok c s3 →
      s3.CurrTok.tok.code < 33 ∨ s3.CurrTok.tok.code > 36 →
      a.getType = .Int → b.getType = .Int → c.getType = .Int →
      Cur.ParseAddExpr (n + 5) s =
        .ok (.AddExpr a (.TermExpr b c .Int s2.CurrTok.word) .Int s1.CurrTok.word) s3) ∧
    (∀ (n : Nat) (s s1 s2 s3 : Cur.St) (a b c : Cur.Expr),
      Cur.ParseFactor (n + 3) s = .ok a s1 → s1.CurrTok.tok = .MUL →
      Cur.ParseFactor (n + 2) (nextToken s1) = .ok b s2 → s2.CurrTok.tok = .PLUS →
      Cur.ParseFactor (n + 2) (nextToken s2) = .ok c s3 →
      s3.CurrTok.tok.code < 33 ∨ s3.CurrTok.tok.code > 36 →
      a.getType = .Int → b.getType = .Int → c.getType = .Int →
      Cur.ParseAddExpr (n + 5) s =
        .ok (.AddExpr (.TermExpr a b .Int s1.CurrTok.word) c .Int s2.CurrTok.word) s3) ∧
    (∀ (n : Nat) (s s1 s2 s3 : Cur.St) (a b c : Cur.Expr),
      Cur.ParseFactor (n + 3) s = .ok a s1 → s1.CurrTok.tok = .MINUS →
      Cur.ParseFactor (n + 2) (nextToken s1) = .ok b s2 → s2.CurrTok.tok = .MINUS →
      Cur.ParseFactor (n + 1) (nextToken s2) = .ok c s3 →
      s3.CurrTok.tok.code < 33 ∨ s3.CurrTok.tok.code > 36 →
      a.getType = .Int → b.getType = .Int → c.getType = .Int →
      Cur.ParseAddExpr (n + 5) s =
        .ok (.AddExpr (.AddExpr a b .Int s1.CurrTok.word) c .Int s2.CurrTok.word) s3) ∧
    (∀ (n : Nat) (s s1 s2 s3 : Cur.St) (a b c : Cur.Expr),
      Cur.ParseFactor (n + 3) s = .ok a s1 → s1.CurrTok.tok = .DIV →
      Cur.ParseFactor (n + 2) (nextToken s1) = .ok b s2 → s2.CurrTok.tok = .DIV →
      Cur.ParseFactor (n + 1) (nextToken s2) = .ok c s3 →
      s3.CurrTok.tok.code < 33 ∨ s3.CurrTok.tok.code > 36 →
      a.getType = .Int → b.getType = .Int → c.getType = .Int →
      Cur.ParseAddExpr (n + 5) s =
        .ok (.TermExpr (.TermExpr a b .Int s1.CurrTok.word) c .Int s2.CurrTok.word) s3) ∧
    Old.shapeOf? (Old.ParseExpression 20 (Old.start addMulToks)) =
      some (.Additive (.int 1) (.Multiplicative (.int 2) (.int 3))) ∧
    Old.shapeOf? (Old.ParseExpression 20 (Old.start mulAddToks)) =
      some (.Additive (.Multiplicative (.int 1) (.int 2)) (.int 3)) ∧
    Old.shapeOf? (Old.ParseExpression 20 (Old.start subSubToks)) =
      some (.Additive (.Additive (.int 1) (.int 2)) (.int 3)) ∧
    Old.shapeOf? (Old.ParseExpression 20 (Old.start divDivToks)) =
      some (.Multiplicative (.Multiplicative (.int 1) (.int 2)) (.int 3)) ∧
    Cur.shapeOf? (Cur.ParseExpression 20 (Cur.start addMulToks)) =
      some (.Additive (.int 1) (.Multiplicative (.int 2) (.int 3))) ∧
    Cur.shapeOf? (Cur.ParseExpression 20 (Cur.start mulAddToks)) =
      some (.Additive (.Multiplicative (.int 1) (.int 2)) (.int 3)) ∧
    Cur.shapeOf? (Cur.ParseExpression 20 (Cur.start subSubToks)) =
      some (.Additive (.Additive (.int 1) (.int 2)) (.int 3)) ∧
    Cur.shapeOf? (Cur.ParseExpression 20 (Cur.start divDivToks)) =
      some (.Multiplicative (.Multiplicative (.int 1) (.int 2)) (.int 3)) := by
  refine ⟨?_, ?_, ?_, ?_, ?_, ?_, ?_, ?_, ?_, ?_, ?_, ?_, ?_, ?_, ?_, ?_⟩
  · exact fun n s s1 s2 s3 a b c => Old.add_mul_tree n s s1 s2 s3 a b c
  · exact fun n s s1 s2 s3 a b c => Old.mul_add_tree n s s1 s2 s3 a b c
  · exact fun n s s1 s2 s3 a b c => Old.sub_sub_tree n s s1 s2 s3 a b c
  · exact fun n s s1 s2 s3 a b c => Old.div_div_tree n s s1 s2 s3 a b c
  · exact fun n s s1 s2 s3 a b c => Cur.cur_add_mul_tree n s s1 s2 s3 a b c
  · exact fun n s s1 s2 s3 a b c => Cur.cur_mul_add_tree n s s1 s2 s3 a b c
  · exact fun n s s1 s2 s3 a b c => Cur.cur_sub_sub_tree n s s1 s2 s3 a b c
  · exact fun n s s1 s2 s3 a b c => Cur.cur_div_div_tree n s s1 s2 s3 a b c
  all_goals decide!

/-! ## Chained comparisons -/

namespace Old

/-- The tree of `a < b < c`. -/
theorem rel_rel_tree (n : Nat) (s s1 s2 s3 : St) (a b c : Expr)
    (hA : ParseAddExpr (n + 3) s = .ok a s1)
    (h1 : 39 ≤ s1.CurrTok.tok.code ∧ s1.CurrTok.tok.code ≤ 44)
    (hB : ParseAddExpr (n + 2) (nextToken s1) = .ok b s2)
    (h2 : 39 ≤ s2.CurrTok.tok.code ∧ s2.CurrTok.tok.code ≤ 44)
    (hC : ParseAddExpr (n + 1) (nextToken s2) = .ok c s3)
    (h3 : s3.CurrTok.tok.code < 39 ∨ s3.CurrTok.tok.code > 44)
    (ha : a.getType = .IntType) (hb : b.getType = .IntType) (hc : c.getType = .IntType) :
    ParseBoolExpr (n + 4) s =
      .ok (.BoolExpr (.BoolExpr a b .IntType s1.CurrTok.word) c .IntType s2.CurrTok.word) s3 := by
  rw [ParseBoolExpr_eq _ _ _ _ hA,
    ParseBoolLoop_step _ _ _ _ _ (by omega) hB ha hb,
    ParseBoolLoop_step _ _ _ _ _ (by omega) hC (by rfl) hc,
    ParseBoolLoop_exit _ _ _ h3]

end Old

namespace Cur

/-- The tree of `a < b < c`. -/
theorem cur_rel_rel_tree (n : Nat) (s s1 s2 s3 : St) (a b c : Expr)
    (hA : ParseAddExpr (n + 3) s = .ok a s1)
    (h1 : 39 ≤ s1.CurrTok.tok.code ∧ s1.CurrTok.tok.code ≤ 44)
    (hB : ParseAddExpr (n + 2) (nextToken s1) = .ok b s2)
    (h2 : 39 ≤ s2.CurrTok.tok.code ∧ s2.CurrTok.tok.code ≤ 44)
    (hC : ParseAddExpr (n + 1) (nextToken s2) = .ok c s3)
    (h3 : s3.CurrTok.tok.code < 39 ∨ s3.CurrTok.tok.code > 44)
    (ha : a.getType = .Int) (hb : b.getType = .Int) (hc : c.getType = .Int) :
    ParseBoolExpr (n + 4) s =
      .ok (.BoolExpr (.BoolExpr a b .Int s1.CurrTok.word) c .Int s2.CurrTok.word) s3 := by
  rw [cur_ParseBoolExpr_eq _ _ _ _ hA,
    cur_ParseBoolLoop_step _ _ _ _ _ (by omega) hB ha hb,
    cur_ParseBoolLoop_step _ _ _ _ _ (by omega) hC (by rfl) hc,
    cur_ParseBoolLoop_exit _ _ _ h3]

end Cur

/-- C17, counterexample. Both parsers accept the statement `1 < 2 < 3;`. -/
theorem chained_comparison_accepted :
    (Old.ParseStatement 20 (Old.start lessLessToks)).isOk = true ∧
    (Old.ParseStatement 20 (Old.start lessLessToks)).log = [] ∧
    (Cur.ParseStatement 20 (Cur.start lessLessToks)).isOk = true ∧
    (Cur.ParseStatement 20 (Cur.start lessLessToks)).log = [] := by
  refine ⟨?_, ?_, ?_, ?_⟩ <;> decide!

set_option maxHeartbeats 4000000 in
/-- C17, amended. In both parsers `ParseBoolExpr` applies relational operators again
and again, to the left: for operands `a`, `b`, `c` of type Int that `ParseAddExpr`
parses one after the other, with a relational operator after `a` and after `b` and
none after `c`, it returns the Relational node of the Relational node of `a` and `b`,
and `c`, whose type is Int.  So `1 < 2 < 3` is accepted and parsed as `(1 < 2) < 3`. -/
theorem relational_chain_is_left_nested :
    (∀ (n : Nat) (s s1 s2 s3 : Old.St) (a b c : Old.Expr),
      Old.ParseAddExpr (n + 3) s = .ok a s1 →
      39 ≤ s1.CurrTok.tok.code ∧ s1.CurrTok.tok.code ≤ 44 →
      Old.ParseAddExpr (n + 2) (nextToken s1) = .ok b s2 →
      39 ≤ s2.CurrTok.tok.code ∧ s2.CurrTok.tok.code ≤ 44 →
      Old.ParseAddExpr (n + 1) (nextToken s2) = .ok c s3 →
      s3.CurrTok.tok.code < 39 ∨ s3.CurrTok.tok.code > 44 →
      a.getType = .IntType → b.getType = .IntType → c.getType = .IntType →
      Old.ParseBoolExpr (n + 4) s =
        .ok (.BoolExpr (.BoolExpr a b .IntType s1.CurrTok.word) c .IntType s2.CurrTok.word) s3) ∧
    (∀ (n : Nat) (s s1 s2 s3 : Cur.St) (a b c : Cur.Expr),
      Cur.ParseAddExpr (n + 3) s = .ok a s1 →
      39 ≤ s1.CurrTok.tok.code ∧ s1.CurrTok.tok.code ≤ 44 →
      Cur.ParseAddExpr (n + 2) (nextToken s1) = .ok b s2 →
      39 ≤ s2.CurrTok.tok.code ∧ s2.CurrTok.tok.code ≤ 44 →
      Cur.ParseAddExpr (n + 1) (nextToken s2) = .ok c s3 →
      s3.CurrTok.tok.code < 39 ∨ s3.CurrTok.tok.code > 44 →
      a.getType = .Int → b.getType = .Int → c.getType = .Int →
      Cur.ParseBoolExpr (n + 4) s =
        .ok (.BoolExpr (.BoolExpr a b .Int s1.CurrTok.word) c .Int s2.CurrTok.word) s3) ∧
    Old.shapeOf? (Old.ParseExpression 20 (Old.start lessLessToks)) =
      some (.Relational (.Relational (.int 1) (.int 2)) (.int 3)) ∧
    Old.typeOf? (Old.ParseExpression 20 (Old.start lessLessToks)) = some .IntType ∧
    Cur.shapeOf? (Cur.ParseExpression 20 (Cur.start lessLessToks)) =
      some (.Relational (.Relational (.int 1) (.int 2)) (.int 3)) ∧
    (Cur.ParseExpression 20 (Cur.start lessLessToks)).val?.map Cur.Expr.getType =
      some .Int := by
  refine ⟨?_, ?_, ?_, ?_, ?_, ?_⟩
  · exact fun n s s1 s2 s3 a b c => Old.rel_rel_tree n s s1 s2 s3 a b c
  · exact fun n s s1 s2 s3 a b c => Cur.cur_rel_rel_tree n s s1 s2 s3 a b c
  all_goals decide!

/-! ## Return statements in `if` and `alive` bodies (old parser) -/

namespace Old

set_option maxHeartbeats 4000000 in
/-- C13. The old parser accepts `tren int f [] { if (1) do return [1]; return 1; }`
and `tren int f [] { alive by [1] return [1]; return 1; }` without a diagnostic: the
declared return type is Int, and the return statement in the body of the `if` (of the
`alive`) returns an expression of type `Array<Int>`, which `checkTypes` finds
incompatible with Int.  The same return statement in a nested block is rejected with
`invalid returns types`. -/
theorem nested_return_not_checked :
    (ParseStatement 60 (start trenIfRetArrayToks)).isOk = true ∧
    (ParseStatement 60 (start trenIfRetArrayToks)).log = [] ∧
    ((ParseStatement 60 (start trenIfRetArrayToks)).val?.bind Stmt.tren?).map
      (fun p => (p.1, p.2.retTypes)) = some (.IntType, [.ArrayType .IntType, .IntType]) ∧
    (ParseStatement 60 (start trenAliveRetArrayToks)).isOk = true ∧
    (ParseStatement 60 (start trenAliveRetArrayToks)).log = [] ∧
    ((ParseStatement 60 (start trenAliveRetArrayToks)).val?.bind Stmt.tren?).map
      (fun p => (p.1, p.2.retTypes)) = some (.IntType, [.ArrayType .IntType, .IntType]) ∧
    checkTypes (.ArrayType .IntType) .IntType = some false ∧
    (ParseStatement 60 (start trenBlockRetArrayToks)).log = [("invalid returns types", 1)] := by
  refine ⟨?_, ?_, ?_, ?_, ?_, ?_, ?_, ?_⟩ <;> decide!

end Old

/-! ## Functions without a return statement (current parser) -/

namespace Cur

theorem cur_ParseIfStmt_kept (n : Nat) (ihS : ∀ s, Res.OkRel Kept s (ParseStatement n s)) :
    ∀ s, Res.OkRel Kept s (ParseIfStmt (n + 1) s) := by
  intro s
  simp only [ParseIfStmt]
  repeat' split
  all_goals
    (try have hE := ((cur_expr_same_all n).1 _).kept_of_ok ‹ParseExpression n _ = Res.ok _ _›)
    (try have hS := (ihS _).rel_of_ok ‹ParseStatement n _ = Res.ok _ _›)
    first
    | exact Res.OkRel.rel_fuel
    | exact Res.OkRel.rel_crash
    | exact Res.OkRel.rel_null
    | exact Res.OkRel.rel_logNull _
    | exact Res.OkRel.of_rel (hE.from_nextToken.from_nextToken.nextToken.nextToken.trans hS)

theorem cur_ParseAliveStmt_kept (n : Nat) (ihS : ∀ s, Res.OkRel Kept s (ParseStatement n s)) :
    ∀ s, Res.OkRel Kept s (ParseAliveStmt (n + 1) s) := by
  intro s
  simp only [ParseAliveStmt]
  repeat' split
  all_goals
    (try have hE := ((cur_expr_same_all n).1 _).kept_of_ok ‹ParseExpression n _ = Res.ok _ _›)
    (try have hS := (ihS _).rel_of_ok ‹ParseStatement n _ = Res.ok _ _›)
    first
    | exact Res.OkRel.rel_fuel
    | exact Res.OkRel.rel_crash
    | exact Res.OkRel.rel_null
    | exact Res.OkRel.rel_logNull _
    | exact Res.OkRel.of_rel
        (hE.from_nextToken.from_nextToken.from_nextToken.nextToken.trans hS)

theorem cur_ParseWarLoop_kept (n : Nat)
    (ihWL : ∀ wars s, Res.OkRel Kept s (ParseWarLoop n wars s)) :
    ∀ wars s, Res.OkRel Kept s (ParseWarLoop (n + 1) wars s) := by
  intro wars s
  simp only [ParseWarLoop]
  repeat' split
  all_goals
    (try have hE := ((cur_expr_same_all n).1 _).kept_of_ok ‹ParseExpression n _ = Res.ok _ _›)
    (try have hAdd := Kept.of_addSym ‹addSym _ _ _ = some _›)
    first
    | exact Res.OkRel.rel_fuel
    | exact Res.OkRel.rel_crash
    | exact Res.OkRel.rel_null
    | exact Res.OkRel.rel_logNull _
    | exact Res.OkRel.of_rel (Kept.refl s)
    | exact Res.OkRel.kept_left
        ((hE.from_nextToken.from_nextToken.from_nextToken.from_nextToken.trans hAdd).nextToken)
        (ihWL _ _)
    | exact Res.OkRel.kept_left
        (hE.from_nextToken.from_nextToken.from_nextToken.from_nextToken.trans hAdd) (ihWL _ _)

theorem cur_ParseTrenStmt_kept (n : Nat)
    (ihTL : ∀ fn ft tab args s, s.Valid →
      Res.OkRel Popped s (ParseTrenLoop n fn ft tab args s)) :
    ∀ s, Res.OkRel Kept s (ParseTrenStmt (n + 1) s) := by
  intro s
  simp only [ParseTrenStmt]
  repeat' split
  all_goals
    (try have hAdd := Kept.of_addSym ‹addSym _ _ _ = some _›)
    first
    | exact Res.OkRel.rel_fuel
    | exact Res.OkRel.rel_crash
    | exact Res.OkRel.rel_null
    | exact Res.OkRel.rel_logNull _
    | exact Res.OkRel.kept_left hAdd.from_nextToken.from_nextToken.from_nextToken
        (Res.OkRel.kept_of_block (by simp [nextTable]) (by simp [nextTable])
          (ihTL _ _ _ _ _ (nextToken_valid (nextTable_valid _))))

theorem cur_ParseTrenLoop_popped (n : Nat)
    (ihS : ∀ s, Res.OkRel Kept s (ParseStatement n s))
    (ihTL : ∀ fn ft tab args s, s.Valid →
      Res.OkRel Popped s (ParseTrenLoop n fn ft tab args s)) :
    ∀ fn ft tab args s, s.Valid →
      Res.OkRel Popped s (ParseTrenLoop (n + 1) fn ft tab args s) := by
  intro fn ft tab args s hv
  simp only [ParseTrenLoop]
  repeat' split
  all_goals
    (try have hS := (ihS _).rel_of_ok ‹ParseStatement n _ = Res.ok _ _›)
    (try have hAdd := Kept.of_addSym ‹addSym _ _ _ = some _›)
    (try have hPop := Popped.of_prevTable ‹prevTable _ = some _›)
    first
    | exact Res.OkRel.rel_fuel
    | exact Res.OkRel.rel_crash
    | exact Res.OkRel.rel_null
    | exact Res.OkRel.rel_logNull _
    | exact Res.OkRel.of_rel (Popped.of_kept hv hS.from_nextToken hPop)
    | exact Res.OkRel.popped_left hv hAdd.from_nextToken.nextToken.nextToken
        (ihTL _ _ _ _ _ (hAdd.from_nextToken.nextToken.nextToken.valid hv))
    | exact Res.OkRel.popped_left hv hAdd.from_nextToken.nextToken
        (ihTL _ _ _ _ _ (hAdd.from_nextToken.nextToken.valid hv))

theorem cur_ParseParenLoop_kept (n : Nat)
    (ihS : ∀ s, Res.OkRel Kept s (ParseStatement n s))
    (ihPL : ∀ stmts h s, Res.OkRel Kept s (ParseParenLoop n stmts h s)) :
    ∀ stmts h s, Res.OkRel Kept s (ParseParenLoop (n + 1) stmts h s) := by
  intro stmts h s
  simp only [ParseParenLoop]
  repeat' split
  all_goals
    (try have hS := (ihS _).rel_of_ok ‹ParseStatement n _ = Res.ok _ _›)
    first
    | exact Res.OkRel.rel_fuel
    | exact Res.OkRel.rel_crash
    | exact Res.OkRel.rel_null
    | exact Res.OkRel.of_rel (Kept.refl s)
    | exact Res.OkRel.kept_left hS.nextToken (ihPL _ _ _)

theorem cur_ParseHighExpr_kept (n : Nat) :
    ∀ s, Res.OkRel Kept s (ParseHighExpr (n + 1) s) := by
  intro s
  simp only [ParseHighExpr]
  repeat' split
  all_goals
    (try have hE := ((cur_expr_same_all n).1 _).kept_of_ok ‹ParseExpression n _ = Res.ok _ _›)
    first
    | exact Res.OkRel.rel_fuel
    | exact Res.OkRel.rel_crash
    | exact Res.OkRel.rel_null
    | exact Res.OkRel.of_rel hE

theorem cur_ParseRetStmt_kept (n : Nat) :
    ∀ s, Res.OkRel Kept s (ParseRetStmt (n + 1) s) := by
  intro s
  simp only [ParseRetStmt]
  repeat' split
  all_goals
    (try have hE := ((cur_expr_same_all n).1 _).kept_of_ok ‹ParseExpression n _ = Res.ok _ _›)
    first
    | exact Res.OkRel.rel_fuel
    | exact Res.OkRel.rel_crash
    | exact Res.OkRel.rel_null
    | exact Res.OkRel.of_rel hE.from_nextToken

/-- What a statement of the current parser does to the tables when it is accepted:
the current table stays current and no other table of before is changed; the loop over
the parameters of a function, which runs inside a new table, leaves that table at its
end. -/
theorem cur_stmt_kept_all : ∀ n : Nat,
    (∀ s, Res.OkRel Kept s (ParseStatement n s)) ∧
    (∀ s, Res.OkRel Kept s (ParseIfStmt n s)) ∧
    (∀ s, Res.OkRel Kept s (ParseAliveStmt n s)) ∧
    (∀ s, Res.OkRel Kept s (ParseWarStmt n s)) ∧
    (∀ wars s, Res.OkRel Kept s (ParseWarLoop n wars s)) ∧
    (∀ s, Res.OkRel Kept s (ParseTrenStmt n s)) ∧
    (∀ fn ft tab args s, s.Valid →
      Res.OkRel Popped s (ParseTrenLoop n fn ft tab args s)) ∧
    (∀ s, Res.OkRel Kept s (ParseHighExpr n s)) ∧
    (∀ s, Res.OkRel Kept s (ParseParenStmts n s)) ∧
    (∀ stmts h s, Res.OkRel Kept s (ParseParenLoop n stmts h s)) ∧
    (∀ s, Res.OkRel Kept s (ParseRetStmt n s)) := by
  intro n
  induction n with
  | zero =>
    refine ⟨?_, ?_, ?_, ?_, ?_, ?_, ?_, ?_, ?_, ?_, ?_⟩ <;> intros <;>
      simp only [ParseStatement, ParseIfStmt, ParseAliveStmt, ParseWarStmt, ParseWarLoop,
        ParseTrenStmt, ParseTrenLoop, ParseHighExpr, ParseParenStmts, ParseParenLoop,
        ParseRetStmt] <;> exact Res.OkRel.rel_fuel
  | succ n ih =>
    obtain ⟨ihS, ihIf, ihAl, ihW, ihWL, ihT, ihTL, ihH, ihP, ihPL, ihR⟩ := ih
    refine ⟨?_, cur_ParseIfStmt_kept n ihS, cur_ParseAliveStmt_kept n ihS, ?_,
      cur_ParseWarLoop_kept n ihWL, cur_ParseTrenStmt_kept n ihTL,
      cur_ParseTrenLoop_popped n ihS ihTL, cur_ParseHighExpr_kept n, ?_,
      cur_ParseParenLoop_kept n ihS ihPL, cur_ParseRetStmt_kept n⟩
    · intro s
      simp only [ParseStatement]
      split
      · exact ihIf s
      · exact ihW s
      · exact ihT s
      · exact ihAl s
      · exact ihR s
      · exact ihP s
      · exact ihH s
    · intro s
      simp only [ParseWarStmt]
      exact Res.OkRel.kept_left (Kept.refl s).nextToken (ihWL _ _)
    · intro s
      simp only [ParseParenStmts]
      exact Res.OkRel.kept_left (Kept.refl s).nextToken (ihPL _ _ _)

/-- The has-return status of a block is the disjunction of the statuses of its
statements. -/
theorem cur_ParseParenLoop_hasRet : ∀ (n : Nat) (stmts : List Stmt) (h : Bool) (s s' : St)
    (node : Stmt), ParseParenLoop n stmts h s = .ok node s' →
    ∃ new, node = .ParenStmts (stmts ++ new) (h || new.any Stmt.hasRet) := by
  intro n
  induction n with
  | zero => intro stmts h s s' node e; simp [ParseParenLoop] at e
  | succ n ih =>
    intro stmts h s s' node e
    simp only [ParseParenLoop] at e
    split at e
    · simp only [Res.ok.injEq] at e
      exact ⟨[], by simp [e.1.symm]⟩
    · split at e
      · cases e
      · cases e
      · cases e
      · rename_i stmt s1 hs
        obtain ⟨new, hn⟩ := ih _ _ _ _ _ e
        exact ⟨stmt :: new, by simp [hn, Bool.or_assoc]⟩

end Cur

namespace Cur

set_option maxHeartbeats 4000000 in
/-- C14. In the current parser, once the parameters of a function are read (the
current token is `]`, a table is current) and the body is parsed, `ParseTrenStmt`
rejects the definition exactly when `hasRet` of the body is false, with
`excepted return statement in function body`, and returns the function node when it is
true.  `hasRet` is true of a return statement, the disjunction of the `hasRet` of its
statements for a block, and false of every other statement.  So the function with body
`{ alive by [n] { n = n - 1; } }` is rejected with that diagnostic, as is the one whose
only return statement is in the body of the `alive`, and the function with body
`{ alive by [n] { n = n - 1; } return n; }` is accepted. -/
theorem tren_rejected_iff_no_return :
    (∀ (n : Nat) (fn : String) (ft : TypeK) (tab : Option Nat) (args : List String)
        (s s2 : St) (body : Stmt),
      s.CurrTok.tok = .RBRACE → (∃ a, s.CTable = some a ∧ a < s.heap.length) →
      ParseStatement n (nextToken s) = .ok body s2 →
      (body.hasRet = false →
        ParseTrenLoop (n + 1) fn ft tab args s =
          LogNull "excepted return statement in function body" s2) ∧
      (body.hasRet = true →
        ∃ s3, ParseTrenLoop (n + 1) fn ft tab args s =
          .ok (Stmt.mkTren fn body args tab ft) s3) ∧
      ((ParseTrenLoop (n + 1) fn ft tab args s).isNull = true ↔ body.hasRet = false)) ∧
    (∀ e, (Stmt.RetStmt e).hasRet = true) ∧
    (∀ stmts h, (Stmt.ParenStmts stmts h).hasRet = h) ∧
    (∀ c b, (Stmt.IfStmt c b).hasRet = false ∧ (Stmt.AliveStmt c b).hasRet = false) ∧
    (∀ wars tab, (Stmt.WarStmt wars tab).hasRet = false) ∧
    (∀ tab b args name t, (Stmt.TrenStmt tab b args name t).hasRet = false) ∧
    (∀ e, (Stmt.HighExpr e).hasRet = false) ∧
    (∀ (n : Nat) (s s' : St) (node : Stmt), ParseParenStmts n s = .ok node s' →
      ∃ stmts, node = .ParenStmts stmts (stmts.any Stmt.hasRet) ∧
        node.hasRet = stmts.any Stmt.hasRet) ∧
    (ParseStatement 40 (start trenAliveNoRetToks)).log =
      [("excepted return statement in function body", 1)] ∧
    (ParseStatement 40 (start trenAliveNoRetToks)).isNull = true ∧
    (ParseStatement 40 (start trenAliveInnerRetToks)).log =
      [("excepted return statement in function body", 1)] ∧
    (ParseStatement 40 (start trenAliveRetToks)).isOk = true := by
  refine ⟨?_, fun _ => rfl, fun _ _ => rfl, fun _ _ => ⟨rfl, rfl⟩, fun _ _ => rfl,
    fun _ _ _ _ _ => rfl, fun _ => rfl, ?_, ?_, ?_, ?_, ?_⟩
  · intro n fn ft tab args s s2 body htok hct hbody
    obtain ⟨a, hca, hlt⟩ := hct
    have hk : Kept s s2 := (((cur_stmt_kept_all n).1 _).rel_of_ok hbody).from_nextToken
    have hc2 : s2.CTable = some a := by rw [hk.ctable, hca]
    have hlt2 : a < s2.heap.length := Nat.lt_of_lt_of_le hlt hk.len
    have hprev : ∃ s3, prevTable s2 = some s3 := by
      simp only [prevTable, hc2, List.getElem?_eq_getElem hlt2]
      exact ⟨_, rfl⟩
    obtain ⟨s3, hs3⟩ := hprev
    refine ⟨?_, ?_, ?_⟩
    · intro hr
      simp only [ParseTrenLoop, if_pos htok, hbody, hr]
      rfl
    · intro hr
      exact ⟨s3, by simp only [ParseTrenLoop, if_pos htok, hbody, hr, hs3]; rfl⟩
    · cases hr : body.hasRet with
      | false =>
        simp only [ParseTrenLoop, if_pos htok, hbody, hr]
        simp [LogNull, Res.isNull]
      | true =>
        simp only [ParseTrenLoop, if_pos htok, hbody, hr, hs3]
        simp [Res.isNull]
  · intro n s s' node h
    cases n with
    | zero => simp [ParseParenStmts] at h
    | succ n =>
      simp only [ParseParenStmts] at h
      obtain ⟨new, hn⟩ := cur_ParseParenLoop_hasRet n _ _ _ _ _ h
      simp only [List.nil_append, Bool.false_or] at hn
      exact ⟨new, hn, by rw [hn]; rfl⟩
  all_goals decide!

end Cur

/-! ## The left side of an assignment -/

namespace Old

theorem ResolvedList_append (H : List (Table Symbol)) (xs : List Expr) (e : Expr)
    (h1 : Expr.ResolvedList H xs) (h2 : e.Resolved H) : Expr.ResolvedList H (xs ++ [e]) := by
  induction xs with
  | nil => simp [Expr.ResolvedList, h2]
  | cons x xs ih =>
    simp only [Expr.ResolvedList, List.cons_append] at h1 ⊢
    exact ⟨h1.1, ih h1.2⟩

set_option maxHeartbeats 8000000 in
/-- Every tree the expression functions of the old parser return has its identifier
nodes resolved to Variable symbols. -/
theorem expr_resolved_all : ∀ n : Nat,
    (∀ s H, s.heap = H → Res.All (Expr.Resolved H) (ParseExpression n s)) ∧
    (∀ s H, s.heap = H → Res.All (Expr.Resolved H) (ParseBoolExpr n s)) ∧
    (∀ lhs s H, s.heap = H → lhs.Resolved H →
      Res.All (Expr.Resolved H) (ParseBoolLoop n lhs s)) ∧
    (∀ s H, s.heap = H → Res.All (Expr.Resolved H) (ParseAddExpr n s)) ∧
    (∀ lhs s H, s.heap = H → lhs.Resolved H →
      Res.All (Expr.Resolved H) (ParseAddLoop n lhs s)) ∧
    (∀ s H, s.heap = H → Res.All (Expr.Resolved H) (ParseTermExpr n s)) ∧
    (∀ lhs s H, s.heap = H → lhs.Resolved H →
      Res.All (Expr.Resolved H) (ParseTermLoop n lhs s)) ∧
    (∀ s H, s.heap = H → Res.All (Expr.Resolved H) (ParseFactor n s)) ∧
    (∀ elemType arr_elems s H, s.heap = H → Expr.ResolvedList H arr_elems →
      Res.All (Expr.Resolved H) (ParseArrayLoop n elemType arr_elems s)) ∧
    (∀ elemType arr_elems s H, s.heap = H → Expr.ResolvedList H arr_elems →
      Res.All (Expr.Resolved H) (ParseArrayTail n elemType arr_elems s)) ∧
    (∀ name sym Idx args s H, s.heap = H → Expr.ResolvedList H args →
      Res.All (Expr.Resolved H) (ParseCallLoop n name sym Idx args s)) := by
  intro n
  induction n with
  | zero =>
    refine ⟨?_, ?_, ?_, ?_, ?_, ?_, ?_, ?_, ?_, ?_, ?_⟩ <;> intros <;>
      simp only [ParseExpression, ParseBoolExpr, ParseBoolLoop, ParseAddExpr, ParseAddLoop,
        ParseTermExpr, ParseTermLoop, ParseFactor, ParseArrayLoop, ParseArrayTail,
        ParseCallLoop] <;> exact Res.All.at_fuel
  | succ n ih =>
    obtain ⟨ihE, ihB, ihBL, ihA, ihAL, ihT, ihTL, ihF, ihArr, ihArrT, ihC⟩ := ih
    have sm := expr_same_all n
    refine ⟨?_, ?_, ?_, ?_, ?_, ?_, ?_, ?_, ?_, ?_, ?_⟩ <;> intros <;>
      simp only [ParseExpression, ParseBoolExpr, ParseBoolLoop, ParseAddExpr, ParseAddLoop,
        ParseTermExpr, ParseTermLoop, ParseFactor, ParseArrayLoop, ParseArrayTail,
        ParseCallLoop] <;> repeat' split
    all_goals
      (try have hsE := (sm.1 _).of_ok ‹ParseExpression n _ = Res.ok _ _›)
      (try have hsB := (sm.2.1 _).of_ok ‹ParseBoolExpr n _ = Res.ok _ _›)
      (try have hsA := (sm.2.2.2.1 _).of_ok ‹ParseAddExpr n _ = Res.ok _ _›)
      (try have hsT := (sm.2.2.2.2.2.1 _).of_ok ‹ParseTermExpr n _ = Res.ok _ _›)
      (try have hsF := (sm.2.2.2.2.2.2.2.1 _).of_ok ‹ParseFactor n _ = Res.ok _ _›)
      (try have hH := ‹PState.heap _ = _›)
      (try have hE := (ihE _ _ rfl).val_of_ok ‹ParseExpression n _ = Res.ok _ _›)
      (try simp only [nextToken_heap, *] at hE)
      (try have hB := (ihB _ _ rfl).val_of_ok ‹ParseBoolExpr n _ = Res.ok _ _›)
      (try simp only [nextToken_heap, *] at hB)
      (try have hA := (ihA _ _ rfl).val_of_ok ‹ParseAddExpr n _ = Res.ok _ _›)
      (try simp only [nextToken_heap, *] at hA)
      (try have hT := (ihT _ _ rfl).val_of_ok ‹ParseTermExpr n _ = Res.ok _ _›)
      (try simp only [nextToken_heap, *] at hT)
      (try have hF := (ihF _ _ rfl).val_of_ok ‹ParseFactor n _ = Res.ok _ _›)
      (try simp only [nextToken_heap, *] at hF)
      first
      | exact Res.All.at_fuel
      | exact Res.All.at_crash
      | exact Res.All.at_logNull _
      | exact Res.All.at_null
      | exact Res.All.of_val ⟨_, (by
            have h := ‹getSym _ _ _ = some (some _)›
            simp only [nextToken_heap, hH] at h
            exact h), Decidable.of_not_not ‹¬ (_ ≠ SymType.WAR)›, rfl⟩
      | (apply Res.All.of_val; simp only [Expr.Resolved, Expr.mkInt, and_self, *])
      | exact ihBL _ _ _ (by simp only [nextToken_heap, *]) (by simp only [Expr.Resolved, and_self, *])
      | exact ihAL _ _ _ (by simp only [nextToken_heap, *]) (by simp only [Expr.Resolved, and_self, *])
      | exact ihTL _ _ _ (by simp only [nextToken_heap, *]) (by simp only [Expr.Resolved, and_self, *])
      | exact ihArr _ _ _ _ (by simp only [nextToken_heap, *]) ‹_›
      | exact ihArr _ _ _ _ (by simp only [nextToken_heap, *]) (by simp only [Expr.ResolvedList])
      | exact ihArrT _ _ _ _ (by simp only [nextToken_heap, *]) (ResolvedList_append _ _ _ ‹_› hE)
      | exact ihC _ _ _ _ _ _ (by simp only [nextToken_heap, *]) (ResolvedList_append _ _ _ ‹_› hE)
      | exact ihC _ _ _ _ _ _ (by simp only [nextToken_heap, *]) (by simp only [Expr.ResolvedList])

end Old


namespace Cur

theorem cur_ResolvedList_append (H : List (Table Symbol)) (xs : List Expr) (e : Expr)
    (h1 : Expr.ResolvedList H xs) (h2 : e.Resolved H) : Expr.ResolvedList H (xs ++ [e]) := by
  induction xs with
  | nil => simp [Expr.ResolvedList, h2]
  | cons x xs ih =>
    simp only [Expr.ResolvedList, List.cons_append] at h1 ⊢
    exact ⟨h1.1, ih h1.2⟩

set_option maxHeartbeats 8000000 in
/-- Every tree the expression functions of the current parser return has its
identifier nodes resolved to Variable symbols and only identifier nodes on the left of
its assignments. -/
theorem cur_expr_resolved_all : ∀ n : Nat,
    (∀ s H, s.heap = H → Res.All (Expr.Resolved H) (ParseExpression n s)) ∧
    (∀ s H, s.heap = H → Res.All (Expr.Resolved H) (ParseBoolExpr n s)) ∧
    (∀ lhs s H, s.heap = H → lhs.Resolved H →
      Res.All (Expr.Resolved H) (ParseBoolLoop n lhs s)) ∧
    (∀ s H, s.heap = H → Res.All (Expr.Resolved H) (ParseAddExpr n s)) ∧
    (∀ lhs s H, s.heap = H → lhs.Resolved H →
      Res.All (Expr.Resolved H) (ParseAddLoop n lhs s)) ∧
    (∀ s H, s.heap = H → Res.All (Expr.Resolved H) (ParseTermExpr n s)) ∧
    (∀ lhs s H, s.heap = H → lhs.Resolved H →
      Res.All (Expr.Resolved H) (ParseTermLoop n lhs s)) ∧
    (∀ s H, s.heap = H → Res.All (Expr.Resolved H) (ParseFactor n s)) ∧
    (∀ name sym args s H, s.heap = H → Expr.ResolvedList H args →
      Res.All (Expr.Resolved H) (ParseCallLoop n name sym args s)) := by
  intro n
  induction n with
  | zero =>
    refine ⟨?_, ?_, ?_, ?_, ?_, ?_, ?_, ?_, ?_⟩ <;> intros <;>
      simp only [ParseExpression, ParseBoolExpr, ParseBoolLoop, ParseAddExpr, ParseAddLoop,
        ParseTermExpr, ParseTermLoop, ParseFactor, ParseCallLoop] <;> exact Res.All.at_fuel
  | succ n ih =>
    obtain ⟨ihE, ihB, ihBL, ihA, ihAL, ihT, ihTL, ihF, ihC⟩ := ih
    have sm := cur_expr_same_all n
    refine ⟨?_, ?_, ?_, ?_, ?_, ?_, ?_, ?_, ?_⟩ <;> intros <;>
      simp only [ParseExpression, ParseBoolExpr, ParseBoolLoop, ParseAddExpr, ParseAddLoop,
        ParseTermExpr, ParseTermLoop, ParseFactor, ParseCallLoop] <;> repeat' split
    all_goals
      (try have hsE := (sm.1 _).of_ok ‹ParseExpression n _ = Res.ok _ _›)
      (try have hsB := (sm.2.1 _).of_ok ‹ParseBoolExpr n _ = Res.ok _ _›)
      (try have hsA := (sm.2.2.2.1 _).of_ok ‹ParseAddExpr n _ = Res.ok _ _›)
      (try have hsT := (sm.2.2.2.2.2.1 _).of_ok ‹ParseTermExpr n _ = Res.ok _ _›)
      (try have hsF := (sm.2.2.2.2.2.2.2.1 _).of_ok ‹ParseFactor n _ = Res.ok _ _›)
      (try have hH := ‹PState.heap _ = _›)
      (try have hE := (ihE _ _ rfl).val_of_ok ‹ParseExpression n _ = Res.ok _ _›)
      (try simp only [nextToken_heap, *] at hE)
      (try have hB := (ihB _ _ rfl).val_of_ok ‹ParseBoolExpr n _ = Res.ok _ _›)
      (try simp only [nextToken_heap, *] at hB)
      (try have hA := (ihA _ _ rfl).val_of_ok ‹ParseAddExpr n _ = Res.ok _ _›)
      (try simp only [nextToken_heap, *] at hA)
      (try have hT := (ihT _ _ rfl).val_of_ok ‹ParseTermExpr n _ = Res.ok _ _›)
      (try simp only [nextToken_heap, *] at hT)
      (try have hF := (ihF _ _ rfl).val_of_ok ‹ParseFactor n _ = Res.ok _ _›)
      (try simp only [nextToken_heap, *] at hF)
      first
      | exact Res.All.at_fuel
      | exact Res.All.at_crash
      | exact Res.All.at_logNull _
      | exact Res.All.at_null
      | exact Res.All.of_val ⟨_, (by
            have h := ‹getSym _ _ _ = some (some _)›
            simp only [nextToken_heap, hH] at h
            exact h), Decidable.of_not_not ‹¬ (_ ≠ SymType.WAR)›, rfl⟩
      | exact Res.All.of_val ⟨rfl, rfl, hB, hE⟩
      | (apply Res.All.of_val; simp only [Expr.Resolved, and_self, *])
      | exact ihBL _ _ _ (by simp only [nextToken_heap, *]) (by simp only [Expr.Resolved, and_self, *])
      | exact ihAL _ _ _ (by simp only [nextToken_heap, *]) (by simp only [Expr.Resolved, and_self, *])
      | exact ihTL _ _ _ (by simp only [nextToken_heap, *]) (by simp only [Expr.Resolved, and_self, *])
      | exact ihC _ _ _ _ _ (by simp only [nextToken_heap, *]) (cur_ResolvedList_append _ _ _ ‹_› hE)
      | exact ihC _ _ _ _ _ (by simp only [nextToken_heap, *]) (by simp only [Expr.ResolvedList])

end Cur

namespace Old

theorem lvalue_iff (e : Expr) : e.lvalue = true ↔ ∃ tab name t, e = .IDExpr tab name t := by
  cases e <;> simp [Expr.lvalue]

theorem not_lvalue_rejected (n : Nat) (s s1 : St) (lhs : Expr)
    (h : ParseBoolExpr n s = .ok lhs s1) (ht : s1.CurrTok.tok = .ASSIGN)
    (hl : lhs.lvalue = false) :
    ParseExpression (n + 1) s = LogNull "excepted lvalue on left-side" s1 := by
  simp only [ParseExpression, h, ht, hl]
  rfl

theorem assign_lhs_resolved (n : Nat) (s s' : St) (l r : Expr) (t : TypeP)
    (h : ParseExpression n s = .ok (.AssignExpr l r t) s') :
    ∃ tab name sym, l = .IDExpr tab name t ∧ getSym s.heap tab name = some (some sym) ∧
      sym.sym_type = .WAR ∧ sym.Vtype = t := by
  have hr := ((expr_resolved_all n).1 s _ rfl).val_of_ok h
  simp only [Expr.Resolved] at hr
  obtain ⟨hl, ht, hres, _⟩ := hr
  obtain ⟨tab, name, t', rfl⟩ := (lvalue_iff l).1 hl
  simp only [Expr.getType] at ht
  subst ht
  simp only [Expr.Resolved] at hres
  obtain ⟨sym, h1, h2, h3⟩ := hres
  exact ⟨tab, name, sym, rfl, h1, h2, h3⟩

theorem id_resolved (n : Nat) (s s1 : St) (tab : Option Nat) (name : String)
    (t : TypeP) (h : ParseBoolExpr n s = .ok (.IDExpr tab name t) s1) :
    ∃ sym, getSym s.heap tab name = some (some sym) ∧ sym.sym_type = .WAR ∧ sym.Vtype = t := by
  have hr := ((expr_resolved_all n).2.1 s _ rfl).val_of_ok h
  simpa only [Expr.Resolved] using hr

end Old

namespace Cur

theorem cur_lvalue_iff (e : Expr) : e.lvalue = true ↔ ∃ tab name t, e = .IDExpr tab name t := by
  cases e <;> simp [Expr.lvalue]

theorem cur_not_lvalue_rejected (n : Nat) (s s1 : St) (lhs : Expr)
    (h : ParseBoolExpr n s = .ok lhs s1) (ht : s1.CurrTok.tok = .ASSIGN)
    (hl : lhs.lvalue = false) :
    ParseExpression (n + 1) s = LogNull "excepted lvalue on left-side" s1 := by
  simp only [ParseExpression, h, ht, hl]
  rfl

theorem cur_assign_lhs_resolved (n : Nat) (s s' : St) (l r : Expr) (t : TypeK)
    (h : ParseExpression n s = .ok (.AssignExpr l r t) s') :
    ∃ tab name sym, l = .IDExpr tab name t ∧ getSym s.heap tab name = some (some sym) ∧
      sym.sym_type = .WAR ∧ sym.Vtype = t := by
  have hr := ((cur_expr_resolved_all n).1 s _ rfl).val_of_ok h
  simp only [Expr.Resolved] at hr
  obtain ⟨hl, ht, hres, _⟩ := hr
  obtain ⟨tab, name, t', rfl⟩ := (cur_lvalue_iff l).1 hl
  simp only [Expr.getType] at ht
  subst ht
  simp only [Expr.Resolved] at hres
  obtain ⟨sym, h1, h2, h3⟩ := hres
  exact ⟨tab, name, sym, rfl, h1, h2, h3⟩

theorem cur_id_resolved (n : Nat) (s s1 : St) (tab : Option Nat) (name : String)
    (t : TypeK) (h : ParseBoolExpr n s = .ok (.IDExpr tab name t) s1) :
    ∃ sym, getSym s.heap tab name = some (some sym) ∧ sym.sym_type = .WAR ∧ sym.Vtype = t := by
  have hr := ((cur_expr_resolved_all n).2.1 s _ rfl).val_of_ok h
  simpa only [Expr.Resolved] using hr

end Cur

set_option maxHeartbeats 4000000 in
/-- C15. In both parsers, when the token after the expression `ParseBoolExpr` returned
is `=` and that expression is not an lvalue, `ParseExpression` fails with
`excepted lvalue on left-side`; an expression is an lvalue exactly when it is an
identifier node; an identifier node that `ParseBoolExpr` returns names a symbol of kind
`WAR` (a Variable) that `getSym` finds from the node's table, with the node's type; and
the left side of every assignment node `ParseExpression` returns is such an identifier
node.  So `1 = 2`, `(x) = 2`, `x + 1 = 2` and a call on the left (`print[1] = 2`,
`f[] = 2`) are rejected with that diagnostic, and the current parser accepts `x = 2`
after `war x : int = 1;`. -/
theorem assignment_needs_identifier_on_left :
    (∀ (n : Nat) (s s1 : Old.St) (lhs : Old.Expr),
      Old.ParseBoolExpr n s = .ok lhs s1 → s1.CurrTok.tok = .ASSIGN → lhs.lvalue = false →
      Old.ParseExpression (n + 1) s = LogNull "excepted lvalue on left-side" s1) ∧
    (∀ e : Old.Expr, e.lvalue = true ↔ ∃ tab name t, e = .IDExpr tab name t) ∧
    (∀ (n : Nat) (s s1 : Old.St) (tab : Option Nat) (name : String) (t : Old.TypeP),
      Old.ParseBoolExpr n s = .ok (.IDExpr tab name t) s1 →
      ∃ sym, getSym s.heap tab name = some (some sym) ∧ sym.sym_type = .WAR ∧ sym.Vtype = t) ∧
    (∀ (n : Nat) (s s' : Old.St) (l r : Old.Expr) (t : Old.TypeP),
      Old.ParseExpression n s = .ok (.AssignExpr l r t) s' →
      ∃ tab name sym, l = .IDExpr tab name t ∧ getSym s.heap tab name = some (some sym) ∧
        sym.sym_type = .WAR ∧ sym.Vtype = t) ∧
    (∀ (n : Nat) (s s1 : Cur.St) (lhs : Cur.Expr),
      Cur.ParseBoolExpr n s = .ok lhs s1 → s1.CurrTok.tok = .ASSIGN → lhs.lvalue = false →
      Cur.ParseExpression (n + 1) s = LogNull "excepted lvalue on left-side" s1) ∧
    (∀ e : Cur.Expr, e.lvalue = true ↔ ∃ tab name t, e = .IDExpr tab name t) ∧
    (∀ (n : Nat) (s s1 : Cur.St) (tab : Option Nat) (name : String) (t : Cur.TypeK),
      Cur.ParseBoolExpr n s = .ok (.IDExpr tab name t) s1 →
      ∃ sym, getSym s.heap tab name = some (some sym) ∧ sym.sym_type = .WAR ∧ sym.Vtype = t) ∧
    (∀ (n : Nat) (s s' : Cur.St) (l r : Cur.Expr) (t : Cur.TypeK),
      Cur.ParseExpression n s = .ok (.AssignExpr l r t) s' →
      ∃ tab name sym, l = .IDExpr tab name t ∧ getSym s.heap tab name = some (some sym) ∧
        sym.sym_type = .WAR ∧ sym.Vtype = t) ∧
    (Old.ParseInput Old.printSym 40 (PState.init assignLitToks 1)).log =
      [("excepted lvalue on left-side", 1)] ∧
    (Old.ParseInput Old.printSym 40 (PState.init assignParenToks 1)).log =
      [("excepted lvalue on left-side", 1)] ∧
    (Old.ParseInput Old.printSym 40 (PState.init assignSumToks 1)).log =
      [("excepted lvalue on left-side", 1)] ∧
    (Cur.ParseInput 40 (PState.init assignLitToks 1)).log =
      [("excepted lvalue on left-side", 1)] ∧
    (Cur.ParseInput 40 (PState.init assignParenToks 1)).log =
      [("excepted lvalue on left-side", 1)] ∧
    (Cur.ParseInput 40 (PState.init assignSumToks 1)).log =
      [("excepted lvalue on left-side", 1)] ∧
    (Cur.ParseInput 40 (PState.init assignVarToks 1)).isOk = true ∧
    (Old.ParseInput Old.printSym 40 (PState.init (lexer.tokens "print[1] = 2;") 1)).log =
      [("excepted lvalue on left-side", 1)] ∧
    (Cur.main 60 "tren int f [] \x7b return 1; \x7d f[] = 2;").map
      (fun r => (r.result.isNull, r.cerr)) =
      some (true, [("excepted lvalue on left-side", 1)]) := by
  refine ⟨Old.not_lvalue_rejected, Old.lvalue_iff, Old.id_resolved, Old.assign_lhs_resolved,
    Cur.cur_not_lvalue_rejected, Cur.cur_lvalue_iff, Cur.cur_id_resolved,
    Cur.cur_assign_lhs_resolved, ?_, ?_, ?_, ?_, ?_, ?_, ?_, ?_, ?_⟩
  all_goals decide!

/-! ## The lexer: what a call returns -/

namespace lexer

theorem tokTable_ne_ERROR (w : String) (t : lexeme) (h : tokTable w = some t) :
    t ≠ .ERROR := by
  unfold tokTable at h
  split at h <;> first | (cases h; decide) | cases h

/-- A call that returns the token `ERROR` has written one line to `cerr`, and a call
that returns another token has written none. -/
theorem getNextTokenBody_cerr (again : LexState → LexRes)
    (hag : ∀ x t st', again x = .tok t st' →
      (t.tok = .ERROR ∧ ∃ msg, st'.cerr = x.cerr ++ [(msg, t.line)]) ∨
      (t.tok ≠ .ERROR ∧ st'.cerr = x.cerr))
    (st : LexState) (t : TOKEN) (st' : LexState)
    (h : getNextTokenBody again st = .tok t st') :
    (t.tok = .ERROR ∧ ∃ msg, st'.cerr = st.cerr ++ [(msg, t.line)]) ∨
    (t.tok ≠ .ERROR ∧ st'.cerr = st.cerr) := by
  simp only [getNextTokenBody] at h
  repeat' split at h
  all_goals
    first
    | exact (hag _ _ _ h :)
    | (simp only [LexError, LexRes.tok.injEq] at h
       obtain ⟨rfl, rfl⟩ := h
       first
       | exact Or.inl ⟨rfl, _, rfl⟩
       | (refine Or.inr ⟨?_, ?_⟩
          · first
            | exact tokTable_ne_ERROR _ _ ‹_›
            | (intro hh; cases hh)
          · rfl))
    | cases h

theorem getNextTokenFuel_cerr : ∀ (k : Nat) (st : LexState) (t : TOKEN) (st' : LexState),
    getNextTokenFuel k st = .tok t st' →
    (t.tok = .ERROR ∧ ∃ msg, st'.cerr = st.cerr ++ [(msg, t.line)]) ∨
    (t.tok ≠ .ERROR ∧ st'.cerr = st.cerr) := by
  intro k
  induction k with
  | zero =>
    intro st t st' h
    exact getNextTokenBody_cerr _ (fun x t st' hx => by cases hx) st t st' h
  | succ k ih =>
    intro st t st' h
    exact getNextTokenBody_cerr _ (fun x t st' hx => ih x t st' hx) st t st' h

/-- The body of `getNextToken` does not run out of fuel when its call of itself does
not: every other branch ends the call. -/
theorem getNextTokenBody_ne_fuel (again : LexState → LexRes) (st : LexState)
    (hag : isspace (st.charAt st.i) = true →
      ∀ x : LexState, x.text = st.text → x.i = st.i + 1 → again x ≠ .fuel) :
    getNextTokenBody again st ≠ .fuel := by
  simp only [getNextTokenBody]
  repeat' split
  all_goals
    first
    | exact hag ‹_› _ rfl rfl
    | (intro h; cases h)

theorem charAt_of_le (st : LexState) (j : Nat) (h : st.text.length ≤ j) :
    st.charAt j = Char.ofNat 0 := by
  simp [LexState.charAt, List.getD, List.getElem?_eq_none h]

theorem getNextTokenFuel_ne_fuel : ∀ (k : Nat) (st : LexState),
    st.text.length - st.i ≤ k → getNextTokenFuel k st ≠ .fuel := by
  intro k
  induction k with
  | zero =>
    intro st hk
    apply getNextTokenBody_ne_fuel
    intro hsp
    rw [charAt_of_le st st.i (by omega)] at hsp
    exact absurd hsp (by decide)
  | succ k ih =>
    intro st hk
    apply getNextTokenBody_ne_fuel
    intro _ x hx hi
    exact ih _ (by rw [hx, hi]; omega)

/-- The function `getNextToken` ends: it returns a token or an exception leaves it. -/
theorem getNextToken_ne_fuel (st : LexState) : getNextToken st ≠ .fuel :=
  getNextTokenFuel_ne_fuel _ st (Nat.le_refl _)

theorem digitLoop_congr (st x : LexState) (hx : x.text = st.text) :
    ∀ (k j : Nat) (w : List Char), digitLoop x k j w = digitLoop st k j w := by
  intro k
  induction k with
  | zero => intro j w; rfl
  | succ k ih =>
    intro j w
    simp only [digitLoop, LexState.charAt, hx, ih]

/-- An exception leaves the body of `getNextToken` only in the branch of the integer
literals, when `stoll` throws, or in its call of itself. -/
theorem getNextTokenBody_thrown (again : LexState → LexRes) (st st' : LexState)
    (h : getNextTokenBody again st = .thrown st') :
    (isdigit (st.charAt st.i) = true ∧
      stoll (digitLoop st (st.text.length - st.i) st.i []).2 = none) ∨
    (isspace (st.charAt st.i) = true ∧
      ∃ x : LexState, x.text = st.text ∧ x.i = st.i + 1 ∧ again x = .thrown st') := by
  simp only [getNextTokenBody] at h
  repeat' split at h
  all_goals
    first
    | (refine Or.inr ⟨‹_›, _, ?_, ?_, h⟩ <;> rfl)
    | exact Or.inl ⟨‹_›, ‹_›⟩
    | cases h

theorem getNextTokenFuel_thrown : ∀ (k : Nat) (st st' : LexState),
    getNextTokenFuel k st = .thrown st' →
    ∃ j, st.i ≤ j ∧ isdigit (st.charAt j) = true ∧
      stoll (digitLoop st (st.text.length - j) j []).2 = none := by
  intro k
  induction k with
  | zero =>
    intro st st' h
    rcases getNextTokenBody_thrown _ st st' h with ⟨h1, h2⟩ | ⟨_, x, _, _, hx⟩
    · exact ⟨st.i, Nat.le_refl _, h1, h2⟩
    · cases hx
  | succ k ih =>
    intro st st' h
    rcases getNextTokenBody_thrown _ st st' h with ⟨h1, h2⟩ | ⟨_, x, hxt, hxi, hx⟩
    · exact ⟨st.i, Nat.le_refl _, h1, h2⟩
    · obtain ⟨j, hj1, hj2, hj3⟩ := ih x st' hx
      refine ⟨j, by omega, ?_, ?_⟩
      · simpa only [LexState.charAt, hxt] using hj2
      · rw [digitLoop_congr st x hxt, hxt] at hj3
        exact hj3

end lexer

namespace lexer

set_option maxHeartbeats 4000000 in
/-- C20. On the source text `9223372036854775808` the call of `getNextToken` does not
return a token: `stoll` throws `std::out_of_range` and the exception leaves the call,
with nothing written to `cerr`; the same happens on `war x : int = 9223372036854775808;`
at the sixth call.  Apart from that the claim holds: every call ends, an exception
leaves it only at a run of digits whose value `stoll` cannot hold, and a call that
returns writes one line to `cerr` exactly when the token it returns is `ERROR`, as on
an unterminated string and on the character `@`. -/
theorem integer_literal_overflow_throws :
    getNextToken (start "9223372036854775808") =
      .thrown { (start "9223372036854775808") with i := 19 } ∧
    lexAll 100 (start "war x : int = 9223372036854775808;") = none ∧
    (lexAll 100 (start "war x : int = 9223372036854775807;")).map
      (fun p => p.1.map (fun l => (l.tok.tok, l.tok.ival))) =
      some [(.WAR, 0), (.IDENTIFIER, 0), (.COL, 0), (.INTTYPE, 0), (.ASSIGN, 0),
        (.INTEGER, 9223372036854775807), (.SEMICOL, 0)] ∧
    (∀ st : LexState, getNextToken st ≠ .fuel) ∧
    (∀ st st' : LexState, getNextToken st = .thrown st' →
      ∃ j, st.i ≤ j ∧ isdigit (st.charAt j) = true ∧
        stoll (digitLoop st (st.text.length - j) j []).2 = none) ∧
    (∀ (st : LexState) (t : TOKEN) (st' : LexState), getNextToken st = .tok t st' →
      (t.tok = .ERROR ∧ ∃ msg, st'.cerr = st.cerr ++ [(msg, t.line)]) ∨
      (t.tok ≠ .ERROR ∧ st'.cerr = st.cerr)) ∧
    (lexAll 100 (start "x = \"abc")).map (fun p => p.1.map (fun l => (l.tok.tok, l.cerr))) =
      some [(.IDENTIFIER, []), (.ASSIGN, []),
        (.ERROR, [("excepted '" ++ String.mk [Char.ofNat 34] ++ "'", 1)])] ∧
    (lexAll 100 (start "x = @;")).map (fun p => p.1.map (fun l => (l.tok.tok, l.cerr))) =
      some [(.IDENTIFIER, []), (.ASSIGN, []), (.ERROR, [("unknown punct", 1)]),
        (.SEMICOL, [])] := by
  refine ⟨by decide!, by decide!, by decide!, getNextToken_ne_fuel,
    fun st st' h => getNextTokenFuel_thrown _ st st' h,
    fun st t st' h => getNextTokenFuel_cerr _ st t st' h, by decide!, by decide!⟩

end lexer

/-! ## One diagnostic for a failed parse (current parser) -/

@[simp] theorem nextToken_log {σ : Type} (s : PState σ) : (nextToken s).log = s.log := by
  unfold nextToken; split <;> rfl

@[simp] theorem nextTable_log {σ : Type} (s : PState σ) : (nextTable s).log = s.log := rfl

theorem addSym_log {σ : Type} {s s' : PState σ} {name : String} {sym : σ}
    (h : addSym s name sym = some s') : s'.log = s.log := by
  simp only [addSym] at h
  split at h
  · cases h
  · cases h; rfl

theorem prevTable_log {σ : Type} {s s' : PState σ} (h : prevTable s = some s') :
    s'.log = s.log := by
  simp only [prevTable] at h
  repeat' split at h
  all_goals first | (cases h; rfl) | cases h

theorem Res.OneLine.line_fuel {σ α : Type} {s : PState σ} :
    Res.OneLine s (Res.fuel : Res σ α) :=
  ⟨(by intro v t e; cases e), (by intro t e; cases e)⟩

theorem Res.OneLine.line_crash {σ α : Type} {s : PState σ} :
    Res.OneLine s (Res.crash : Res σ α) :=
  ⟨(by intro v t e; cases e), (by intro t e; cases e)⟩

theorem Res.OneLine.line_ok {σ α : Type} {s s' : PState σ} {v : α} (h : s'.log = s.log) :
    Res.OneLine s (Res.ok v s') :=
  ⟨(by intro w t e; cases e; exact h), (by intro t e; cases e)⟩

theorem Res.OneLine.line_logNull {σ α : Type} {s x : PState σ} (msg : String)
    (h : x.log = s.log) : Res.OneLine s (LogNull msg x : Res σ α) :=
  ⟨(by intro w t e; cases e), (by
    intro t e
    cases e
    exact ⟨msg, by simp only [LogError, h]⟩)⟩

theorem Res.OneLine.line_null {σ α : Type} {s s' : PState σ}
    (h : ∃ msg, s'.log = s.log ++ [(msg, s'.CurrTok.line)]) :
    Res.OneLine s (Res.null s' : Res σ α) :=
  ⟨(by intro w t e; cases e), (by intro t e; cases e; exact h)⟩

theorem Res.OneLine.line_of {σ α : Type} {s x : PState σ} {r : Res σ α}
    (h : Res.OneLine x r) (hx : x.log = s.log) : Res.OneLine s r :=
  ⟨fun v t e => (h.ok_log v t e).trans hx, fun t e => (by
    obtain ⟨msg, hm⟩ := h.null_log t e
    exact ⟨msg, by rw [hm, hx]⟩)⟩

namespace Cur

set_option maxHeartbeats 16000000 in
/-- Every function of the current parser writes no diagnostic when it returns a node
and exactly one when it returns the null pointer. -/
theorem cur_one_line_all : ∀ n : Nat,
    (∀ s, Res.OneLine s (ParseStatement n s)) ∧
    (∀ s, Res.OneLine s (ParseIfStmt n s)) ∧
    (∀ s, Res.OneLine s (ParseAliveStmt n s)) ∧
    (∀ s, Res.OneLine s (ParseWarStmt n s)) ∧
    (∀ wars s, Res.OneLine s (ParseWarLoop n wars s)) ∧
    (∀ s, Res.OneLine s (ParseTrenStmt n s)) ∧
    (∀ fn ft tab args s, Res.OneLine s (ParseTrenLoop n fn ft tab args s)) ∧
    (∀ s, Res.OneLine s (ParseHighExpr n s)) ∧
    (∀ s, Res.OneLine s (ParseParenStmts n s)) ∧
    (∀ stmts h s, Res.OneLine s (ParseParenLoop n stmts h s)) ∧
    (∀ s, Res.OneLine s (ParseRetStmt n s)) ∧
    (∀ s, Res.OneLine s (ParseExpression n s)) ∧
    (∀ s, Res.OneLine s (ParseBoolExpr n s)) ∧
    (∀ lhs s, Res.OneLine s (ParseBoolLoop n lhs s)) ∧
    (∀ s, Res.OneLine s (ParseAddExpr n s)) ∧
    (∀ lhs s, Res.OneLine s (ParseAddLoop n lhs s)) ∧
    (∀ s, Res.OneLine s (ParseTermExpr n s)) ∧
    (∀ lhs s, Res.OneLine s (ParseTermLoop n lhs s)) ∧
    (∀ s, Res.OneLine s (ParseFactor n s)) ∧
    (∀ name sym args s, Res.OneLine s (ParseCallLoop n name sym args s)) := by
  intro n
  induction n with
  | zero =>
    refine ⟨?_, ?_, ?_, ?_, ?_, ?_, ?_, ?_, ?_, ?_, ?_, ?_, ?_, ?_, ?_, ?_, ?_, ?_, ?_, ?_⟩ <;>
      intros <;>
      simp only [ParseStatement, ParseIfStmt, ParseAliveStmt, ParseWarStmt, ParseWarLoop,
        ParseTrenStmt, ParseTrenLoop, ParseHighExpr, ParseParenStmts, ParseParenLoop,
        ParseRetStmt, ParseExpression, ParseBoolExpr, ParseBoolLoop, ParseAddExpr,
        ParseAddLoop, ParseTermExpr, ParseTermLoop, ParseFactor, ParseCallLoop] <;>
      exact Res.OneLine.line_fuel
  | succ n ih =>
    obtain ⟨ihS, ihIf, ihAl, ihW, ihWL, ihTr, ihTrL, ihH, ihP, ihPL, ihR, ihE, ihB, ihBL, ihA,
      ihAL, ihT, ihTL, ihF, ihC⟩ := ih
    refine ⟨?_, ?_, ?_, ?_, ?_, ?_, ?_, ?_, ?_, ?_, ?_, ?_, ?_, ?_, ?_, ?_, ?_, ?_, ?_, ?_⟩
    · intro s
      simp only [ParseStatement]
      split
      · exact ihIf s
      · exact ihW s
      · exact ihTr s
      · exact ihAl s
      · exact ihR s
      · exact ihP s
      · exact ihH s
    all_goals
      intros
      simp only [ParseIfStmt, ParseAliveStmt, ParseWarStmt, ParseWarLoop,
        ParseTrenStmt, ParseTrenLoop, ParseHighExpr, ParseParenStmts, ParseParenLoop,
        ParseRetStmt, ParseExpression, ParseBoolExpr, ParseBoolLoop, ParseAddExpr,
        ParseAddLoop, ParseTermExpr, ParseTermLoop, ParseFactor, ParseCallLoop]
      repeat' split
    all_goals
      (try have hS := (ihS _).ok_log _ _ ‹ParseStatement n _ = Res.ok _ _›)
      (try have hE := (ihE _).ok_log _ _ ‹ParseExpression n _ = Res.ok _ _›)
      (try have hB := (ihB _).ok_log _ _ ‹ParseBoolExpr n _ = Res.ok _ _›)
      (try have hA := (ihA _).ok_log _ _ ‹ParseAddExpr n _ = Res.ok _ _›)
      (try have hT := (ihT _).ok_log _ _ ‹ParseTermExpr n _ = Res.ok _ _›)
      (try have hF := (ihF _).ok_log _ _ ‹ParseFactor n _ = Res.ok _ _›)
      (try have hAdd := addSym_log ‹addSym _ _ _ = some _›)
      (try have hPrev := prevTable_log ‹prevTable _ = some _›)
      (try have hN := (ihS _).null_log _ ‹ParseStatement n _ = Res.null _›)
      (try have hN := (ihE _).null_log _ ‹ParseExpression n _ = Res.null _›)
      (try have hN := (ihB _).null_log _ ‹ParseBoolExpr n _ = Res.null _›)
      (try have hN := (ihA _).null_log _ ‹ParseAddExpr n _ = Res.null _›)
      (try have hN := (ihT _).null_log _ ‹ParseTermExpr n _ = Res.null _›)
      (try have hN := (ihF _).null_log _ ‹ParseFactor n _ = Res.null _›)
      first
      | exact Res.OneLine.line_fuel
      | exact Res.OneLine.line_crash
      | (apply Res.OneLine.line_logNull; simp only [nextToken_log, nextTable_log, *])
      | (apply Res.OneLine.line_ok; simp only [nextToken_log, nextTable_log, *])
      | (obtain ⟨m, hm⟩ := hN
         exact Res.OneLine.line_null ⟨m, by simp only [nextToken_log, nextTable_log, *]⟩)
      | exact (ihWL _ _).line_of (by simp only [nextToken_log, nextTable_log, *])
      | exact (ihTrL _ _ _ _ _).line_of (by simp only [nextToken_log, nextTable_log, *])
      | exact (ihPL _ _ _).line_of (by simp only [nextToken_log, nextTable_log, *])
      | exact (ihBL _ _).line_of (by simp only [nextToken_log, nextTable_log, *])
      | exact (ihAL _ _).line_of (by simp only [nextToken_log, nextTable_log, *])
      | exact (ihTL _ _).line_of (by simp only [nextToken_log, nextTable_log, *])
      | exact (ihC _ _ _ _).line_of (by simp only [nextToken_log, nextTable_log, *])

theorem cur_ParseInputLoop_one_line : ∀ (n : Nat) (stmts : List Stmt) (s : St),
    Res.OneLine s (ParseInputLoop n stmts s) := by
  intro n
  induction n with
  | zero => intro stmts s; simp only [ParseInputLoop]; exact Res.OneLine.line_fuel
  | succ n ih =>
    intro stmts s
    simp only [ParseInputLoop]
    repeat' split
    all_goals
      (try have hS := ((cur_one_line_all n).1 _).ok_log _ _ ‹ParseStatement n _ = Res.ok _ _›)
      (try have hN := ((cur_one_line_all n).1 _).null_log _ ‹ParseStatement n _ = Res.null _›)
      first
      | exact Res.OneLine.line_fuel
      | exact Res.OneLine.line_crash
      | (apply Res.OneLine.line_logNull; simp only [nextToken_log, nextTable_log, *])
      | (apply Res.OneLine.line_ok; rfl)
      | exact Res.OneLine.line_null hN
      | exact (ih _ _).line_of (by simp only [nextToken_log, nextTable_log, *])

/-- The function `ParseInput` of the current parser writes no diagnostic when it
returns the tree and exactly one when it returns the null pointer. -/
theorem cur_ParseInput_one_line (n : Nat) (s : St) : Res.OneLine s (ParseInput n s) := by
  simp only [ParseInput]
  exact (cur_ParseInputLoop_one_line n [] _).line_of (by simp)

end Cur

namespace lexer

/-- Each token of `lexPrefix` comes with one line when it is `ERROR` and with none
otherwise. -/
theorem lexPrefix_cerr : ∀ (k : Nat) (st : LexState),
    ∀ l ∈ (lexPrefix k st).1, (l.tok.tok = .ERROR ∧ ∃ msg, l.cerr = [(msg, l.tok.line)]) ∨
      (l.tok.tok ≠ .ERROR ∧ l.cerr = []) := by
  intro k
  induction k with
  | zero => intro st l hl; simp [lexPrefix] at hl
  | succ k ih =>
    intro st l hl
    simp only [lexPrefix] at hl
    split at hl
    · rename_i t st1 ht
      split at hl
      · cases hl
      · rcases List.mem_cons.1 hl with rfl | hl
        · rcases getNextTokenFuel_cerr _ st t st1 ht with ⟨h3, msg, h4⟩ | ⟨h3, h4⟩
          · exact Or.inl ⟨h3, msg, by simp [h4]⟩
          · exact Or.inr ⟨h3, by simp [h4]⟩
        · exact ih st1 l hl
    · cases hl

theorem cerr_length_eq_errors (L : List Lexed)
    (h : ∀ l ∈ L, (l.tok.tok = .ERROR ∧ ∃ msg, l.cerr = [(msg, l.tok.line)]) ∨
      (l.tok.tok ≠ .ERROR ∧ l.cerr = [])) :
    (L.map (fun l => l.cerr)).flatten.length =
      (L.filter (fun l => decide (l.tok.tok = .ERROR))).length := by
  induction L with
  | nil => rfl
  | cons a L ih =>
    have ih' := ih (fun l hl => h l (List.mem_cons_of_mem a hl))
    rcases h a (List.mem_cons_self a L) with ⟨h1, msg, h2⟩ | ⟨h1, h2⟩
    · simp [h1, h2, ih']
    · simp [h1, h2, ih']

end lexer

/-- C18, counterexample. On the source `war x : int = @;` the current front end fails
(`ParseInput` returns the null pointer, `main` returns 1) and two lines are written to
`cerr`: `unknown punct` by the lexer and `unknown factor` by the parser. -/
theorem lexical_error_gives_two_lines :
    (Cur.main 40 "war x : int = @;").map (fun r => (r.result.isNull, r.ret, r.cerr)) =
      some (true, 1, [("unknown punct", 1), ("unknown factor", 1)]) := by
  decide!

/-! ## The line of `unknown identifier` -/

/-- C19, counterexample. In the source `war x : int = y` / `+ 1;` (two lines) the
undeclared identifier `y` is on line 1, and the diagnostic `unknown identifier` of both
parsers carries line 2, the line of the token `+` that follows it. -/
theorem unknown_identifier_on_next_line :
    (lexer.tokens "war x : int = y\n+ 1;")[5]? =
      some { tok := .IDENTIFIER, word := "y", line := 1 } ∧
    (Cur.main 40 "war x : int = y\n+ 1;").map (fun r => r.cerr) =
      some [("unknown identifier", 2)] ∧
    (Old.ParseInput Old.printSym 40
      (PState.init (lexer.tokens "war x : int = y\n+ 1;") 2)).log =
      [("unknown identifier", 2)] := by
  refine ⟨?_, ?_, ?_⟩ <;> decide!

set_option maxHeartbeats 4000000 in
/-- C19, amended. In both parsers, when the current token is an identifier that no
table of the chain binds, `ParseFactor` fails with `unknown identifier`, and the
diagnostic carries the line of the token that follows the identifier (the current
token once the identifier is eaten); this is the line of the identifier itself
whenever the next token is on the same line, as in `war x : int = y + 1;`, where the
diagnostic carries line 1. -/
theorem unknown_identifier_line_of_next_token :
    (∀ (k : Nat) (s : Old.St), s.CurrTok.tok = .IDENTIFIER →
      getSym s.heap s.CTable s.CurrTok.word = some none →
      Old.ParseFactor (k + 1) s = LogNull "unknown identifier" (nextToken s) ∧
      (Old.ParseFactor (k + 1) s).log =
        s.log ++ [("unknown identifier", (nextToken s).CurrTok.line)] ∧
      ((nextToken s).CurrTok.line = s.CurrTok.line →
        (Old.ParseFactor (k + 1) s).log = s.log ++ [("unknown identifier", s.CurrTok.line)])) ∧
    (∀ (k : Nat) (s : Cur.St), s.CurrTok.tok = .IDENTIFIER →
      getSym s.heap s.CTable s.CurrTok.word = some none →
      Cur.ParseFactor (k + 1) s = LogNull "unknown identifier" (nextToken s) ∧
      (Cur.ParseFactor (k + 1) s).log =
        s.log ++ [("unknown identifier", (nextToken s).CurrTok.line)] ∧
      ((nextToken s).CurrTok.line = s.CurrTok.line →
        (Cur.ParseFactor (k + 1) s).log = s.log ++ [("unknown identifier", s.CurrTok.line)])) ∧
    (Cur.main 40 "war x : int = y + 1;").map (fun r => (r.result.isNull, r.cerr)) =
      some (true, [("unknown identifier", 1)]) ∧
    (Old.ParseInput Old.printSym 40
      (PState.init (lexer.tokens "war x : int = y + 1;") 1)).log =
      [("unknown identifier", 1)] ∧
    (Old.ParseInput Old.printSym 40
      (PState.init (lexer.tokens "war x : int = y + 1;") 1)).isNull = true := by
  refine ⟨?_, ?_, ?_, ?_, ?_⟩
  · intro k s h1 h2
    have h := Old.ParseFactor_unknown k s h1 h2
    have hl : (Old.ParseFactor (k + 1) s).log =
        s.log ++ [("unknown identifier", (nextToken s).CurrTok.line)] := by
      rw [h]
      simp [LogNull, LogError, Res.log]
    exact ⟨h, hl, fun e => by rw [hl, e]⟩
  · intro k s h1 h2
    have h := Cur.cur_ParseFactor_unknown k s h1 h2
    have hl : (Cur.ParseFactor (k + 1) s).log =
        s.log ++ [("unknown identifier", (nextToken s).CurrTok.line)] := by
      rw [h]
      simp [LogNull, LogError, Res.log]
    exact ⟨h, hl, fun e => by rw [hl, e]⟩
  all_goals decide!

/-! ## Expressions have a type (old parser) -/

theorem Table.getSym_mem {σ : Type} (heap : List (Table σ)) (name : String) :
    ∀ (bound a : Nat) (sym : σ), Table.getSym heap name bound a = some sym →
      ∃ t ∈ heap, t.symbols name = some sym := by
  intro bound
  induction bound with
  | zero => intro a sym h; simp [Table.getSym] at h
  | succ bound ih =>
    intro a sym h
    simp only [Table.getSym] at h
    split at h
    · split at h
      · cases h
      · rename_i t ht
        split at h
        · rename_i sym' hs
          cases h
          exact ⟨t, List.getElem?_mem ht, hs⟩
        · split at h
          · exact ih _ _ h
          · cases h
    · exact ih _ _ h

theorem Res.All.val_of_imp {σ α : Type} {A : Prop} {P : α → Prop} {r : Res σ α} {v : α}
    {s : PState σ} (h : A → Res.All P r) (e : r = Res.ok v s) : A → P v :=
  fun a => (h a).holds v s e

namespace Old

theorem typed_of_lookup (s : St) (name : String) (sym : Symbol) (hT : TypedHeap s.heap)
    (h : getSym (nextToken s).heap (nextToken s).CTable name = some (some sym)) :
    sym.Vtype.isNull = false := by
  simp only [nextToken_heap, nextToken_CTable, getSym] at h
  split at h
  · cases h
  · simp only [Option.some.injEq] at h
    obtain ⟨t, ht, hs⟩ := Table.getSym_mem _ _ _ _ _ h
    exact hT t ht name sym hs

theorem TypedHeap.next {s : St} (h : TypedHeap s.heap) : TypedHeap (nextToken s).heap := by
  rw [nextToken_heap]; exact h

set_option maxHeartbeats 8000000 in
/-- In a state whose symbols all have a type, every tree the expression functions of
the old parser return has a type. -/
theorem expr_typed_all : ∀ n : Nat,
    (∀ s, TypedHeap s.heap →
      Res.All (fun e => e.getType.isNull = false) (ParseExpression n s)) ∧
    (∀ s, TypedHeap s.heap →
      Res.All (fun e => e.getType.isNull = false) (ParseBoolExpr n s)) ∧
    (∀ lhs s, TypedHeap s.heap → lhs.getType.isNull = false →
      Res.All (fun e => e.getType.isNull = false) (ParseBoolLoop n lhs s)) ∧
    (∀ s, TypedHeap s.heap →
      Res.All (fun e => e.getType.isNull = false) (ParseAddExpr n s)) ∧
    (∀ lhs s, TypedHeap s.heap → lhs.getType.isNull = false →
      Res.All (fun e => e.getType.isNull = false) (ParseAddLoop n lhs s)) ∧
    (∀ s, TypedHeap s.heap →
      Res.All (fun e => e.getType.isNull = false) (ParseTermExpr n s)) ∧
    (∀ lhs s, TypedHeap s.heap → lhs.getType.isNull = false →
      Res.All (fun e => e.getType.isNull = false) (ParseTermLoop n lhs s)) ∧
    (∀ s, TypedHeap s.heap →
      Res.All (fun e => e.getType.isNull = false) (ParseFactor n s)) ∧
    (∀ elemType arr_elems s,
      Res.All (fun e => e.getType.isNull = false) (ParseArrayLoop n elemType arr_elems s)) ∧
    (∀ elemType arr_elems s,
      Res.All (fun e => e.getType.isNull = false) (ParseArrayTail n elemType arr_elems s)) ∧
    (∀ name sym Idx args s, sym.Vtype.isNull = false →
      Res.All (fun e => e.getType.isNull = false) (ParseCallLoop n name sym Idx args s)) := by
  intro n
  induction n with
  | zero =>
    refine ⟨?_, ?_, ?_, ?_, ?_, ?_, ?_, ?_, ?_, ?_, ?_⟩ <;> intros <;>
      simp only [ParseExpression, ParseBoolExpr, ParseBoolLoop, ParseAddExpr, ParseAddLoop,
        ParseTermExpr, ParseTermLoop, ParseFactor, ParseArrayLoop, ParseArrayTail,
        ParseCallLoop] <;> exact Res.All.at_fuel
  | succ n ih =>
    obtain ⟨ihE, ihB, ihBL, ihA, ihAL, ihT, ihTL, ihF, ihArr, ihArrT, ihC⟩ := ih
    have sm := expr_same_all n
    refine ⟨?_, ?_, ?_, ?_, ?_, ?_, ?_, ?_, ?_, ?_, ?_⟩ <;> intros <;>
      simp only [ParseExpression, ParseBoolExpr, ParseBoolLoop, ParseAddExpr, ParseAddLoop,
        ParseTermExpr, ParseTermLoop, ParseFactor, ParseArrayLoop, ParseArrayTail,
        ParseCallLoop] <;> repeat' split
    all_goals
      (try have hsE := (sm.1 _).of_ok ‹ParseExpression n _ = Res.ok _ _›)
      (try have hsB := (sm.2.1 _).of_ok ‹ParseBoolExpr n _ = Res.ok _ _›)
      (try have hsA := (sm.2.2.2.1 _).of_ok ‹ParseAddExpr n _ = Res.ok _ _›)
      (try have hsT := (sm.2.2.2.2.2.1 _).of_ok ‹ParseTermExpr n _ = Res.ok _ _›)
      (try have hsF := (sm.2.2.2.2.2.2.2.1 _).of_ok ‹ParseFactor n _ = Res.ok _ _›)
      (try have hE := Res.All.val_of_imp (ihE _) ‹ParseExpression n _ = Res.ok _ _›)
      (try simp only [nextToken_heap, forall_true_left, *] at hE)
      (try have hB := Res.All.val_of_imp (ihB _) ‹ParseBoolExpr n _ = Res.ok _ _›)
      (try simp only [nextToken_heap, forall_true_left, *] at hB)
      (try have hA := Res.All.val_of_imp (ihA _) ‹ParseAddExpr n _ = Res.ok _ _›)
      (try simp only [nextToken_heap, forall_true_left, *] at hA)
      (try have hT := Res.All.val_of_imp (ihT _) ‹ParseTermExpr n _ = Res.ok _ _›)
      (try simp only [nextToken_heap, forall_true_left, *] at hT)
      (try have hF := Res.All.val_of_imp (ihF _) ‹ParseFactor n _ = Res.ok _ _›)
      (try simp only [nextToken_heap, forall_true_left, *] at hF)
      first
      | exact Res.All.at_fuel
      | exact Res.All.at_crash
      | exact Res.All.at_logNull _
      | exact Res.All.at_null
      | exact Res.All.of_val (typed_of_lookup _ _ _ ‹TypedHeap _› ‹_›)
      | (apply Res.All.of_val; first | assumption | rfl)
      | exact ihBL _ _ (by simp only [nextToken_heap, *]) (by simp only [Expr.getType, *])
      | exact ihAL _ _ (by simp only [nextToken_heap, *]) (by simp only [Expr.getType, *])
      | exact ihTL _ _ (by simp only [nextToken_heap, *]) (by simp only [Expr.getType, *])
      | exact ihArr _ _ _
      | exact ihArrT _ _ _
      | exact ihC _ _ _ _ _ ‹_›
      | exact ihC _ _ _ _ _ (typed_of_lookup _ _ _ ‹TypedHeap _› ‹_›)

end Old

namespace Old

theorem ParseArray_typed : ∀ n : Nat,
    (∀ T arr s e s', TypedHeap s.heap → ParseArrayLoop n T arr s = .ok e s' →
      ∃ new T', e = .ArrayExpr (arr ++ new) (.ArrayType T') ∧ ArrayElems T new T' ∧
        ∀ x ∈ new, x.getType.isNull = false) ∧
    (∀ T arr s e s', TypedHeap s.heap → ParseArrayTail n T arr s = .ok e s' →
      ∃ new T', e = .ArrayExpr (arr ++ new) (.ArrayType T') ∧ ArrayElems T new T' ∧
        ∀ x ∈ new, x.getType.isNull = false) := by
  intro n
  induction n with
  | zero =>
    constructor <;> intro T arr s e s' _ h <;> simp [ParseArrayLoop, ParseArrayTail] at h
  | succ n ih =>
    obtain ⟨ihL, ihT⟩ := ih
    constructor
    · intro T arr s e s' hT h
      simp only [ParseArrayLoop] at h
      split at h
      · simp only [Res.ok.injEq] at h
        exact ⟨[], T, by simp [h.1.symm], by simp [ArrayElems], by simp⟩
      · split at h
        · cases h
        · cases h
        · cases h
        · rename_i elem s1 he
          have hty : elem.getType.isNull = false := ((expr_typed_all n).1 s hT).val_of_ok he
          have hs1 : TypedHeap s1.heap := by
            rw [(((expr_same_all n).1 s).of_ok he).1]; exact hT
          split at h
          · rename_i hnull
            obtain ⟨new, T', h1, h2, h3⟩ := ihT _ _ _ _ _ hs1 h
            refine ⟨elem :: new, T', by simp [h1], by simp [ArrayElems, hnull, h2], ?_⟩
            intro x hx
            rcases List.mem_cons.1 hx with rfl | hx
            · exact hty
            · exact h3 x hx
          · rename_i hnull
            split at h
            · cases h
            · cases h
            · rename_i hc
              obtain ⟨new, T', h1, h2, h3⟩ := ihT _ _ _ _ _ hs1 h
              refine ⟨elem :: new, T', by simp [h1], by simp [ArrayElems, hnull, h2, hc], ?_⟩
              intro x hx
              rcases List.mem_cons.1 hx with rfl | hx
              · exact hty
              · exact h3 x hx
    · intro T arr s e s' hT h
      simp only [ParseArrayTail] at h
      split at h
      · cases h
      · split at h
        · split at h
          · cases h
          · exact ihL _ _ _ _ _ hT.next h
        · exact ihL _ _ _ _ _ hT h

/-- The state in which `ParseInput` reaches its loop, with the `print` of the
examples: every symbol has a type. -/
theorem start_typed (toks : List TOKEN) : TypedHeap (start toks).heap := by
  have h : (start toks).heap =
      [(Table.new none).addSym "print" (printSym.setArgs [.IntType])] := by
    simp [start, addSym, addSymAt, nextTable, PState.init]
  rw [h]
  intro t ht name sym hs
  simp only [List.mem_singleton] at ht
  subst ht
  simp only [Table.addSym, Table.new] at hs
  split at hs
  · cases hs; rfl
  · cases hs

end Old

namespace Old

set_option maxHeartbeats 4000000 in
/-- C11. In the old parser, in a state whose symbols all have a type (as the state in
which `ParseInput` starts its loop), every array literal `ParseFactor` accepts is an
`ArrayExpr` node of type `Array<T>` whose elements all have a type; when it is not
empty, `T` is the type of its first element and `checkTypes` finds the type of every
later element compatible with the type of the first.  Without the condition on the
state, `T` is what the loop leaves in `elemType`, which is the type of the first
element when that element has a type.  In the loop, an element whose type `checkTypes`
finds incompatible with `elemType` ends the parse with `invalid elements in array`.  So
`[1, 2]` is accepted with type `Array<Int>`, and `[1, [2]]` and `[[1], 2]` are
rejected. -/
theorem array_literal_elements_agree :
    (∀ (n : Nat) (s s' : St) (e : Expr), TypedHeap s.heap → s.CurrTok.tok = .LBRACE →
      ParseFactor n s = .ok e s' →
      ∃ elems T, e = .ArrayExpr elems (.ArrayType T) ∧ e.getType = .ArrayType T ∧
        (∀ x ∈ elems, x.getType.isNull = false) ∧
        ∀ first rest, elems = first :: rest →
          T = first.getType ∧
          ∀ x ∈ rest, checkTypes first.getType x.getType = some true) ∧
    (∀ toks : List TOKEN, TypedHeap (start toks).heap) ∧
    (∀ (n : Nat) (s s' : St) (e : Expr), s.CurrTok.tok = .LBRACE →
      ParseFactor n s = .ok e s' →
      ∃ elems T, e = .ArrayExpr elems (.ArrayType T) ∧ e.getType = .ArrayType T ∧
        ArrayElems .null elems T ∧
        (elems = [] → T = .null) ∧
        ∀ first rest, elems = first :: rest → first.getType.isNull = false →
          T = first.getType ∧
          ∀ x ∈ rest, checkTypes first.getType x.getType = some true) ∧
    (∀ (n : Nat) (elemType : TypeP) (arr_elems : List Expr) (s s1 : St) (elem : Expr),
      s.CurrTok.tok ≠ .RBRACE → ParseExpression n s = .ok elem s1 →
      elemType.isNull = false → checkTypes elemType elem.getType = some false →
      ParseArrayLoop (n + 1) elemType arr_elems s = LogNull "invalid elements in array" s1) ∧
    typeOf? (ParseFactor 20 (start arrayIntsToks)) = some (.ArrayType .IntType) ∧
    (ParseStatement 40 (start arrayIntArrayToks)).log = [("invalid elements in array", 1)] ∧
    (ParseStatement 40 (start arrayIntArrayToks)).isNull = true ∧
    (ParseStatement 40 (start arrayArrayIntToks)).log = [("invalid elements in array", 1)] ∧
    (ParseStatement 40 (start arrayArrayIntToks)).isNull = true := by
  refine ⟨?_, start_typed, ?_, ?_, ?_, ?_, ?_, ?_, ?_⟩
  · intro n s s' e hT htok h
    cases n with
    | zero => simp [ParseFactor] at h
    | succ n =>
      simp only [ParseFactor, htok] at h
      obtain ⟨new, T, h1, h2, h3⟩ := (ParseArray_typed n).1 _ _ _ _ _ hT.next h
      simp only [List.nil_append] at h1
      refine ⟨new, T, h1, by rw [h1]; rfl, h3, ?_⟩
      intro first rest hel
      rw [hel] at h2 h3
      simp only [ArrayElems, TypeP.isNull, if_true] at h2
      exact ArrayElems_of_type (h3 first (List.mem_cons_self _ _)) rest T h2
  · intro n s s' e htok h
    cases n with
    | zero => simp [ParseFactor] at h
    | succ n =>
      simp only [ParseFactor, htok] at h
      obtain ⟨new, T, h1, h2⟩ := (ParseArray_elems n).1 _ _ _ _ _ h
      simp only [List.nil_append] at h1
      refine ⟨new, T, h1, by rw [h1]; rfl, h2, ?_, ?_⟩
      · intro hnil
        rw [hnil] at h2
        simpa [ArrayElems] using h2
      · intro first rest hel hty
        rw [hel] at h2
        simp only [ArrayElems, TypeP.isNull, if_true] at h2
        exact ArrayElems_of_type hty rest T h2
  · intro n elemType arr_elems s s1 elem h1 h2 h3 h4
    simp only [ParseArrayLoop, if_neg h1, h2, h3, h4]
    rfl
  all_goals decide!

end Old

namespace lexer

/-- A call of `getNextToken` that is not on a white-space character does not call
itself. -/
theorem getNextTokenBody_again (a b : LexState → LexRes) (st : LexState)
    (h : st.i = st.tsize ∨ isalpha (st.charAt st.i) = true ∨ isdigit (st.charAt st.i) = true ∨
      st.charAt st.i = Char.ofNat 34 ∨ isspace (st.charAt st.i) = false) :
    getNextTokenBody a st = getNextTokenBody b st := by
  simp only [getNextTokenBody]
  by_cases h1 : st.i = st.tsize
  · simp only [h1, if_true]
  by_cases h2 : isalpha (st.charAt st.i) = true
  · simp only [h1, h2, if_true, if_false]
  by_cases h3 : isdigit (st.charAt st.i) = true
  · simp only [h1, h2, h3, if_true, if_false]
  by_cases h4 : st.charAt st.i = Char.ofNat 34
  · simp only [h1, h2, h3, h4, if_true, if_false]
  have h5 : isspace (st.charAt st.i) = false := by
    rcases h with h | h | h | h | h
    · exact absurd h h1
    · exact absurd h h2
    · exact absurd h h3
    · exact absurd h h4
    · exact h
  simp only [h1, h2, h3, h4, h5, if_false, Bool.false_eq_true]

theorem getNextToken_eq_body (st : LexState)
    (h : st.i = st.tsize ∨ isalpha (st.charAt st.i) = true ∨ isdigit (st.charAt st.i) = true ∨
      st.charAt st.i = Char.ofNat 34 ∨ isspace (st.charAt st.i) = false) :
    getNextToken st = getNextTokenBody (fun _ => .fuel) st := by
  unfold getNextToken
  cases (st.text.length - st.i) with
  | zero => rfl
  | succ k => exact getNextTokenBody_again _ _ st h

/-- The punctuation branch when the character and the `=` after it are one key of
`tokTable`. -/
theorem punct_two (st : LexState) (c : Char) (t t2 : lexeme) (hi : st.i ≠ st.tsize)
    (hc : st.charAt st.i = c)
    (h1 : isalpha c = false) (h2 : isdigit c = false) (h3 : c ≠ Char.ofNat 34)
    (h4 : isspace c = false) (h5 : ispunct c = true)
    (ht : tokTable (String.mk [c]) = some t)
    (hr : ¬ (t.code < lexeme.ASSIGN.code ∨ t.code > lexeme.LSEQ.code))
    (ht2 : tokTable (String.mk [c, Char.ofNat 61]) = some t2)
    (hn : st.i + 1 < st.tsize) (he : st.charAt (st.i + 1) = Char.ofNat 61) :
    Lexes st t2 2 := by
  unfold Lexes
  rw [getNextToken_eq_body st (by rw [hc]; exact Or.inr (Or.inr (Or.inr (Or.inr h4))))]
  simp only [getNextTokenBody, hc, hi, h1, h2, h3, h4, h5, ht, hr, hn, he, ht2, if_false,
    if_true, and_self, Bool.false_eq_true]

/-- The punctuation branch when the token is of one character. -/
theorem punct_one (st : LexState) (c : Char) (t : lexeme) (hi : st.i ≠ st.tsize)
    (hc : st.charAt st.i = c)
    (h1 : isalpha c = false) (h2 : isdigit c = false) (h3 : c ≠ Char.ofNat 34)
    (h4 : isspace c = false) (h5 : ispunct c = true)
    (ht : tokTable (String.mk [c]) = some t)
    (hr : (t.code < lexeme.ASSIGN.code ∨ t.code > lexeme.LSEQ.code) ∨
      ¬ (st.i + 1 < st.tsize ∧ st.charAt (st.i + 1) = Char.ofNat 61)) :
    Lexes st t 1 := by
  unfold Lexes
  rw [getNextToken_eq_body st (by rw [hc]; exact Or.inr (Or.inr (Or.inr (Or.inr h4))))]
  simp only [getNextTokenBody, hc, hi, h1, h2, h3, h4, h5, ht, if_false, if_true,
    Bool.false_eq_true]
  rcases hr with hr | hr
  · simp only [hr, if_true]
  · simp only [hr, if_false]
    split <;> rfl

/-- The keys of `tokTable` of one character, each with its token. -/
theorem tokTable_single (c : Char) (t : lexeme) (ht : tokTable (String.mk [c]) = some t) :
    (c, t) ∈ [('\x7b', lexeme.LBRA), ('\x7d', .RBRA), ('(', .LBAR), (')', .RBAR),
      ('[', .LBRACE), (']', .RBRACE), (':', .COL), (';', .SEMICOL), (',', .COMMA),
      ('+', .PLUS), ('-', .MINUS), ('/', .DIV), ('*', .MUL), ('!', .NOT), ('=', .ASSIGN),
      ('<', .LS), ('>', .GT)] := by
  unfold tokTable at ht
  split at ht
  all_goals
    first
    | (rename_i heq
       have hd := congrArg String.data heq
       simp at hd
       done)
    | (rename_i heq
       have hd := congrArg String.data heq
       simp at hd
       cases ht
       subst hd
       simp)
    | cases ht

/-- C22: on `=`, `<`, `>` or `!` with an `=` after it inside the text, `getNextToken`
returns `EQ`, `LSEQ`, `GTEQ` or `NOEQ` and moves the cursor by two characters; without
an `=` after it, it returns `ASSIGN`, `LS`, `GT` or `NOT` and moves the cursor by one;
on every other key of `tokTable` of one character it returns the token of that key and
moves the cursor by one, whatever follows. -/
theorem punctuation_is_lexed_greedily (st : LexState) (hi : st.i ≠ st.tsize) :
    (st.i + 1 < st.tsize ∧ st.charAt (st.i + 1) = '=' →
      (st.charAt st.i = '=' → Lexes st .EQ 2) ∧ (st.charAt st.i = '<' → Lexes st .LSEQ 2) ∧
      (st.charAt st.i = '>' → Lexes st .GTEQ 2) ∧
      (st.charAt st.i = '!' → Lexes st .NOEQ 2)) ∧
    (¬ (st.i + 1 < st.tsize ∧ st.charAt (st.i + 1) = '=') →
      (st.charAt st.i = '=' → Lexes st .ASSIGN 1) ∧ (st.charAt st.i = '<' → Lexes st .LS 1) ∧
      (st.charAt st.i = '>' → Lexes st .GT 1) ∧ (st.charAt st.i = '!' → Lexes st .NOT 1)) ∧
    (∀ t, tokTable (String.mk [st.charAt st.i]) = some t →
      st.charAt st.i ∉ ['=', '<', '>', '!'] → Lexes st t 1) := by
  refine ⟨?_, ?_, ?_⟩
  · rintro ⟨hn, he⟩
    refine ⟨?_, ?_, ?_, ?_⟩ <;> intro hc
    · exact punct_two st _ .ASSIGN _ hi hc (by decide) (by decide) (by decide) (by decide)
        (by decide) (by decide) (by decide) (by decide) hn he
    · exact punct_two st _ .LS _ hi hc (by decide) (by decide) (by decide) (by decide)
        (by decide) (by decide) (by decide) (by decide) hn he
    · exact punct_two st _ .GT _ hi hc (by decide) (by decide) (by decide) (by decide)
        (by decide) (by decide) (by decide) (by decide) hn he
    · exact punct_two st _ .NOT _ hi hc (by decide) (by decide) (by decide) (by decide)
        (by decide) (by decide) (by decide) (by decide) hn he
  · intro hne
    refine ⟨?_, ?_, ?_, ?_⟩ <;> intro hc <;>
      exact punct_one st _ _ hi hc (by decide) (by decide) (by decide) (by decide)
        (by decide) (by decide) (Or.inr hne)
  · intro t ht hnot
    have hm := tokTable_single _ _ ht
    generalize hc : st.charAt st.i = c at hm hnot ht
    simp only [List.mem_cons, Prod.mk.injEq, List.mem_singleton, List.not_mem_nil,
      or_false, not_or] at hm hnot
    rcases hm with h | h | h | h | h | h | h | h | h | h | h | h | h | h | h | h | h
    all_goals
      obtain ⟨rfl, rfl⟩ := h
      first
      | exact punct_one st _ _ hi hc (by decide) (by decide) (by decide) (by decide)
          (by decide) (by decide) (Or.inl (by decide))
      | exact absurd rfl hnot.1
      | exact absurd rfl hnot.2.1
      | exact absurd rfl hnot.2.2.1
      | exact absurd rfl hnot.2.2.2

theorem punctuation_is_lexed_greedily_witness :
    (start "a<=b").i + 1 ≠ (start "a<=b").tsize ∧
    Lexes { start "a<=b" with i := 1 } .LSEQ 2 :=
  ⟨by decide,
   ((punctuation_is_lexed_greedily { start "a<=b" with i := 1 } (by decide)).1
     ⟨by decide, by decide⟩).2.1 (by decide)⟩

end lexer

namespace lexer

theorem charAt_of_lt (st : LexState) (j : Nat) (h : j < st.text.length) :
    st.charAt j = st.text[j] := by
  simp [LexState.charAt, List.getD, List.getElem?_eq_getElem h]

/-- The text from the index `j` on, when it starts with the character `c`. -/
theorem drop_cons (st : LexState) (j : Nat) (c : Char) (l : List Char)
    (h : st.text.drop j = c :: l) :
    j < st.text.length ∧ st.charAt j = c ∧ st.text.drop (j + 1) = l := by
  have hj : j < st.text.length := by
    by_contra hh
    rw [List.drop_eq_nil_of_le (by omega)] at h
    cases h
  rw [List.drop_eq_getElem_cons hj] at h
  injection h with h1 h2
  exact ⟨hj, by rw [charAt_of_lt st j hj, h1], h2⟩

/-- The character at the index `j`, when the text from `j` on is `l`: no letter, digit
or quote when `l` does not start with one. -/
theorem charAt_head (st : LexState) (j : Nat) (l : List Char) (p : Char → Bool)
    (h : st.text.drop j = l) (hp : ∀ c ∈ l.head?, p c = false)
    (h0 : p (Char.ofNat 0) = false) : p (st.charAt j) = false := by
  cases l with
  | nil =>
    rw [charAt_of_le st j (by
      by_contra hh
      have := List.drop_eq_nil_iff.mp h
      omega)]
    exact h0
  | cons c l =>
    rw [(drop_cons st j c l h).2.1]
    exact hp c rfl

/-- The loop over the alphanumeric characters reads the run `run` when the text goes on
with `run` and then with no alphanumeric character. -/
theorem alnumLoop_run (st : LexState) : ∀ (run rest : List Char) (k i : Nat)
    (word : List Char), st.text.drop i = run ++ rest → (∀ c ∈ run, isalnum c = true) →
    (∀ c ∈ rest.head?, isalnum c = false) → i + run.length ≤ st.tsize → run.length ≤ k →
    alnumLoop st k i word = (i + run.length, word ++ run) := by
  intro run
  induction run with
  | nil =>
    intro rest k i word hd _ hm _ _
    cases k with
    | zero => simp [alnumLoop]
    | succ k =>
      have := charAt_head st i rest isalnum hd hm (by decide)
      simp [alnumLoop, this]
  | cons c run ih =>
    intro rest k i word hd hr hm hle hk
    cases k with
    | zero => simp at hk
    | succ k =>
      obtain ⟨_, hc, hd1⟩ := drop_cons st i c (run ++ rest) hd
      have h1 : isalnum (st.charAt i) = true := by rw [hc]; exact hr c (List.mem_cons_self _ _)
      have h2 : i < st.tsize := by simp only [List.length_cons] at hle; omega
      simp only [alnumLoop, h1, h2, and_self, if_true]
      rw [ih rest k (i + 1) (word ++ [st.charAt i]) hd1
        (fun x hx => hr x (List.mem_cons_of_mem _ hx)) hm
        (by simp only [List.length_cons] at hle; omega)
        (by simp only [List.length_cons] at hk; omega), hc]
      simp only [List.length_cons, List.append_assoc, List.singleton_append, Prod.mk.injEq,
        and_true]
      omega

theorem tokTable_ne_IDENTIFIER (w : String) (t : lexeme) (h : tokTable w = some t) :
    t ≠ .IDENTIFIER := by
  unfold tokTable at h
  split at h <;> first | (cases h; decide) | cases h

/-- A key of `tokTable` is a reserved word or has a punctuation character. -/
theorem tokTable_some (w : String) (t : lexeme) (h : tokTable w = some t) :
    (w, t) ∈ reserved ∨ ∃ c ∈ w.data, ispunct c = true := by
  unfold tokTable at h
  split at h
  all_goals
    first
    | (cases h
       refine Or.inl ?_
       decide)
    | (cases h
       refine Or.inr ⟨_, List.mem_cons_self _ _, ?_⟩
       decide)
    | cases h

theorem tokTable_reserved (p : String × lexeme) (h : p ∈ reserved) :
    tokTable p.1 = some p.2 := by
  simp only [reserved, List.mem_cons, List.mem_singleton, List.not_mem_nil, or_false] at h
  rcases h with h | h | h | h | h | h | h | h | h | h | h | h | h | h | h | h | h
  all_goals (subst h; rfl)

theorem not_alnum_of_punct (c : Char) (h : ispunct c = true) : isalnum c = false := by
  simp only [ispunct, isalnum, isalpha, isdigit, decide_eq_true_eq, Bool.or_eq_false_iff,
    decide_eq_false_iff_not] at *
  omega

end lexer

namespace lexer

/-- The branch of the letters: the token for the run `run` of alphanumeric characters
that the text goes on with. -/
theorem getNextToken_alpha (st : LexState) (ht : st.tsize = st.text.length)
    (ha : isalpha (st.charAt st.i) = true) (run rest : List Char)
    (hd : st.text.drop st.i = run ++ rest) (hr : ∀ c ∈ run, isalnum c = true)
    (hm : ∀ c ∈ rest.head?, isalnum c = false) :
    getNextToken st =
      match tokTable (String.mk run) with
      | some t => .tok { tok := t, line := st.line } { st with i := st.i + run.length }
      | none => .tok { tok := .IDENTIFIER, word := String.mk run, line := st.line }
          { st with i := st.i + run.length } := by
  have hi : st.i < st.tsize := by
    by_contra hh
    rw [charAt_of_le st st.i (by omega)] at ha
    exact absurd ha (by decide)
  have hlen : st.i + run.length ≤ st.tsize := by
    have := congrArg List.length hd
    simp only [List.length_drop, List.length_append] at this
    omega
  rw [getNextToken_eq_body st (Or.inr (Or.inl ha))]
  simp only [getNextTokenBody, Nat.ne_of_lt hi, ha, if_false, if_true]
  rw [alnumLoop_run st run rest _ st.i [] hd hr hm hlen (by omega)]
  rfl

/-- C23: on a letter, with the text going on with the run `run` of alphanumeric
characters and then with none, `getNextToken` moves the cursor over `run`; when `run`
is a reserved word it returns the token of that word, and otherwise the token
`IDENTIFIER` with the text `run`; the text of an `IDENTIFIER` it returns is no
reserved word. -/
theorem identifier_is_maximal_run (st : LexState) (ht : st.tsize = st.text.length)
    (ha : isalpha (st.charAt st.i) = true) (run rest : List Char)
    (hd : st.text.drop st.i = run ++ rest) (hr : ∀ c ∈ run, isalnum c = true)
    (hm : ∀ c ∈ rest.head?, isalnum c = false) :
    (∀ p ∈ reserved, String.mk run = p.1 → Lexes st p.2 run.length) ∧
    (String.mk run ∉ reserved.map Prod.fst →
      getNextToken st = .tok { tok := .IDENTIFIER, word := String.mk run, line := st.line }
        { st with i := st.i + run.length }) ∧
    (∀ t st', getNextToken st = .tok t st' → t.tok = .IDENTIFIER →
      t.word = String.mk run ∧ t.word ∉ reserved.map Prod.fst) := by
  have hg := getNextToken_alpha st ht ha run rest hd hr hm
  refine ⟨?_, ?_, ?_⟩
  · intro p hp hw
    rw [hw, tokTable_reserved p hp] at hg
    exact hg
  · intro hn
    cases hk : tokTable (String.mk run) with
    | none => rw [hk] at hg; exact hg
    | some t =>
      exfalso
      rcases tokTable_some _ _ hk with h | ⟨c, hc, hp⟩
      · exact hn (List.mem_map.mpr ⟨_, h, rfl⟩)
      · have := hr c hc
        rw [not_alnum_of_punct c hp] at this
        cases this
  · intro t st' h hid
    rw [hg] at h
    cases hk : tokTable (String.mk run) with
    | some t2 =>
      rw [hk] at h
      simp only [LexRes.tok.injEq] at h
      obtain ⟨rfl, _⟩ := h
      exact absurd hid (tokTable_ne_IDENTIFIER _ _ hk)
    | none =>
      rw [hk] at h
      simp only [LexRes.tok.injEq] at h
      obtain ⟨rfl, _⟩ := h
      refine ⟨rfl, ?_⟩
      intro hmem
      obtain ⟨p, hp, hpw⟩ := List.mem_map.mp hmem
      have := tokTable_reserved p hp
      rw [hpw] at this
      simp only at this
      rw [hk] at this
      cases this

theorem identifier_is_maximal_run_witness :
    getNextToken (start "if8 x") =
      .tok { tok := .IDENTIFIER, word := String.mk ['i', 'f', '8'], line := 1 }
        { start "if8 x" with i := 3 } :=
  (identifier_is_maximal_run (start "if8 x") (by decide) (by decide)
    ['i', 'f', '8'] [' ', 'x'] (by decide) (by decide) (by decide)).2.1 (by decide)

end lexer

namespace lexer

/-- The loop of the string literal reads the characters `body` when the text goes on
with `body`, which has no double quote, and then with a double quote or with
nothing. -/
theorem stringLoop_run (st : LexState) (ht : st.tsize = st.text.length) :
    ∀ (body rest : List Char) (k j : Nat) (word : List Char),
    st.text.drop j = body ++ rest → (∀ c ∈ body, c ≠ Char.ofNat 34) →
    (∀ c ∈ rest.head?, c = Char.ofNat 34) → j ≤ st.tsize → body.length ≤ k →
    stringLoop st k j word = (j + body.length, word ++ body) := by
  intro body
  induction body with
  | nil =>
    intro rest k j word hd _ hm hj _
    cases k with
    | zero => simp [stringLoop]
    | succ k =>
      cases rest with
      | nil =>
        have : ¬ j < st.tsize := by
          have := List.drop_eq_nil_iff.mp hd
          omega
        simp [stringLoop, this]
      | cons c rest =>
        have hc := (drop_cons st j c rest hd).2.1
        rw [hm c rfl] at hc
        simp [stringLoop, hc]
  | cons c body ih =>
    intro rest k j word hd hr hm hj hk
    cases k with
    | zero => simp at hk
    | succ k =>
      obtain ⟨hlt, hc, hd1⟩ := drop_cons st j c (body ++ rest) hd
      have h1 : st.charAt j ≠ Char.ofNat 34 := by
        rw [hc]; exact hr c (List.mem_cons_self _ _)
      have h2 : j < st.tsize := by omega
      simp only [stringLoop, h1, h2, and_self, if_true, ne_eq, not_false_eq_true]
      rw [ih rest k (j + 1) (word ++ [st.charAt j]) hd1
        (fun x hx => hr x (List.mem_cons_of_mem _ hx)) hm (by omega)
        (by simp only [List.length_cons] at hk; omega), hc]
      simp only [List.length_cons, List.append_assoc, List.singleton_append, Prod.mk.injEq,
        and_true]
      omega

/-- The branch of the string literal when a closing quote follows. -/
theorem getNextToken_string (st : LexState) (ht : st.tsize = st.text.length)
    (hq : st.charAt st.i = Char.ofNat 34) (body rest : List Char)
    (hd : st.text.drop (st.i + 1) = body ++ Char.ofNat 34 :: rest)
    (hb : ∀ c ∈ body, c ≠ Char.ofNat 34) :
    getNextToken st = .tok { tok := .STRING, word := String.mk body, line := st.line }
      { st with i := st.i + 1 + body.length + 1 } := by
  have hi : st.i < st.tsize := by
    by_contra hh
    rw [charAt_of_le st st.i (by omega)] at hq
    exact absurd hq (by decide)
  have h1 : isalpha (Char.ofNat 34) = false := by decide
  have h2 : isdigit (Char.ofNat 34) = false := by decide
  rw [getNextToken_eq_body st (Or.inr (Or.inr (Or.inr (Or.inl hq))))]
  have hlen : st.i + 1 + body.length < st.tsize := by
    have := congrArg List.length hd
    simp only [List.length_drop, List.length_append, List.length_cons] at this
    omega
  have hclose : st.charAt (st.i + 1 + body.length) = Char.ofNat 34 := by
    have h3 : st.text.drop (st.i + 1 + body.length) = Char.ofNat 34 :: rest := by
      rw [← List.drop_drop, hd, List.drop_left]
    exact (drop_cons st _ _ _ h3).2.1
  simp only [getNextTokenBody, Nat.ne_of_lt hi, h1, h2, hq, if_false, if_true,
    Bool.false_eq_true]
  rw [stringLoop_run st ht body (Char.ofNat 34 :: rest) _ (st.i + 1) [] hd hb
    (by intro c hc; cases hc; rfl) (by omega) (by omega)]
  simp only [List.nil_append, hclose, ne_eq, not_true_eq_false, and_false, if_false,
    Nat.ne_of_lt hlen, not_false_eq_true, if_true]

/-- The branch of the string literal when no closing quote follows. -/
theorem getNextToken_string_open (st : LexState) (ht : st.tsize = st.text.length)
    (hq : st.charAt st.i = Char.ofNat 34)
    (hb : ∀ c ∈ st.text.drop (st.i + 1), c ≠ Char.ofNat 34) :
    getNextToken st = .tok { tok := .ERROR, line := st.line }
      { st with i := st.tsize,
                cerr := st.cerr ++
                  [("excepted '" ++ String.mk [Char.ofNat 34] ++ "'", st.line)] } := by
  have hi : st.i < st.tsize := by
    by_contra hh
    rw [charAt_of_le st st.i (by omega)] at hq
    exact absurd hq (by decide)
  have h1 : isalpha (Char.ofNat 34) = false := by decide
  have h2 : isdigit (Char.ofNat 34) = false := by decide
  rw [getNextToken_eq_body st (Or.inr (Or.inr (Or.inr (Or.inl hq))))]
  have hlen : st.i + 1 + (st.text.drop (st.i + 1)).length = st.tsize := by
    simp only [List.length_drop]
    omega
  simp only [getNextTokenBody, Nat.ne_of_lt hi, h1, h2, hq, if_false, if_true,
    Bool.false_eq_true]
  rw [stringLoop_run st ht (st.text.drop (st.i + 1)) [] _ (st.i + 1) []
    (by simp) hb (by intro c hc; cases hc) (by omega) (by simp only [List.length_drop]; omega)]
  have h0 : st.charAt st.tsize ≠ Char.ofNat 34 := by
    rw [charAt_of_le st st.tsize (by omega)]; decide
  simp only [hlen, h0, ne_eq, not_false_eq_true, and_self, if_true, LexError]

/-- C24: on a double quote, when the text goes on with the characters `body`, none of
them a double quote, and then with a double quote, `getNextToken` returns the token
`STRING` with the text `body`, unchanged, and leaves the cursor after the closing
quote; when no double quote follows up to the end of the text, it returns the token
`ERROR`. -/
theorem string_is_read_to_next_quote (st : LexState) (ht : st.tsize = st.text.length)
    (hq : st.charAt st.i = '"') :
    (∀ body rest : List Char, st.text.drop (st.i + 1) = body ++ '"' :: rest →
      (∀ c ∈ body, c ≠ '"') →
      getNextToken st = .tok { tok := .STRING, word := String.mk body, line := st.line }
        { st with i := st.i + 1 + body.length + 1 }) ∧
    ((∀ c ∈ st.text.drop (st.i + 1), c ≠ '"') →
      getNextToken st = .tok { tok := .ERROR, line := st.line }
        { st with i := st.tsize,
                  cerr := st.cerr ++ [("excepted '" ++ String.mk ['"'] ++ "'", st.line)] }) :=
  ⟨fun body rest hd hb => getNextToken_string st ht hq body rest hd hb,
   fun hb => getNextToken_string_open st ht hq hb⟩

theorem string_is_read_to_next_quote_witness :
    getNextToken (start "\"a\\\" b") =
      .tok { tok := .STRING, word := String.mk ['a', '\\'], line := 1 }
        { start "\"a\\\" b" with i := 4 } :=
  (string_is_read_to_next_quote (start "\"a\\\" b") (by decide) (by decide)).1
    ['a', '\\'] [' ', 'b'] (by decide) (by decide)

end lexer

namespace lexer

/-- The last branch of `getNextToken`: on a character that is no letter, digit, double
quote, white space or punctuation, the call writes `unknown char` and returns `ERROR`
with the statics as they were. -/
theorem getNextToken_unknown (st : LexState) (hi : st.i ≠ st.tsize)
    (h1 : isalpha (st.charAt st.i) = false) (h2 : isdigit (st.charAt st.i) = false)
    (h3 : st.charAt st.i ≠ Char.ofNat 34) (h4 : isspace (st.charAt st.i) = false)
    (h5 : ispunct (st.charAt st.i) = false) :
    getNextToken st = .tok { tok := .ERROR, line := st.line }
      { st with cerr := st.cerr ++ [("unknown char", st.line)] } := by
  rw [getNextToken_eq_body st (Or.inr (Or.inr (Or.inr (Or.inr h4))))]
  simp only [getNextTokenBody, hi, h1, h2, h3, h4, h5, if_false, Bool.false_eq_true, LexError]

theorem lexAll_unknown : ∀ (k : Nat) (st : LexState), st.i ≠ st.tsize →
    isalpha (st.charAt st.i) = false → isdigit (st.charAt st.i) = false →
    st.charAt st.i ≠ Char.ofNat 34 → isspace (st.charAt st.i) = false →
    ispunct (st.charAt st.i) = false → lexAll k st = none := by
  intro k
  induction k with
  | zero => intros; rfl
  | succ k ih =>
    intro st hi h1 h2 h3 h4 h5
    have hn := ih { st with cerr := st.cerr ++ [("unknown char", st.line)] } hi h1 h2 h3 h4 h5
    simp only [lexAll, getNextToken_unknown st hi h1 h2 h3 h4 h5, hn]
    simp

/-- C21: on a character that is no letter, digit, double quote, white space or
punctuation (a control character, say), a call of `getNextToken` returns `ERROR` and
leaves the cursor where it was, and so does every call after it: `EOFILE` does not
come, however many calls are made. -/
theorem unknown_char_is_never_passed (st : LexState) (hi : st.i ≠ st.tsize)
    (h1 : isalpha (st.charAt st.i) = false) (h2 : isdigit (st.charAt st.i) = false)
    (h3 : st.charAt st.i ≠ '"') (h4 : isspace (st.charAt st.i) = false)
    (h5 : ispunct (st.charAt st.i) = false) :
    getNextToken st = .tok { tok := .ERROR, line := st.line }
      { st with cerr := st.cerr ++ [("unknown char", st.line)] } ∧
    ∀ k, lexAll k st = none :=
  ⟨getNextToken_unknown st hi h1 h2 h3 h4 h5,
   fun k => lexAll_unknown k st hi h1 h2 h3 h4 h5⟩

theorem unknown_char_is_never_passed_witness :
    lexAll ("\x01".length + 1) (start "\x01") = none :=
  (unknown_char_is_never_passed (start "\x01") (by decide) (by decide) (by decide)
    (by decide) (by decide) (by decide)).2 _

end lexer

namespace lexer

/-- A call of `getNextToken` that is not on a white-space character returns a token
with the line of the statics. -/
theorem getNextToken_line (st : LexState) (h4 : isspace (st.charAt st.i) = false)
    (t : TOKEN) (st' : LexState) (h : getNextToken st = .tok t st') : t.line = st.line := by
  rw [getNextToken_eq_body st (Or.inr (Or.inr (Or.inr (Or.inr h4))))] at h
  simp only [getNextTokenBody] at h
  repeat' split at h
  all_goals
    first
    | (simp only [LexError, LexRes.tok.injEq] at h
       obtain ⟨rfl, _⟩ := h
       rfl)
    | (rw [h4] at *; contradiction)

/-- The newline characters up to the end of a string literal: those before its opening
quote and those between its quotes. -/
theorem sourceLine_string (text : List Char) (i : Nat) (body rest : List Char)
    (h0 : text.drop i = '"' :: (body ++ '"' :: rest)) :
    sourceLine text (i + 1 + body.length + 1) = sourceLine text i + (body.count '\n' : Nat) := by
  have hi : i ≤ text.length := by
    by_contra hh
    rw [List.drop_eq_nil_of_le (by omega)] at h0
    cases h0
  have ht : text = text.take i ++ '"' :: (body ++ '"' :: rest) := by
    rw [← h0, List.take_append_drop]
  have hl : (text.take i).length = i := by simp [hi]
  have h1 : text.take (i + 1 + body.length + 1) = text.take i ++ ('"' :: (body ++ ['"'])) := by
    conv_lhs => rw [ht]
    rw [show i + 1 + body.length + 1 = (text.take i).length + (body.length + 2) by omega,
      List.take_append]
    congr 1
    simp [List.take_append_eq_append_take]
  simp only [sourceLine, h1, List.count_append, List.count_cons, List.count_nil]
  simp
  omega

/-- C25: a string literal with newline characters between its quotes leaves the line
counter as it was.  With the line counter right at the opening quote, the token after
the closing quote carries a line number that is too small by the number of newline
characters in the literal. -/
theorem newline_in_string_is_not_counted (st : LexState) (ht : st.tsize = st.text.length)
    (hq : st.charAt st.i = '"') (body rest : List Char)
    (hd : st.text.drop (st.i + 1) = body ++ '"' :: rest) (hb : ∀ c ∈ body, c ≠ '"')
    (hl : st.line = sourceLine st.text st.i) :
    ∃ st1, getNextToken st =
        .tok { tok := .STRING, word := String.mk body, line := st.line } st1 ∧
      st1.i = st.i + 1 + body.length + 1 ∧
      (isspace (st1.charAt st1.i) = false → ∀ t st2, getNextToken st1 = .tok t st2 →
        t.line + (body.count '\n' : Nat) = sourceLine st.text st1.i) := by
  have hi : st.i < st.text.length := by
    by_contra hh
    rw [charAt_of_le st st.i (by omega)] at hq
    exact absurd hq (by decide)
  refine ⟨_, getNextToken_string st ht hq body rest hd hb, rfl, ?_⟩
  intro hs t st2 h
  have h0 : st.text.drop st.i = '"' :: (body ++ '"' :: rest) := by
    rw [List.drop_eq_getElem_cons hi, ← charAt_of_lt st st.i hi, hq, hd]
  rw [getNextToken_line _ hs t st2 h]
  simp only
  rw [sourceLine_string st.text st.i body rest h0, hl]

theorem newline_in_string_is_not_counted_witness :
    ∃ st1, getNextToken (start "\"a\nb\"x") =
        .tok { tok := .STRING, word := String.mk ['a', '\n', 'b'], line := 1 } st1 ∧
      st1.i = 5 ∧
      (isspace (st1.charAt st1.i) = false → ∀ t st2, getNextToken st1 = .tok t st2 →
        t.line + 1 = sourceLine (start "\"a\nb\"x").text st1.i) :=
  newline_in_string_is_not_counted (start "\"a\nb\"x") (by decide) (by decide)
    ['a', '\n', 'b'] ['x'] (by decide) (by decide) (by decide)

end lexer

namespace lexer

/-- C26, the counterexample: the source `a`, newline, is read to its `EOFILE`, then
`setCode` loads the source `b c`; the next call of `getNextToken` returns the
identifier `c` on line 2, not the identifier `b` on line 1. -/
theorem setCode_does_not_restart :
    getNextToken (start "a\n") =
      .tok { tok := .IDENTIFIER, word := "a", line := 1 } { start "a\n" with i := 1 } ∧
    getNextToken { start "a\n" with i := 1 } =
      .tok { tok := .EOFILE, line := 2 } { start "a\n" with i := 2, line := 2 } ∧
    getNextToken (setCode "b c" 3 { start "a\n" with i := 2, line := 2 }) =
      .tok { tok := .IDENTIFIER, word := "c", line := 2 }
        { start "b c" with i := 3, line := 2 } := by
  decide

/-- C26 as the code has it: `setCode` leaves the cursor and the line counter as the
calls before it left them.  The next call of `getNextToken` is the one of a fresh
start when the cursor is 0, the line is 1 and nothing was written to `cerr`, whatever
the text and its size were before; and it returns `EOFILE` at once, with the old
line, when the size of the new source is the old cursor. -/
theorem setCode_keeps_cursor_and_line (code : String) (n : Nat) (st : LexState) :
    (setCode code n st).i = st.i ∧ (setCode code n st).line = st.line ∧
    (st.i = 0 → st.line = 1 → st.cerr = [] →
      getNextToken (setCode code n st) = getNextToken (setCode code n LexState.initial)) ∧
    (n = st.i →
      getNextToken (setCode code n st) =
        .tok { tok := .EOFILE, line := st.line } (setCode code n st)) := by
  refine ⟨rfl, rfl, ?_, ?_⟩
  · intro h1 h2 h3
    have : setCode code n st = setCode code n LexState.initial := by
      cases st
      simp only at h1 h2 h3
      subst h1 h2 h3
      rfl
    rw [this]
  · intro h
    rw [getNextToken_eq_body _ (Or.inl (by simp only [setCode]; exact h.symm))]
    simp only [getNextTokenBody, setCode, h, if_true]

theorem setCode_keeps_cursor_and_line_witness :
    getNextToken (setCode "b c" 3 { start "abc" with i := 3 }) =
      .tok { tok := .EOFILE, line := 1 } (setCode "b c" 3 { start "abc" with i := 3 }) :=
  (setCode_keeps_cursor_and_line "b c" 3 { start "abc" with i := 3 }).2.2.2 rfl

end lexer

namespace lexer

/-- Only the tokens `IDENTIFIER` and `STRING` are built with a text: every other token
`getNextToken` returns has the empty `word`. -/
theorem getNextTokenBody_word (again : LexState → LexRes)
    (hag : ∀ x t st', again x = .tok t st' → t.tok ≠ .IDENTIFIER → t.tok ≠ .STRING →
      t.word = "")
    (st : LexState) (t : TOKEN) (st' : LexState)
    (h : getNextTokenBody again st = .tok t st')
    (h1 : t.tok ≠ .IDENTIFIER) (h2 : t.tok ≠ .STRING) : t.word = "" := by
  simp only [getNextTokenBody] at h
  repeat' split at h
  all_goals
    first
    | exact (hag _ _ _ h h1 h2 :)
    | (simp only [LexError, LexRes.tok.injEq] at h
       obtain ⟨rfl, _⟩ := h
       first
       | rfl
       | exact absurd rfl h1
       | exact absurd rfl h2)
    | cases h

theorem getNextTokenFuel_word : ∀ (k : Nat) (st : LexState) (t : TOKEN) (st' : LexState),
    getNextTokenFuel k st = .tok t st' → t.tok ≠ .IDENTIFIER → t.tok ≠ .STRING →
    t.word = "" := by
  intro k
  induction k with
  | zero =>
    intro st t st' h
    exact getNextTokenBody_word _ (fun x t st' hx => by cases hx) st t st' h
  | succ k ih =>
    intro st t st' h
    exact getNextTokenBody_word _ (fun x t st' hx => ih x t st' hx) st t st' h

end lexer

set_option maxHeartbeats 4000000 in
/-- C27: `getNextToken` builds every token other than `IDENTIFIER` and `STRING`
without a text, so the `word` of an operator token is empty, in whatever statics the
call is made, and the parser stores this `word` as the operator tag.  The sources
`1 + 2;` and `1 - 2;` both give one Additive node with the empty tag, and the ten
operators of `1 < 2 <= 3 > 4 >= 5 == 6 != 7 + 8 - 9 * 10 / 11;` give ten empty
tags. -/
theorem Cur.operator_tag_is_empty :
    (∀ st t st', lexer.getNextToken st = .tok t st' → t.tok ≠ .IDENTIFIER →
      t.tok ≠ .STRING → t.word = "") ∧
    Cur.tagsOf 30 "1 + 2;" = some [""] ∧ Cur.tagsOf 30 "1 - 2;" = some [""] ∧
    Cur.tagsOf 60 "1 < 2 <= 3 > 4 >= 5 == 6 != 7 + 8 - 9 * 10 / 11;" =
      some ["", "", "", "", "", "", "", "", "", ""] := by
  refine ⟨fun st t st' h => lexer.getNextTokenFuel_word _ st t st' h, ?_, ?_, ?_⟩
  · decide!
  · decide!
  · decide!

/-- A walk for the name `m` reads, of every table, only the entry of `m` and the
pointer `Prev`. -/
theorem Table.getSym_congr_name {σ : Type} (heap heap' : List (Table σ)) (m : String)
    (h : ∀ i : Nat, (heap'[i]?).map (fun t : Table σ => (t.symbols m, t.Prev)) =
      (heap[i]?).map (fun t : Table σ => (t.symbols m, t.Prev))) :
    ∀ bound a, Table.getSym heap' m bound a = Table.getSym heap m bound a := by
  intro bound
  induction bound with
  | zero => intro a; rfl
  | succ b ih =>
    intro a
    by_cases hab : a = b
    · subst hab
      simp only [Table.getSym, if_true]
      have ha := h a
      cases h1 : heap[a]? with
      | none =>
        cases h2 : heap'[a]? with
        | none => rfl
        | some t' => rw [h1, h2] at ha; cases ha
      | some t =>
        cases h2 : heap'[a]? with
        | none => rw [h1, h2] at ha; cases ha
        | some t' =>
          rw [h1, h2] at ha
          simp only [Option.map_some', Option.some.injEq, Prod.mk.injEq] at ha
          simp only [ha.1, ha.2]
          cases t.symbols m with
          | some sym => rfl
          | none =>
            simp only
            cases t.Prev with
            | none => rfl
            | some p => exact ih p
    · simp only [Table.getSym, hab, if_false]
      exact ih a

/-- After `addSym(n, s)` on a table, every lookup of another name, from whatever table,
returns what it returned before. -/
theorem getSym_addSymAt_other {σ : Type} (heap heap' : List (Table σ)) (tab : Option Nat)
    (n : String) (s : σ) (hadd : addSymAt heap tab n s = some heap') (m : String)
    (hm : m ≠ n) (b : Option Nat) : getSym heap' b m = getSym heap b m := by
  cases tab with
  | none => cases hadd
  | some a =>
    simp only [addSymAt] at hadd
    cases hget : heap[a]? with
    | none => simp [hget] at hadd
    | some t =>
      simp only [hget, Option.some.injEq] at hadd
      subst hadd
      cases b with
      | none => rfl
      | some b =>
        simp only [getSym]
        congr 1
        apply Table.getSym_congr_name
        intro i
        by_cases hi : i = a
        · subst hi
          have hlen : i < heap.length := by
            rcases Nat.lt_or_ge i heap.length with h | h
            · exact h
            · rw [List.getElem?_eq_none h] at hget; cases hget
          simp [List.getElem?_set, hlen, hget, Table.addSym, hm]
        · rw [List.getElem?_set_ne (fun h => hi h.symm)]

/-- A lookup that finds a symbol finds it still after new tables are made. -/
theorem getSym_append {σ : Type} (heap ts : List (Table σ)) (tab : Option Nat) (m : String)
    (sym : σ) (h : getSym heap tab m = some (some sym)) :
    getSym (heap ++ ts) tab m = some (some sym) := by
  cases tab with
  | none => cases h
  | some a =>
    have hlen : a < heap.length := by
      rcases Nat.lt_or_ge a heap.length with h1 | h1
      · exact h1
      · simp only [getSym, Table.getSym_self, List.getElem?_eq_none h1] at h
        cases h
    rw [← h]
    simp only [getSym]
    congr 1
    apply Table.getSym_congr
    intro i hi
    rw [List.getElem?_append_left (by omega)]

namespace Old

mutual
/-- The predicate `Expr.Bound` holds in every heap in which the lookups of the names of
the tree that found a symbol find the same symbol. -/
theorem Bound_of_lookups (H H' : List (Table Symbol)) : ∀ (e : Expr),
    (∀ tab name sym, name ∈ e.names → getSym H tab name = some (some sym) →
      getSym H' tab name = some (some sym)) → e.Bound H → e.Bound H'
  | .AssignExpr l r _, hk, hb => by
    simp only [Expr.Bound, Expr.names, List.mem_append] at *
    exact ⟨Bound_of_lookups H H' l (fun tab name sym hn => hk tab name sym (Or.inl hn)) hb.1,
      Bound_of_lookups H H' r (fun tab name sym hn => hk tab name sym (Or.inr hn)) hb.2⟩
  | .BoolExpr l r _ _, hk, hb => by
    simp only [Expr.Bound, Expr.names, List.mem_append] at *
    exact ⟨Bound_of_lookups H H' l (fun tab name sym hn => hk tab name sym (Or.inl hn)) hb.1,
      Bound_of_lookups H H' r (fun tab name sym hn => hk tab name sym (Or.inr hn)) hb.2⟩
  | .AddExpr l r _ _, hk, hb => by
    simp only [Expr.Bound, Expr.names, List.mem_append] at *
    exact ⟨Bound_of_lookups H H' l (fun tab name sym hn => hk tab name sym (Or.inl hn)) hb.1,
      Bound_of_lookups H H' r (fun tab name sym hn => hk tab name sym (Or.inr hn)) hb.2⟩
  | .TermExpr l r _ _, hk, hb => by
    simp only [Expr.Bound, Expr.names, List.mem_append] at *
    exact ⟨Bound_of_lookups H H' l (fun tab name sym hn => hk tab name sym (Or.inl hn)) hb.1,
      Bound_of_lookups H H' r (fun tab name sym hn => hk tab name sym (Or.inr hn)) hb.2⟩
  | .IntExpr _ _, _, _ => by simp only [Expr.Bound]
  | .ArrayExpr vs _, hk, hb => by
    simp only [Expr.Bound, Expr.names] at *
    exact BoundList_of_lookups H H' vs hk hb
  | .IDExpr tab name t, hk, hb => by
    simp only [Expr.Bound, Expr.names, List.mem_singleton] at *
    obtain ⟨sym, h1, h2, h3⟩ := hb
    exact ⟨sym, hk tab name sym rfl h1, h2, h3⟩
  | .CallExpr args tab name t, hk, hb => by
    simp only [Expr.Bound, Expr.names, List.mem_cons] at *
    obtain ⟨⟨sym, h1, h2, h3⟩, h4⟩ := hb
    exact ⟨⟨sym, hk tab name sym (Or.inl rfl) h1, h2, h3⟩,
      BoundList_of_lookups H H' args (fun tab name sym hn => hk tab name sym (Or.inr hn)) h4⟩
  | .ParenExpr e, hk, hb => by
    simp only [Expr.Bound, Expr.names] at *
    exact Bound_of_lookups H H' e hk hb
theorem BoundList_of_lookups (H H' : List (Table Symbol)) : ∀ (es : List Expr),
    (∀ tab name sym, name ∈ Expr.namesList es → getSym H tab name = some (some sym) →
      getSym H' tab name = some (some sym)) → Expr.BoundList H es → Expr.BoundList H' es
  | [], _, _ => by simp only [Expr.BoundList]
  | e :: es, hk, hb => by
    simp only [Expr.BoundList, Expr.namesList, List.mem_append] at *
    exact ⟨Bound_of_lookups H H' e (fun tab name sym hn => hk tab name sym (Or.inl hn)) hb.1,
      BoundList_of_lookups H H' es (fun tab name sym hn => hk tab name sym (Or.inr hn)) hb.2⟩
end

end Old

namespace Old

theorem BoundList_append (H : List (Table Symbol)) (xs : List Expr) (e : Expr)
    (h1 : Expr.BoundList H xs) (h2 : e.Bound H) : Expr.BoundList H (xs ++ [e]) := by
  induction xs with
  | nil => simp [Expr.BoundList, h2]
  | cons x xs ih =>
    simp only [Expr.BoundList, List.cons_append] at h1 ⊢
    exact ⟨h1.1, ih h1.2⟩

set_option maxHeartbeats 8000000 in
/-- Every tree the expression functions of the old parser return has its identifier
nodes and its call nodes bound in the heap of the parser. -/
theorem expr_bound_all : ∀ n : Nat,
    (∀ s H, s.heap = H → Res.All (Expr.Bound H) (ParseExpression n s)) ∧
    (∀ s H, s.heap = H → Res.All (Expr.Bound H) (ParseBoolExpr n s)) ∧
    (∀ lhs s H, s.heap = H → lhs.Bound H →
      Res.All (Expr.Bound H) (ParseBoolLoop n lhs s)) ∧
    (∀ s H, s.heap = H → Res.All (Expr.Bound H) (ParseAddExpr n s)) ∧
    (∀ lhs s H, s.heap = H → lhs.Bound H →
      Res.All (Expr.Bound H) (ParseAddLoop n lhs s)) ∧
    (∀ s H, s.heap = H → Res.All (Expr.Bound H) (ParseTermExpr n s)) ∧
    (∀ lhs s H, s.heap = H → lhs.Bound H →
      Res.All (Expr.Bound H) (ParseTermLoop n lhs s)) ∧
    (∀ s H, s.heap = H → Res.All (Expr.Bound H) (ParseFactor n s)) ∧
    (∀ elemType arr_elems s H, s.heap = H → Expr.BoundList H arr_elems →
      Res.All (Expr.Bound H) (ParseArrayLoop n elemType arr_elems s)) ∧
    (∀ elemType arr_elems s H, s.heap = H → Expr.BoundList H arr_elems →
      Res.All (Expr.Bound H) (ParseArrayTail n elemType arr_elems s)) ∧
    (∀ name sym Idx args s H, s.heap = H → Expr.BoundList H args →
      getSym H s.CTable name = some (some sym) → sym.sym_type = .FUNCTION →
      Res.All (Expr.Bound H) (ParseCallLoop n name sym Idx args s)) := by
  intro n
  induction n with
  | zero =>
    refine ⟨?_, ?_, ?_, ?_, ?_, ?_, ?_, ?_, ?_, ?_, ?_⟩ <;> intros <;>
      simp only [ParseExpression, ParseBoolExpr, ParseBoolLoop, ParseAddExpr, ParseAddLoop,
        ParseTermExpr, ParseTermLoop, ParseFactor, ParseArrayLoop, ParseArrayTail,
        ParseCallLoop] <;> exact Res.All.at_fuel
  | succ n ih =>
    obtain ⟨ihE, ihB, ihBL, ihA, ihAL, ihT, ihTL, ihF, ihArr, ihArrT, ihC⟩ := ih
    have sm := expr_same_all n
    refine ⟨?_, ?_, ?_, ?_, ?_, ?_, ?_, ?_, ?_, ?_, ?_⟩ <;> intros <;>
      simp only [ParseExpression, ParseBoolExpr, ParseBoolLoop, ParseAddExpr, ParseAddLoop,
        ParseTermExpr, ParseTermLoop, ParseFactor, ParseArrayLoop, ParseArrayTail,
        ParseCallLoop] <;> repeat' split
    all_goals
      (try have hsE := (sm.1 _).of_ok ‹ParseExpression n _ = Res.ok _ _›)
      (try have hsB := (sm.2.1 _).of_ok ‹ParseBoolExpr n _ = Res.ok _ _›)
      (try have hsA := (sm.2.2.2.1 _).of_ok ‹ParseAddExpr n _ = Res.ok _ _›)
      (try have hsT := (sm.2.2.2.2.2.1 _).of_ok ‹ParseTermExpr n _ = Res.ok _ _›)
      (try have hsF := (sm.2.2.2.2.2.2.2.1 _).of_ok ‹ParseFactor n _ = Res.ok _ _›)
      (try have hH := ‹PState.heap _ = _›)
      (try have hE := (ihE _ _ rfl).val_of_ok ‹ParseExpression n _ = Res.ok _ _›)
      (try simp only [nextToken_heap, *] at hE)
      (try have hB := (ihB _ _ rfl).val_of_ok ‹ParseBoolExpr n _ = Res.ok _ _›)
      (try simp only [nextToken_heap, *] at hB)
      (try have hA := (ihA _ _ rfl).val_of_ok ‹ParseAddExpr n _ = Res.ok _ _›)
      (try simp only [nextToken_heap, *] at hA)
      (try have hT := (ihT _ _ rfl).val_of_ok ‹ParseTermExpr n _ = Res.ok _ _›)
      (try simp only [nextToken_heap, *] at hT)
      (try have hF := (ihF _ _ rfl).val_of_ok ‹ParseFactor n _ = Res.ok _ _›)
      (try simp only [nextToken_heap, *] at hF)
      first
      | exact Res.All.at_fuel
      | exact Res.All.at_crash
      | exact Res.All.at_logNull _
      | exact Res.All.at_null
      | exact Res.All.of_val ⟨_, (by
            have h := ‹getSym _ _ _ = some (some _)›
            simp only [nextToken_heap, hH] at h
            exact h), Decidable.of_not_not ‹¬ (_ ≠ SymType.WAR)›, rfl⟩
      | exact Res.All.of_val ⟨⟨_, (by
            have h := ‹getSym _ _ _ = some (some _)›
            simp only [nextToken_CTable]
            exact h), ‹_ = SymType.FUNCTION›, rfl⟩, ‹_›⟩
      | (apply Res.All.of_val; simp only [Expr.Bound, Expr.mkInt, and_self, *])
      | exact ihBL _ _ _ (by simp only [nextToken_heap, *]) (by simp only [Expr.Bound, and_self, *])
      | exact ihAL _ _ _ (by simp only [nextToken_heap, *]) (by simp only [Expr.Bound, and_self, *])
      | exact ihTL _ _ _ (by simp only [nextToken_heap, *]) (by simp only [Expr.Bound, and_self, *])
      | exact ihArr _ _ _ _ (by simp only [nextToken_heap, *]) ‹_›
      | exact ihArr _ _ _ _ (by simp only [nextToken_heap, *]) (by simp only [Expr.BoundList])
      | exact ihArrT _ _ _ _ (by simp only [nextToken_heap, *]) (BoundList_append _ _ _ ‹_› hE)
      | exact ihC _ _ _ _ _ _ (by simp only [nextToken_heap, *]) (BoundList_append _ _ _ ‹_› hE)
          (by
            have h := ‹getSym _ _ _ = some (some _)›
            simp only [nextToken_CTable, hsE.2]
            exact h) ‹_ = SymType.FUNCTION›
      | exact ihC _ _ _ _ _ _ (by simp only [nextToken_heap, *]) (by simp only [Expr.BoundList])
          (by
            have h := ‹getSym _ _ _ = some (some _)›
            simp only [nextToken_heap, nextToken_CTable, hH] at h ⊢
            exact h) (Decidable.of_not_not ‹¬ (_ ≠ SymType.FUNCTION)›)

end Old

namespace Old

set_option maxHeartbeats 4000000 in
/-- C28, the counterexample: in `war x : int = 1; x; war x : array<int> = [2];` the
identifier node of the second statement has the type `int` of the symbol the parser
resolved, and the lookup of `x` from the table of the node, once `ParseInput` has
returned, finds the symbol of the third statement, of type `array<int>`.  In
`war x : array<int> = [1]; { x; war x : int = 2; }` the node in the block was resolved
to the outer `x`, and the lookup finds the `x` of the block. -/
theorem later_declaration_changes_lookup :
    typeAndLookup warUseWarToks (fun stmts => (stmts[1]?).bind Stmt.expr?) =
      some (.IntType, some (.ArrayType .IntType)) ∧
    typeAndLookup blockUseWarToks
        (fun stmts => ((stmts[1]?).bind (fun b => b.inner? 0)).bind Stmt.expr?) =
      some (.ArrayType .IntType, some .IntType) := by
  constructor <;> decide!

/-- C28 as the code has it: a node stores its table and its name, not the symbol.
Right after `ParseExpression` has returned a tree, the lookup of every identifier node
and call node of the tree, from the table of the node, finds a symbol of the kind and
the type the parser resolved; this stays so when a table is made (`nextTable`), when
the current table is left (`prevTable`) and when a symbol of a name that is not in
the tree is added (`addSym`), and a lookup of another name than the added one finds
the same symbol as before, from whatever table. -/
theorem lookup_is_kept_until_redeclared :
    (∀ n s e s', ParseExpression n s = .ok e s' → e.Bound s'.heap) ∧
    (∀ (s : St) (e : Expr), e.Bound s.heap → e.Bound (nextTable s).heap) ∧
    (∀ (s s' : St), prevTable s = some s' → s'.heap = s.heap) ∧
    (∀ (s s' : St) (name : String) (sym : Symbol) (e : Expr), addSym s name sym = some s' →
      name ∉ e.names → e.Bound s.heap → e.Bound s'.heap) ∧
    (∀ (s s' : St) (name : String) (sym : Symbol) (m : String) (b : Option Nat),
      addSym s name sym = some s' → m ≠ name → getSym s'.heap b m = getSym s.heap b m) := by
  refine ⟨?_, ?_, ?_, ?_, ?_⟩
  · intro n s e s' h
    have hs := ((expr_same_all n).1 s).of_ok h
    rw [hs.1]
    exact ((expr_bound_all n).1 s s.heap rfl).val_of_ok h
  · intro s e h
    exact Bound_of_lookups _ _ e (fun tab name sym _ hl => getSym_append _ _ _ _ _ hl) h
  · intro s s' h
    simp only [prevTable] at h
    split at h
    · cases h
    · split at h
      · cases h
      · cases h; rfl
  · intro s s' name sym e h hn hb
    simp only [addSym] at h
    split at h
    · cases h
    · rename_i H' hadd
      cases h
      refine Bound_of_lookups _ _ e (fun tab m sym' hm hl => ?_) hb
      rw [getSym_addSymAt_other _ _ _ _ _ hadd m (fun hh => hn (hh ▸ hm))]
      exact hl
  · intro s s' name sym m b h hm
    simp only [addSym] at h
    split at h
    · cases h
    · rename_i H' hadd
      cases h
      exact getSym_addSymAt_other _ _ _ _ _ hadd m hm b

end Old

namespace Old

theorem CRes.All.on_crash {α : Type} {P : CG → Prop} : CRes.All P (CRes.crash : CRes α) :=
  ⟨by intro v g' h; cases h⟩

theorem CRes.All.of_ret {α : Type} {P : CG → Prop} {v : Option α} {g : CG} (h : P g) :
    CRes.All P (CRes.ret v g) :=
  ⟨by intro v' g' e; cases e; exact h⟩

theorem CRes.All.at_log {α : Type} {P : CG → Prop} {msg : String} {g : CG}
    (h : P { g with cerr := g.cerr ++ [msg] }) :
    CRes.All P (LogCompError msg g : CRes α) :=
  ⟨by intro v' g' e; cases e; exact h⟩

theorem CRes.All.imp {α : Type} {P Q : CG → Prop} {r : CRes α} (h : CRes.All P r)
    (hpq : ∀ g, P g → Q g) : CRes.All Q r :=
  ⟨fun v g' e => hpq g' (h.ret v g' e)⟩

@[simp] theorem emit_insert (g : CG) (i : Instr) : (g.emit i).2.insert = g.insert := rfl

@[simp] theorem emit_length (g : CG) (i : Instr) :
    (g.emit i).2.blocks.length = g.blocks.length := by
  simp [CG.emit]

@[simp] theorem emit_count (g : CG) (i : Instr) : (g.emit i).2.count = g.count + 1 := rfl

@[simp] theorem emit_fst (g : CG) (i : Instr) : (g.emit i).1 = .inst g.count := rfl

theorem emit_blocks_ne (g : CG) (i : Instr) (j : Nat) (h : j ≠ g.insert) :
    (g.emit i).2.blocks[j]? = g.blocks[j]? := by
  have hne : ¬ g.insert = j := fun hh => h hh.symm
  simp only [CG.emit, List.getElem?_modify, if_neg hne]
  cases g.blocks[j]? <;> rfl

theorem emit_blocks_eq (g : CG) (i : Instr) :
    (g.emit i).2.blocks[g.insert]? =
      (g.blocks[g.insert]?).map (fun b => { b with instrs := b.instrs ++ [(g.count, i)] }) := by
  simp only [CG.emit, List.getElem?_modify, if_true]
  cases g.blocks[g.insert]? <;> rfl

@[simp] theorem newBlock_fst (g : CG) (name : String) (p : Nat) :
    (g.newBlock name p).1 = g.blocks.length := rfl

@[simp] theorem newBlock_insert (g : CG) (name : String) (p : Nat) :
    (g.newBlock name p).2.insert = g.insert := rfl

@[simp] theorem newBlock_count (g : CG) (name : String) (p : Nat) :
    (g.newBlock name p).2.count = g.count := rfl

@[simp] theorem newBlock_length (g : CG) (name : String) (p : Nat) :
    (g.newBlock name p).2.blocks.length = g.blocks.length + 1 := by
  simp [CG.newBlock]

theorem newBlock_blocks_lt (g : CG) (name : String) (p j : Nat) (h : j < g.blocks.length) :
    (g.newBlock name p).2.blocks[j]? = g.blocks[j]? := by
  simp only [CG.newBlock]
  rw [List.getElem?_append_left h]

theorem newBlock_blocks_eq (g : CG) (name : String) (p : Nat) :
    (g.newBlock name p).2.blocks[g.blocks.length]? =
      some { name := name, parent := p, instrs := [] } := by
  simp [CG.newBlock]

@[simp] theorem SetInsertPoint_insert (g : CG) (b : Nat) : (g.SetInsertPoint b).insert = b :=
  rfl

@[simp] theorem SetInsertPoint_blocks (g : CG) (b : Nat) :
    (g.SetInsertPoint b).blocks = g.blocks := rfl

@[simp] theorem SetInsertPoint_count (g : CG) (b : Nat) : (g.SetInsertPoint b).count = g.count :=
  rfl

@[simp] theorem setAlloc_insert (g : CG) (r : Nat × String) (v : Value) :
    (g.setAlloc r v).insert = g.insert := rfl

@[simp] theorem setAlloc_blocks (g : CG) (r : Nat × String) (v : Value) :
    (g.setAlloc r v).blocks = g.blocks := rfl

@[simp] theorem setFunction_insert (g : CG) (r : Nat × String) (f : Nat) :
    (g.setFunction r f).insert = g.insert := rfl

@[simp] theorem setFunction_blocks (g : CG) (r : Nat × String) (f : Nat) :
    (g.setFunction r f).blocks = g.blocks := rfl

@[simp] theorem setName_insert (g : CG) (F : Nat) (n : String) :
    (g.setName F n).insert = g.insert := rfl

@[simp] theorem setName_blocks (g : CG) (F : Nat) (n : String) :
    (g.setName F n).blocks = g.blocks := rfl

@[simp] theorem newFunction_insert (g : CG) (r : LType) (ps : List LType) (n : String) :
    (g.newFunction r ps n).2.insert = g.insert := rfl

@[simp] theorem newFunction_blocks (g : CG) (r : LType) (ps : List LType) (n : String) :
    (g.newFunction r ps n).2.blocks = g.blocks := rfl

namespace CG.Local

theorem rfl' (g : CG) : CG.Local g g :=
  ⟨rfl, rfl, fun _ _ => rfl, [], by cases g.blocks[g.insert]? <;> simp⟩

theorem step {g g1 g2 : CG} (h1 : CG.Local g g1) (h2 : CG.Local g1 g2) : CG.Local g g2 := by
  refine ⟨h2.insert_eq.trans h1.insert_eq, h2.length_eq.trans h1.length_eq,
   fun j hj => (h2.others j (by rw [h1.insert_eq]; exact hj)).trans (h1.others j hj), ?_⟩
  obtain ⟨l1, e1⟩ := h1.grows
  obtain ⟨l2, e2⟩ := h2.grows
  refine ⟨l1 ++ l2, ?_⟩
  rw [h1.insert_eq] at e2
  rw [e2, e1]
  cases g.blocks[g.insert]? <;> simp

theorem emit {g g1 : CG} (h1 : CG.Local g g1) (i : Instr) : CG.Local g (g1.emit i).2 := by
  refine h1.step ⟨rfl, emit_length g1 i, fun j hj => emit_blocks_ne g1 i j hj, [(g1.count, i)],
    emit_blocks_eq g1 i⟩

theorem log {g g1 : CG} (h1 : CG.Local g g1) (msg : String) :
    CG.Local g { g1 with cerr := g1.cerr ++ [msg] } :=
  ⟨h1.insert_eq, h1.length_eq, h1.others, h1.grows⟩

theorem setAlloc {g g1 : CG} (h1 : CG.Local g g1) (r : Nat × String) (v : Value) :
    CG.Local g (g1.setAlloc r v) :=
  ⟨h1.insert_eq, h1.length_eq, h1.others, h1.grows⟩

theorem setName {g g1 : CG} (h1 : CG.Local g g1) (F : Nat) (n : String) :
    CG.Local g (g1.setName F n) :=
  ⟨h1.insert_eq, h1.length_eq, h1.others, h1.grows⟩

end CG.Local

namespace CG.Frame

theorem of_local {g g1 : CG} (h : CG.Local g g1) : CG.Frame g g1 :=
  ⟨Nat.le_of_eq h.length_eq.symm, fun j _ hj => h.others j hj, Or.inl h.insert_eq⟩

theorem same (g : CG) : CG.Frame g g := of_local (CG.Local.rfl' g)

theorem comp {g g1 g2 : CG} (h1 : CG.Frame g g1) (h2 : CG.Frame g1 g2) : CG.Frame g g2 := by
  refine ⟨Nat.le_trans h1.length_le h2.length_le, ?_, ?_⟩
  · intro j hj hne
    have hlt : j < g1.blocks.length := Nat.lt_of_lt_of_le hj h1.length_le
    have hne1 : j ≠ g1.insert := by
      rcases h1.insert_new with h | h
      · rw [h]; exact hne
      · omega
    exact (h2.others j hlt hne1).trans (h1.others j hj hne)
  · rcases h2.insert_new with h | h
    · rw [h]; exact h1.insert_new
    · exact Or.inr (Nat.le_trans h1.length_le h)

theorem emitted {g g1 : CG} (h1 : CG.Frame g g1) (i : Instr) : CG.Frame g (g1.emit i).2 :=
  h1.comp (of_local ((CG.Local.rfl' g1).emit i))

theorem newBlock {g g1 : CG} (h1 : CG.Frame g g1) (name : String) (p : Nat) :
    CG.Frame g (g1.newBlock name p).2 :=
  h1.comp ⟨by rw [newBlock_length]; omega, fun j hj _ => newBlock_blocks_lt g1 name p j hj,
    Or.inl rfl⟩

theorem setInsert {g g1 : CG} (h1 : CG.Frame g g1) (b : Nat) (hb : g.blocks.length ≤ b) :
    CG.Frame g (g1.SetInsertPoint b) :=
  ⟨h1.length_le, h1.others, Or.inr hb⟩

theorem setFunction {g g1 : CG} (h1 : CG.Frame g g1) (r : Nat × String) (f : Nat) :
    CG.Frame g (g1.setFunction r f) :=
  ⟨h1.length_le, h1.others, h1.insert_new⟩

theorem newFunction {g g1 : CG} (h1 : CG.Frame g g1) (r : LType) (ps : List LType)
    (n : String) : CG.Frame g (g1.newFunction r ps n).2 :=
  ⟨h1.length_le, h1.others, h1.insert_new⟩

end CG.Frame

end Old

namespace Old

mutual

/-- The `codegen` of an expression makes its builder calls in the insertion block: it
makes no block, it leaves the insertion point where it was and every other block as
it was. -/
theorem Expr.codegen_local (heap : List (Table Symbol)) :
    ∀ (e : Expr) (g : CG), CRes.All (CG.Local g) (e.codegen heap g)
  | .AssignExpr LHS RHS _, g => by
    have ihL := Expr.codegen_local heap LHS
    have ihR := Expr.codegen_local heap RHS
    simp only [Expr.codegen]
    repeat' split
    all_goals
      (try have h1 := (ihL _).ret _ _ ‹Expr.codegen heap _ g = _›)
      (try have h2 := (ihR _).ret _ _ ‹Expr.codegen heap RHS _ = _›)
      first
      | exact CRes.All.on_crash
      | exact CRes.All.of_ret (h1.step h2)
      | exact CRes.All.of_ret ((h1.step h2).emit _)
  | .BoolExpr LHS RHS _ Op, g => by
    have ihL := Expr.codegen_local heap LHS
    have ihR := Expr.codegen_local heap RHS
    simp only [Expr.codegen]
    repeat' split
    all_goals
      (try have h1 := (ihL _).ret _ _ ‹Expr.codegen heap LHS _ = _›)
      (try have h2 := (ihR _).ret _ _ ‹Expr.codegen heap RHS _ = _›)
      first
      | exact CRes.All.on_crash
      | exact CRes.All.of_ret (h1.step h2)
      | exact CRes.All.of_ret (((h1.step h2).emit _).emit _)
      | exact CRes.All.at_log ((h1.step h2).log _)
  | .AddExpr LHS RHS _ Op, g => by
    have ihL := Expr.codegen_local heap LHS
    have ihR := Expr.codegen_local heap RHS
    simp only [Expr.codegen]
    repeat' split
    all_goals
      (try have h1 := (ihL _).ret _ _ ‹Expr.codegen heap LHS _ = _›)
      (try have h2 := (ihR _).ret _ _ ‹Expr.codegen heap RHS _ = _›)
      first
      | exact CRes.All.on_crash
      | exact CRes.All.of_ret (h1.step h2)
      | exact CRes.All.of_ret ((h1.step h2).emit _)
      | exact CRes.All.at_log ((h1.step h2).log _)
  | .TermExpr LHS RHS _ Op, g => by
    have ihL := Expr.codegen_local heap LHS
    have ihR := Expr.codegen_local heap RHS
    simp only [Expr.codegen]
    repeat' split
    all_goals
      (try have h1 := (ihL _).ret _ _ ‹Expr.codegen heap LHS _ = _›)
      (try have h2 := (ihR _).ret _ _ ‹Expr.codegen heap RHS _ = _›)
      first
      | exact CRes.All.on_crash
      | exact CRes.All.of_ret (h1.step h2)
      | exact CRes.All.of_ret ((h1.step h2).emit _)
      | exact CRes.All.at_log ((h1.step h2).log _)
  | .IntExpr _ value, g => by
    simp only [Expr.codegen]
    exact CRes.All.of_ret (CG.Local.rfl' g)
  | .ArrayExpr value Vtype, g => by
    simp only [Expr.codegen]
    repeat' split
    all_goals
      first
      | exact CRes.All.on_crash
      | exact (Expr.codegenElems_local heap _ _ value 0 _).imp
          (fun g' h => ((CG.Local.rfl' g).emit _).step h)
  | .IDExpr CurrTable name Vtype, g => by
    simp only [Expr.codegen]
    repeat' split
    all_goals
      first
      | exact CRes.All.on_crash
      | exact CRes.All.of_ret ((CG.Local.rfl' g).emit _)
  | .CallExpr args CurrTable name _, g => by
    have ihA := Expr.codegenArgs_local heap args [] g
    simp only [Expr.codegen]
    repeat' split
    all_goals
      (try have h1 := ihA.ret _ _ ‹Expr.codegenArgs heap args [] g = _›)
      first
      | exact CRes.All.on_crash
      | exact CRes.All.of_ret h1
      | exact CRes.All.of_ret (h1.emit _)
  | .ParenExpr expr, g => by
    simp only [Expr.codegen]
    exact Expr.codegen_local heap expr g

theorem Expr.codegenElems_local (heap : List (Table Symbol)) (ty : LType) (alloc : Value) :
    ∀ (es : List Expr) (i : Nat) (g : CG),
      CRes.All (CG.Local g) (Expr.codegenElems heap ty alloc es i g)
  | [], i, g => by
    simp only [Expr.codegenElems]
    exact CRes.All.of_ret (CG.Local.rfl' g)
  | e :: es, i, g => by
    have ihE := Expr.codegen_local heap e g
    simp only [Expr.codegenElems]
    repeat' split
    all_goals
      (try have h1 := ihE.ret _ _ ‹Expr.codegen heap e g = _›)
      first
      | exact CRes.All.on_crash
      | exact CRes.All.of_ret h1
      | exact (Expr.codegenElems_local heap ty alloc es (i + 1) _).imp
          (fun g' h => ((h1.emit _).emit _).step h)

theorem Expr.codegenArgs_local (heap : List (Table Symbol)) :
    ∀ (es : List Expr) (ArgsV : List Value) (g : CG),
      CRes.All (CG.Local g) (Expr.codegenArgs heap es ArgsV g)
  | [], ArgsV, g => by
    simp only [Expr.codegenArgs]
    exact CRes.All.of_ret (CG.Local.rfl' g)
  | e :: es, ArgsV, g => by
    have ihE := Expr.codegen_local heap e g
    simp only [Expr.codegenArgs]
    repeat' split
    all_goals
      (try have h1 := ihE.ret _ _ ‹Expr.codegen heap e g = _›)
      first
      | exact CRes.All.on_crash
      | exact CRes.All.of_ret h1
      | exact (Expr.codegenArgs_local heap es _ _).imp (fun g' h => h1.step h)

end

end Old

namespace Old

/-- A war statement makes its builder calls, the `CreateAlloca` of every declaration
among them, in the insertion block. -/
theorem codegenWars_local (heap : List (Table Symbol)) (CurrTable : Option Nat) :
    ∀ (wars : List (String × Expr)) (g : CG),
      CRes.All (CG.Local g) (codegenWars heap CurrTable wars g)
  | [], g => by
    simp only [codegenWars]
    exact CRes.All.of_ret (CG.Local.rfl' g)
  | (warName, rhs) :: wars, g => by
    simp only [codegenWars]
    repeat' split
    all_goals
      (try have h1 := (Expr.codegen_local heap rhs _).ret _ _ ‹Expr.codegen heap rhs _ = _›)
      first
      | exact CRes.All.on_crash
      | exact CRes.All.of_ret (((CG.Local.rfl' g).emit _).step h1)
      | exact (codegenWars_local heap CurrTable wars _).imp
          (fun g' h => (((((CG.Local.rfl' g).emit _).step h1).emit _).setAlloc _ _).step h)

theorem codegenParams_frame (heap : List (Table Symbol)) (CurrTable : Option Nat) (F : Nat)
    (args : List String) :
    ∀ (tys : List LType) (Idx : Nat) (g g' : CG),
      codegenParams heap CurrTable F args tys Idx g = some g' → CG.Local g g'
  | [], Idx, g, g', h => by
    simp only [codegenParams, Option.some.injEq] at h
    subst h
    exact CG.Local.rfl' g
  | ty :: tys, Idx, g, g', h => by
    simp only [codegenParams] at h
    repeat' split at h
    all_goals
      first
      | cases h
      | exact CG.Local.step
          (((((CG.Local.rfl' g).setName F _).emit _).emit _).setAlloc _ _)
          (codegenParams_frame heap CurrTable F args tys (Idx + 1) _ g' h)

end Old

namespace Old

mutual

/-- The `codegen` of a statement leaves every block that exists, but the insertion
block, as it was, and leaves the insertion point at the old insertion block or at a
block it has made. -/
theorem Stmt.codegen_frame (heap : List (Table Symbol)) :
    ∀ (s : Stmt) (g : CG), CRes.All (CG.Frame g) (s.codegen heap g)
  | .HighExpr expr, g => by
    simp only [Stmt.codegen]
    exact (Expr.codegen_local heap expr g).imp (fun _ h => CG.Frame.of_local h)
  | .TrenStmt CurrTable Vtype body args name, g => by
    simp only [Stmt.codegen]
    repeat' split
    all_goals
      first
      | exact CRes.All.on_crash
      | (have hP := CG.Frame.of_local (codegenParams_frame heap _ _ _ _ _ _ _
           ‹codegenParams heap _ _ _ _ _ _ = some _›)
         have hB := (Stmt.codegen_frame heap body _).ret _ _ ‹Stmt.codegen heap body _ = _›
         refine CRes.All.of_ret (CG.Frame.comp (CG.Frame.comp ?_ hP) hB)
         exact ((((CG.Frame.same g).newFunction _ _ _).setFunction _ _).newBlock
           _ _).setInsert _ (Nat.le_refl _))
  | .WarStmt wars CurrTable, g => by
    simp only [Stmt.codegen]
    exact (codegenWars_local heap CurrTable wars g).imp (fun _ h => CG.Frame.of_local h)
  | .RetStmt expr, g => by
    simp only [Stmt.codegen]
    repeat' split
    all_goals
      (try have h1 := (Expr.codegen_local heap expr g).ret _ _ ‹Expr.codegen heap expr g = _›)
      first
      | exact CRes.All.on_crash
      | exact CRes.All.of_ret (CG.Frame.of_local h1)
      | exact CRes.All.of_ret ((CG.Frame.of_local h1).emitted _)
  | .ParenStmts stmts _, g => by
    simp only [Stmt.codegen]
    exact Stmt.codegenList_frame heap stmts g
  | .IfStmt Cond Body, g => by
    simp only [Stmt.codegen]
    repeat' split
    all_goals
      (try have h1 := (Expr.codegen_local heap Cond g).ret _ _ ‹Expr.codegen heap Cond g = _›)
      first
      | exact CRes.All.on_crash
      | exact CRes.All.of_ret (CG.Frame.of_local h1)
      | (have hB := (Stmt.codegen_frame heap Body _).ret _ _ ‹Stmt.codegen heap Body _ = _›
         have hA : CG.Frame g _ := CG.Frame.comp (CG.Frame.setInsert
           (((((CG.Frame.of_local h1).emitted _).newBlock _ _).newBlock _ _).emitted _) _
           (by simp only [newBlock_fst, emit_length, h1.length_eq]; exact Nat.le_refl _)) hB
         first
         | exact CRes.All.of_ret hA
         | exact CRes.All.of_ret ((hA.emitted _).setInsert _
             (by simp only [newBlock_fst, newBlock_length, emit_length, h1.length_eq]; omega)))
  | .AliveStmt Cond Body, g => by
    simp only [Stmt.codegen]
    repeat' split
    all_goals
      (try have h1 := (Expr.codegen_local heap Cond g).ret _ _ ‹Expr.codegen heap Cond g = _›)
      first
      | exact CRes.All.on_crash
      | exact CRes.All.of_ret (CG.Frame.of_local h1)
      | (have hB := (Stmt.codegen_frame heap Body _).ret _ _ ‹Stmt.codegen heap Body _ = _›
         have hA : CG.Frame g _ := CG.Frame.comp (CG.Frame.setInsert
           (CG.Frame.emitted (CG.Frame.emitted (CG.Frame.setInsert
             ((((CG.Frame.of_local h1).newBlock _ _).newBlock _ _).newBlock _ _) _
             (by simp only [newBlock_fst, h1.length_eq]; exact Nat.le_refl _)) _) _) _
           (by simp only [newBlock_fst, newBlock_length, h1.length_eq]; omega)) hB
         first
         | exact CRes.All.of_ret hA
         | exact CRes.All.of_ret ((hA.emitted _).setInsert _
             (by simp only [newBlock_fst, newBlock_length, h1.length_eq]; omega)))

theorem Stmt.codegenList_frame (heap : List (Table Symbol)) :
    ∀ (ss : List Stmt) (g : CG), CRes.All (CG.Frame g) (Stmt.codegenList heap ss g)
  | [], g => by
    simp only [Stmt.codegenList]
    exact CRes.All.of_ret (CG.Frame.same g)
  | s :: ss, g => by
    simp only [Stmt.codegenList]
    repeat' split
    all_goals
      (try have h1 := (Stmt.codegen_frame heap s g).ret _ _ ‹Stmt.codegen heap s g = _›)
      first
      | exact CRes.All.on_crash
      | exact CRes.All.of_ret h1
      | exact (Stmt.codegenList_frame heap ss _).imp (fun g' h => h1.comp h)

end

end Old

namespace Old

theorem getParent_lt (g : CG) (F : Nat) (h : g.getParent = some F) :
    g.insert < g.blocks.length := by
  simp only [CG.getParent] at h
  by_contra hh
  rw [List.getElem?_eq_none (by omega)] at h
  cases h

theorem emit_blocks_at (g : CG) (i : Instr) (j : Nat) (h : g.insert = j) :
    (g.emit i).2.blocks[j]? =
      (g.blocks[j]?).map (fun b => { b with instrs := b.instrs ++ [(g.count, i)] }) := by
  subst h
  exact emit_blocks_eq g i

theorem newBlock_blocks_at (g : CG) (name : String) (p j : Nat) (h : j = g.blocks.length) :
    (g.newBlock name p).2.blocks[j]? = some { name := name, parent := p, instrs := [] } := by
  subst h
  exact newBlock_blocks_eq g name p

/-- The blocks when `AliveStmt::codegen` calls the `codegen` of the body: the block
`alivecondblock` holds the comparison and the conditional branch, and the blocks that
were there are as the `codegen` of the condition left them. -/
theorem alive_blocks (g1 : CG) (F : Nat) (CondV : Value) :
    let gB := ((((((g1.newBlock "alivecondblock" F).2.newBlock "alivebody" F).2.newBlock
      "next" F).2.SetInsertPoint g1.blocks.length).emit
      (.CreateICmp .NE CondV (.const 64 0) "alivecond")).2.emit
      (.CreateCondBr (.inst g1.count) (g1.blocks.length + 1) (g1.blocks.length + 2))).2
    gB.blocks.length = g1.blocks.length + 3 ∧
    (∀ j, j < g1.blocks.length → gB.blocks[j]? = g1.blocks[j]?) ∧
    gB.blocks[g1.blocks.length]? =
      some ⟨"alivecondblock", F,
        [(g1.count, .CreateICmp .NE CondV (.const 64 0) "alivecond"),
         (g1.count + 1,
          .CreateCondBr (.inst g1.count) (g1.blocks.length + 1) (g1.blocks.length + 2))]⟩ ∧
    gB.blocks[g1.blocks.length + 1]? = some { name := "alivebody", parent := F, instrs := [] } ∧
    gB.blocks[g1.blocks.length + 2]? = some { name := "next", parent := F, instrs := [] } := by
  intro gB
  refine ⟨?_, ?_, ?_, ?_, ?_⟩
  · simp [gB]
  · intro j hj
    simp only [gB]
    rw [emit_blocks_ne _ _ _ (by simp; omega), emit_blocks_ne _ _ _ (by simp; omega)]
    simp only [SetInsertPoint_blocks]
    rw [newBlock_blocks_lt _ _ _ _ (by simp; omega), newBlock_blocks_lt _ _ _ _ (by simp; omega),
      newBlock_blocks_lt _ _ _ _ hj]
  · have e3 : (((g1.newBlock "alivecondblock" F).2.newBlock "alivebody" F).2.newBlock
        "next" F).2.blocks[g1.blocks.length]? = some ⟨"alivecondblock", F, []⟩ := by
      rw [newBlock_blocks_lt _ _ _ _ (by simp only [newBlock_length]; omega),
        newBlock_blocks_lt _ _ _ _ (by simp only [newBlock_length]; omega), newBlock_blocks_eq]
    have e2 := emit_blocks_at ((((g1.newBlock "alivecondblock" F).2.newBlock "alivebody"
      F).2.newBlock "next" F).2.SetInsertPoint g1.blocks.length)
      (.CreateICmp .NE CondV (.const 64 0) "alivecond") g1.blocks.length rfl
    have e1 := emit_blocks_at (((((g1.newBlock "alivecondblock" F).2.newBlock "alivebody"
      F).2.newBlock "next" F).2.SetInsertPoint g1.blocks.length).emit
      (.CreateICmp .NE CondV (.const 64 0) "alivecond")).2
      (.CreateCondBr (.inst g1.count) (g1.blocks.length + 1) (g1.blocks.length + 2))
      g1.blocks.length rfl
    simp only [SetInsertPoint_blocks] at e2
    rw [e3] at e2
    rw [e2] at e1
    simp only [gB]
    rw [e1]
    rfl
  · simp only [gB]
    rw [emit_blocks_ne _ _ _ (by simp), emit_blocks_ne _ _ _ (by simp)]
    simp only [SetInsertPoint_blocks]
    rw [newBlock_blocks_lt _ _ _ _ (by simp only [newBlock_length]; omega)]
    exact newBlock_blocks_at (g1.newBlock "alivecondblock" F).2 "alivebody" F _ (by simp)
  · simp only [gB]
    rw [emit_blocks_ne _ _ _ (by simp), emit_blocks_ne _ _ _ (by simp)]
    simp only [SetInsertPoint_blocks]
    exact newBlock_blocks_at ((g1.newBlock "alivecondblock" F).2.newBlock "alivebody" F).2
      "next" F _ (by simp)

end Old

namespace Old

/-- C29: what a call of `AliveStmt::codegen` that returns a value leaves behind.  The
condition is generated first, in the block that was current, and this block gets
nothing after it: no branch leads into the new block `alivecondblock`.  That block
holds the comparison of the value computed before with zero and the conditional branch
to `alivebody` and `next`, and nothing else, so the condition is not evaluated again.
The body is generated from `alivebody`, a branch to `alivecondblock` follows it, and the
insertion point is left at `next`. -/
theorem alive_condition_is_generated_before_the_loop (heap : List (Table Symbol))
    (Cond : Expr) (Body : Stmt) (g g' : CG) (v : Value)
    (h : (Stmt.AliveStmt Cond Body).codegen heap g = .ret (some v) g') :
    ∃ F CondV g1 gB w g4,
      g.getParent = some F ∧ Cond.codegen heap g = .ret (some CondV) g1 ∧
      g1.insert = g.insert ∧ g1.blocks.length = g.blocks.length ∧
      (∀ j, j ≠ g.insert → g1.blocks[j]? = g.blocks[j]?) ∧
      g'.blocks[g.insert]? = g1.blocks[g.insert]? ∧
      g'.blocks[g.blocks.length]? =
        some ⟨"alivecondblock", F,
          [(g1.count, .CreateICmp .NE CondV (.const 64 0) "alivecond"),
           (g1.count + 1,
            .CreateCondBr (.inst g1.count) (g.blocks.length + 1) (g.blocks.length + 2))]⟩ ∧
      gB.insert = g.blocks.length + 1 ∧
      gB.blocks[g.blocks.length + 1]? = some ⟨"alivebody", F, []⟩ ∧
      gB.blocks[g.blocks.length + 2]? = some ⟨"next", F, []⟩ ∧
      Body.codegen heap gB = .ret (some w) g4 ∧
      g' = (g4.emit (.CreateBr g.blocks.length)).2.SetInsertPoint (g.blocks.length + 2) := by
  simp only [Stmt.codegen] at h
  split at h
  · cases h
  rename_i F hF
  split at h
  · cases h
  · cases h
  rename_i CondV g1 hC
  have h1 := (Expr.codegen_local heap Cond g).ret _ _ hC
  simp only [newBlock_fst, newBlock_length, emit_fst, SetInsertPoint_count, newBlock_count]
    at h
  split at h
  · cases h
  · cases h
  rename_i w g4 hB
  simp only [CRes.ret.injEq, Option.some.injEq] at h
  obtain ⟨_, hg⟩ := h
  have hA := alive_blocks g1 F CondV
  simp only at hA
  obtain ⟨hlen, hold, hhead, hbody, hnext⟩ := hA
  have hFr := (Stmt.codegen_frame heap Body _).ret _ _ hB
  have hlt := getParent_lt g F hF
  have hl := h1.length_eq
  refine ⟨F, CondV, g1, _, w, g4, hF, hC, h1.insert_eq, hl, h1.others, ?_, ?_,
    (by simp only [SetInsertPoint_insert, hl]), ?_, ?_, hB, ?_⟩
  · rw [← hg]
    simp only [SetInsertPoint_blocks]
    have hne : g.insert ≠ g4.insert := by
      rcases hFr.insert_new with hh | hh
      · simp only [SetInsertPoint_insert] at hh; omega
      · simp only [SetInsertPoint_blocks, hlen] at hh; omega
    rw [emit_blocks_ne _ _ _ hne,
      hFr.others _ (by simp only [SetInsertPoint_blocks, hlen]; omega)
        (by simp only [SetInsertPoint_insert]; omega)]
    exact hold _ (by omega)
  · rw [← hg]
    simp only [SetInsertPoint_blocks]
    have hne : g.blocks.length ≠ g4.insert := by
      rcases hFr.insert_new with hh | hh
      · simp only [SetInsertPoint_insert] at hh; omega
      · simp only [SetInsertPoint_blocks, hlen] at hh; omega
    rw [emit_blocks_ne _ _ _ hne,
      hFr.others _ (by simp only [SetInsertPoint_blocks, hlen]; omega)
        (by simp only [SetInsertPoint_insert]; omega)]
    rw [← hl]
    exact hhead
  · rw [← hl]; exact hbody
  · rw [← hl]; exact hnext
  · rw [← hg, hl]

end Old

namespace Old

theorem alive_condition_is_generated_before_the_loop_witness :
    (((Stmt.AliveStmt (.IntExpr .IntType 1) (.HighExpr (.IntExpr .IntType 2))).codegen []
      (MainPool [])).state?.getD (MainPool [])).blocks[1]? = some ⟨"entry", 2, []⟩ := by
  have hr : (Stmt.AliveStmt (.IntExpr .IntType 1) (.HighExpr (.IntExpr .IntType 2))).codegen []
      (MainPool []) = .ret (some (.const 64 0))
        (((Stmt.AliveStmt (.IntExpr .IntType 1) (.HighExpr (.IntExpr .IntType 2))).codegen []
          (MainPool [])).state?.getD (MainPool [])) := by
    decide!
  obtain ⟨F, CondV, g1, gB, w, g4, hF, hC, h1, h2, h3, h4, _⟩ :=
    alive_condition_is_generated_before_the_loop []
      (.IntExpr .IntType 1) (.HighExpr (.IntExpr .IntType 2)) (MainPool []) _ (.const 64 0) hr
  simp only [Expr.codegen, CRes.ret.injEq] at hC
  obtain ⟨_, rfl⟩ := hC
  exact h4

set_option maxHeartbeats 4000000 in
/-- The blocks of `war n : int = 1; alive by [n] n;`: the load of `n` for the condition
is the last builder call in `entry`, which has no branch; `alivecondblock` compares the
loaded value. -/
theorem alive_load_blocks :
    (blocksOf 40 aliveLoadToks).map (fun bs => bs.drop 1) = some
      [⟨"entry", 2,
         [(3, .CreateAlloca .i64 none "n"), (4, .CreateStore (.const 64 1) (.inst 3)),
          (5, .CreateLoad .i64 (.inst 3) "idexpr")]⟩,
       ⟨"alivecondblock", 2,
         [(6, .CreateICmp .NE (.inst 5) (.const 64 0) "alivecond"),
          (7, .CreateCondBr (.inst 6) 3 4)]⟩,
       ⟨"alivebody", 2, [(8, .CreateLoad .i64 (.inst 3) "idexpr"), (9, .CreateBr 2)]⟩,
       ⟨"next", 2, []⟩] := by
  decide!

end Old

namespace Old

/-- The blocks when `IfStmt::codegen` calls the `codegen` of the body: the block that
was current has got the comparison and the conditional branch, the new blocks `ifbody`
and `next` are empty, and the insertion point is `ifbody`. -/
theorem if_blocks (g1 : CG) (F : Nat) (CondV : Value) (hlt : g1.insert < g1.blocks.length) :
    let gB := (((((g1.emit (.CreateICmp .NE CondV (.const 64 0) "ifcond")).2.newBlock
      "ifbody" F).2.newBlock "next" F).2.emit
      (.CreateCondBr (.inst g1.count) g1.blocks.length (g1.blocks.length + 1))).2.SetInsertPoint
      g1.blocks.length)
    gB.blocks.length = g1.blocks.length + 2 ∧ gB.insert = g1.blocks.length ∧
    (∀ j, j < g1.blocks.length → j ≠ g1.insert → gB.blocks[j]? = g1.blocks[j]?) ∧
    gB.blocks[g1.insert]? = (g1.blocks[g1.insert]?).map (fun b => { b with instrs :=
      b.instrs ++ [(g1.count, .CreateICmp .NE CondV (.const 64 0) "ifcond"),
        (g1.count + 1, .CreateCondBr (.inst g1.count) g1.blocks.length
          (g1.blocks.length + 1))] }) ∧
    gB.blocks[g1.blocks.length]? = some ⟨"ifbody", F, []⟩ ∧
    gB.blocks[g1.blocks.length + 1]? = some ⟨"next", F, []⟩ := by
  intro gB
  have hne1 : g1.blocks.length ≠ g1.insert := by omega
  have hne2 : g1.blocks.length + 1 ≠ g1.insert := by omega
  let A := (g1.emit (.CreateICmp .NE CondV (.const 64 0) "ifcond")).2
  let B := (A.newBlock "ifbody" F).2
  let C := (B.newBlock "next" F).2
  have lA : A.blocks.length = g1.blocks.length := emit_length _ _
  have lB : B.blocks.length = g1.blocks.length + 1 := by rw [newBlock_length, lA]
  have eD : ∀ j, j ≠ g1.insert → gB.blocks[j]? = C.blocks[j]? :=
    fun j hj => emit_blocks_ne C _ j hj
  have eC : ∀ j, j < g1.blocks.length + 1 → C.blocks[j]? = B.blocks[j]? :=
    fun j hj => newBlock_blocks_lt B _ _ j (by rw [lB]; exact hj)
  have eB : ∀ j, j < g1.blocks.length → B.blocks[j]? = A.blocks[j]? :=
    fun j hj => newBlock_blocks_lt A _ _ j (by rw [lA]; exact hj)
  have eA : ∀ j, j ≠ g1.insert → A.blocks[j]? = g1.blocks[j]? :=
    fun j hj => emit_blocks_ne g1 _ j hj
  refine ⟨?_, rfl, ?_, ?_, ?_, ?_⟩
  · simp [gB]
  · intro j hj hne
    rw [eD j hne, eC j (by omega), eB j hj, eA j hne]
  · have e1 : gB.blocks[g1.insert]? = _ := emit_blocks_at C _ g1.insert rfl
    rw [e1, eC _ (by omega), eB _ hlt]
    have e2 : A.blocks[g1.insert]? = _ := emit_blocks_eq g1 _
    rw [e2]
    cases g1.blocks[g1.insert]? <;> simp [C, B, A]
  · rw [eD _ hne1, eC _ (by omega)]
    exact newBlock_blocks_at A _ _ _ lA.symm
  · rw [eD _ hne2]
    exact newBlock_blocks_at B _ _ _ lB.symm

/-- The first builder call of a war statement is the `CreateAlloca` of its first
declaration, made in the insertion block, and the builder calls after it are made in
the same block. -/
theorem codegenWars_first (heap : List (Table Symbol)) (CurrTable : Option Nat)
    (warName : String) (rhs : Expr) (wars : List (String × Expr)) (g g' : CG)
    (v : Option Value) (h : codegenWars heap CurrTable ((warName, rhs) :: wars) g = .ret v g') :
    ∃ ty n l, g'.blocks[g.insert]? = (g.blocks[g.insert]?).map (fun b =>
      { b with instrs := b.instrs ++ (g.count, .CreateAlloca ty n warName) :: l }) := by
  simp only [codegenWars] at h
  split at h
  · cases h
  split at h
  · cases h
  rename_i ty hty
  have key : ∀ g2 : CG, CG.Local (g.emit (.CreateAlloca ty
      (if rhs.size ≠ 0 then some (.const 64 rhs.size) else none) warName)).2 g2 →
      ∃ l, g2.blocks[g.insert]? = (g.blocks[g.insert]?).map (fun b =>
        { b with instrs := b.instrs ++ (g.count, .CreateAlloca ty
          (if rhs.size ≠ 0 then some (.const 64 rhs.size) else none) warName) :: l }) := by
    intro g2 hl
    obtain ⟨l, e⟩ := hl.grows
    refine ⟨l, ?_⟩
    simp only [emit_insert] at e
    rw [e, emit_blocks_eq]
    cases g.blocks[g.insert]? <;> simp
  split at h
  · cases h
  · rename_i g1 hr
    cases h
    obtain ⟨l, e⟩ := key _ ((Expr.codegen_local heap rhs _).ret _ _ hr)
    exact ⟨_, _, l, e⟩
  · rename_i Vrhs g1 hr
    have h1 := (Expr.codegen_local heap rhs _).ret _ _ hr
    split at h
    · cases h
    · have h2 := (codegenWars_local heap CurrTable wars _).ret _ _ h
      obtain ⟨l, e⟩ := key _ (((h1.emit _).setAlloc _ _).step h2)
      exact ⟨_, _, l, e⟩

end Old

namespace Old

set_option maxHeartbeats 4000000 in
/-- C30, the counterexample: in `if (1) do war x : int = 5; war y : int = 6;` the
`CreateAlloca` of `x` is made in the block `ifbody` and the one of `y` in the block
`next`, none in `entry`; in `alive by [0] war x : int = 5;` the one of `x` is made in
the block `alivebody`. -/
theorem nested_war_alloca_not_in_entry :
    allocasOf 40 ifWarWarToks =
      some [("mainblock", []), ("entry", []), ("ifbody", ["x"]), ("next", ["y"])] ∧
    allocasOf 40 aliveWarDeclToks =
      some [("mainblock", []), ("entry", []), ("alivecondblock", []), ("alivebody", ["x"]),
        ("next", [])] := by
  constructor <;> decide!

/-- C30 as the code has it: a war statement makes all its builder calls in the block
that is the insertion point when it is generated, and the first of them is the
`CreateAlloca` of its first declaration.  For a war statement that is the body of an
`if` this block is the new block `ifbody`, whose first call is that `CreateAlloca`, and
for the body of an `alive` it is the new block `alivebody`. -/
theorem war_alloca_is_made_at_the_insertion_point :
    (∀ (heap : List (Table Symbol)) (tab : Option Nat) (wars : List (String × Expr))
        (g g' : CG) (v : Option Value),
      (Stmt.WarStmt wars tab).codegen heap g = .ret v g' →
      g'.insert = g.insert ∧ g'.blocks.length = g.blocks.length ∧
      ∀ j, j ≠ g.insert → g'.blocks[j]? = g.blocks[j]?) ∧
    (∀ (heap : List (Table Symbol)) (tab : Option Nat) (warName : String) (rhs : Expr)
        (wars : List (String × Expr)) (g g' : CG) (v : Option Value),
      (Stmt.WarStmt ((warName, rhs) :: wars) tab).codegen heap g = .ret v g' →
      ∃ ty n l, g'.blocks[g.insert]? = (g.blocks[g.insert]?).map (fun b =>
        { b with instrs := b.instrs ++ (g.count, .CreateAlloca ty n warName) :: l })) ∧
    (∀ (heap : List (Table Symbol)) (Cond : Expr) (tab : Option Nat) (warName : String)
        (rhs : Expr) (wars : List (String × Expr)) (g g' : CG) (v : Value),
      (Stmt.IfStmt Cond (.WarStmt ((warName, rhs) :: wars) tab)).codegen heap g =
        .ret (some v) g' →
      ∃ F c ty n l, g'.blocks[g.blocks.length]? =
        some ⟨"ifbody", F, (c, .CreateAlloca ty n warName) :: l⟩) ∧
    (∀ (heap : List (Table Symbol)) (Cond : Expr) (tab : Option Nat) (warName : String)
        (rhs : Expr) (wars : List (String × Expr)) (g g' : CG) (v : Value),
      (Stmt.AliveStmt Cond (.WarStmt ((warName, rhs) :: wars) tab)).codegen heap g =
        .ret (some v) g' →
      ∃ F c ty n l, g'.blocks[g.blocks.length + 1]? =
        some ⟨"alivebody", F, (c, .CreateAlloca ty n warName) :: l⟩) := by
  refine ⟨?_, ?_, ?_, ?_⟩
  · intro heap tab wars g g' v h
    simp only [Stmt.codegen] at h
    have hl := (codegenWars_local heap tab wars g).ret _ _ h
    exact ⟨hl.insert_eq, hl.length_eq, hl.others⟩
  · intro heap tab warName rhs wars g g' v h
    simp only [Stmt.codegen] at h
    exact codegenWars_first heap tab warName rhs wars g g' v h
  · intro heap Cond tab warName rhs wars g g' v h
    simp only [Stmt.codegen] at h
    split at h
    · cases h
    rename_i F hF
    split at h
    · cases h
    · cases h
    rename_i CondV g1 hC
    have h1 := (Expr.codegen_local heap Cond g).ret _ _ hC
    simp only [newBlock_fst, newBlock_length, emit_fst, emit_length] at h
    split at h
    · cases h
    · cases h
    rename_i w g3 hB
    simp only [CRes.ret.injEq, Option.some.injEq] at h
    obtain ⟨_, hg⟩ := h
    have hlt : g1.insert < g1.blocks.length := by
      rw [h1.insert_eq, h1.length_eq]; exact getParent_lt g F hF
    obtain ⟨hlen, hins, hold, hcur, hbody, hnext⟩ := if_blocks g1 F CondV hlt
    obtain ⟨ty, n, l, e⟩ := codegenWars_first heap tab warName rhs wars _ g3 _ hB
    have hL := (codegenWars_local heap tab _ _).ret _ _ hB
    simp only [SetInsertPoint_insert] at e
    rw [hbody] at e
    have e2 := emit_blocks_at g3 (.CreateBr (g1.blocks.length + 1)) g1.blocks.length
      hL.insert_eq
    rw [e] at e2
    simp only [Option.map_some', List.nil_append, List.cons_append] at e2
    rw [← hg, ← h1.length_eq]
    exact ⟨F, _, ty, n, _, e2⟩
  · intro heap Cond tab warName rhs wars g g' v h
    simp only [Stmt.codegen] at h
    split at h
    · cases h
    rename_i F hF
    split at h
    · cases h
    · cases h
    rename_i CondV g1 hC
    have h1 := (Expr.codegen_local heap Cond g).ret _ _ hC
    simp only [newBlock_fst, newBlock_length, emit_fst, SetInsertPoint_count, newBlock_count]
      at h
    split at h
    · cases h
    · cases h
    rename_i w g3 hB
    simp only [CRes.ret.injEq, Option.some.injEq] at h
    obtain ⟨_, hg⟩ := h
    obtain ⟨hlen, hold, hhead, hbody, hnext⟩ := alive_blocks g1 F CondV
    obtain ⟨ty, n, l, e⟩ := codegenWars_first heap tab warName rhs wars _ g3 _ hB
    have hL := (codegenWars_local heap tab _ _).ret _ _ hB
    simp only [SetInsertPoint_insert, SetInsertPoint_blocks] at e
    rw [hbody] at e
    have e2 := emit_blocks_at g3 (.CreateBr g1.blocks.length) (g1.blocks.length + 1)
      hL.insert_eq
    rw [e] at e2
    simp only [Option.map_some', List.nil_append, List.cons_append] at e2
    rw [← hg, ← h1.length_eq]
    exact ⟨F, _, ty, n, _, e2⟩

end Old

namespace Old

/-- C31: what a call of `IfStmt::codegen` that returns a value leaves behind.  The
condition is generated in the block that was current; this block then gets the
comparison of the value of the condition with zero, by not-equal, and the conditional
branch to the new block `ifbody` (when the comparison holds) and the new block `next`
(when it does not), and nothing after them.  The body is generated from the empty block
`ifbody`, a branch to `next` follows it, and the insertion point is left at `next`. -/
theorem if_compares_with_zero_and_branches (heap : List (Table Symbol))
    (Cond : Expr) (Body : Stmt) (g g' : CG) (v : Value)
    (h : (Stmt.IfStmt Cond Body).codegen heap g = .ret (some v) g') :
    ∃ F CondV g1 gB w g3,
      g.getParent = some F ∧ Cond.codegen heap g = .ret (some CondV) g1 ∧
      g1.insert = g.insert ∧ g1.blocks.length = g.blocks.length ∧
      g'.blocks[g.insert]? = (g1.blocks[g.insert]?).map (fun b => { b with instrs :=
        b.instrs ++ [(g1.count, .CreateICmp .NE CondV (.const 64 0) "ifcond"),
          (g1.count + 1,
           .CreateCondBr (.inst g1.count) g.blocks.length (g.blocks.length + 1))] }) ∧
      gB.insert = g.blocks.length ∧
      gB.blocks[g.blocks.length]? = some ⟨"ifbody", F, []⟩ ∧
      gB.blocks[g.blocks.length + 1]? = some ⟨"next", F, []⟩ ∧
      Body.codegen heap gB = .ret (some w) g3 ∧
      g' = (g3.emit (.CreateBr (g.blocks.length + 1))).2.SetInsertPoint
        (g.blocks.length + 1) ∧
      g'.insert = g.blocks.length + 1 := by
  simp only [Stmt.codegen] at h
  split at h
  · cases h
  rename_i F hF
  split at h
  · cases h
  · cases h
  rename_i CondV g1 hC
  have h1 := (Expr.codegen_local heap Cond g).ret _ _ hC
  simp only [newBlock_fst, newBlock_length, emit_fst, emit_length] at h
  split at h
  · cases h
  · cases h
  rename_i w g3 hB
  simp only [CRes.ret.injEq, Option.some.injEq] at h
  obtain ⟨_, hg⟩ := h
  have hlt0 := getParent_lt g F hF
  have hl := h1.length_eq
  have hlt : g1.insert < g1.blocks.length := by rw [h1.insert_eq, hl]; exact hlt0
  obtain ⟨hlen, hins, hold, hcur, hbody, hnext⟩ := if_blocks g1 F CondV hlt
  have hFr := (Stmt.codegen_frame heap Body _).ret _ _ hB
  refine ⟨F, CondV, g1, _, w, g3, hF, hC, h1.insert_eq, hl, ?_,
    (by rw [← hl]; exact hins), (by rw [← hl]; exact hbody), (by rw [← hl]; exact hnext), hB,
    (by rw [← hg, hl]), (by rw [← hg, hl]; rfl)⟩
  rw [← hg]
  simp only [SetInsertPoint_blocks]
  have hne : g.insert ≠ g3.insert := by
    rcases hFr.insert_new with hh | hh
    · rw [hins] at hh; omega
    · rw [hlen] at hh; omega
  rw [emit_blocks_ne _ _ _ hne, hFr.others _ (by rw [hlen]; omega) (by rw [hins]; omega),
    ← h1.insert_eq, hcur, hl]

theorem if_compares_with_zero_and_branches_witness :
    (((Stmt.IfStmt (.IntExpr .IntType 1) (.HighExpr (.IntExpr .IntType 2))).codegen []
      (MainPool [])).state?.getD (MainPool [])).insert = 3 := by
  have hr : (Stmt.IfStmt (.IntExpr .IntType 1) (.HighExpr (.IntExpr .IntType 2))).codegen []
      (MainPool []) = .ret (some (.const 64 0))
        (((Stmt.IfStmt (.IntExpr .IntType 1) (.HighExpr (.IntExpr .IntType 2))).codegen []
          (MainPool [])).state?.getD (MainPool [])) := by
    decide!
  obtain ⟨F, CondV, g1, gB, w, g3, _, _, _, _, _, _, _, _, _, _, hi⟩ :=
    if_compares_with_zero_and_branches []
      (.IntExpr .IntType 1) (.HighExpr (.IntExpr .IntType 2)) (MainPool []) _ (.const 64 0) hr
  exact hi

end Old

namespace Old

/-- Every node that the loop of `ParseTrenStmt` returns is built by the constructor
`TrenStmt::TrenStmt`, which leaves the member `CurrTable` null. -/
theorem ParseTrenLoop_node (n : Nat) : ∀ (fn : String) (ft : TypeP) (tab : Option Nat)
    (args : List String) (ats : List TypeP) (s s' : St) (stmt : Stmt),
    ParseTrenLoop n fn ft tab args ats s = .ok stmt s' →
    ∃ body args', stmt = .TrenStmt none ft body args' fn := by
  induction n with
  | zero => intro fn ft tab args ats s s' stmt h; simp [ParseTrenLoop] at h
  | succ n ih =>
    intro fn ft tab args ats s s' stmt h
    simp only [ParseTrenLoop, LogNull] at h
    repeat' split at h
    all_goals first
      | exact ih _ _ _ _ _ _ _ _ h
      | (cases h
         exact ⟨_, _, rfl⟩)
      | cases h

/-- Every node that `ParseTrenStmt` returns has a null `CurrTable`. -/
theorem ParseTrenStmt_node (n : Nat) (s s' : St) (stmt : Stmt)
    (h : ParseTrenStmt n s = .ok stmt s') :
    ∃ ft body args fn, stmt = .TrenStmt none ft body args fn := by
  cases n with
  | zero => simp [ParseTrenStmt] at h
  | succ n =>
    simp only [ParseTrenStmt, LogNull] at h
    repeat' split at h
    all_goals first
      | cases h
      | exact (ParseTrenLoop_node _ _ _ _ _ _ _ _ _ h).elim
          (fun b hb => hb.elim (fun a e => ⟨_, b, a, _, e⟩))

set_option maxHeartbeats 8000000 in
/-- C32: a function node that `ParseTrenStmt` returns has a null member `CurrTable`
(the constructor receives the table and does not store it), so `TrenStmt::codegen`,
whose first statement is `CurrTable->getSym(name)`, dereferences a null pointer and
returns nothing, whatever the tables and the state of the generator.  For
`tren int f [int a] { return f[a]; }` the parser builds one function node, with a null
table and a body, and the generator does not return. -/
theorem tren_codegen_reads_null_table :
    (∀ (n : Nat) (s s' : St) (stmt : Stmt), ParseTrenStmt n s = .ok stmt s' →
      ∀ (heap : List (Table Symbol)) (g : CG), stmt.codegen heap g = .crash) ∧
    (∀ (name : String) (bod : Stmt) (args : List String) (tab : Option Nat) (type : TypeP)
      (heap : List (Table Symbol)) (g : CG),
      (Stmt.mkTren name bod args tab type).codegen heap g = .crash) ∧
    (stmtsOf 40 trenSelfToks).map (fun l => l.map Stmt.trenTable?) = some [some none] ∧
    (stmtsOf 40 trenSelfToks).map (fun l => l.map (fun st => st.trenBody?.isSome)) =
      some [true] ∧
    generate 40 trenSelfToks = some .crash := by
  refine ⟨?_, ?_, by decide!, by decide!, by decide!⟩
  · intro n s s' stmt h heap g
    obtain ⟨ft, body, args, fn, e⟩ := ParseTrenStmt_node n s s' stmt h
    subst e
    simp [Stmt.codegen, symRef]
  · intro name bod args tab type heap g
    simp [Stmt.mkTren, Stmt.codegen, symRef]

end Old

namespace Old

/-- A statement that returns null ends the loop over the statements in the state in
which it returned. -/
theorem codegenList_stops (heap : List (Table Symbol)) (s : Stmt) (post : List Stmt) :
    ∀ (pre : List Stmt) (g g1 g2 : CG) (v : Value),
    Stmt.codegenList heap pre g = .ret (some v) g1 → s.codegen heap g1 = .ret none g2 →
    Stmt.codegenList heap (pre ++ s :: post) g = .ret none g2
  | [], g, g1, g2, v, h, hs => by
    simp only [Stmt.codegenList, CRes.ret.injEq] at h
    obtain ⟨_, rfl⟩ := h
    simp only [List.nil_append, Stmt.codegenList, hs]
  | p :: pre, g, g1, g2, v, h, hs => by
    simp only [Stmt.codegenList] at h
    simp only [List.cons_append, Stmt.codegenList]
    split at h
    · cases h
    · cases h
    · rename_i w g0 hp
      exact codegenList_stops heap s post pre g0 g1 g2 v h hs

/-- An argument that returns null ends the loop over the arguments of a call in the
state in which it returned. -/
theorem codegenArgs_stops (heap : List (Table Symbol)) (e : Expr) (post : List Expr) :
    ∀ (pre : List Expr) (acc vs : List Value) (g g1 g2 : CG),
    Expr.codegenArgs heap pre acc g = .ret (some vs) g1 → e.codegen heap g1 = .ret none g2 →
    Expr.codegenArgs heap (pre ++ e :: post) acc g = .ret none g2
  | [], acc, vs, g, g1, g2, h, hs => by
    simp only [Expr.codegenArgs, CRes.ret.injEq] at h
    obtain ⟨_, rfl⟩ := h
    simp only [List.nil_append, Expr.codegenArgs, hs]
  | p :: pre, acc, vs, g, g1, g2, h, hs => by
    simp only [Expr.codegenArgs] at h
    simp only [List.cons_append, Expr.codegenArgs]
    split at h
    · cases h
    · cases h
    · rename_i w g0 hp
      exact codegenArgs_stops heap e post pre _ vs g0 g1 g2 h hs

/-- An element that returns null ends the loop over the elements of an array literal
in the state in which it returned. -/
theorem codegenElems_stops (heap : List (Table Symbol)) (ty : LType) (alloc : Value)
    (e : Expr) (post : List Expr) :
    ∀ (pre : List Expr) (i : Nat) (g g1 g2 : CG) (v : Value),
    Expr.codegenElems heap ty alloc pre i g = .ret (some v) g1 →
    e.codegen heap g1 = .ret none g2 →
    Expr.codegenElems heap ty alloc (pre ++ e :: post) i g = .ret none g2
  | [], i, g, g1, g2, v, h, hs => by
    simp only [Expr.codegenElems, CRes.ret.injEq] at h
    obtain ⟨_, rfl⟩ := h
    simp only [List.nil_append, Expr.codegenElems, hs]
  | p :: pre, i, g, g1, g2, v, h, hs => by
    simp only [Expr.codegenElems] at h
    simp only [List.cons_append, Expr.codegenElems]
    split at h
    · cases h
    · cases h
    · rename_i w g0 hp
      exact codegenElems_stops heap ty alloc e post pre _ _ g1 g2 v h hs

end Old

namespace Old

/-- A binary node generates its right operand after its left operand, whatever the
left operand returned: when the left operand returns null in the state `g1`, the node
returns null in the state that the generation of the right operand leaves from `g1`
(and does not return when the right operand does not). -/
theorem binary_after_failed_left (heap : List (Table Symbol)) (LHS RHS : Expr) (t : TypeP)
    (Op : String) (g g1 : CG) (h : LHS.codegen heap g = .ret none g1) :
    let after : CRes Value :=
      match RHS.codegen heap g1 with
      | .crash => .crash
      | .ret _ g2 => .ret none g2
    (Expr.AssignExpr LHS RHS t).codegen heap g = after ∧
    (Expr.BoolExpr LHS RHS t Op).codegen heap g = after ∧
    (Expr.AddExpr LHS RHS t Op).codegen heap g = after ∧
    (Expr.TermExpr LHS RHS t Op).codegen heap g = after := by
  intro after
  cases hR : RHS.codegen heap g1 <;> simp [after, Expr.codegen, h, hR]

/-- A binary node whose right operand returns null returns null in the state in which
the right operand returned. -/
theorem binary_failed_right (heap : List (Table Symbol)) (LHS RHS : Expr) (t : TypeP)
    (Op : String) (g g1 g2 : CG) (v : Option Value) (h : LHS.codegen heap g = .ret v g1)
    (hr : RHS.codegen heap g1 = .ret none g2) :
    (Expr.AssignExpr LHS RHS t).codegen heap g = .ret none g2 ∧
    (Expr.BoolExpr LHS RHS t Op).codegen heap g = .ret none g2 ∧
    (Expr.AddExpr LHS RHS t Op).codegen heap g = .ret none g2 ∧
    (Expr.TermExpr LHS RHS t Op).codegen heap g = .ret none g2 := by
  cases v <;> simp [Expr.codegen, h, hr]

set_option maxHeartbeats 8000000 in
/-- C33, counterexample: for `war x : int = 1; 1 + 2 + x;` the left operand `1 + 2` of
the outer sum fails (its operator tag is not `+` or `-`), and the load of `x` for the
right operand is emitted after that; for `1 + 2 + (3 + 4);` the left operand fails and
the right operand then reports a second error.  Both programs return null. -/
theorem later_operand_is_generated_after_failure :
    outcomeOf 40 warSumLoadToks =
      some (true, ["invalid binary (int) operator "],
        [.CreateAlloca .i64 none "x", .CreateStore (.const 64 1) (.inst 3),
         .CreateLoad .i64 (.inst 3) "idexpr"]) ∧
    outcomeOf 40 sumSumToks =
      some (true, ["invalid binary (int) operator ", "invalid binary (int) operator "],
        []) := by
  refine ⟨by decide!, by decide!⟩

end Old

namespace Old

set_option maxHeartbeats 8000000 in
/-- C33, amended: a null result ends every loop and every statement at once, and is
passed up to `Input::codegen`; only the two operands of a binary node are both generated
before either is tested.  A statement that returns null ends `Input::codegen` and
`ParenStmts::codegen` in the state in which it returned, so nothing is emitted or
reported for the statements after it; the same holds of an argument of a call, an
element of an array literal, the initializer of a declaration, the condition and the
body of `if` and `alive`, and the expression of `return`.  A binary node whose left
operand returns null still generates its right operand and then returns null; one
whose right operand returns null returns null in that state.  For
`1 + 2; war x : int = 1;` one error is reported, nothing is emitted for the
declaration, and the result is null. -/
theorem failure_ends_loops_and_is_passed_up (heap : List (Table Symbol)) :
    (∀ (pre : List Stmt) (s : Stmt) (post : List Stmt) (t : TypeP) (g g1 g2 : CG) (v : Value),
      Stmt.codegenList heap pre g = .ret (some v) g1 → s.codegen heap g1 = .ret none g2 →
      Input.codegen heap ⟨pre ++ s :: post⟩ g = .ret none g2 ∧
      (Stmt.ParenStmts (pre ++ s :: post) t).codegen heap g = .ret none g2) ∧
    (∀ (pre : List Expr) (e : Expr) (post : List Expr) (tab : Option Nat) (name : String)
        (t : TypeP) (vs : List Value) (g g1 g2 : CG),
      symRef heap tab name ≠ none →
      Expr.codegenArgs heap pre [] g = .ret (some vs) g1 → e.codegen heap g1 = .ret none g2 →
      (Expr.CallExpr (pre ++ e :: post) tab name t).codegen heap g = .ret none g2) ∧
    (∀ (pre : List Expr) (e : Expr) (post : List Expr) (Vtype elem : TypeP) (ty : LType)
        (v : Value) (g g1 g2 : CG),
      Vtype.getElementType = some elem → getLType elem = some ty →
      Expr.codegenElems heap ty (.inst g.count) pre 0
        (g.emit (.CreateAlloca ty (some (.const 64 (pre ++ e :: post).length)) "array")).2 =
          .ret (some v) g1 →
      e.codegen heap g1 = .ret none g2 →
      (Expr.ArrayExpr (pre ++ e :: post) Vtype).codegen heap g = .ret none g2) ∧
    (∀ (warName : String) (rhs : Expr) (wars : List (String × Expr)) (tab : Option Nat)
        (ty : LType) (g g1 : CG),
      symRef heap tab warName ≠ none → getLType rhs.getType = some ty →
      rhs.codegen heap (g.emit (.CreateAlloca ty
        (if rhs.size ≠ 0 then some (.const 64 rhs.size) else none) warName)).2 = .ret none g1 →
      (Stmt.WarStmt ((warName, rhs) :: wars) tab).codegen heap g = .ret none g1) ∧
    (∀ (Cond : Expr) (Body : Stmt) (g g1 : CG), g.getParent ≠ none →
      Cond.codegen heap g = .ret none g1 →
      (Stmt.IfStmt Cond Body).codegen heap g = .ret none g1 ∧
      (Stmt.AliveStmt Cond Body).codegen heap g = .ret none g1) ∧
    (∀ (Cond : Expr) (Body : Stmt) (g g' : CG) (v : Option Value),
      (Stmt.IfStmt Cond Body).codegen heap g = .ret v g' ∨
        (Stmt.AliveStmt Cond Body).codegen heap g = .ret v g' →
      (∃ g1, Cond.codegen heap g = .ret none g1 ∧ v = none ∧ g' = g1) ∨
      (∃ gB, Body.codegen heap gB = .ret none g' ∧ v = none) ∨
      (∃ gB w g3, Body.codegen heap gB = .ret (some w) g3 ∧ v = some (.const 64 0))) ∧
    (∀ (e : Expr) (g g1 : CG), e.codegen heap g = .ret none g1 →
      (Stmt.RetStmt e).codegen heap g = .ret none g1 ∧
      (Stmt.HighExpr e).codegen heap g = .ret none g1 ∧
      (Expr.ParenExpr e).codegen heap g = .ret none g1) ∧
    (∀ (LHS RHS : Expr) (t : TypeP) (Op : String) (g g1 : CG),
      LHS.codegen heap g = .ret none g1 →
      let after : CRes Value :=
        match RHS.codegen heap g1 with
        | .crash => .crash
        | .ret _ g2 => .ret none g2
      (Expr.AssignExpr LHS RHS t).codegen heap g = after ∧
      (Expr.BoolExpr LHS RHS t Op).codegen heap g = after ∧
      (Expr.AddExpr LHS RHS t Op).codegen heap g = after ∧
      (Expr.TermExpr LHS RHS t Op).codegen heap g = after) ∧
    (∀ (LHS RHS : Expr) (t : TypeP) (Op : String) (g g1 g2 : CG) (v : Option Value),
      LHS.codegen heap g = .ret v g1 → RHS.codegen heap g1 = .ret none g2 →
      (Expr.AssignExpr LHS RHS t).codegen heap g = .ret none g2 ∧
      (Expr.BoolExpr LHS RHS t Op).codegen heap g = .ret none g2 ∧
      (Expr.AddExpr LHS RHS t Op).codegen heap g = .ret none g2 ∧
      (Expr.TermExpr LHS RHS t Op).codegen heap g = .ret none g2) ∧
    outcomeOf 40 sumThenWarToks = some (true, ["invalid binary (int) operator "], []) := by
  refine ⟨?_, ?_, ?_, ?_, ?_, ?_, ?_, ?_, ?_, by decide!⟩
  · intro pre s post t g g1 g2 v h hs
    have e := codegenList_stops heap s post pre g g1 g2 v h hs
    exact ⟨e, by simp only [Stmt.codegen]; exact e⟩
  · intro pre e post tab name t vs g g1 g2 hsym h hs
    have e := codegenArgs_stops heap e post pre [] vs g g1 g2 h hs
    simp only [Expr.codegen]
    split
    · exact absurd ‹_› hsym
    · rw [e]
  · intro pre e post Vtype elem ty v g g1 g2 hel hty h hs
    have e := codegenElems_stops heap ty (.inst g.count) e post pre 0 _ g1 g2 v h hs
    simp only [Expr.codegen, hel, hty, emit_fst]
    exact e
  · intro warName rhs wars tab ty g g1 hsym hty h
    simp only [Stmt.codegen, codegenWars, hty]
    split
    · exact absurd ‹_› hsym
    · simp only [h]
  · intro Cond Body g g1 hp h
    simp only [Stmt.codegen, h]
    cases hq : g.getParent with
    | none => exact absurd hq hp
    | some F => exact ⟨rfl, rfl⟩
  · intro Cond Body g g' v h
    rcases h with h | h
    all_goals
      simp only [Stmt.codegen] at h
      repeat' split at h
      all_goals first
        | (cases h
           first
             | (refine Or.inl ⟨_, ?_, rfl, rfl⟩
                assumption)
             | (refine Or.inr (Or.inl ⟨?_, ?_, rfl⟩)
                pick_goal 2
                assumption)
             | (refine Or.inr (Or.inr ⟨?_, ?_, ?_, ?_, rfl⟩)
                pick_goal 4
                assumption))
        | cases h
  · intro e g g1 h
    simp [Stmt.codegen, Expr.codegen, h]
  · intro LHS RHS t Op g g1 h
    exact binary_after_failed_left heap LHS RHS t Op g g1 h
  · intro LHS RHS t Op g g1 g2 v h hr
    exact binary_failed_right heap LHS RHS t Op g g1 g2 v h hr

end Old

namespace Cur

/-- The loop of `ParseParenStmts` returns in the state it was entered in, with the
statements it was entered with, or in the state after the token that follows its last
statement. -/
theorem cur_ParseParenLoop_last : ∀ (n : Nat) (stmts : List Stmt) (h : Bool) (s s' : St)
    (node : Stmt), ParseParenLoop n stmts h s = .ok node s' →
    (s' = s ∧ node = .ParenStmts stmts h) ∨
    (∃ m s0 stmt s1, ParseStatement m s0 = .ok stmt s1 ∧
      node.lastOfBlock? = some stmt ∧ s' = nextToken s1) := by
  intro n
  induction n with
  | zero => intro stmts h s s' node e; simp [ParseParenLoop] at e
  | succ n ih =>
    intro stmts h s s' node e
    simp only [ParseParenLoop] at e
    split at e
    · simp only [Res.ok.injEq] at e
      exact Or.inl ⟨e.2.symm, e.1.symm⟩
    · split at e
      · cases e
      · cases e
      · cases e
      · rename_i stmt s1 hs
        rcases ih _ _ _ _ _ e with ⟨h1, h2⟩ | h3
        · exact Or.inr ⟨n, s, stmt, s1, hs, by simp [h2, Stmt.lastOfBlock?], h1⟩
        · exact Or.inr h3

set_option maxHeartbeats 8000000 in
/-- C34, counterexample: the current parser accepts `{ war x : int = 1; } x;` without
a diagnostic. -/
theorem variable_of_block_is_visible_after :
    (ParseInput 40 (PState.init blockThenUseToks 1)).isOk = true ∧
    (ParseInput 40 (PState.init blockThenUseToks 1)).log = [] := by
  refine ⟨by decide!, by decide!⟩

set_option maxHeartbeats 8000000 in
/-- C34, amended: in the current parser a block opens no scope.  `ParseParenStmts`
returns with the table current that was current at the opening brace, and the tables
after an accepted block are those its last statement left (those before the block when
it has no statement): no table is made for the block and none is left at its end.  A
block of one statement returns in the state after the token that follows the
statement.  So what a war statement of the block adds to the current table is there
after the block: for `{ war x : int = 1; } x;` the second statement is the identifier
`x` of type Int resolved in the global table, which is the only table and binds `x` at
the end. -/
theorem block_opens_no_scope :
    (∀ (n : Nat) (s s' : St) (node : Stmt), ParseParenStmts n s = .ok node s' →
      s'.CTable = s.CTable ∧
      ((s'.heap = s.heap ∧ node.lastOfBlock? = none) ∨
       (∃ m s0 stmt s1, ParseStatement m s0 = .ok stmt s1 ∧
          node.lastOfBlock? = some stmt ∧ s'.heap = s1.heap ∧ s'.CTable = s1.CTable))) ∧
    (∀ (n : Nat) (s s1 : St) (stmt : Stmt),
      ParseStatement (n + 1) (nextToken s) = .ok stmt s1 →
      (nextToken s).CurrTok.tok ≠ .RBRA → (nextToken s1).CurrTok.tok = .RBRA →
      ParseParenStmts (n + 3) s = .ok (.ParenStmts [stmt] stmt.hasRet) (nextToken s1)) ∧
    idStmtsOf 40 blockThenUseToks = some [none, some (some 0, "x", .Int)] ∧
    (ParseInput 40 (PState.init blockThenUseToks 1)).state?.map
        (fun s => (s.heap.length, s.CTable, getSym s.heap s.CTable "x")) =
      some (1, some 0, some (some (Symbol.new "x" .Int .WAR))) := by
  refine ⟨?_, ?_, by decide!, by decide!⟩
  · intro n s s' node h
    have hk := ((cur_stmt_kept_all n).2.2.2.2.2.2.2.2.1 s).rel _ _ h
    refine ⟨hk.ctable, ?_⟩
    cases n with
    | zero => simp [ParseParenStmts] at h
    | succ n =>
      simp only [ParseParenStmts] at h
      rcases cur_ParseParenLoop_last _ _ _ _ _ _ h with ⟨h1, h2⟩ | ⟨m, s0, stmt, s1, h3, h4, h5⟩
      · refine Or.inl ⟨?_, ?_⟩
        · rw [h1]; simp only [nextToken]; split <;> rfl
        · rw [h2]; rfl
      · refine Or.inr ⟨m, s0, stmt, s1, h3, h4, ?_, ?_⟩
        · rw [h5]; simp only [nextToken]; split <;> rfl
        · rw [h5]; simp only [nextToken]; split <;> rfl
  · intro n s s1 stmt h hne hr
    simp only [ParseParenStmts, ParseParenLoop, hne, h, hr, if_true, if_false,
      List.nil_append, Bool.false_or]

end Cur

namespace Old

theorem NoAssignList_append (xs : List Expr) (e : Expr) (h1 : Expr.NoAssignList xs)
    (h2 : e.NoAssign) : Expr.NoAssignList (xs ++ [e]) := by
  induction xs with
  | nil => simp [Expr.NoAssignList, h2]
  | cons x xs ih =>
    simp only [Expr.NoAssignList, List.cons_append] at h1 ⊢
    exact ⟨h1.1, ih h1.2⟩

set_option maxHeartbeats 8000000 in
/-- No tree the expression functions of the old parser return has an Assign node. -/
theorem expr_noAssign_all : ∀ n : Nat,
    (∀ s, Res.All Expr.NoAssign (ParseExpression n s)) ∧
    (∀ s, Res.All Expr.NoAssign (ParseBoolExpr n s)) ∧
    (∀ lhs s, lhs.NoAssign → Res.All Expr.NoAssign (ParseBoolLoop n lhs s)) ∧
    (∀ s, Res.All Expr.NoAssign (ParseAddExpr n s)) ∧
    (∀ lhs s, lhs.NoAssign → Res.All Expr.NoAssign (ParseAddLoop n lhs s)) ∧
    (∀ s, Res.All Expr.NoAssign (ParseTermExpr n s)) ∧
    (∀ lhs s, lhs.NoAssign → Res.All Expr.NoAssign (ParseTermLoop n lhs s)) ∧
    (∀ s, Res.All Expr.NoAssign (ParseFactor n s)) ∧
    (∀ elemType arr_elems s, Expr.NoAssignList arr_elems →
      Res.All Expr.NoAssign (ParseArrayLoop n elemType arr_elems s)) ∧
    (∀ elemType arr_elems s, Expr.NoAssignList arr_elems →
      Res.All Expr.NoAssign (ParseArrayTail n elemType arr_elems s)) ∧
    (∀ name sym Idx args s, Expr.NoAssignList args →
      Res.All Expr.NoAssign (ParseCallLoop n name sym Idx args s)) := by
  intro n
  induction n with
  | zero =>
    refine ⟨?_, ?_, ?_, ?_, ?_, ?_, ?_, ?_, ?_, ?_, ?_⟩ <;> intros <;>
      simp only [ParseExpression, ParseBoolExpr, ParseBoolLoop, ParseAddExpr, ParseAddLoop,
        ParseTermExpr, ParseTermLoop, ParseFactor, ParseArrayLoop, ParseArrayTail,
        ParseCallLoop] <;> exact Res.All.at_fuel
  | succ n ih =>
    obtain ⟨ihE, ihB, ihBL, ihA, ihAL, ihT, ihTL, ihF, ihArr, ihArrT, ihC⟩ := ih
    refine ⟨?_, ?_, ?_, ?_, ?_, ?_, ?_, ?_, ?_, ?_, ?_⟩ <;> intros <;>
      simp only [ParseExpression, ParseBoolExpr, ParseBoolLoop, ParseAddExpr, ParseAddLoop,
        ParseTermExpr, ParseTermLoop, ParseFactor, ParseArrayLoop, ParseArrayTail,
        ParseCallLoop] <;> repeat' split
    all_goals
      (try have hE := (ihE _).val_of_ok ‹ParseExpression n _ = Res.ok _ _›)
      (try have hB := (ihB _).val_of_ok ‹ParseBoolExpr n _ = Res.ok _ _›)
      (try have hA := (ihA _).val_of_ok ‹ParseAddExpr n _ = Res.ok _ _›)
      (try have hT := (ihT _).val_of_ok ‹ParseTermExpr n _ = Res.ok _ _›)
      (try have hF := (ihF _).val_of_ok ‹ParseFactor n _ = Res.ok _ _›)
      first
      | exact Res.All.at_fuel
      | exact Res.All.at_crash
      | exact Res.All.at_logNull _
      | exact Res.All.at_null
      | (apply Res.All.of_val; simp only [Expr.NoAssign, Expr.mkInt, and_self, *])
      | exact ihBL _ _ hB
      | exact ihAL _ _ hA
      | exact ihTL _ _ hT
      | exact ihTL _ _ hF
      | exact ihBL _ _ (by simp only [Expr.NoAssign, and_self, *])
      | exact ihAL _ _ (by simp only [Expr.NoAssign, and_self, *])
      | exact ihTL _ _ (by simp only [Expr.NoAssign, and_self, *])
      | exact ihArr _ _ _ ‹_›
      | exact ihArr _ _ _ (by simp only [Expr.NoAssignList])
      | exact ihArrT _ _ _ (NoAssignList_append _ _ ‹_› hE)
      | exact ihC _ _ _ _ _ (NoAssignList_append _ _ ‹_› hE)
      | exact ihC _ _ _ _ _ (by simp only [Expr.NoAssignList])

set_option maxHeartbeats 8000000 in
/-- C35: in the old parser an assignment with compatible types never yields a node.
`ParseExpression` moves the left side out of `lhs` with `lhs.release()` and then builds
the node from `lhs->getType()`, a null dereference: whenever the left side is an
lvalue, the right side parses and the types are compatible, the function does not
return.  No tree the old parser returns has an Assign node.  For
`war x : int = 1; x = 2;` the run of `ParseInput` ends in the dereference, without a
node and without a diagnostic. -/
theorem assignment_reads_released_pointer :
    (∀ (n : Nat) (s s1 s2 : St) (lhs rhs : Expr),
      ParseBoolExpr n s = .ok lhs s1 → s1.CurrTok.tok = .ASSIGN → lhs.lvalue = true →
      ParseExpression n (nextToken s1) = .ok rhs s2 →
      checkTypes lhs.getType rhs.getType = some true →
      ParseExpression (n + 1) s = .crash) ∧
    (∀ (n : Nat) (s s' : St) (e : Expr), ParseExpression n s = .ok e s' → e.NoAssign) ∧
    (∀ l r t, ¬ (Expr.AssignExpr l r t).NoAssign) ∧
    (ParseInput printSym 40 (PState.init assignVarToks 1)).isCrash = true ∧
    (ParseInput printSym 40 (PState.init assignVarToks 1)).isOk = false ∧
    (ParseInput printSym 40 (PState.init assignVarToks 1)).log = [] := by
  refine ⟨?_, ?_, ?_, by decide!, by decide!, by decide!⟩
  · intro n s s1 s2 lhs rhs h1 h2 h3 h4 h5
    cases lhs <;> simp only [Expr.lvalue, Bool.false_eq_true] at h3
    rename_i tab name type
    simp only [Expr.getType] at h5
    simp only [ParseExpression, h1, h2, Expr.lvalue, h4, h5]
    simp only [ne_eq, not_true_eq_false, if_false, Bool.not_true, Bool.false_eq_true]
    split <;> rfl
  · intro n s s' e h
    exact ((expr_noAssign_all n).1 s).val_of_ok h
  · intro l r t h
    simp only [Expr.NoAssign] at h

end Old

namespace Old

set_option maxHeartbeats 8000000 in
/-- C36: the old `ParseTrenStmt` has no test for a missing return statement.  It
passes `body->hasRet()` to `checkTypes`, whose first step is `E1->getElementType()`:
when the body has no return statement the pointer is null and the call is a null
dereference, whatever the declared type, so the function neither returns a node nor
writes a diagnostic.  `tren int f [] { 1; }` and `tren int f [] 1;` end so; the
current parser, which tests `hasRet()` first, rejects the first with its
diagnostic. -/
theorem tren_without_return_reads_null_type :
    (∀ (n : Nat) (fn : String) (ft : TypeP) (tab : Option Nat) (args : List String)
        (ats : List TypeP) (s s1 s2 : St) (body : Stmt),
      s.CurrTok.tok = .RBRACE →
      addSym s fn ((Symbol.new fn ft .FUNCTION).setArgs ats) = some s1 →
      ParseStatement n (nextToken s1) = .ok body s2 → body.hasRet = .null →
      ParseTrenLoop (n + 1) fn ft tab args ats s = .crash) ∧
    (∀ t : TypeP, checkTypes .null t = none) ∧
    (∀ (e : Expr) (c : Expr) (b : Stmt) (wars : List (String × Expr)) (tab : Option Nat),
      (Stmt.HighExpr e).hasRet = .null ∧ (Stmt.IfStmt c b).hasRet = .null ∧
      (Stmt.AliveStmt c b).hasRet = .null ∧ (Stmt.WarStmt wars tab).hasRet = .null) ∧
    (ParseInput printSym 40 (PState.init trenNoRetToks 1)).isCrash = true ∧
    (ParseInput printSym 40 (PState.init trenNoRetToks 1)).log = [] ∧
    (ParseInput printSym 40 (PState.init trenExprBodyToks 1)).isCrash = true ∧
    (Cur.ParseInput 40 (PState.init trenNoRetToks 1)).log =
      [("excepted return statement in function body", 1)] := by
  refine ⟨?_, ?_, ?_, by decide!, by decide!, by decide!, by decide!⟩
  · intro n fn ft tab args ats s s1 s2 body h1 h2 h3 h4
    simp only [ParseTrenLoop, h1, if_true, h2, h3, h4, checkTypes, TypeP.getElementType]
  · intro t
    simp only [checkTypes, TypeP.getElementType]
  · intro e c b wars tab
    exact ⟨rfl, rfl, rfl, rfl⟩

end Old

set_option maxHeartbeats 8000000 in
/-- C37: in both parsers the loop of `ParseAddExpr` reads `rhs->getType()` without
testing `rhs`: when the operand to the right of `+` or `-` gives no node the read is a
null dereference and the function does not return, while the loops of `ParseBoolExpr`
and `ParseTermExpr` test their right operand and return the null pointer.  On `1 + ;`
and `1 - ;` both parsers end in the dereference; on `1 < ;` and `1 * ;` both return
null after the one diagnostic `unknown factor`. -/
theorem add_reads_type_of_missing_operand :
    (∀ (n : Nat) (lhs : Old.Expr) (s x : Old.St),
      ¬(s.CurrTok.tok.code < 33 ∨ s.CurrTok.tok.code > 34) →
      Old.ParseTermExpr n (nextToken s) = .null x →
      Old.ParseAddLoop (n + 1) lhs s = .crash) ∧
    (∀ (n : Nat) (lhs : Cur.Expr) (s x : Cur.St),
      ¬(s.CurrTok.tok.code < 33 ∨ s.CurrTok.tok.code > 34) →
      Cur.ParseTermExpr n (nextToken s) = .null x →
      Cur.ParseAddLoop (n + 1) lhs s = .crash) ∧
    (∀ (n : Nat) (lhs : Old.Expr) (s x : Old.St),
      (¬(s.CurrTok.tok.code < 39 ∨ s.CurrTok.tok.code > 44) →
        Old.ParseAddExpr n (nextToken s) = .null x →
        Old.ParseBoolLoop (n + 1) lhs s = .null x) ∧
      (¬(s.CurrTok.tok.code < 35 ∨ s.CurrTok.tok.code > 36) →
        Old.ParseFactor n (nextToken s) = .null x →
        Old.ParseTermLoop (n + 1) lhs s = .null x)) ∧
    (∀ (n : Nat) (lhs : Cur.Expr) (s x : Cur.St),
      (¬(s.CurrTok.tok.code < 39 ∨ s.CurrTok.tok.code > 44) →
        Cur.ParseAddExpr n (nextToken s) = .null x →
        Cur.ParseBoolLoop (n + 1) lhs s = .null x) ∧
      (¬(s.CurrTok.tok.code < 35 ∨ s.CurrTok.tok.code > 36) →
        Cur.ParseFactor n (nextToken s) = .null x →
        Cur.ParseTermLoop (n + 1) lhs s = .null x)) ∧
    (Old.ParseInput Old.printSym 40 (PState.init plusNothingToks 1)).isCrash = true ∧
    (Cur.ParseInput 40 (PState.init plusNothingToks 1)).isCrash = true ∧
    (Old.ParseInput Old.printSym 40 (PState.init minusNothingToks 1)).isCrash = true ∧
    (Cur.ParseInput 40 (PState.init minusNothingToks 1)).isCrash = true ∧
    (Old.ParseInput Old.printSym 40 (PState.init lessNothingToks 1)).isNull = true ∧
    (Old.ParseInput Old.printSym 40 (PState.init lessNothingToks 1)).log =
      [("unknown factor", 1)] ∧
    (Cur.ParseInput 40 (PState.init lessNothingToks 1)).isNull = true ∧
    (Cur.ParseInput 40 (PState.init lessNothingToks 1)).log = [("unknown factor", 1)] ∧
    (Old.ParseInput Old.printSym 40 (PState.init timesNothingToks 1)).isNull = true ∧
    (Old.ParseInput Old.printSym 40 (PState.init timesNothingToks 1)).log =
      [("unknown factor", 1)] ∧
    (Cur.ParseInput 40 (PState.init timesNothingToks 1)).isNull = true ∧
    (Cur.ParseInput 40 (PState.init timesNothingToks 1)).log = [("unknown factor", 1)] := by
  refine ⟨?_, ?_, ?_, ?_, by decide!, by decide!, by decide!, by decide!, by decide!,
    by decide!, by decide!, by decide!, by decide!, by decide!, by decide!, by decide!⟩
  · intro n lhs s x h1 h2
    simp only [Old.ParseAddLoop, if_neg h1, h2]
  · intro n lhs s x h1 h2
    simp only [Cur.ParseAddLoop, if_neg h1, h2]
  · intro n lhs s x
    refine ⟨?_, ?_⟩
    · intro h1 h2
      simp only [Old.ParseBoolLoop, if_neg h1, h2]
    · intro h1 h2
      simp only [Old.ParseTermLoop, if_neg h1, h2]
  · intro n lhs s x
    refine ⟨?_, ?_⟩
    · intro h1 h2
      simp only [Cur.ParseBoolLoop, if_neg h1, h2]
    · intro h1 h2
      simp only [Cur.ParseTermLoop, if_neg h1, h2]

namespace Old

theorem WarRounds.nil_iff {s s' : St} {decls : List (String × Expr)}
    (h : WarRounds s decls s') : decls = [] ↔ s.CurrTok.tok = .SEMICOL := by
  cases h with
  | done _ hsemi => simp [hsemi]
  | round n _ s1 s2 s3 s4 _ type valu rest hname => simp [hname]

/-- The loop of the old `ParseWarStmt` returns a War node that holds the declarations
it was entered with, followed by one entry for each round it went through. -/
theorem ParseWarLoop_rounds : ∀ (n : Nat) (wars : List (String × Expr)) (s s' : St)
    (node : Stmt), ParseWarLoop n wars s = .ok node s' →
    ∃ new sEnd, WarRounds s new sEnd ∧ node = .WarStmt (wars ++ new) s'.CTable ∧
      s' = nextToken sEnd := by
  intro n
  induction n with
  | zero => intro wars s s' node h; simp [ParseWarLoop] at h
  | succ n ih =>
    intro wars s s' node h
    simp only [ParseWarLoop, LogNull] at h
    by_cases hs : s.CurrTok.tok = .SEMICOL
    · simp only [hs, if_true, Res.ok.injEq] at h
      obtain ⟨h1, h2⟩ := h
      subst h2
      exact ⟨[], s, .done s hs, by rw [List.append_nil]; exact h1.symm, rfl⟩
    · simp only [hs, if_false] at h
      by_cases hid : s.CurrTok.tok = .IDENTIFIER
      swap
      · simp only [ne_eq, hid, not_false_eq_true, if_true] at h
        exact Res.noConfusion h
      simp only [ne_eq, hid, not_true_eq_false, if_false] at h
      by_cases hcol : (nextToken s).CurrTok.tok = .COL
      swap
      · simp only [hcol, not_false_eq_true, if_true] at h
        exact Res.noConfusion h
      simp only [hcol, not_true_eq_false, if_false] at h
      cases hT : ParseType n (nextToken (nextToken s)) with
      | fuel => simp only [hT] at h; exact Res.noConfusion h
      | crash => simp only [hT] at h; exact Res.noConfusion h
      | null s1 => simp only [hT] at h; exact Res.noConfusion h
      | ok type s1 =>
        simp only [hT] at h
        by_cases has : s1.CurrTok.tok = .ASSIGN
        swap
        · simp only [has, not_false_eq_true, if_true] at h
          exact Res.noConfusion h
        simp only [has, not_true_eq_false, if_false] at h
        cases hE : ParseExpression n (nextToken s1) with
        | fuel => simp only [hE] at h; exact Res.noConfusion h
        | crash => simp only [hE] at h; exact Res.noConfusion h
        | null s2 => simp only [hE] at h; exact Res.noConfusion h
        | ok valu s2 =>
          simp only [hE] at h
          cases hC : checkTypes valu.getType type with
          | none => simp only [hC] at h; exact Res.noConfusion h
          | some b =>
            cases b with
            | false => simp only [hC] at h; exact Res.noConfusion h
            | true =>
              simp only [hC] at h
              cases hA : addSym s2 s.CurrTok.word (Symbol.new s.CurrTok.word type .WAR) with
              | none => simp only [hA] at h; exact Res.noConfusion h
              | some s3 =>
                simp only [hA] at h
                by_cases hse : s3.CurrTok.tok = .SEMICOL
                · have hco : ¬ s3.CurrTok.tok = .COMMA := by rw [hse]; decide
                  rw [if_neg (fun c => c.1 hse), if_neg hco] at h
                  obtain ⟨new, sEnd, h1, h2, h3⟩ := ih _ _ _ _ h
                  rw [List.append_assoc, List.singleton_append] at h2
                  exact ⟨_, sEnd, .round n s s1 s2 s3 s3 sEnd type valu new hid hcol hT has
                    hE hC hA (Or.inl ⟨hse, rfl⟩) h1, h2, h3⟩
                · by_cases hco : s3.CurrTok.tok = .COMMA
                  swap
                  · simp only [hse, hco, not_false_eq_true, and_self, if_true] at h
                    exact Res.noConfusion h
                  simp only [hse, hco, not_true_eq_false, and_false, if_false, if_true] at h
                  by_cases hn : (nextToken s3).CurrTok.tok = .SEMICOL
                  · simp only [hn, if_true] at h
                    exact Res.noConfusion h
                  simp only [hn, if_false] at h
                  obtain ⟨new, sEnd, h1, h2, h3⟩ := ih _ _ _ _ h
                  rw [List.append_assoc, List.singleton_append] at h2
                  exact ⟨_, sEnd, .round n s s1 s2 s3 (nextToken s3) sEnd type valu new hid
                    hcol hT has hE hC hA (Or.inr ⟨hco, rfl, hn⟩) h1, h2, h3⟩

end Old

namespace Cur

theorem WarRounds.cur_nil_iff {s s' : St} {decls : List Expr}
    (h : WarRounds s decls s') : decls = [] ↔ s.CurrTok.tok = .SEMICOL := by
  cases h with
  | done _ hsemi => simp [hsemi]
  | round n _ s2 s3 s4 _ valu rest hname => simp [hname]

/-- The loop of the current `ParseWarStmt` returns a War node that holds the
declarations it was entered with, followed by one entry for each round it went
through. -/
theorem cur_ParseWarLoop_rounds : ∀ (n : Nat) (wars : List Expr) (s s' : St)
    (node : Stmt), ParseWarLoop n wars s = .ok node s' →
    ∃ new, WarRounds s new s' ∧ node = .WarStmt (wars ++ new) s'.CTable := by
  intro n
  induction n with
  | zero => intro wars s s' node h; simp [ParseWarLoop] at h
  | succ n ih =>
    intro wars s s' node h
    simp only [ParseWarLoop, LogNull] at h
    by_cases hs : s.CurrTok.tok = .SEMICOL
    · simp only [hs, if_true, Res.ok.injEq] at h
      obtain ⟨h1, h2⟩ := h
      subst h2
      exact ⟨[], .done s hs, by rw [List.append_nil]; exact h1.symm⟩
    · simp only [hs, if_false] at h
      by_cases hid : s.CurrTok.tok = .IDENTIFIER
      swap
      · simp only [ne_eq, hid, not_false_eq_true, if_true] at h
        exact Res.noConfusion h
      simp only [ne_eq, hid, not_true_eq_false, if_false] at h
      by_cases hcol : (nextToken s).CurrTok.tok = .COL
      swap
      · simp only [hcol, not_false_eq_true, if_true] at h
        exact Res.noConfusion h
      simp only [hcol, not_true_eq_false, if_false] at h
      by_cases hty : getDType (nextToken (nextToken s)).CurrTok.tok = .Null
      · simp only [hty, if_true] at h
        exact Res.noConfusion h
      simp only [hty, if_false] at h
      by_cases has : (nextToken (nextToken (nextToken s))).CurrTok.tok = .ASSIGN
      swap
      · simp only [has, not_false_eq_true, if_true] at h
        exact Res.noConfusion h
      simp only [has, not_true_eq_false, if_false] at h
      cases hE : ParseExpression n (nextToken (nextToken (nextToken (nextToken s)))) with
      | fuel => simp only [hE] at h; exact Res.noConfusion h
      | crash => simp only [hE] at h; exact Res.noConfusion h
      | null s2 => simp only [hE] at h; exact Res.noConfusion h
      | ok valu s2 =>
        simp only [hE] at h
        by_cases hC : valu.getType = getDType (nextToken (nextToken s)).CurrTok.tok
        swap
        · simp only [hC, not_false_eq_true, if_true] at h
          exact Res.noConfusion h
        simp only [hC, not_true_eq_false, if_false] at h
        cases hA : addSym s2 s.CurrTok.word (Symbol.new s.CurrTok.word
            (getDType (nextToken (nextToken s)).CurrTok.tok) .WAR) with
        | none => simp only [hA] at h; exact Res.noConfusion h
        | some s3 =>
          simp only [hA] at h
          by_cases hse : s3.CurrTok.tok = .SEMICOL
          · have hco : ¬ s3.CurrTok.tok = .COMMA := by rw [hse]; decide
            rw [if_neg (fun c => c.1 hse), if_neg hco] at h
            obtain ⟨new, h1, h2⟩ := ih _ _ _ _ h
            rw [List.append_assoc, List.singleton_append] at h2
            exact ⟨_, .round n s s2 s3 s3 s' valu new hid hcol hty has hE hC hA
              (Or.inl ⟨hse, rfl⟩) h1, h2⟩
          · by_cases hco : s3.CurrTok.tok = .COMMA
            swap
            · simp only [hse, hco, not_false_eq_true, and_self, if_true] at h
              exact Res.noConfusion h
            simp only [hse, hco, not_true_eq_false, and_false, if_false, if_true] at h
            obtain ⟨new, h1, h2⟩ := ih _ _ _ _ h
            rw [List.append_assoc, List.singleton_append] at h2
            exact ⟨_, .round n s s2 s3 (nextToken s3) s' valu new hid hcol hty has hE hC hA
              (Or.inr ⟨hco, rfl⟩) h1, h2⟩

end Cur

set_option maxHeartbeats 8000000 in
/-- C38, counterexample: both parsers accept `war ;`, without a diagnostic, and return
a War node without a declaration. -/
theorem war_without_declaration_is_accepted :
    (Old.ParseInput Old.printSym 40 (PState.init warNothingToks 1)).val?.map
        (fun inp => inp.stmts.map Old.Stmt.warCount?) = some [some 0] ∧
    (Old.ParseInput Old.printSym 40 (PState.init warNothingToks 1)).log = [] ∧
    (Cur.ParseInput 40 (PState.init warNothingToks 1)).val?.map
        (fun inp => inp.stmts.map Cur.Stmt.warCount?) = some [some 0] ∧
    (Cur.ParseInput 40 (PState.init warNothingToks 1)).log = [] := by
  refine ⟨by decide!, by decide!, by decide!, by decide!⟩

set_option maxHeartbeats 8000000 in
/-- C38, amended: a War node returned by `ParseWarStmt`, in either parser, holds one
entry for each declaration parsed, in their order: the rounds of the loop from the
token after `war` up to the `;` that ends it (`WarRounds`) give the list of the node,
each round one entry with the name and the initializer it parsed.  The list is empty
exactly when the token after `war` is `;`, and has at least one entry otherwise; on
`war ;` both functions return the War node without declarations, from every state, and
on `war x : int = 1, y : int = 2;` the node holds the two declarations `x` and `y`. -/
theorem war_node_holds_one_entry_per_round :
    (∀ (n : Nat) (s s' : Old.St) (node : Old.Stmt), Old.ParseWarStmt n s = .ok node s' →
      ∃ wars tab, node = .WarStmt wars tab ∧
        (wars = [] ↔ (nextToken s).CurrTok.tok = .SEMICOL) ∧
        ∃ sEnd, Old.WarRounds (nextToken s) wars sEnd ∧ s' = nextToken sEnd ∧
          tab = s'.CTable) ∧
    (∀ (n : Nat) (s s' : Cur.St) (node : Cur.Stmt), Cur.ParseWarStmt n s = .ok node s' →
      ∃ wars tab, node = .WarStmt wars tab ∧
        (wars = [] ↔ (nextToken s).CurrTok.tok = .SEMICOL) ∧
        Cur.WarRounds (nextToken s) wars s' ∧ tab = s'.CTable) ∧
    (∀ (n : Nat) (s : Old.St), (nextToken s).CurrTok.tok = .SEMICOL →
      Old.ParseWarStmt (n + 2) s = .ok (.WarStmt [] s.CTable) (nextToken (nextToken s))) ∧
    (∀ (n : Nat) (s : Cur.St), (nextToken s).CurrTok.tok = .SEMICOL →
      Cur.ParseWarStmt (n + 2) s = .ok (.WarStmt [] s.CTable) (nextToken s)) ∧
    (Old.ParseInput Old.printSym 40 (PState.init warTwoToks 1)).val?.map
        (fun inp => inp.stmts.map Old.Stmt.warDecls?) =
      some [some [("x", some 1), ("y", some 2)]] ∧
    (Cur.ParseInput 40 (PState.init warTwoToks 1)).val?.map
        (fun inp => inp.stmts.map Cur.Stmt.warDecls?) =
      some [some [(some "x", some 1), (some "y", some 2)]] := by
  refine ⟨?_, ?_, ?_, ?_, by decide!, by decide!⟩
  · intro n s s' node h
    cases n with
    | zero => simp [Old.ParseWarStmt] at h
    | succ n =>
      simp only [Old.ParseWarStmt] at h
      obtain ⟨new, sEnd, h1, h2, h3⟩ := Old.ParseWarLoop_rounds _ _ _ _ _ h
      rw [List.nil_append] at h2
      exact ⟨new, _, h2, h1.nil_iff, sEnd, h1, h3, rfl⟩
  · intro n s s' node h
    cases n with
    | zero => simp [Cur.ParseWarStmt] at h
    | succ n =>
      simp only [Cur.ParseWarStmt] at h
      obtain ⟨new, h1, h2⟩ := Cur.cur_ParseWarLoop_rounds _ _ _ _ _ h
      rw [List.nil_append] at h2
      exact ⟨new, _, h2, h1.cur_nil_iff, h1, rfl⟩
  · intro n s h
    have e1 : (nextToken (nextToken s)).CTable = s.CTable := by
      simp only [nextToken]; repeat' split
      all_goals rfl
    simp only [Old.ParseWarStmt, Old.ParseWarLoop, h, if_true, e1]
  · intro n s h
    have e1 : (nextToken s).CTable = s.CTable := by
      simp only [nextToken]; split <;> rfl
    simp only [Cur.ParseWarStmt, Cur.ParseWarLoop, h, if_true, e1]

namespace Old

/-- On two non-null types `checkTypes` is its loop followed by the comparison of the
two words. -/
theorem checkTypes_eq_loop (X Y : TypeP) (hX : X.isNull = false) (hY : Y.isNull = false) :
    checkTypes X Y = afterLoop (checkTypesLoop X Y) := by
  cases X with
  | null => simp [TypeP.isNull] at hX
  | IntType =>
    cases Y with
    | null => simp [TypeP.isNull] at hY
    | IntType => simp [checkTypes, checkTypesLoop, afterLoop, TypeP.getElementType,
        TypeP.isNull, TypeP.get]
    | ArrayType e2 => simp [checkTypes, checkTypesLoop, afterLoop, TypeP.getElementType,
        TypeP.isNull, TypeP.get]
  | ArrayType e1 =>
    cases Y with
    | null => simp [TypeP.isNull] at hY
    | IntType =>
      cases h1 : e1.isNull <;>
        simp [checkTypes, checkTypesLoop, afterLoop, TypeP.getElementType, TypeP.isNull,
          TypeP.get, h1]
    | ArrayType e2 =>
      cases h1 : e1.isNull <;> cases h2 : e2.isNull <;>
        simp [checkTypes, checkTypesLoop, afterLoop, TypeP.getElementType, TypeP.get, h1, h2]

theorem TypeP.Producible.not_null {T : TypeP} (h : T.Producible) : T.isNull = false := by
  cases T <;> simp_all [TypeP.Producible, TypeP.isNull]

/-- The loop of `checkTypes` and the comparison after it are transitive through a
well-formed type. -/
theorem checkTypesLoop_trans (B : TypeP) : B.WellFormed → ∀ A C : TypeP,
    A.Producible → C.Producible →
    afterLoop (checkTypesLoop A B) = some true → afterLoop (checkTypesLoop B C) = some true →
    afterLoop (checkTypesLoop A C) = some true := by
  induction B with
  | null => intro h; exact absurd h (by simp [TypeP.WellFormed])
  | IntType =>
    intro _ A C hA hC h1 h2
    cases A with
    | null => exact absurd hA (by simp [TypeP.Producible])
    | ArrayType a => simp [checkTypesLoop, afterLoop, TypeP.get] at h1
    | IntType =>
      cases C with
      | null => exact absurd hC (by simp [TypeP.Producible])
      | ArrayType c => simp [checkTypesLoop, afterLoop, TypeP.get] at h2
      | IntType => simp [checkTypesLoop, afterLoop, TypeP.get]
  | ArrayType b ih =>
    intro hB A C hA hC h1 h2
    have wb : b.WellFormed := hB
    have nb := wb.isNull_false
    cases A with
    | null => exact absurd hA (by simp [TypeP.Producible])
    | IntType => simp [checkTypesLoop, afterLoop, TypeP.get] at h1
    | ArrayType a =>
      cases C with
      | null => exact absurd hC (by simp [TypeP.Producible])
      | IntType => simp [checkTypesLoop, afterLoop, TypeP.get] at h2
      | ArrayType c =>
        cases ha : a.isNull with
        | true => simp [checkTypesLoop, afterLoop, TypeP.get, ha]
        | false =>
          cases hc : c.isNull with
          | true => simp [checkTypesLoop, afterLoop, TypeP.get, ha, hc]
          | false =>
            have pa : a.Producible := by
              rcases hA with h | h
              · rw [ha] at h; cases h
              · exact h
            have pc : c.Producible := by
              rcases hC with h | h
              · rw [hc] at h; cases h
              · exact h
            simp only [checkTypesLoop, ha, nb, hc, Bool.not_false, Bool.and_self,
              if_true] at h1 h2 ⊢
            exact ih wb a c pa pc h1 h2

/-- C39, counterexample: Array of Int is compatible with the type of `[]`, and the type
of `[]` with Array of Array of Int, but Array of Int is not compatible with Array of
Array of Int. -/
theorem checkTypes_not_transitive_through_empty_array :
    checkTypes (.ArrayType .IntType) (.ArrayType .null) = some true ∧
    checkTypes (.ArrayType .null) (.ArrayType (.ArrayType .IntType)) = some true ∧
    checkTypes (.ArrayType .IntType) (.ArrayType (.ArrayType .IntType)) = some false ∧
    (TypeP.ArrayType .IntType).Producible ∧ (TypeP.ArrayType .null).Producible ∧
    (TypeP.ArrayType (.ArrayType .IntType)).Producible := by
  refine ⟨by decide, by decide, by decide, ?_, ?_, ?_⟩ <;>
    simp [TypeP.Producible, TypeP.isNull]

/-- C39, amended: on the types the old parser can produce, `checkTypes` is transitive
through every middle type that is well-formed, that is Int or arrays of Int with every
element type present: whenever `checkTypes(A, B)` and `checkTypes(B, C)` hold for such
a `B`, `checkTypes(A, C)` holds. -/
theorem checkTypes_transitive_through_wellFormed (A B C : TypeP) (hA : A.Producible)
    (hB : B.WellFormed) (hC : C.Producible) (h1 : checkTypes A B = some true)
    (h2 : checkTypes B C = some true) : checkTypes A C = some true := by
  rw [checkTypes_eq_loop A B hA.not_null hB.isNull_false] at h1
  rw [checkTypes_eq_loop B C hB.isNull_false hC.not_null] at h2
  rw [checkTypes_eq_loop A C hA.not_null hC.not_null]
  exact checkTypesLoop_trans B hB A C hA hC h1 h2

theorem checkTypes_transitive_through_wellFormed_witness :
    checkTypes (.ArrayType .null) (.ArrayType (.ArrayType .null)) = some true :=
  checkTypes_transitive_through_wellFormed (.ArrayType .null)
    (.ArrayType (.ArrayType .IntType)) (.ArrayType (.ArrayType .null))
    (by simp [TypeP.Producible, TypeP.isNull]) (by simp [TypeP.WellFormed])
    (by simp [TypeP.Producible, TypeP.isNull]) (by decide) (by decide)

end Old

theorem left_nextToken_le {σ : Type} (s : PState σ) : (nextToken s).left ≤ s.left := by
  obtain ⟨toks, eofLine, CurrTok, heap, CTable, log⟩ := s
  cases toks with
  | nil => simp [PState.left, nextToken]
  | cons t ts =>
    simp only [PState.left, nextToken, List.length_cons]
    split <;> split <;> omega

theorem left_nextToken {σ : Type} (s : PState σ) : (nextToken s).left = s.left - s.step := by
  have := left_nextToken_le s
  simp only [PState.step]
  omega

theorem step_le {σ : Type} (s : PState σ) : s.step ≤ s.left := by
  simp only [PState.step]
  omega

/-- A call of `nextToken` on a current token other than `EOFILE` consumes a token. -/
theorem step_pos_code {σ : Type} (s : PState σ) :
    s.CurrTok.tok.code = 46 ∨ 1 ≤ s.step := by
  by_cases h : s.CurrTok.tok = .EOFILE
  · left; rw [h]; rfl
  · right
    obtain ⟨toks, eofLine, CurrTok, heap, CTable, log⟩ := s
    cases toks with
    | nil => simp [PState.step, PState.left, nextToken, h]
    | cons t ts =>
      simp only [PState.step, PState.left, nextToken, List.length_cons]
      simp only at h
      simp only [h, if_false]
      split <;> omega

theorem left_nextTable {σ : Type} (s : PState σ) : (nextTable s).left = s.left := rfl

theorem step_nextTable {σ : Type} (s : PState σ) : (nextTable s).step = s.step := by
  obtain ⟨toks, eofLine, CurrTok, heap, CTable, log⟩ := s
  cases toks <;> rfl

theorem left_LogError {σ : Type} (msg : String) (s : PState σ) :
    (LogError msg s).left = s.left := rfl

theorem addSym_left {σ : Type} {s s' : PState σ} {name : String} {sym : σ}
    (h : addSym s name sym = some s') : s'.left = s.left ∧ s'.step = s.step := by
  simp only [addSym] at h
  split at h
  · cases h
  · cases h
    obtain ⟨toks, eofLine, CurrTok, heap, CTable, log⟩ := s
    cases toks <;> exact ⟨rfl, rfl⟩

theorem prevTable_left {σ : Type} {s s' : PState σ} (h : prevTable s = some s') :
    s'.left = s.left ∧ s'.step = s.step := by
  simp only [prevTable] at h
  repeat' split at h
  all_goals first
    | (cases h
       obtain ⟨toks, eofLine, CurrTok, heap, CTable, log⟩ := s
       cases toks <;> exact ⟨rfl, rfl⟩)
    | cases h

theorem step_pos_of_eq {σ : Type} {s : PState σ} {t : lexeme} (h : s.CurrTok.tok = t) :
    t.code = 46 ∨ 1 ≤ s.step := by
  have := step_pos_code s
  rw [h] at this
  exact this

namespace Old

set_option maxHeartbeats 16000000 in
/-- Every expression function of the old parser that returns a node has consumed a
token; a loop entered with a left operand has not given one back. -/
theorem expr_consumes_all : ∀ n : Nat,
    (∀ (s : St) (v : Expr) (s' : St), ParseExpression n s = .ok v s' → s'.left + 1 ≤ s.left) ∧
    (∀ (s : St) (v : Expr) (s' : St), ParseBoolExpr n s = .ok v s' → s'.left + 1 ≤ s.left) ∧
    (∀ lhs (s : St) (v : Expr) (s' : St), ParseBoolLoop n lhs s = .ok v s' →
      s'.left ≤ s.left) ∧
    (∀ (s : St) (v : Expr) (s' : St), ParseAddExpr n s = .ok v s' → s'.left + 1 ≤ s.left) ∧
    (∀ lhs (s : St) (v : Expr) (s' : St), ParseAddLoop n lhs s = .ok v s' →
      s'.left ≤ s.left) ∧
    (∀ (s : St) (v : Expr) (s' : St), ParseTermExpr n s = .ok v s' → s'.left + 1 ≤ s.left) ∧
    (∀ lhs (s : St) (v : Expr) (s' : St), ParseTermLoop n lhs s = .ok v s' →
      s'.left ≤ s.left) ∧
    (∀ (s : St) (v : Expr) (s' : St), ParseFactor n s = .ok v s' → s'.left + 1 ≤ s.left) ∧
    (∀ elemType arr_elems (s : St) (v : Expr) (s' : St),
      ParseArrayLoop n elemType arr_elems s = .ok v s' → s'.left ≤ s.left) ∧
    (∀ elemType arr_elems (s : St) (v : Expr) (s' : St),
      ParseArrayTail n elemType arr_elems s = .ok v s' → s'.left ≤ s.left) ∧
    (∀ name sym Idx args (s : St) (v : Expr) (s' : St),
      ParseCallLoop n name sym Idx args s = .ok v s' → s'.left ≤ s.left) := by
  intro n
  induction n with
  | zero =>
    refine ⟨?_, ?_, ?_, ?_, ?_, ?_, ?_, ?_, ?_, ?_, ?_⟩ <;> intros <;> rename_i h <;>
      simp only [ParseExpression, ParseBoolExpr, ParseBoolLoop, ParseAddExpr, ParseAddLoop,
        ParseTermExpr, ParseTermLoop, ParseFactor, ParseArrayLoop, ParseArrayTail,
        ParseCallLoop] at h <;> cases h
  | succ n ih =>
    obtain ⟨ihE, ihB, ihBL, ihA, ihAL, ihT, ihTL, ihF, ihArr, ihArrT, ihC⟩ := ih
    refine ⟨?_, ?_, ?_, ?_, ?_, ?_, ?_, ?_, ?_, ?_, ?_⟩ <;> intros <;> rename_i s v s' h <;>
      simp only [ParseExpression, ParseBoolExpr, ParseBoolLoop, ParseAddExpr, ParseAddLoop,
        ParseTermExpr, ParseTermLoop, ParseFactor, ParseArrayLoop, ParseArrayTail,
        ParseCallLoop, LogNull] at h <;> repeat' split at h
    all_goals first
      | exact Res.noConfusion h
      | (have p0 := step_pos_code s
         have q0 := step_le s
         (try have c0 := step_pos_of_eq ‹s.CurrTok.tok = _›)
         (try simp only [lexeme.code] at c0)
         (try have hE := ihE _ _ _ ‹ParseExpression n _ = Res.ok _ _›)
         (try have hB := ihB _ _ _ ‹ParseBoolExpr n _ = Res.ok _ _›)
         (try have hA := ihA _ _ _ ‹ParseAddExpr n _ = Res.ok _ _›)
         (try have hT := ihT _ _ _ ‹ParseTermExpr n _ = Res.ok _ _›)
         (try have hF := ihF _ _ _ ‹ParseFactor n _ = Res.ok _ _›)
         (try have h2 := ihBL _ _ _ _ h)
         (try have h2 := ihAL _ _ _ _ h)
         (try have h2 := ihTL _ _ _ _ h)
         (try have h2 := ihArr _ _ _ _ _ h)
         (try have h2 := ihArrT _ _ _ _ _ h)
         (try have h2 := ihC _ _ _ _ _ _ _ h)
         (try cases h)
         simp only [left_nextToken] at *
         omega)

end Old

namespace Old

theorem getDType_step {s : St} (h : getDType s.CurrTok.tok ≠ .Null) : 1 ≤ s.step := by
  rcases step_pos_code s with h1 | h1
  · exfalso
    apply h
    have : s.CurrTok.tok = .EOFILE := by
      cases ht : s.CurrTok.tok <;> rw [ht] at h1 <;> simp [lexeme.code] at h1
    rw [this]
    rfl
  · exact h1

theorem getDType_step_of_eq {s : St} {w : TypeWord} (h : getDType s.CurrTok.tok = w) :
    w = .Null ∨ 1 ≤ s.step := by
  by_cases hw : w = .Null
  · exact Or.inl hw
  · exact Or.inr (getDType_step (by rw [h]; exact hw))

set_option maxHeartbeats 16000000 in
/-- The old `ParseType` consumes a token when it returns a type and gives none back
when it returns null. -/
theorem ParseType_consumes : ∀ n : Nat,
    (∀ (s : St) (v : TypeP) (s' : St), ParseType n s = .ok v s' → s'.left + 1 ≤ s.left) ∧
    (∀ (s : St) (s' : St), ParseType n s = .null s' → s'.left ≤ s.left) := by
  intro n
  induction n with
  | zero =>
    refine ⟨?_, ?_⟩ <;> intros <;> rename_i h <;> simp only [ParseType] at h <;> cases h
  | succ n ih =>
    obtain ⟨ihOk, ihNull⟩ := ih
    refine ⟨?_, ?_⟩
    · intro s v s' h
      simp only [ParseType, LogNull] at h
      repeat' split at h
      all_goals first
        | exact Res.noConfusion h
        | (have q0 := step_le s
           (try have c1 := getDType_step_of_eq ‹getDType s.CurrTok.tok = _›)
           (try simp at c1)
           (try have hO := ihOk _ _ _ ‹ParseType n _ = Res.ok _ _›)
           (try have hN := ihNull _ _ ‹ParseType n _ = Res.null _›)
           (try cases h)
           simp only [left_nextToken, left_LogError] at *
           omega)
    · intro s s' h
      simp only [ParseType, LogNull] at h
      repeat' split at h
      all_goals first
        | exact Res.noConfusion h
        | (have q0 := step_le s
           (try have hO := ihOk _ _ _ ‹ParseType n _ = Res.ok _ _›)
           (try have hN := ihNull _ _ ‹ParseType n _ = Res.null _›)
           (try cases h)
           simp only [left_nextToken, left_LogError] at *
           omega)

end Old

namespace Old

set_option maxHeartbeats 16000000 in
/-- Every statement function of the old parser that returns a node has consumed a
token. -/
theorem stmt_consumes_all : ∀ n : Nat,
    (∀ (s : St) (v : Stmt) (s' : St), ParseStatement n s = .ok v s' → s'.left + 1 ≤ s.left) ∧
    (∀ (s : St) (v : Stmt) (s' : St), ParseIfStmt n s = .ok v s' → s'.left + 1 ≤ s.left) ∧
    (∀ (s : St) (v : Stmt) (s' : St), ParseAliveStmt n s = .ok v s' → s'.left + 1 ≤ s.left) ∧
    (∀ (s : St) (v : Stmt) (s' : St), ParseWarStmt n s = .ok v s' → s'.left + 1 ≤ s.left) ∧
    (∀ wars (s : St) (v : Stmt) (s' : St), ParseWarLoop n wars s = .ok v s' →
      s'.left + 1 ≤ s.left) ∧
    (∀ (s : St) (v : Stmt) (s' : St), ParseTrenStmt n s = .ok v s' → s'.left + 1 ≤ s.left) ∧
    (∀ fn ft tab args ats (s : St) (v : Stmt) (s' : St),
      ParseTrenLoop n fn ft tab args ats s = .ok v s' → s'.left + 1 ≤ s.left) ∧
    (∀ (s : St) (v : Stmt) (s' : St), ParseHighExpr n s = .ok v s' → s'.left + 1 ≤ s.left) ∧
    (∀ (s : St) (v : Stmt) (s' : St), ParseParenStmts n s = .ok v s' → s'.left + 1 ≤ s.left) ∧
    (∀ stmts rt (s : St) (v : Stmt) (s' : St), ParseParenLoop n stmts rt s = .ok v s' →
      s'.left + 1 ≤ s.left) ∧
    (∀ (s : St) (v : Stmt) (s' : St), ParseRetStmt n s = .ok v s' → s'.left + 1 ≤ s.left) := by
  intro n
  induction n with
  | zero =>
    refine ⟨?_, ?_, ?_, ?_, ?_, ?_, ?_, ?_, ?_, ?_, ?_⟩ <;> intros <;> rename_i h <;>
      simp only [ParseStatement, ParseIfStmt, ParseAliveStmt, ParseWarStmt, ParseWarLoop,
        ParseTrenStmt, ParseTrenLoop, ParseHighExpr, ParseParenStmts, ParseParenLoop,
        ParseRetStmt] at h <;> cases h
  | succ n ih =>
    obtain ⟨ihS, ihIf, ihAl, ihW, ihWL, ihT, ihTL, ihH, ihP, ihPL, ihR⟩ := ih
    refine ⟨?_, ?_, ?_, ?_, ?_, ?_, ?_, ?_, ?_, ?_, ?_⟩
    · intro s v s' h
      simp only [ParseStatement, LogNull] at h
      split at h
      · exact ihIf _ _ _ h
      · exact ihW _ _ _ h
      · exact ihT _ _ _ h
      · exact ihAl _ _ _ h
      · exact ihR _ _ _ h
      · exact ihP _ _ _ h
      · cases h
      · exact ihH _ _ _ h
    all_goals
      intros
      rename_i s v s' h
      simp only [ParseIfStmt, ParseAliveStmt, ParseWarStmt, ParseWarLoop,
        ParseTrenStmt, ParseTrenLoop, ParseHighExpr, ParseParenStmts, ParseParenLoop,
        ParseRetStmt, LogNull] at h
      repeat' split at h
    all_goals first
      | exact Res.noConfusion h
      | (have q0 := step_le s
         (try have c0 := step_pos_of_eq ‹s.CurrTok.tok = _›)
         (try simp only [lexeme.code] at c0)
         (try have hE := (expr_consumes_all n).1 _ _ _ ‹ParseExpression n _ = Res.ok _ _›)
         (try have hTy := (ParseType_consumes n).1 _ _ _ ‹ParseType n _ = Res.ok _ _›)
         (try have hS := ihS _ _ _ ‹ParseStatement n _ = Res.ok _ _›)
         (try have hAdd := addSym_left ‹addSym _ _ _ = some _›)
         (try have hPrev := prevTable_left ‹prevTable _ = some _›)
         (try have h2 := ihWL _ _ _ _ h)
         (try have h2 := ihTL _ _ _ _ _ _ _ _ h)
         (try have h2 := ihPL _ _ _ _ _ h)
         (try cases h)
         (try simp only [left_nextToken, left_nextTable, step_nextTable, left_LogError] at *)
         omega)

/-- The loop of the old `ParseInput` gives no token back. -/
theorem ParseInputLoop_consumes : ∀ (n : Nat) (stmts : List Stmt) (s : St) (v : Input)
    (s' : St), ParseInputLoop n stmts s = .ok v s' → s'.left ≤ s.left := by
  intro n
  induction n with
  | zero => intro stmts s v s' h; simp [ParseInputLoop] at h
  | succ n ih =>
    intro stmts s v s' h
    simp only [ParseInputLoop] at h
    repeat' split at h
    all_goals first
      | exact Res.noConfusion h
      | (cases h
         exact Nat.le_refl _)
      | (have hS := (stmt_consumes_all n).1 _ _ _ ‹ParseStatement n _ = Res.ok _ _›
         have h2 := ih _ _ _ _ h
         omega)

end Old

namespace Old

set_option maxHeartbeats 16000000 in
/-- The fuel that the expression functions of the old parser need is bounded by the
number of tokens left: with more than ten units for each token left, and a few for the
nesting of the functions, no call runs out of fuel. -/
theorem expr_fuel_all : ∀ n : Nat,
    (∀ (s : St), 4 + 10 * s.left < n → ParseExpression n s ≠ .fuel) ∧
    (∀ (s : St), 3 + 10 * s.left < n → ParseBoolExpr n s ≠ .fuel) ∧
    (∀ lhs (s : St), 3 + 10 * s.left < n → ParseBoolLoop n lhs s ≠ .fuel) ∧
    (∀ (s : St), 2 + 10 * s.left < n → ParseAddExpr n s ≠ .fuel) ∧
    (∀ lhs (s : St), 2 + 10 * s.left < n → ParseAddLoop n lhs s ≠ .fuel) ∧
    (∀ (s : St), 1 + 10 * s.left < n → ParseTermExpr n s ≠ .fuel) ∧
    (∀ lhs (s : St), 1 + 10 * s.left < n → ParseTermLoop n lhs s ≠ .fuel) ∧
    (∀ (s : St), 0 + 10 * s.left < n → ParseFactor n s ≠ .fuel) ∧
    (∀ elemType arr_elems (s : St), 5 + 10 * s.left < n →
      ParseArrayLoop n elemType arr_elems s ≠ .fuel) ∧
    (∀ elemType arr_elems (s : St), 6 + 10 * s.left < n →
      ParseArrayTail n elemType arr_elems s ≠ .fuel) ∧
    (∀ name sym Idx args (s : St), 5 + 10 * s.left < n →
      ParseCallLoop n name sym Idx args s ≠ .fuel) := by
  intro n
  induction n with
  | zero =>
    refine ⟨?_, ?_, ?_, ?_, ?_, ?_, ?_, ?_, ?_, ?_, ?_⟩ <;> intros <;> rename_i hb <;>
      exact absurd hb (Nat.not_lt_zero _)
  | succ n ih =>
    obtain ⟨ihE, ihB, ihBL, ihA, ihAL, ihT, ihTL, ihF, ihArr, ihArrT, ihC⟩ := ih
    have cE := (expr_consumes_all n).1
    have cB := (expr_consumes_all n).2.1
    have cA := (expr_consumes_all n).2.2.2.1
    have cT := (expr_consumes_all n).2.2.2.2.2.1
    have cF := (expr_consumes_all n).2.2.2.2.2.2.2.1
    refine ⟨?_, ?_, ?_, ?_, ?_, ?_, ?_, ?_, ?_, ?_, ?_⟩ <;> intros <;> intro h <;>
      rename_i s hb <;>
      simp only [ParseExpression, ParseBoolExpr, ParseBoolLoop, ParseAddExpr, ParseAddLoop,
        ParseTermExpr, ParseTermLoop, ParseFactor, ParseArrayLoop, ParseArrayTail,
        ParseCallLoop, LogNull] at h <;> repeat' split at h
    all_goals first
      | exact Res.noConfusion h
      | (have q0 := step_le s
         (try have c0 := step_pos_of_eq ‹s.CurrTok.tok = _›)
         (try simp only [lexeme.code] at c0)
         (try have hE := cE _ _ _ ‹ParseExpression n _ = Res.ok _ _›)
         (try have hB := cB _ _ _ ‹ParseBoolExpr n _ = Res.ok _ _›)
         (try have hA := cA _ _ _ ‹ParseAddExpr n _ = Res.ok _ _›)
         (try have hT := cT _ _ _ ‹ParseTermExpr n _ = Res.ok _ _›)
         (try have hF := cF _ _ _ ‹ParseFactor n _ = Res.ok _ _›)
         clear cE cB cA cT cF
         (try simp only [left_nextToken] at *)
         first
         | (refine absurd ‹ParseExpression n _ = Res.fuel› (ihE _ ?_)
            (try simp only [left_nextToken])
            omega)
         | (refine absurd ‹ParseBoolExpr n _ = Res.fuel› (ihB _ ?_)
            omega)
         | (refine absurd ‹ParseAddExpr n _ = Res.fuel› (ihA _ ?_)
            (try simp only [left_nextToken])
            omega)
         | (refine absurd ‹ParseTermExpr n _ = Res.fuel› (ihT _ ?_)
            (try simp only [left_nextToken])
            omega)
         | (refine absurd ‹ParseFactor n _ = Res.fuel› (ihF _ ?_)
            (try simp only [left_nextToken])
            omega)
         | (refine ihBL _ _ ?_ h
            omega)
         | (refine ihAL _ _ ?_ h
            omega)
         | (refine ihTL _ _ ?_ h
            omega)
         | (refine ihArr _ _ _ ?_ h
            (try simp only [left_nextToken])
            omega)
         | (refine ihArrT _ _ _ ?_ h
            omega)
         | (refine ihC _ _ _ _ _ ?_ h
            (try simp only [left_nextToken])
            omega))

end Old

namespace Old

set_option maxHeartbeats 16000000 in
/-- The old `ParseType` does not run out of fuel when it has more than ten units for
each token left. -/
theorem ParseType_fuel : ∀ (n : Nat) (s : St), 0 + 10 * s.left < n → ParseType n s ≠ .fuel := by
  intro n
  induction n with
  | zero => intro s hb; exact absurd hb (Nat.not_lt_zero _)
  | succ n ih =>
    intro s hb h
    simp only [ParseType, LogNull] at h
    repeat' split at h
    all_goals first
      | exact Res.noConfusion h
      | (have q0 := step_le s
         have c1 := getDType_step_of_eq ‹getDType s.CurrTok.tok = _›
         simp at c1
         refine absurd ‹ParseType n _ = Res.fuel› (ih _ ?_)
         simp only [left_nextToken]
         omega)

set_option maxHeartbeats 16000000 in
/-- The fuel that the statement functions of the old parser need is bounded by the
number of tokens left. -/
theorem stmt_fuel_all : ∀ n : Nat,
    (∀ (s : St), 6 + 10 * s.left < n → ParseStatement n s ≠ .fuel) ∧
    (∀ (s : St), 5 + 10 * s.left < n → ParseIfStmt n s ≠ .fuel) ∧
    (∀ (s : St), 5 + 10 * s.left < n → ParseAliveStmt n s ≠ .fuel) ∧
    (∀ (s : St), 2 + 10 * s.left < n → ParseWarStmt n s ≠ .fuel) ∧
    (∀ wars (s : St), 1 + 10 * s.left < n → ParseWarLoop n wars s ≠ .fuel) ∧
    (∀ (s : St), 1 + 10 * s.left < n → ParseTrenStmt n s ≠ .fuel) ∧
    (∀ fn ft tab args ats (s : St), 1 + 10 * s.left < n →
      ParseTrenLoop n fn ft tab args ats s ≠ .fuel) ∧
    (∀ (s : St), 5 + 10 * s.left < n → ParseHighExpr n s ≠ .fuel) ∧
    (∀ (s : St), s.CurrTok.tok = .LBRA → 0 + 10 * s.left < n → ParseParenStmts n s ≠ .fuel) ∧
    (∀ stmts rt (s : St), 7 + 10 * s.left < n → ParseParenLoop n stmts rt s ≠ .fuel) ∧
    (∀ (s : St), 5 + 10 * s.left < n → ParseRetStmt n s ≠ .fuel) := by
  intro n
  induction n with
  | zero =>
    refine ⟨?_, ?_, ?_, ?_, ?_, ?_, ?_, ?_, ?_, ?_, ?_⟩ <;> intros <;> rename_i hb <;>
      exact absurd hb (Nat.not_lt_zero _)
  | succ n ih =>
    obtain ⟨ihS, ihIf, ihAl, ihW, ihWL, ihT, ihTL, ihH, ihP, ihPL, ihR⟩ := ih
    have cE := (expr_consumes_all n).1
    have cTy := (ParseType_consumes n).1
    have cS := (stmt_consumes_all n).1
    have fE := (expr_fuel_all n).1
    have fTy := ParseType_fuel n
    refine ⟨?st, ?_, ?_, ?_, ?_, ?_, ?_, ?_, ?ps, ?_, ?_⟩
    case st =>
      intro s hb h
      simp only [ParseStatement, LogNull] at h
      split at h
      · exact ihIf _ (by omega) h
      · exact ihW _ (by omega) h
      · exact ihT _ (by omega) h
      · exact ihAl _ (by omega) h
      · exact ihR _ (by omega) h
      · exact ihP _ ‹s.CurrTok.tok = lexeme.LBRA› (by omega) h
      · cases h
      · exact ihH _ (by omega) h
    case ps =>
      intro s hL hb h
      simp only [ParseParenStmts] at h
      have c0 := step_pos_of_eq hL
      simp only [lexeme.code] at c0
      have q0 := step_le s
      refine ihPL _ _ _ ?_ h
      simp only [left_nextToken, left_nextTable, step_nextTable]
      omega
    all_goals
      intros
      intro h
      rename_i s hb
      simp only [ParseIfStmt, ParseAliveStmt, ParseWarStmt, ParseWarLoop,
        ParseTrenStmt, ParseTrenLoop, ParseHighExpr, ParseParenLoop,
        ParseRetStmt, LogNull] at h
      repeat' split at h
    all_goals first
      | exact Res.noConfusion h
      | (have q0 := step_le s
         (try have c0 := step_pos_of_eq ‹s.CurrTok.tok = _›)
         (try simp only [lexeme.code] at c0)
         (try have hE := cE _ _ _ ‹ParseExpression n _ = Res.ok _ _›)
         (try have hTy := cTy _ _ _ ‹ParseType n _ = Res.ok _ _›)
         (try have hS := cS _ _ _ ‹ParseStatement n _ = Res.ok _ _›)
         (try have hAdd := addSym_left ‹addSym _ _ _ = some _›)
         clear cE cTy cS
         (try simp only [left_nextToken, left_nextTable, step_nextTable] at *)
         first
         | (refine absurd ‹ParseExpression n _ = Res.fuel› (fE _ ?_)
            (try simp only [left_nextToken, left_nextTable, step_nextTable])
            omega)
         | (refine absurd ‹ParseType n _ = Res.fuel› (fTy _ ?_)
            (try simp only [left_nextToken, left_nextTable, step_nextTable])
            omega)
         | (refine absurd ‹ParseStatement n _ = Res.fuel› (ihS _ ?_)
            (try simp only [left_nextToken, left_nextTable, step_nextTable])
            omega)
         | (refine ihWL _ _ ?_ h
            (try simp only [left_nextToken, left_nextTable, step_nextTable])
            omega)
         | (refine ihTL _ _ _ _ _ _ ?_ h
            (try simp only [left_nextToken, left_nextTable, step_nextTable])
            omega)
         | (refine ihPL _ _ _ ?_ h
            omega))

set_option maxHeartbeats 16000000 in
/-- The loop of the old `ParseInput` does not run out of fuel when it has more than
ten units for each token left. -/
theorem ParseInputLoop_fuel : ∀ (n : Nat) (stmts : List Stmt) (s : St),
    7 + 10 * s.left < n → ParseInputLoop n stmts s ≠ .fuel := by
  intro n
  induction n with
  | zero => intro stmts s hb; exact absurd hb (Nat.not_lt_zero _)
  | succ n ih =>
    intro stmts s hb h
    simp only [ParseInputLoop] at h
    repeat' split at h
    all_goals first
      | exact Res.noConfusion h
      | exact absurd ‹ParseStatement n _ = Res.fuel› ((stmt_fuel_all n).1 _ (by omega))
      | (have hS := (stmt_consumes_all n).1 _ _ _ ‹ParseStatement n _ = Res.ok _ _›
         exact ih _ _ (by omega) h)

end Old

namespace Cur

theorem cur_getDType_step {s : St} (h : ¬getDType s.CurrTok.tok = .Null) : 1 ≤ s.step := by
  rcases step_pos_code s with h1 | h1
  · exfalso
    apply h
    have : s.CurrTok.tok = .EOFILE := by
      cases ht : s.CurrTok.tok <;> rw [ht] at h1 <;> simp [lexeme.code] at h1
    rw [this]
    rfl
  · exact h1

set_option maxHeartbeats 16000000 in
/-- Every expression function of the current parser that returns a node has consumed a
token; a loop entered with a left operand has not given one back. -/
theorem cur_expr_consumes_all : ∀ n : Nat,
    (∀ (s : St) (v : Expr) (s' : St), ParseExpression n s = .ok v s' → s'.left + 1 ≤ s.left) ∧
    (∀ (s : St) (v : Expr) (s' : St), ParseBoolExpr n s = .ok v s' → s'.left + 1 ≤ s.left) ∧
    (∀ lhs (s : St) (v : Expr) (s' : St), ParseBoolLoop n lhs s = .ok v s' →
      s'.left ≤ s.left) ∧
    (∀ (s : St) (v : Expr) (s' : St), ParseAddExpr n s = .ok v s' → s'.left + 1 ≤ s.left) ∧
    (∀ lhs (s : St) (v : Expr) (s' : St), ParseAddLoop n lhs s = .ok v s' →
      s'.left ≤ s.left) ∧
    (∀ (s : St) (v : Expr) (s' : St), ParseTermExpr n s = .ok v s' → s'.left + 1 ≤ s.left) ∧
    (∀ lhs (s : St) (v : Expr) (s' : St), ParseTermLoop n lhs s = .ok v s' →
      s'.left ≤ s.left) ∧
    (∀ (s : St) (v : Expr) (s' : St), ParseFactor n s = .ok v s' → s'.left + 1 ≤ s.left) ∧
    (∀ name sym args (s : St) (v : Expr) (s' : St),
      ParseCallLoop n name sym args s = .ok v s' → s'.left ≤ s.left) := by
  intro n
  induction n with
  | zero =>
    refine ⟨?_, ?_, ?_, ?_, ?_, ?_, ?_, ?_, ?_⟩ <;> intros <;> rename_i h <;>
      simp only [ParseExpression, ParseBoolExpr, ParseBoolLoop, ParseAddExpr, ParseAddLoop,
        ParseTermExpr, ParseTermLoop, ParseFactor, ParseCallLoop] at h <;> cases h
  | succ n ih =>
    obtain ⟨ihE, ihB, ihBL, ihA, ihAL, ihT, ihTL, ihF, ihC⟩ := ih
    refine ⟨?_, ?_, ?_, ?_, ?_, ?_, ?_, ?_, ?_⟩ <;> intros <;> rename_i s v s' h <;>
      simp only [ParseExpression, ParseBoolExpr, ParseBoolLoop, ParseAddExpr, ParseAddLoop,
        ParseTermExpr, ParseTermLoop, ParseFactor, ParseCallLoop, LogNull] at h <;>
      repeat' split at h
    all_goals first
      | exact Res.noConfusion h
      | (have p0 := step_pos_code s
         have q0 := step_le s
         (try have c0 := step_pos_of_eq ‹s.CurrTok.tok = _›)
         (try simp only [lexeme.code] at c0)
         (try have hE := ihE _ _ _ ‹ParseExpression n _ = Res.ok _ _›)
         (try have hB := ihB _ _ _ ‹ParseBoolExpr n _ = Res.ok _ _›)
         (try have hA := ihA _ _ _ ‹ParseAddExpr n _ = Res.ok _ _›)
         (try have hT := ihT _ _ _ ‹ParseTermExpr n _ = Res.ok _ _›)
         (try have hF := ihF _ _ _ ‹ParseFactor n _ = Res.ok _ _›)
         (try have h2 := ihBL _ _ _ _ h)
         (try have h2 := ihAL _ _ _ _ h)
         (try have h2 := ihTL _ _ _ _ h)
         (try have h2 := ihC _ _ _ _ _ _ h)
         (try cases h)
         simp only [left_nextToken] at *
         omega)

set_option maxHeartbeats 16000000 in
/-- Every statement function of the current parser that returns a node has consumed a
token, when it is entered on a token other than `EOFILE`; the loops of a declaration
and of a block, which return on `;` and on the closing brace without consuming it,
have not given one back. -/
theorem cur_stmt_consumes_all : ∀ n : Nat,
    (∀ (s : St) (v : Stmt) (s' : St), ParseStatement n s = .ok v s' → s'.left + 1 ≤ s.left) ∧
    (∀ (s : St) (v : Stmt) (s' : St), ParseIfStmt n s = .ok v s' → s'.left + 1 ≤ s.left) ∧
    (∀ (s : St) (v : Stmt) (s' : St), ParseAliveStmt n s = .ok v s' → s'.left + 1 ≤ s.left) ∧
    (∀ (s : St) (v : Stmt) (s' : St), s.CurrTok.tok = .WAR → ParseWarStmt n s = .ok v s' →
      s'.left + 1 ≤ s.left) ∧
    (∀ wars (s : St) (v : Stmt) (s' : St), ParseWarLoop n wars s = .ok v s' →
      s'.left ≤ s.left) ∧
    (∀ (s : St) (v : Stmt) (s' : St), ParseTrenStmt n s = .ok v s' → s'.left + 1 ≤ s.left) ∧
    (∀ fn ft tab args (s : St) (v : Stmt) (s' : St),
      ParseTrenLoop n fn ft tab args s = .ok v s' → s'.left + 1 ≤ s.left) ∧
    (∀ (s : St) (v : Stmt) (s' : St), ParseHighExpr n s = .ok v s' → s'.left + 1 ≤ s.left) ∧
    (∀ (s : St) (v : Stmt) (s' : St), s.CurrTok.tok = .LBRA → ParseParenStmts n s = .ok v s' →
      s'.left + 1 ≤ s.left) ∧
    (∀ stmts hr (s : St) (v : Stmt) (s' : St), ParseParenLoop n stmts hr s = .ok v s' →
      s'.left ≤ s.left) ∧
    (∀ (s : St) (v : Stmt) (s' : St), ParseRetStmt n s = .ok v s' → s'.left + 1 ≤ s.left) := by
  intro n
  induction n with
  | zero =>
    refine ⟨?_, ?_, ?_, ?_, ?_, ?_, ?_, ?_, ?_, ?_, ?_⟩ <;> intros <;> rename_i h <;>
      simp only [ParseStatement, ParseIfStmt, ParseAliveStmt, ParseWarStmt, ParseWarLoop,
        ParseTrenStmt, ParseTrenLoop, ParseHighExpr, ParseParenStmts, ParseParenLoop,
        ParseRetStmt] at h <;> cases h
  | succ n ih =>
    obtain ⟨ihS, ihIf, ihAl, ihW, ihWL, ihT, ihTL, ihH, ihP, ihPL, ihR⟩ := ih
    have cE := (cur_expr_consumes_all n).1
    refine ⟨?st, ?_, ?_, ?war, ?_, ?_, ?_, ?_, ?ps, ?_, ?_⟩
    case st =>
      intro s v s' h
      simp only [ParseStatement] at h
      split at h
      · exact ihIf _ _ _ h
      · exact ihW _ _ _ ‹s.CurrTok.tok = lexeme.WAR› h
      · exact ihT _ _ _ h
      · exact ihAl _ _ _ h
      · exact ihR _ _ _ h
      · exact ihP _ _ _ ‹s.CurrTok.tok = lexeme.LBRA› h
      · exact ihH _ _ _ h
    case war =>
      intro s v s' hL h
      simp only [ParseWarStmt] at h
      have c0 := step_pos_of_eq hL
      simp only [lexeme.code] at c0
      have q0 := step_le s
      have h2 := ihWL _ _ _ _ h
      simp only [left_nextToken] at h2
      omega
    case ps =>
      intro s v s' hL h
      simp only [ParseParenStmts] at h
      have c0 := step_pos_of_eq hL
      simp only [lexeme.code] at c0
      have q0 := step_le s
      have h2 := ihPL _ _ _ _ _ h
      simp only [left_nextToken] at h2
      omega
    all_goals
      intros
      rename_i s v s' h
      simp only [ParseIfStmt, ParseAliveStmt, ParseWarLoop,
        ParseTrenStmt, ParseTrenLoop, ParseHighExpr, ParseParenLoop,
        ParseRetStmt, LogNull] at h
      repeat' split at h
    all_goals first
      | exact Res.noConfusion h
      | (have q0 := step_le s
         (try have c0 := step_pos_of_eq ‹s.CurrTok.tok = _›)
         (try simp only [lexeme.code] at c0)
         (try have hE := cE _ _ _ ‹ParseExpression n _ = Res.ok _ _›)
         (try have hS := ihS _ _ _ ‹ParseStatement n _ = Res.ok _ _›)
         (try have hAdd := addSym_left ‹addSym _ _ _ = some _›)
         (try have hPrev := prevTable_left ‹prevTable _ = some _›)
         (try have h2 := ihWL _ _ _ _ h)
         (try have h2 := ihTL _ _ _ _ _ _ _ h)
         (try have h2 := ihPL _ _ _ _ _ h)
         (try cases h)
         clear cE
         (try simp only [left_nextToken, left_nextTable, step_nextTable, left_LogError] at *)
         omega)

/-- The loop of the current `ParseInput` gives no token back. -/
theorem cur_ParseInputLoop_consumes : ∀ (n : Nat) (stmts : List Stmt) (s : St) (v : Input)
    (s' : St), ParseInputLoop n stmts s = .ok v s' → s'.left ≤ s.left := by
  intro n
  induction n with
  | zero => intro stmts s v s' h; simp [ParseInputLoop] at h
  | succ n ih =>
    intro stmts s v s' h
    simp only [ParseInputLoop, LogNull] at h
    repeat' split at h
    all_goals first
      | exact Res.noConfusion h
      | (cases h
         exact Nat.le_refl _)
      | (have hS := (cur_stmt_consumes_all n).1 _ _ _ ‹ParseStatement n _ = Res.ok _ _›
         have h2 := ih _ _ _ _ h
         simp only [left_nextToken] at h2
         omega)

end Cur

namespace Cur

set_option maxHeartbeats 16000000 in
/-- The fuel that the expression functions of the current parser need is bounded by
the number of tokens left. -/
theorem cur_expr_fuel_all : ∀ n : Nat,
    (∀ (s : St), 4 + 10 * s.left < n → ParseExpression n s ≠ .fuel) ∧
    (∀ (s : St), 3 + 10 * s.left < n → ParseBoolExpr n s ≠ .fuel) ∧
    (∀ lhs (s : St), 3 + 10 * s.left < n → ParseBoolLoop n lhs s ≠ .fuel) ∧
    (∀ (s : St), 2 + 10 * s.left < n → ParseAddExpr n s ≠ .fuel) ∧
    (∀ lhs (s : St), 2 + 10 * s.left < n → ParseAddLoop n lhs s ≠ .fuel) ∧
    (∀ (s : St), 1 + 10 * s.left < n → ParseTermExpr n s ≠ .fuel) ∧
    (∀ lhs (s : St), 1 + 10 * s.left < n → ParseTermLoop n lhs s ≠ .fuel) ∧
    (∀ (s : St), 0 + 10 * s.left < n → ParseFactor n s ≠ .fuel) ∧
    (∀ name sym args (s : St), 5 + 10 * s.left < n →
      ParseCallLoop n name sym args s ≠ .fuel) := by
  intro n
  induction n with
  | zero =>
    refine ⟨?_, ?_, ?_, ?_, ?_, ?_, ?_, ?_, ?_⟩ <;> intros <;> rename_i hb <;>
      exact absurd hb (Nat.not_lt_zero _)
  | succ n ih =>
    obtain ⟨ihE, ihB, ihBL, ihA, ihAL, ihT, ihTL, ihF, ihC⟩ := ih
    have cE := (cur_expr_consumes_all n).1
    have cB := (cur_expr_consumes_all n).2.1
    have cA := (cur_expr_consumes_all n).2.2.2.1
    have cT := (cur_expr_consumes_all n).2.2.2.2.2.1
    have cF := (cur_expr_consumes_all n).2.2.2.2.2.2.2.1
    refine ⟨?_, ?_, ?_, ?_, ?_, ?_, ?_, ?_, ?_⟩ <;> intros <;> intro h <;>
      rename_i s hb <;>
      simp only [ParseExpression, ParseBoolExpr, ParseBoolLoop, ParseAddExpr, ParseAddLoop,
        ParseTermExpr, ParseTermLoop, ParseFactor, ParseCallLoop, LogNull] at h <;>
      repeat' split at h
    all_goals first
      | exact Res.noConfusion h
      | (have q0 := step_le s
         (try have c0 := step_pos_of_eq ‹s.CurrTok.tok = _›)
         (try simp only [lexeme.code] at c0)
         (try have hE := cE _ _ _ ‹ParseExpression n _ = Res.ok _ _›)
         (try have hB := cB _ _ _ ‹ParseBoolExpr n _ = Res.ok _ _›)
         (try have hA := cA _ _ _ ‹ParseAddExpr n _ = Res.ok _ _›)
         (try have hT := cT _ _ _ ‹ParseTermExpr n _ = Res.ok _ _›)
         (try have hF := cF _ _ _ ‹ParseFactor n _ = Res.ok _ _›)
         clear cE cB cA cT cF
         (try simp only [left_nextToken] at *)
         first
         | (refine absurd ‹ParseExpression n _ = Res.fuel› (ihE _ ?_)
            (try simp only [left_nextToken])
            omega)
         | (refine absurd ‹ParseBoolExpr n _ = Res.fuel› (ihB _ ?_)
            omega)
         | (refine absurd ‹ParseAddExpr n _ = Res.fuel› (ihA _ ?_)
            (try simp only [left_nextToken])
            omega)
         | (refine absurd ‹ParseTermExpr n _ = Res.fuel› (ihT _ ?_)
            (try simp only [left_nextToken])
            omega)
         | (refine absurd ‹ParseFactor n _ = Res.fuel› (ihF _ ?_)
            (try simp only [left_nextToken])
            omega)
         | (refine ihBL _ _ ?_ h
            omega)
         | (refine ihAL _ _ ?_ h
            omega)
         | (refine ihTL _ _ ?_ h
            omega)
         | (refine ihC _ _ _ _ ?_ h
            (try simp only [left_nextToken])
            omega))

set_option maxHeartbeats 16000000 in
/-- The fuel that the statement functions of the current parser need is bounded by
the number of tokens left. -/
theorem cur_stmt_fuel_all : ∀ n : Nat,
    (∀ (s : St), 7 + 10 * s.left < n → ParseStatement n s ≠ .fuel) ∧
    (∀ (s : St), 5 + 10 * s.left < n → ParseIfStmt n s ≠ .fuel) ∧
    (∀ (s : St), 5 + 10 * s.left < n → ParseAliveStmt n s ≠ .fuel) ∧
    (∀ (s : St), 6 + 10 * s.left < n → ParseWarStmt n s ≠ .fuel) ∧
    (∀ wars (s : St), 5 + 10 * s.left < n → ParseWarLoop n wars s ≠ .fuel) ∧
    (∀ (s : St), 1 + 10 * s.left < n → ParseTrenStmt n s ≠ .fuel) ∧
    (∀ fn ft tab args (s : St), 0 + 10 * s.left < n →
      ParseTrenLoop n fn ft tab args s ≠ .fuel) ∧
    (∀ (s : St), 5 + 10 * s.left < n → ParseHighExpr n s ≠ .fuel) ∧
    (∀ (s : St), s.CurrTok.tok = .LBRA → 0 + 10 * s.left < n → ParseParenStmts n s ≠ .fuel) ∧
    (∀ stmts hr (s : St), 8 + 10 * s.left < n → ParseParenLoop n stmts hr s ≠ .fuel) ∧
    (∀ (s : St), 5 + 10 * s.left < n → ParseRetStmt n s ≠ .fuel) := by
  intro n
  induction n with
  | zero =>
    refine ⟨?_, ?_, ?_, ?_, ?_, ?_, ?_, ?_, ?_, ?_, ?_⟩ <;> intros <;> rename_i hb <;>
      exact absurd hb (Nat.not_lt_zero _)
  | succ n ih =>
    obtain ⟨ihS, ihIf, ihAl, ihW, ihWL, ihT, ihTL, ihH, ihP, ihPL, ihR⟩ := ih
    have cE := (cur_expr_consumes_all n).1
    have cS := (cur_stmt_consumes_all n).1
    have fE := (cur_expr_fuel_all n).1
    refine ⟨?st, ?_, ?_, ?_, ?_, ?_, ?_, ?_, ?ps, ?_, ?_⟩
    case st =>
      intro s hb h
      simp only [ParseStatement] at h
      split at h
      · exact ihIf _ (by omega) h
      · exact ihW _ (by omega) h
      · exact ihT _ (by omega) h
      · exact ihAl _ (by omega) h
      · exact ihR _ (by omega) h
      · exact ihP _ ‹s.CurrTok.tok = lexeme.LBRA› (by omega) h
      · exact ihH _ (by omega) h
    case ps =>
      intro s hL hb h
      simp only [ParseParenStmts] at h
      have c0 := step_pos_of_eq hL
      simp only [lexeme.code] at c0
      have q0 := step_le s
      refine ihPL _ _ _ ?_ h
      simp only [left_nextToken]
      omega
    all_goals
      intros
      intro h
      rename_i s hb
      simp only [ParseIfStmt, ParseAliveStmt, ParseWarStmt, ParseWarLoop,
        ParseTrenStmt, ParseTrenLoop, ParseHighExpr, ParseParenLoop,
        ParseRetStmt, LogNull] at h
      repeat' split at h
    all_goals first
      | exact Res.noConfusion h
      | (have q0 := step_le s
         (try have c0 := step_pos_of_eq ‹s.CurrTok.tok = _›)
         (try simp only [lexeme.code] at c0)
         (try have c1 := cur_getDType_step ‹¬getDType s.CurrTok.tok = TypeK.Null›)
         (try have hE := cE _ _ _ ‹ParseExpression n _ = Res.ok _ _›)
         (try have hS := cS _ _ _ ‹ParseStatement n _ = Res.ok _ _›)
         (try have hAdd := addSym_left ‹addSym _ _ _ = some _›)
         clear cE cS
         (try simp only [left_nextToken, left_nextTable, step_nextTable] at *)
         first
         | (refine absurd ‹ParseExpression n _ = Res.fuel› (fE _ ?_)
            (try simp only [left_nextToken, left_nextTable, step_nextTable])
            omega)
         | (refine absurd ‹ParseStatement n _ = Res.fuel› (ihS _ ?_)
            (try simp only [left_nextToken, left_nextTable, step_nextTable])
            omega)
         | (refine ihWL _ _ ?_ h
            (try simp only [left_nextToken, left_nextTable, step_nextTable])
            omega)
         | (refine ihTL _ _ _ _ _ ?_ h
            (try simp only [left_nextToken, left_nextTable, step_nextTable])
            omega)
         | (refine ihPL _ _ _ ?_ h
            (try simp only [left_nextToken, left_nextTable, step_nextTable])
            omega))

set_option maxHeartbeats 16000000 in
/-- The loop of the current `ParseInput` does not run out of fuel when it has more
than ten units for each token left. -/
theorem cur_ParseInputLoop_fuel : ∀ (n : Nat) (stmts : List Stmt) (s : St),
    8 + 10 * s.left < n → ParseInputLoop n stmts s ≠ .fuel := by
  intro n
  induction n with
  | zero => intro stmts s hb; exact absurd hb (Nat.not_lt_zero _)
  | succ n ih =>
    intro stmts s hb h
    simp only [ParseInputLoop, LogNull] at h
    repeat' split at h
    all_goals first
      | exact Res.noConfusion h
      | exact absurd ‹ParseStatement n _ = Res.fuel› ((cur_stmt_fuel_all n).1 _ (by omega))
      | (have hS := (cur_stmt_consumes_all n).1 _ _ _ ‹ParseStatement n _ = Res.ok _ _›
         refine ih _ _ ?_ h
         simp only [left_nextToken]
         omega)

end Cur

theorem Res.ended_of_ne {σ α : Type} {r : Res σ α} (h : r ≠ .fuel) : r.ended = true := by
  cases r <;> first | rfl | exact absurd rfl h

theorem left_init_nextToken {σ : Type} (toks : List TOKEN) (eofLine : Int) :
    (nextToken (PState.init toks eofLine : PState σ)).left ≤ toks.length := by
  cases toks with
  | nil => simp [PState.left, nextToken, PState.init]
  | cons t ts =>
    simp only [PState.left, nextToken, PState.init, List.length_cons]
    split <;> omega

set_option maxHeartbeats 8000000 in
/-- C40: the run of `ParseInput` comes to an end on every finite token sequence, in
both parsers, but not always by returning.  With more than ten units of fuel for each
token, and eight more, the run does not stop for lack of fuel: it ends with a tree,
with the null pointer, or in a null dereference.  Every statement and every expression
that is returned (and, in the old parser, every type) has consumed at least one token,
so each iteration of a loop and each nested call that goes on has fewer tokens left.
On `war x : int = 1 + ;` both runs end in the null dereference of the loop of
`ParseAddExpr`, neither with a tree nor with the null pointer. -/
theorem ParseInput_ends_within_fuel :
    (∀ (print_sym : Old.Symbol) (toks : List TOKEN) (eofLine : Int) (n : Nat),
      7 + 10 * toks.length < n →
      (Old.ParseInput print_sym n (PState.init toks eofLine)).ended = true) ∧
    (∀ (toks : List TOKEN) (eofLine : Int) (n : Nat), 8 + 10 * toks.length < n →
      (Cur.ParseInput n (PState.init toks eofLine)).ended = true) ∧
    (∀ (n : Nat) (s s' : Old.St) (v : Old.Stmt), Old.ParseStatement n s = .ok v s' →
      s'.left + 1 ≤ s.left) ∧
    (∀ (n : Nat) (s s' : Old.St) (v : Old.Expr), Old.ParseExpression n s = .ok v s' →
      s'.left + 1 ≤ s.left) ∧
    (∀ (n : Nat) (s s' : Old.St) (v : Old.TypeP), Old.ParseType n s = .ok v s' →
      s'.left + 1 ≤ s.left) ∧
    (∀ (n : Nat) (s s' : Cur.St) (v : Cur.Stmt), Cur.ParseStatement n s = .ok v s' →
      s'.left + 1 ≤ s.left) ∧
    (∀ (n : Nat) (s s' : Cur.St) (v : Cur.Expr), Cur.ParseExpression n s = .ok v s' →
      s'.left + 1 ≤ s.left) ∧
    (∀ (s : Old.St), (nextToken s).left ≤ s.left ∧
      (s.CurrTok.tok ≠ .EOFILE → (nextToken s).left + 1 ≤ s.left)) ∧
    (Old.ParseInput Old.printSym 40 (PState.init warPlusNothingToks 1)).isCrash = true ∧
    (Old.ParseInput Old.printSym 40 (PState.init warPlusNothingToks 1)).isOk = false ∧
    (Old.ParseInput Old.printSym 40 (PState.init warPlusNothingToks 1)).isNull = false ∧
    (Cur.ParseInput 40 (PState.init warPlusNothingToks 1)).isCrash = true ∧
    (Cur.ParseInput 40 (PState.init warPlusNothingToks 1)).isOk = false ∧
    (Cur.ParseInput 40 (PState.init warPlusNothingToks 1)).isNull = false := by
  refine ⟨?_, ?_, ?_, ?_, ?_, ?_, ?_, ?_, by decide!, by decide!, by decide!, by decide!,
    by decide!, by decide!⟩
  · intro print_sym toks eofLine n hb
    apply Res.ended_of_ne
    have h0 := @left_init_nextToken Old.Symbol toks eofLine
    simp only [Old.ParseInput]
    split
    · intro h; cases h
    · rename_i s2 hs
      have hA := addSym_left hs
      simp only [left_nextTable] at hA
      exact Old.ParseInputLoop_fuel n [] s2 (by omega)
  · intro toks eofLine n hb
    apply Res.ended_of_ne
    have h0 := @left_init_nextToken Cur.Symbol toks eofLine
    simp only [Cur.ParseInput]
    exact Cur.cur_ParseInputLoop_fuel n [] _ (by simp only [left_nextTable]; omega)
  · intro n s s' v h
    exact (Old.stmt_consumes_all n).1 s v s' h
  · intro n s s' v h
    exact (Old.expr_consumes_all n).1 s v s' h
  · intro n s s' v h
    exact (Old.ParseType_consumes n).1 s v s' h
  · intro n s s' v h
    exact (Cur.cur_stmt_consumes_all n).1 s v s' h
  · intro n s s' v h
    exact (Cur.cur_expr_consumes_all n).1 s v s' h
  · intro s
    refine ⟨left_nextToken_le s, ?_⟩
    intro hne
    have h1 := step_pos_code s
    have h2 := step_le s
    have h3 := left_nextToken s
    rcases h1 with h1 | h1
    · exfalso
      apply hne
      cases ht : s.CurrTok.tok <;> rw [ht] at h1 <;> simp [lexeme.code] at h1
    · omega

/-! ## The diagnostics of a run that fails -/

theorem Cur.main_cerr (n : Nat) (text : String) (run : Cur.Run)
    (h : Cur.main n text = some run) :
    ∃ s', run.result.state? = some s' ∧
      run.ret = (if run.result.isNull then 1 else 0) ∧
      run.cerr.length =
        (run.read.filter (fun l => decide (l.tok.tok = .ERROR))).length + s'.log.length ∧
      ∃ toks eofLine, run.result = Cur.ParseInput n (PState.init toks eofLine) := by
  simp only [Cur.main] at h
  split at h
  · cases h
  · rename_i s' hs
    split at h
    · cases h
    · simp only [Option.some.injEq] at h
      subst h
      refine ⟨s', hs, rfl, ?_, _, _, rfl⟩
      simp only [List.length_append]
      rw [lexer.cerr_length_eq_errors]
      intro l hl'
      exact lexer.lexPrefix_cerr _ _ l (List.mem_of_mem_take hl')

/-- With more than ten units of fuel for each token, and eight more, the run of the
current `ParseInput` does not stop for lack of fuel. -/
theorem Cur.ParseInput_ne_fuel (toks : List TOKEN) (eofLine : Int) (n : Nat)
    (hb : 8 + 10 * toks.length < n) :
    Cur.ParseInput n (PState.init toks eofLine) ≠ .fuel := by
  have h0 := @left_init_nextToken Cur.Symbol toks eofLine
  simp only [Cur.ParseInput]
  exact Cur.cur_ParseInputLoop_fuel n [] _ (by simp only [left_nextTable]; omega)

set_option maxHeartbeats 4000000 in
/-- C18, amended. On every token sequence the run of `ParseInput` of the current
parser, with more than ten units of fuel for each token and eight more, ends in one of
three ways: it returns the tree and the parser has written no diagnostic; it returns
the null pointer and the parser has written exactly one diagnostic line, with the line
number of the current token; or it dereferences a null pointer and returns nothing.
From every state, a call that returns has either returned the tree and written nothing
or returned the null pointer and written one line.  A call of `getNextToken` writes one
line exactly when it returns the token `ERROR`.  So every run of `main` that returns
has either returned 0, with the tree and one line on `cerr` for each `ERROR` token the
parser has read, or returned 1, with the null pointer from `ParseInput` and one line
more, that of the parser; and `main` returns whenever the text is tokenized up to
`EOFILE` and `ParseInput` does not end in the null dereference.  One line for
`war x : int = y;`, two for `war x : int = @;`; the text behind the token at which the
parser fails is not tokenized; on `war x : int = 1 + ;` the run ends in the null
dereference and `main` does not return. -/
theorem failed_parse_one_parser_line :
    (∀ (toks : List TOKEN) (eofLine : Int) (n : Nat), 8 + 10 * toks.length < n →
      (∃ v s', Cur.ParseInput n (PState.init toks eofLine) = .ok v s' ∧ s'.log = []) ∨
      (∃ s' msg, Cur.ParseInput n (PState.init toks eofLine) = .null s' ∧
        s'.log = [(msg, s'.CurrTok.line)]) ∨
      Cur.ParseInput n (PState.init toks eofLine) = .crash) ∧
    (∀ (n : Nat) (s s' : Cur.St), (Cur.ParseInput n s).state? = some s' →
      ((Cur.ParseInput n s).isOk = true ∧ s'.log = s.log) ∨
      ((Cur.ParseInput n s).isNull = true ∧
        ∃ msg, s'.log = s.log ++ [(msg, s'.CurrTok.line)])) ∧
    (∀ (st : lexer.LexState) (t : TOKEN) (st' : lexer.LexState),
      lexer.getNextToken st = .tok t st' →
      (t.tok = .ERROR ∧ ∃ msg, st'.cerr = st.cerr ++ [(msg, t.line)]) ∨
      (t.tok ≠ .ERROR ∧ st'.cerr = st.cerr)) ∧
    (∀ (n : Nat) (text : String) (run : Cur.Run), Cur.main n text = some run →
      (run.result.isOk = true ∧ run.ret = 0 ∧
        run.cerr.length =
          (run.read.filter (fun l => decide (l.tok.tok = .ERROR))).length) ∨
      (run.result.isNull = true ∧ run.ret = 1 ∧
        run.cerr.length =
          (run.read.filter (fun l => decide (l.tok.tok = .ERROR))).length + 1)) ∧
    (∀ (n : Nat) (text : String) (lexed : List lexer.Lexed) (line : Int),
      lexer.lexPrefix (text.length + 3) (lexer.start text) = (lexed, .eof line) →
      8 + 10 * lexed.length < n →
      (∃ run, Cur.main n text = some run) ∨
      Cur.ParseInput n (PState.init (lexed.map (fun l => l.tok)) line) = .crash) ∧
    (Cur.main 40 "war x : int = y;").map (fun r => (r.result.isNull, r.ret, r.cerr)) =
      some (true, 1, [("unknown identifier", 1)]) ∧
    (Cur.main 40 "war x : int = @;").map (fun r => (r.result.isNull, r.ret, r.cerr.length)) =
      some (true, 1, 2) ∧
    (Cur.main 40 "war x : int = y; \x01").map
        (fun r => (r.result.isNull, r.ret, r.cerr)) =
      some (true, 1, [("unknown identifier", 1)]) ∧
    (Cur.main 40 "war x : int = y; 9223372036854775808").map
        (fun r => (r.result.isNull, r.ret, r.cerr)) =
      some (true, 1, [("unknown identifier", 1)]) ∧
    (Cur.main 40 "\x01").map (fun r => (r.result.isNull, r.ret, r.cerr)) =
      some (true, 1, [("unknown char", 1), ("unknown char", 1), ("unknown factor", 1)]) ∧
    (Cur.ParseInput 40 (PState.init warPlusNothingToks 1)).isCrash = true ∧
    (Cur.main 40 "war x : int = 1 + ;").isSome = false := by
  refine ⟨?_, ?_, ?_, ?_, ?_, ?_, ?_, ?_, ?_, ?_, ?_, ?_⟩
  · intro toks eofLine n hb
    have hf := Cur.ParseInput_ne_fuel toks eofLine n hb
    have hl := Cur.cur_ParseInput_one_line n (PState.init toks eofLine)
    cases hr : Cur.ParseInput n (PState.init toks eofLine) with
    | fuel => exact absurd hr hf
    | crash => exact Or.inr (Or.inr rfl)
    | ok v x => exact Or.inl ⟨v, x, rfl, by simpa [PState.init] using hl.ok_log v x hr⟩
    | null x =>
      obtain ⟨msg, hm⟩ := hl.null_log x hr
      exact Or.inr (Or.inl ⟨x, msg, rfl, by simpa [PState.init] using hm⟩)
  · intro n s s' h
    have hl := Cur.cur_ParseInput_one_line n s
    cases hr : Cur.ParseInput n s with
    | fuel => rw [hr] at h; cases h
    | crash => rw [hr] at h; cases h
    | ok v x =>
      rw [hr] at h
      simp only [Res.state?, Option.some.injEq] at h
      subst h
      exact Or.inl ⟨rfl, hl.ok_log v x hr⟩
    | null x =>
      rw [hr] at h
      simp only [Res.state?, Option.some.injEq] at h
      subst h
      exact Or.inr ⟨rfl, hl.null_log x hr⟩
  · intro st t st' h
    exact lexer.getNextTokenFuel_cerr _ st t st' h
  · intro n text run h
    obtain ⟨s', hs, hret, hlen, toks, eofLine, hr⟩ := Cur.main_cerr n text run h
    have hl := Cur.cur_ParseInput_one_line n (PState.init toks eofLine)
    cases hres : run.result with
    | crash => rw [hres] at hs; cases hs
    | fuel => rw [hres] at hs; cases hs
    | null x =>
      rw [hres] at hs hr hret
      simp only [Res.state?, Option.some.injEq] at hs
      subst hs
      obtain ⟨msg, hm⟩ := hl.null_log x hr.symm
      rw [hlen, hm]
      exact Or.inr ⟨rfl, by simpa [Res.isNull] using hret, by simp [PState.init]⟩
    | ok v x =>
      rw [hres] at hs hr hret
      simp only [Res.state?, Option.some.injEq] at hs
      subst hs
      have hm := hl.ok_log v x hr.symm
      rw [hlen, hm]
      exact Or.inl ⟨rfl, by simpa [Res.isNull] using hret, by simp [PState.init]⟩
  · intro n text lexed line hp hb
    have hf := Cur.ParseInput_ne_fuel (lexed.map (fun l => l.tok)) line n
      (by simpa using hb)
    cases hr : Cur.ParseInput n (PState.init (lexed.map (fun l => l.tok)) line) with
    | fuel => exact absurd hr hf
    | crash => exact Or.inr rfl
    | ok v x => exact Or.inl (by simp [Cur.main, hp, hr, Res.state?])
    | null x => exact Or.inl (by simp [Cur.main, hp, hr, Res.state?])
  all_goals decide!

end GARS
